import Mathlib

set_option linter.all false

/-!
Offset allocator (`src/skeleton/src/OffsetAllocator.cpp`).

A shallow embedding of the offset allocator: 32-bit unsigned values are natural
numbers reduced modulo `2^32` wherever the source can wrap, the signed 64-bit
stack index `m_FreeOffset` is an `Int`, the node arena and the free-index stack
are lists addressed by index (`none` for a null pointer), and every method is a
function from the state before the call to the state after it (with the
returned value, when there is one).

A read outside an array yields a default value and a write outside an array is
dropped (both are undefined behaviour in the source).
-/

/-! ## Fixed-width arithmetic -/

/-- The largest 32-bit unsigned value, `UINT32_MAX`. -/
def UINT32_MAX : Nat := 4294967295

/-- 32-bit unsigned addition. -/
def add32 (a b : Nat) : Nat := (a + b) % 4294967296

/-- 32-bit unsigned subtraction. -/
def sub32 (a b : Nat) : Nat := (a % 4294967296 + 4294967296 - b % 4294967296) % 4294967296

/-- 32-bit bitwise complement, `~v`. -/
def not32 (v : Nat) : Nat := 4294967295 - v % 4294967296

/-- 32-bit left shift of one, `1 << n`. -/
def shl32 (n : Nat) : Nat := (1 <<< n) % 4294967296

/-! ## Constants of the anonymous namespace (lines 24-29) -/

/-- Modelled from the spec: `OffsetHandle::INVALID_OFFSET` is declared in the header
`OffsetAllocator.h`, which is not among the sources; the spec gives the sentinel as
`INVALID = u32::MAX`. -/
def OffsetHandle.INVALID_OFFSET : Nat := 4294967295

/-- Modelled from the spec: `Node::UNUSED` is declared in the missing header; it is the
sentinel node index ("no node"), the same all-ones value as the handle sentinel. -/
def Node.UNUSED : Nat := 4294967295

/-- Modelled from the spec: `TOP_BINS_COUNT` (missing header), 32 top bins. -/
def TOP_BINS_COUNT : Nat := 32

/-- Modelled from the spec: `LEAF_BINS_COUNT` (missing header), 32 x 8 = 256 bins. -/
def LEAF_BINS_COUNT : Nat := 256

def TOP_BINS_INDEX_SHIFT : Nat := 3
def LEAF_BINS_INDEX_MASK : Nat := 7
def MANTISSA_BITS : Nat := 3
def MANTISSA_VALUE : Nat := 1 <<< MANTISSA_BITS
def MANTISSA_MASK : Nat := MANTISSA_VALUE - 1
def NO_SPACE : Nat := OffsetHandle.INVALID_OFFSET

/-! ## Bit primitives (lines 31-33)

`__lzcnt` and `_tzcnt_u32` are processor intrinsics; they are given by their
documented meaning on 32-bit words. -/

/-- Leading zeros of `v` seen as a `k`-bit word: scan from bit `k - 1` downwards. -/
def lzcntAux (v : Nat) : Nat → Nat
  | 0 => 0
  | k + 1 => if v.testBit k then 0 else 1 + lzcntAux v k

/-- Trailing zeros of `v`: scan upwards from bit `i` for at most `fuel` positions. -/
def tzcntAux (v : Nat) : Nat → Nat → Nat
  | 0, i => i
  | fuel + 1, i => if v.testBit i then i else tzcntAux v fuel (i + 1)

/-- `CountZeroL(value)`: `__lzcnt`, the number of leading zero bits of a 32-bit word
(32 for zero). -/
def CountZeroL (value : Nat) : Nat := lzcntAux value 32

/-- `CountZeroR(value)`: `_tzcnt_u32`, the number of trailing zero bits of a 32-bit word
(32 for zero). -/
def CountZeroR (value : Nat) : Nat := tzcntAux value 32 0

/-! ## Size classes (lines 38-107) -/

/-- `FloatRoundUp(size)`, lines 38-67. -/
def FloatRoundUp (size : Nat) : Nat :=
  if size < MANTISSA_VALUE then
    -- Denorm: exp = 0, mantissa = size
    add32 (0 <<< MANTISSA_BITS) size
  else
    let highestSetBit := sub32 31 (CountZeroL size)
    let mantissaStartBit := sub32 highestSetBit MANTISSA_BITS
    let exp := add32 mantissaStartBit 1
    let mantissa := (size >>> mantissaStartBit) &&& MANTISSA_MASK
    let lowBitsMask := sub32 (shl32 mantissaStartBit) 1
    let mantissa := if size &&& lowBitsMask ≠ 0 then add32 mantissa 1 else mantissa
    add32 ((exp <<< MANTISSA_BITS) % 4294967296) mantissa

/-- `FloatRoundDown(size)`, lines 72-92. -/
def FloatRoundDown (size : Nat) : Nat :=
  if size < MANTISSA_VALUE then
    (0 <<< MANTISSA_BITS) ||| size
  else
    let highestSetBit := sub32 31 (CountZeroL size)
    let mantissaStartBit := sub32 highestSetBit MANTISSA_BITS
    let exp := add32 mantissaStartBit 1
    let mantissa := (size >>> mantissaStartBit) &&& MANTISSA_MASK
    ((exp <<< MANTISSA_BITS) % 4294967296) ||| mantissa

/-- `FindLowestSetBitAfter(bitMask, startBitIndex)`, lines 97-107. -/
def FindLowestSetBitAfter (bitMask startBitIndex : Nat) : Nat :=
  let beforeIndex := sub32 (shl32 startBitIndex) 1
  let afterIndex := not32 beforeIndex
  let bitsAfter := bitMask &&& afterIndex
  if bitsAfter = 0 then UINT32_MAX else CountZeroR bitsAfter

/-! ## Handles (lines 119-160) -/

/-- `OffsetHandle`: offset, size and the token (`m_MetaData`, the arena index of the node). -/
structure OffsetHandle where
  m_Offset : Nat
  m_Size : Nat
  m_MetaData : Nat
deriving DecidableEq, Repr

namespace OffsetHandle

def GetOffset (h : OffsetHandle) : Nat := h.m_Offset

def GetSize (h : OffsetHandle) : Nat := h.m_Size

/-- `IsValid()`, line 149. -/
def IsValid (h : OffsetHandle) : Bool :=
  h.m_Offset != NO_SPACE && h.m_MetaData != NO_SPACE

/-- `Reset()`, lines 155-160. -/
def Reset (_h : OffsetHandle) : OffsetHandle :=
  { m_Offset := NO_SPACE, m_Size := 0, m_MetaData := NO_SPACE }

end OffsetHandle

/-! ## Nodes and the allocator state -/

/-- Modelled from the spec: `struct Node` is declared in the missing header. The fields
are the ones the source reads and writes; a default-constructed node (`Node node = {}`)
has offset and size zero, every link absent (`UNUSED`) and is not used. -/
structure Node where
  DataOffset : Nat := 0
  DataSize : Nat := 0
  BinListPrev : Nat := Node.UNUSED
  BinListNext : Nat := Node.UNUSED
  NeighborPrev : Nat := Node.UNUSED
  NeighborNext : Nat := Node.UNUSED
  Used : Bool := false
deriving DecidableEq, Repr

instance : Inhabited Node := ⟨{}⟩

/-- Modelled from the spec: the data members of `class OffsetAllocator` are declared in
the missing header; their names and roles are taken from the source, their widths from
the spec (`usedBinsTop: u32`, `usedBins[32]: u8`, 256 bin heads, a signed stack index). -/
structure OffsetAllocator where
  m_Size : Nat
  m_MaxAllocatableCount : Nat
  m_FreeStorage : Nat
  m_UsedBinsTop : Nat
  m_Nodes : Option (List Node)
  m_FreeNodes : Option (List Nat)
  m_FreeOffset : Int
  m_UsedBins : List Nat
  m_BinIndices : List Nat
deriving DecidableEq, Repr

namespace OffsetAllocator

/-- Read `m_Nodes[i]`. -/
def nodeAt (s : OffsetAllocator) (i : Nat) : Node :=
  (s.m_Nodes.getD []).getD i default

/-- Write `m_Nodes[i] = n`. -/
def setNodeAt (s : OffsetAllocator) (i : Nat) (n : Node) : OffsetAllocator :=
  { s with m_Nodes := s.m_Nodes.map (fun a => a.set i n) }

/-- Read `m_FreeNodes[k]` for a signed index `k`. -/
def freeNodeAt (s : OffsetAllocator) (k : Int) : Nat :=
  if 0 ≤ k then (s.m_FreeNodes.getD []).getD k.toNat 0 else 0

/-- Write `m_FreeNodes[k] = v` for a signed index `k`. -/
def setFreeNodeAt (s : OffsetAllocator) (k : Int) (v : Nat) : OffsetAllocator :=
  if 0 ≤ k then { s with m_FreeNodes := s.m_FreeNodes.map (fun a => a.set k.toNat v) } else s

/-- Read `m_UsedBins[t]`. -/
def usedBinsAt (s : OffsetAllocator) (t : Nat) : Nat := s.m_UsedBins.getD t 0

/-- Write `m_UsedBins[t] = v`. -/
def setUsedBinsAt (s : OffsetAllocator) (t v : Nat) : OffsetAllocator :=
  { s with m_UsedBins := s.m_UsedBins.set t v }

/-- Read `m_BinIndices[b]`. -/
def binAt (s : OffsetAllocator) (b : Nat) : Nat := s.m_BinIndices.getD b 0

/-- Write `m_BinIndices[b] = v`. -/
def setBinAt (s : OffsetAllocator) (b v : Nat) : OffsetAllocator :=
  { s with m_BinIndices := s.m_BinIndices.set b v }

/-- Write `m_UsedBinsTop = v`. -/
def setUsedBinsTop (s : OffsetAllocator) (v : Nat) : OffsetAllocator :=
  { s with m_UsedBinsTop := v }

/-- Write `m_FreeOffset = k`. -/
def setFreeOffset (s : OffsetAllocator) (k : Int) : OffsetAllocator :=
  { s with m_FreeOffset := k }

/-- Write `m_FreeStorage = v`. -/
def setFreeStorage (s : OffsetAllocator) (v : Nat) : OffsetAllocator :=
  { s with m_FreeStorage := v }

/-- `GenNode(offset, size, binListNext)`, lines 541-548. -/
def GenNode (offset size binListNext : Nat) : Node :=
  { ({} : Node) with DataOffset := offset, DataSize := size, BinListNext := binListNext }

/-- `GetFreeSize()`, line 453. -/
def GetFreeSize (s : OffsetAllocator) : Nat :=
  if s.m_FreeOffset ≥ 0 then s.m_FreeStorage else 0

/-- `GetUsedSize()`, line 447. -/
def GetUsedSize (s : OffsetAllocator) : Nat := sub32 s.m_Size s.GetFreeSize

/-- `InsertNode(size, offset)`, lines 459-488: returns the state and the node index. -/
def InsertNode (s : OffsetAllocator) (size offset : Nat) : OffsetAllocator × Nat :=
  let binIndex := FloatRoundDown size
  let topBinIndex := binIndex >>> TOP_BINS_INDEX_SHIFT
  let leafBinIndex := binIndex &&& LEAF_BINS_INDEX_MASK
  -- was the bin empty before?
  let s1 :=
    if s.binAt binIndex = Node.UNUSED then
      let t := s.setUsedBinsAt topBinIndex
        ((s.usedBinsAt topBinIndex ||| shl32 leafBinIndex) % 256)
      t.setUsedBinsTop (t.m_UsedBinsTop ||| shl32 topBinIndex)
    else s
  -- take a slot from the free-index stack and put it in front of the bin list
  let topNodeIndex := s1.binAt binIndex
  let nodeIndex := s1.freeNodeAt s1.m_FreeOffset
  let s2 := s1.setFreeOffset (s1.m_FreeOffset - 1)
  let s3 := s2.setNodeAt nodeIndex (GenNode offset size topNodeIndex)
  let s4 :=
    if topNodeIndex ≠ Node.UNUSED then
      s3.setNodeAt topNodeIndex { s3.nodeAt topNodeIndex with BinListPrev := nodeIndex }
    else s3
  let s5 := s4.setBinAt binIndex nodeIndex
  let s6 := s5.setFreeStorage (add32 s5.m_FreeStorage size)
  (s6, nodeIndex)

/-- The bitmap update shared by `Alloc` (lines 333-345) and `RemoveNode` (lines 518-530):
when bin `binIndex` has become empty, clear its leaf bit and, if the whole top bin is
empty, its top bit. -/
def clearBinBits (s : OffsetAllocator) (binIndex topBinIndex leafBinIndex : Nat) :
    OffsetAllocator :=
  if s.binAt binIndex = Node.UNUSED then
    let s1 := s.setUsedBinsAt topBinIndex
      ((s.usedBinsAt topBinIndex &&& not32 (shl32 leafBinIndex)) % 256)
    if s1.usedBinsAt topBinIndex = 0 then
      s1.setUsedBinsTop (s1.m_UsedBinsTop &&& not32 (shl32 topBinIndex))
    else s1
  else s

/-- The first part of `RemoveNode`, lines 497-531: unlink the node from its bin list. -/
def RemoveNodeUnlink (s : OffsetAllocator) (nodeIndex : Nat) : OffsetAllocator :=
  if (s.nodeAt nodeIndex).BinListPrev ≠ Node.UNUSED then
    -- easy case: unlink from the middle of the list
    let s1 := s.setNodeAt (s.nodeAt nodeIndex).BinListPrev
      { s.nodeAt (s.nodeAt nodeIndex).BinListPrev with
        BinListNext := (s.nodeAt nodeIndex).BinListNext }
    if (s1.nodeAt nodeIndex).BinListNext ≠ Node.UNUSED then
      s1.setNodeAt (s1.nodeAt nodeIndex).BinListNext
        { s1.nodeAt (s1.nodeAt nodeIndex).BinListNext with
          BinListPrev := (s1.nodeAt nodeIndex).BinListPrev }
    else s1
  else
    -- hard case: the node is the head of its bin
    let binIndex := FloatRoundDown (s.nodeAt nodeIndex).DataSize
    let topBinIndex := binIndex >>> TOP_BINS_INDEX_SHIFT
    let leafBinIndex := binIndex &&& LEAF_BINS_INDEX_MASK
    let s1 := s.setBinAt binIndex (s.nodeAt nodeIndex).BinListNext
    let s2 :=
      if (s1.nodeAt nodeIndex).BinListNext ≠ Node.UNUSED then
        s1.setNodeAt (s1.nodeAt nodeIndex).BinListNext
          { s1.nodeAt (s1.nodeAt nodeIndex).BinListNext with BinListPrev := Node.UNUSED }
      else s1
    clearBinBits s2 binIndex topBinIndex leafBinIndex

/-- `RemoveNode(nodeIndex)`, lines 493-536. -/
def RemoveNode (s : OffsetAllocator) (nodeIndex : Nat) : OffsetAllocator :=
  let s3 := s.RemoveNodeUnlink nodeIndex
  -- push the slot on the free-index stack
  let s4 := s3.setFreeOffset (s3.m_FreeOffset + 1)
  let s5 := s4.setFreeNodeAt s4.m_FreeOffset nodeIndex
  s5.setFreeStorage (sub32 s5.m_FreeStorage (s5.nodeAt nodeIndex).DataSize)

/-- `Reset()`, lines 231-263. The two arrays get `m_MaxAllocatableCount + 1` entries, the
sum taken in 32 bits as in the source. The fill loop `for (i = 0; i <= m_MaxAllocatableCount;
++i)` is the one write per entry it performs when `m_MaxAllocatableCount < 0xFFFFFFFF`; for
`0xFFFFFFFF` the source loop does not end and the arrays are empty, a case the theorems
leave out. -/
def Reset (s : OffsetAllocator) : OffsetAllocator :=
  let s1 : OffsetAllocator :=
    { s with
      m_FreeStorage := 0
      m_UsedBinsTop := 0
      m_FreeOffset := (s.m_MaxAllocatableCount : Int)
      m_UsedBins := List.replicate TOP_BINS_COUNT 0
      m_BinIndices := List.replicate LEAF_BINS_COUNT Node.UNUSED
      m_Nodes := some (List.replicate (add32 s.m_MaxAllocatableCount 1) default)
      m_FreeNodes := some ((List.range (add32 s.m_MaxAllocatableCount 1)).map
        (fun i => s.m_MaxAllocatableCount - i)) }
  (s1.InsertNode s1.m_Size 0).1

/-- A default-constructed allocator. Modelled from the spec: the default member values
are in the missing header; no arena, empty bins, nothing free. -/
def empty : OffsetAllocator :=
  { m_Size := 0, m_MaxAllocatableCount := 0, m_FreeStorage := 0, m_UsedBinsTop := 0,
    m_Nodes := none, m_FreeNodes := none, m_FreeOffset := -1,
    m_UsedBins := List.replicate TOP_BINS_COUNT 0,
    m_BinIndices := List.replicate LEAF_BINS_COUNT Node.UNUSED }

/-- `Init(size, maxAllocatableCount)`, lines 191-196. -/
def Init (s : OffsetAllocator) (size maxAllocatableCount : Nat) : OffsetAllocator :=
  Reset { s with m_Size := size, m_MaxAllocatableCount := maxAllocatableCount }

/-- `Term()`, lines 201-226. -/
def Term (s : OffsetAllocator) : OffsetAllocator :=
  { s with
    m_Nodes := none
    m_FreeNodes := none
    m_UsedBins := List.replicate TOP_BINS_COUNT 0
    m_BinIndices := List.replicate LEAF_BINS_COUNT Node.UNUSED
    m_Size := 0
    m_MaxAllocatableCount := 0
    m_FreeStorage := 0
    m_UsedBinsTop := 0
    m_FreeOffset := -1 }

/-- The head of `Alloc`'s second half, lines 317-345: pop the head node of the bin,
mark it used with the requested size, and update the bitmaps. -/
def AllocPop (s : OffsetAllocator) (size topBinIndex leafBinIndex : Nat) : OffsetAllocator :=
  let binIndex := ((topBinIndex <<< TOP_BINS_INDEX_SHIFT) % 4294967296) ||| leafBinIndex
  let nodeIndex := s.binAt binIndex
  let nodeTotalSize := (s.nodeAt nodeIndex).DataSize
  let s1 := s.setNodeAt nodeIndex { s.nodeAt nodeIndex with DataSize := size }
  let s2 := s1.setNodeAt nodeIndex { s1.nodeAt nodeIndex with Used := true }
  let s3 := s2.setBinAt binIndex (s2.nodeAt nodeIndex).BinListNext
  let s4 :=
    if (s3.nodeAt nodeIndex).BinListNext ≠ Node.UNUSED then
      s3.setNodeAt (s3.nodeAt nodeIndex).BinListNext
        { s3.nodeAt (s3.nodeAt nodeIndex).BinListNext with BinListPrev := Node.UNUSED }
    else s3
  let s5 := s4.setFreeStorage (sub32 s4.m_FreeStorage nodeTotalSize)
  clearBinBits s5 binIndex topBinIndex leafBinIndex

/-- Lines 352-359 of `Alloc`: link the new remainder node `newNodeIndex` between the
allocated node and the node that followed it. -/
def AllocLink (s : OffsetAllocator) (nodeIndex newNodeIndex : Nat) : OffsetAllocator :=
  let t1 :=
    if (s.nodeAt nodeIndex).NeighborNext ≠ Node.UNUSED then
      s.setNodeAt (s.nodeAt nodeIndex).NeighborNext
        { s.nodeAt (s.nodeAt nodeIndex).NeighborNext with NeighborPrev := newNodeIndex }
    else s
  let t2 := t1.setNodeAt newNodeIndex { t1.nodeAt newNodeIndex with NeighborPrev := nodeIndex }
  let t3 := t2.setNodeAt newNodeIndex
    { t2.nodeAt newNodeIndex with NeighborNext := (t2.nodeAt nodeIndex).NeighborNext }
  t3.setNodeAt nodeIndex { t3.nodeAt nodeIndex with NeighborNext := newNodeIndex }

/-- The tail of `Alloc`'s second half, lines 347-360: carve the remainder, when there is
one, into a new free node that follows the allocated node. -/
def AllocSplit (s : OffsetAllocator) (size nodeIndex nodeTotalSize : Nat) : OffsetAllocator :=
  let reminderSize := sub32 nodeTotalSize size
  if reminderSize > 0 then
    let r := s.InsertNode reminderSize (add32 (s.nodeAt nodeIndex).DataOffset size)
    r.1.AllocLink nodeIndex r.2
  else s

/-- The second half of `Alloc(size)`, lines 317-362, once the bin search has settled
`topBinIndex` and `leafBinIndex`. -/
def AllocFromBin (s : OffsetAllocator) (size topBinIndex leafBinIndex : Nat) :
    OffsetAllocator × OffsetHandle :=
  let binIndex := ((topBinIndex <<< TOP_BINS_INDEX_SHIFT) % 4294967296) ||| leafBinIndex
  let nodeIndex := s.binAt binIndex
  let nodeTotalSize := (s.nodeAt nodeIndex).DataSize
  let s6 := s.AllocPop size topBinIndex leafBinIndex
  let s7 := s6.AllocSplit size nodeIndex nodeTotalSize
  (s7, { m_Offset := (s7.nodeAt nodeIndex).DataOffset,
         m_Size := (s7.nodeAt nodeIndex).DataSize,
         m_MetaData := nodeIndex })

/-- `Alloc(size)`, lines 277-363: returns the state and the handle. -/
def Alloc (s : OffsetAllocator) (size : Nat) : OffsetAllocator × OffsetHandle :=
  if s.m_FreeOffset < 0 ∨ size = 0 ∨ size > s.GetFreeSize then
    (s, { m_Offset := NO_SPACE, m_Size := 0, m_MetaData := NO_SPACE })
  else
    let minBinIndex := FloatRoundUp size
    let minTopBinIndex := minBinIndex >>> TOP_BINS_INDEX_SHIFT
    let minLeafBinIndex := minBinIndex &&& LEAF_BINS_INDEX_MASK
    let topBinIndex := minTopBinIndex
    -- scan the leaf bins of the matching top bin, when it has any
    let leafBinIndex :=
      if s.m_UsedBinsTop &&& shl32 topBinIndex ≠ 0 then
        FindLowestSetBitAfter (s.usedBinsAt topBinIndex) minLeafBinIndex
      else NO_SPACE
    if leafBinIndex = NO_SPACE then
      -- no room there: search the top bins above
      let topBinIndex := FindLowestSetBitAfter s.m_UsedBinsTop (add32 minTopBinIndex 1)
      if topBinIndex = NO_SPACE then
        (s, { m_Offset := NO_SPACE, m_Size := 0, m_MetaData := NO_SPACE })
      else
        s.AllocFromBin size topBinIndex (CountZeroR (s.usedBinsAt topBinIndex))
    else
      s.AllocFromBin size topBinIndex leafBinIndex

/-- `Alloc(size, alignment)`, lines 268-272. -/
def AllocAligned (s : OffsetAllocator) (size alignment : Nat) : OffsetAllocator × OffsetHandle :=
  let alignSize := (add32 size (sub32 alignment 1)) &&& not32 (sub32 alignment 1)
  s.Alloc alignSize

/-- The first merge of `Free`, lines 395-407: absorb a free previous neighbour.
Returns the state and the running `offset` and `size`. -/
def FreeMergePrev (s : OffsetAllocator) (nodeIndex offset size : Nat) :
    OffsetAllocator × Nat × Nat :=
  if (s.nodeAt nodeIndex).NeighborPrev ≠ Node.UNUSED ∧
      (s.nodeAt (s.nodeAt nodeIndex).NeighborPrev).Used = false then
    let prevIndex := (s.nodeAt nodeIndex).NeighborPrev
    let offset1 := (s.nodeAt prevIndex).DataOffset
    let size1 := add32 size (s.nodeAt prevIndex).DataSize
    let s1 := s.RemoveNode prevIndex
    let s2 := s1.setNodeAt nodeIndex
      { s1.nodeAt nodeIndex with NeighborPrev := (s1.nodeAt prevIndex).NeighborPrev }
    (s2, offset1, size1)
  else (s, offset, size)

/-- The second merge of `Free`, lines 409-420: absorb a free next neighbour.
Returns the state and the running `size`. -/
def FreeMergeNext (s : OffsetAllocator) (nodeIndex size : Nat) : OffsetAllocator × Nat :=
  if (s.nodeAt nodeIndex).NeighborNext ≠ Node.UNUSED ∧
      (s.nodeAt (s.nodeAt nodeIndex).NeighborNext).Used = false then
    let nextIndex := (s.nodeAt nodeIndex).NeighborNext
    let size1 := add32 size (s.nodeAt nextIndex).DataSize
    let s1 := s.RemoveNode nextIndex
    let s2 := s1.setNodeAt nodeIndex
      { s1.nodeAt nodeIndex with NeighborNext := (s1.nodeAt nextIndex).NeighborNext }
    (s2, size1)
  else (s, size)

/-- Lines 431-441 of `Free`: connect the combined node with its neighbours. -/
def FreeLink (s : OffsetAllocator) (combinedNodeIndex neighborNext neighborPrev : Nat) :
    OffsetAllocator :=
  let s3 :=
    if neighborNext ≠ Node.UNUSED then
      let t := s.setNodeAt combinedNodeIndex
        { s.nodeAt combinedNodeIndex with NeighborNext := neighborNext }
      t.setNodeAt neighborNext { t.nodeAt neighborNext with NeighborPrev := combinedNodeIndex }
    else s
  if neighborPrev ≠ Node.UNUSED then
    let t := s3.setNodeAt combinedNodeIndex
      { s3.nodeAt combinedNodeIndex with NeighborPrev := neighborPrev }
    t.setNodeAt neighborPrev { t.nodeAt neighborPrev with NeighborNext := combinedNodeIndex }
  else s3

/-- The end of `Free`, lines 422-441: recycle the slot, insert the combined free node
and link it to its neighbours. -/
def FreeInsert (s : OffsetAllocator) (nodeIndex offset size : Nat) : OffsetAllocator :=
  let neighborNext := (s.nodeAt nodeIndex).NeighborNext
  let neighborPrev := (s.nodeAt nodeIndex).NeighborPrev
  let s1 := s.setFreeOffset (s.m_FreeOffset + 1)
  let s2 := s1.setFreeNodeAt s1.m_FreeOffset nodeIndex
  let r := s2.InsertNode size offset
  r.1.FreeLink r.2 neighborNext neighborPrev

/-- `Free(handle)`, lines 368-442: returns the state and the handle variable, which the
method receives by reference. -/
def Free (s : OffsetAllocator) (handle : OffsetHandle) : OffsetAllocator × OffsetHandle :=
  if !handle.IsValid then (s, handle)
  else if s.m_Nodes.isNone then (s, handle.Reset)
  else
    let nodeIndex := handle.m_MetaData
    -- already released
    if !(s.nodeAt nodeIndex).Used then (s, handle.Reset)
    else
      let offset := (s.nodeAt nodeIndex).DataOffset
      let size := (s.nodeAt nodeIndex).DataSize
      let p := s.FreeMergePrev nodeIndex offset size
      let n := p.1.FreeMergeNext nodeIndex p.2.2
      (n.1.FreeInsert nodeIndex p.2.1 n.2, handle)

end OffsetAllocator

namespace OffsetAllocator

/-- The length of the node arena (`0` when there is none). -/
def arenaLen (s : OffsetAllocator) : Nat := (s.m_Nodes.getD []).length

/-- The length of the free-index array (`0` when there is none). -/
def slotsLen (s : OffsetAllocator) : Nat := (s.m_FreeNodes.getD []).length

/-- The slots on the free-index stack: `m_FreeNodes[0 .. m_FreeOffset]`. -/
def stack (s : OffsetAllocator) : List Nat :=
  (s.m_FreeNodes.getD []).take (s.m_FreeOffset + 1).toNat

/-- Slot `i` of the arena holds a node: it is not on the free-index stack. -/
def isLive (s : OffsetAllocator) (i : Nat) : Prop := i < s.arenaLen ∧ i ∉ s.stack

instance (s : OffsetAllocator) (i : Nat) : Decidable (s.isLive i) := by
  unfold isLive; infer_instance

/-- The arena slots that hold a node, in index order. -/
def liveNodes (s : OffsetAllocator) : List Nat :=
  (List.range s.arenaLen).filter (fun i => decide (s.isLive i))

/-- Two nodes agree on the fields that describe the physical chain: range, use flag and
neighbour links. -/
def SameChain (a b : Node) : Prop :=
  a.DataOffset = b.DataOffset ∧ a.DataSize = b.DataSize ∧ a.Used = b.Used ∧
    a.NeighborPrev = b.NeighborPrev ∧ a.NeighborNext = b.NeighborNext

/-- Two nodes agree on the fields that describe the bin lists: size, use flag and bin
links. -/
def SameBins (a b : Node) : Prop :=
  a.DataSize = b.DataSize ∧ a.Used = b.Used ∧ a.BinListPrev = b.BinListPrev ∧
    a.BinListNext = b.BinListNext

/-- Sizes of the arrays and ranges of the scalar members. -/
structure Shape (s : OffsetAllocator) : Prop where
  count_lt : s.m_MaxAllocatableCount + 1 < 4294967296
  size_lt : s.m_Size < 4294967296
  arena : s.arenaLen = s.m_MaxAllocatableCount + 1
  slots : s.slotsLen = s.m_MaxAllocatableCount + 1
  usedBins_len : s.m_UsedBins.length = 32
  bins_len : s.m_BinIndices.length = 256
  off_lo : -1 ≤ s.m_FreeOffset
  off_hi : s.m_FreeOffset ≤ s.m_MaxAllocatableCount
  stack_nodup : s.stack.Nodup
  stack_lt : ∀ i ∈ s.stack, i < s.arenaLen
  free_lt : s.m_FreeStorage < 4294967296
  top_lt : s.m_UsedBinsTop < 4294967296
  leaf_lt : ∀ t, s.usedBinsAt t < 256

/-- The bin lists and the two bitmaps are consistent with the free nodes. -/
structure BinsOK (s : OffsetAllocator) : Prop where
  size_lt : ∀ i, s.isLive i → (s.nodeAt i).DataSize < 4294967296
  head : ∀ b, b < 256 → s.binAt b ≠ Node.UNUSED →
    s.isLive (s.binAt b) ∧ (s.nodeAt (s.binAt b)).Used = false ∧
    FloatRoundDown (s.nodeAt (s.binAt b)).DataSize = b ∧
    (s.nodeAt (s.binAt b)).BinListPrev = Node.UNUSED
  prev : ∀ i, s.isLive i → (s.nodeAt i).Used = false →
    ((s.nodeAt i).BinListPrev = Node.UNUSED →
      s.binAt (FloatRoundDown (s.nodeAt i).DataSize) = i) ∧
    ((s.nodeAt i).BinListPrev ≠ Node.UNUSED →
      s.isLive (s.nodeAt i).BinListPrev ∧
      (s.nodeAt (s.nodeAt i).BinListPrev).Used = false ∧
      (s.nodeAt (s.nodeAt i).BinListPrev).BinListNext = i)
  next : ∀ i, s.isLive i → (s.nodeAt i).Used = false →
    (s.nodeAt i).BinListNext ≠ Node.UNUSED →
      s.isLive (s.nodeAt i).BinListNext ∧
      (s.nodeAt (s.nodeAt i).BinListNext).Used = false ∧
      (s.nodeAt (s.nodeAt i).BinListNext).BinListPrev = i ∧
      FloatRoundDown (s.nodeAt (s.nodeAt i).BinListNext).DataSize =
        FloatRoundDown (s.nodeAt i).DataSize
  leafBit : ∀ b, b < 256 →
    ((s.usedBinsAt (b >>> 3)).testBit (b &&& 7) = true ↔ s.binAt b ≠ Node.UNUSED)
  topBit : ∀ t, t < 32 → (s.m_UsedBinsTop.testBit t = true ↔ s.usedBinsAt t ≠ 0)

/-- The nodes tile `[0, m_Size)` and are linked to their physical neighbours. -/
structure ChainOK (s : OffsetAllocator) : Prop where
  pos : ∀ i, s.isLive i → 0 < (s.nodeAt i).DataSize
  bound : ∀ i, s.isLive i → (s.nodeAt i).DataOffset + (s.nodeAt i).DataSize ≤ s.m_Size
  next : ∀ i, s.isLive i →
    ((s.nodeAt i).NeighborNext = Node.UNUSED →
      (s.nodeAt i).DataOffset + (s.nodeAt i).DataSize = s.m_Size) ∧
    ((s.nodeAt i).NeighborNext ≠ Node.UNUSED →
      s.isLive (s.nodeAt i).NeighborNext ∧
      (s.nodeAt (s.nodeAt i).NeighborNext).NeighborPrev = i ∧
      (s.nodeAt (s.nodeAt i).NeighborNext).DataOffset =
        (s.nodeAt i).DataOffset + (s.nodeAt i).DataSize)
  prev : ∀ i, s.isLive i →
    ((s.nodeAt i).NeighborPrev = Node.UNUSED → (s.nodeAt i).DataOffset = 0) ∧
    ((s.nodeAt i).NeighborPrev ≠ Node.UNUSED →
      s.isLive (s.nodeAt i).NeighborPrev ∧
      (s.nodeAt (s.nodeAt i).NeighborPrev).NeighborNext = i)
  noAdj : ∀ i, s.isLive i → (s.nodeAt i).Used = false →
    (s.nodeAt i).NeighborNext ≠ Node.UNUSED →
      (s.nodeAt (s.nodeAt i).NeighborNext).Used = true
  disjoint : ∀ i j, s.isLive i → s.isLive j → i ≠ j →
    (s.nodeAt i).DataOffset + (s.nodeAt i).DataSize ≤ (s.nodeAt j).DataOffset ∨
    (s.nodeAt j).DataOffset + (s.nodeAt j).DataSize ≤ (s.nodeAt i).DataOffset
  cover : ∀ x, x < s.m_Size →
    ∃ i, s.isLive i ∧ (s.nodeAt i).DataOffset ≤ x ∧
      x < (s.nodeAt i).DataOffset + (s.nodeAt i).DataSize

/-- Every handle the caller holds denotes a used node with the handle's offset and size,
and no two handles share a node. -/
structure HandlesOK (s : OffsetAllocator) (L : List OffsetHandle) : Prop where
  node : ∀ h, h ∈ L → h.IsValid = true ∧ s.isLive h.m_MetaData ∧
    (s.nodeAt h.m_MetaData).Used = true ∧
    (s.nodeAt h.m_MetaData).DataOffset = h.m_Offset ∧
    (s.nodeAt h.m_MetaData).DataSize = h.m_Size
  distinct : L.Pairwise (fun a b => a.m_MetaData ≠ b.m_MetaData)

/-- The invariant of the allocator together with the handles the caller holds. -/
structure Inv (s : OffsetAllocator) (L : List OffsetHandle) : Prop where
  shape : s.Shape
  bins : s.BinsOK
  chain : s.ChainOK
  handles : s.HandlesOK L

/-- The states reachable from `Init(S, M)` by `Alloc` and `Free` calls, with the list of
the handles the caller holds: the valid handles `Alloc` returned that have not been
passed to `Free` yet. `Free` is called on a held handle, which is thereby given up
(each valid handle is redeemed at most once), or on an invalid handle. -/
inductive Reachable (S M : Nat) : OffsetAllocator → List OffsetHandle → Prop
  | init (s0 : OffsetAllocator) : Reachable S M (s0.Init S M) []
  | alloc {s : OffsetAllocator} {L : List OffsetHandle} (size : Nat) :
      Reachable S M s L → size < 4294967296 →
      Reachable S M (s.Alloc size).1
        (if (s.Alloc size).2.IsValid = true then (s.Alloc size).2 :: L else L)
  | free {s : OffsetAllocator} {L : List OffsetHandle} (h : OffsetHandle) :
      Reachable S M s L → h ∈ L → Reachable S M (s.Free h).1 (L.erase h)
  | freeInvalid {s : OffsetAllocator} {L : List OffsetHandle} (h : OffsetHandle) :
      Reachable S M s L → h.IsValid = false → Reachable S M (s.Free h).1 L

end OffsetAllocator

namespace OffsetAllocator

/-- The physical-neighbour chain read from node `i` onwards: `i`, its `NeighborNext`,
and so on until a link is `UNUSED` (or the fuel runs out). -/
def chainFrom (s : OffsetAllocator) : Nat → Nat → List Nat
  | 0, _ => []
  | fuel + 1, i =>
    if i = Node.UNUSED then [] else i :: chainFrom s fuel (s.nodeAt i).NeighborNext

/-- The free segments of a bin list read from node `i` onwards: the `(DataOffset,
DataSize)` of `i`, of its `BinListNext`, and so on until a link is `UNUSED` (or the fuel
runs out). -/
def binFrom (s : OffsetAllocator) : Nat → Nat → List (Nat × Nat)
  | 0, _ => []
  | fuel + 1, i =>
    if i = Node.UNUSED then []
    else ((s.nodeAt i).DataOffset, (s.nodeAt i).DataSize) ::
      binFrom s fuel (s.nodeAt i).BinListNext

end OffsetAllocator

/-- The handle a failed `Alloc` returns, `OffsetHandle(NO_SPACE, 0, NO_SPACE)`. -/
def OffsetHandle.invalid : OffsetHandle :=
  { m_Offset := NO_SPACE, m_Size := 0, m_MetaData := NO_SPACE }

namespace OffsetAllocator

/-- The exhaustion scenario: `Init(100, 4)`, four `Alloc(25)`, one `Alloc(1)`.
Returns the five handles in order. -/
def exhaustionScenario : List OffsetHandle :=
  let s0 := empty.Init 100 4
  let a := s0.Alloc 25
  let b := a.1.Alloc 25
  let c := b.1.Alloc 25
  let d := c.1.Alloc 25
  let e := d.1.Alloc 1
  [a.2, b.2, c.2, d.2, e.2]

/-- The concrete scenario: `Init(1024, 8)`, `a = Alloc(100)`, `b = Alloc(200)`, `Free(a)`,
`c = Alloc(50)`, `Free(b)`, `Free(c)`. Returns the final state and the handles `a`, `b`,
`c` as `Alloc` returned them. -/
def concreteScenario : OffsetAllocator × OffsetHandle × OffsetHandle × OffsetHandle :=
  let s0 := empty.Init 1024 8
  let a := s0.Alloc 100
  let b := a.1.Alloc 200
  let fa := b.1.Free a.2
  let c := fa.1.Alloc 50
  let fb := c.1.Free b.2
  let fc := fb.1.Free c.2
  (fc.1, a.2, b.2, c.2)

/-- A small run used to instantiate the general theorems: `Init(1024, 8)`. -/
def demoInit : OffsetAllocator := empty.Init 1024 8

/-- A small run used to instantiate the general theorems: `Init(1024, 8)` followed by
`Alloc(100)`; the state and the handle. -/
def demoAlloc : OffsetAllocator × OffsetHandle := demoInit.Alloc 100

end OffsetAllocator

namespace OffsetAllocator

/-- The arena slots that hold a node marked used, in index order. -/
def usedNodes (s : OffsetAllocator) : List Nat :=
  s.liveNodes.filter (fun i => (s.nodeAt i).Used)

/-- The arena slots that hold a free node, in index order. -/
def unusedNodes (s : OffsetAllocator) : List Nat :=
  s.liveNodes.filter (fun i => !(s.nodeAt i).Used)

/-- The sum of `DataSize` over all free nodes. -/
def freeBytes (s : OffsetAllocator) : Nat :=
  (s.unusedNodes.map (fun i => (s.nodeAt i).DataSize)).sum

/-- The sum of the sizes of a list of handles. -/
def handleBytes (L : List OffsetHandle) : Nat := (L.map OffsetHandle.GetSize).sum

/-- Node `i` is a member of the free list of bin `b`: it is the bin head, or the
`BinListNext` of a member. -/
inductive InBin (s : OffsetAllocator) (b : Nat) : Nat → Prop
  | head : s.binAt b ≠ Node.UNUSED → InBin s b (s.binAt b)
  | next {i : Nat} : InBin s b i → (s.nodeAt i).BinListNext ≠ Node.UNUSED →
      InBin s b (s.nodeAt i).BinListNext

/-- Every free node is a member of the free list of the bin of its size. -/
def Listed (s : OffsetAllocator) : Prop :=
  ∀ i, s.isLive i → (s.nodeAt i).Used = false →
    InBin s (FloatRoundDown (s.nodeAt i).DataSize) i

/-- The states reachable from `Init(S, M)` by `Alloc`, `Free` and `Reset`, with the
handles the caller holds; `Reset` discards every handle. -/
inductive ReachableWithReset (S M : Nat) : OffsetAllocator → List OffsetHandle → Prop
  | init (s0 : OffsetAllocator) : ReachableWithReset S M (s0.Init S M) []
  | alloc {s : OffsetAllocator} {L : List OffsetHandle} (size : Nat) :
      ReachableWithReset S M s L → size < 4294967296 →
      ReachableWithReset S M (s.Alloc size).1
        (if (s.Alloc size).2.IsValid = true then (s.Alloc size).2 :: L else L)
  | free {s : OffsetAllocator} {L : List OffsetHandle} (h : OffsetHandle) :
      ReachableWithReset S M s L → h ∈ L → ReachableWithReset S M (s.Free h).1 (L.erase h)
  | freeInvalid {s : OffsetAllocator} {L : List OffsetHandle} (h : OffsetHandle) :
      ReachableWithReset S M s L → h.IsValid = false → ReachableWithReset S M (s.Free h).1 L
  | reset {s : OffsetAllocator} {L : List OffsetHandle} :
      ReachableWithReset S M s L → ReachableWithReset S M s.Reset []

/-- The slot scenario, first call: `Init(1000000, 4)` then `Alloc(1)`; the state and the
handle. -/
def slotA : OffsetAllocator × OffsetHandle := (empty.Init 1000000 4).Alloc 1

/-- The slot scenario, second `Alloc(1)`. -/
def slotB : OffsetAllocator × OffsetHandle := slotA.1.Alloc 1

/-- The slot scenario, third `Alloc(1)`. -/
def slotC : OffsetAllocator × OffsetHandle := slotB.1.Alloc 1

/-- The slot scenario, fourth `Alloc(1)`. -/
def slotD : OffsetAllocator × OffsetHandle := slotC.1.Alloc 1

/-- The state after the four allocations of the slot scenario. -/
def slotState : OffsetAllocator := slotD.1

/-- The handles the four allocations of the slot scenario returned, newest first. -/
def slotHandles : List OffsetHandle := [slotD.2, slotC.2, slotB.2, slotA.2]

end OffsetAllocator

/-! ## Portable bit counting (`src/skeleton/asf/src/asfBit.cpp`, namespace `impl`)

The fallback routines on 8-, 16-, 32- and 64-bit words. A value of an unsigned type of
`W` bits is a natural number below `2 ^ W`; an assignment to such a variable reduces
modulo `2 ^ W`. The 8- and 16-bit operands are promoted to `int` before an operator is
applied, and the result is reduced when it is stored or passed on. The overloads of
`CountZeroL` and `CountZeroR` carry the width in their name. -/

namespace impl

/-- `impl::CountBit8(v)`, lines 24-31. -/
def CountBit8 (v : Nat) : Nat :=
  let count := v % 256
  let count := ((count &&& 0x55) + ((count >>> 1) &&& 0x55)) % 256
  let count := ((count &&& 0x33) + ((count >>> 2) &&& 0x33)) % 256
  let count := ((count &&& 0x0f) + ((count >>> 4) &&& 0x0f)) % 256
  count

/-- `impl::CountBit16(v)`, lines 33-41. -/
def CountBit16 (v : Nat) : Nat :=
  let count := v % 65536
  let count := ((count &&& 0x5555) + ((count >>> 1) &&& 0x5555)) % 65536
  let count := ((count &&& 0x3333) + ((count >>> 2) &&& 0x3333)) % 65536
  let count := ((count &&& 0x0f0f) + ((count >>> 4) &&& 0x0f0f)) % 65536
  let count := ((count &&& 0x00ff) + ((count >>> 8) &&& 0x00ff)) % 65536
  count

/-- `impl::CountBit32(v)`, lines 43-52. -/
def CountBit32 (v : Nat) : Nat :=
  let count := v % 4294967296
  let count := ((count &&& 0x55555555) + ((count >>> 1) &&& 0x55555555)) % 4294967296
  let count := ((count &&& 0x33333333) + ((count >>> 2) &&& 0x33333333)) % 4294967296
  let count := ((count &&& 0x0f0f0f0f) + ((count >>> 4) &&& 0x0f0f0f0f)) % 4294967296
  let count := ((count &&& 0x00ff00ff) + ((count >>> 8) &&& 0x00ff00ff)) % 4294967296
  let count := ((count &&& 0x0000ffff) + ((count >>> 16) &&& 0x0000ffff)) % 4294967296
  count

/-- `impl::CountBit64(v)`, lines 54-64. -/
def CountBit64 (v : Nat) : Nat :=
  let count := v % 18446744073709551616
  let count := ((count &&& 0x5555555555555555) + ((count >>> 1) &&& 0x5555555555555555)) %
    18446744073709551616
  let count := ((count &&& 0x3333333333333333) + ((count >>> 2) &&& 0x3333333333333333)) %
    18446744073709551616
  let count := ((count &&& 0x0f0f0f0f0f0f0f0f) + ((count >>> 4) &&& 0x0f0f0f0f0f0f0f0f)) %
    18446744073709551616
  let count := ((count &&& 0x00ff00ff00ff00ff) + ((count >>> 8) &&& 0x00ff00ff00ff00ff)) %
    18446744073709551616
  let count := ((count &&& 0x0000ffff0000ffff) + ((count >>> 16) &&& 0x0000ffff0000ffff)) %
    18446744073709551616
  let count := ((count &&& 0x00000000ffffffff) + ((count >>> 32) &&& 0x00000000ffffffff)) %
    18446744073709551616
  count

/-- The complement `~value` of a `W`-bit value, reduced to `W` bits. -/
def notW (W value : Nat) : Nat := 2 ^ W - 1 - value % 2 ^ W

/-- The difference `value - 1` of a `W`-bit value, reduced to `W` bits. -/
def predW (W value : Nat) : Nat := (value % 2 ^ W + 2 ^ W - 1) % 2 ^ W

/-- `impl::CountZeroL(uint8_t value)`, lines 66-72. -/
def CountZeroL8 (value : Nat) : Nat :=
  let value := value % 256
  let value := (value ||| (value >>> 1)) % 256
  let value := (value ||| (value >>> 2)) % 256
  let value := (value ||| (value >>> 4)) % 256
  CountBit8 (notW 8 value)

/-- `impl::CountZeroL(uint16_t value)`, lines 74-81. -/
def CountZeroL16 (value : Nat) : Nat :=
  let value := value % 65536
  let value := (value ||| (value >>> 1)) % 65536
  let value := (value ||| (value >>> 2)) % 65536
  let value := (value ||| (value >>> 4)) % 65536
  let value := (value ||| (value >>> 8)) % 65536
  CountBit16 (notW 16 value)

/-- `impl::CountZeroL(uint32_t value)`, lines 83-91. -/
def CountZeroL32 (value : Nat) : Nat :=
  let value := value % 4294967296
  let value := (value ||| (value >>> 1)) % 4294967296
  let value := (value ||| (value >>> 2)) % 4294967296
  let value := (value ||| (value >>> 4)) % 4294967296
  let value := (value ||| (value >>> 8)) % 4294967296
  let value := (value ||| (value >>> 16)) % 4294967296
  CountBit32 (notW 32 value)

/-- `impl::CountZeroL(uint64_t value)`, lines 93-102. -/
def CountZeroL64 (value : Nat) : Nat :=
  let value := value % 18446744073709551616
  let value := (value ||| (value >>> 1)) % 18446744073709551616
  let value := (value ||| (value >>> 2)) % 18446744073709551616
  let value := (value ||| (value >>> 4)) % 18446744073709551616
  let value := (value ||| (value >>> 8)) % 18446744073709551616
  let value := (value ||| (value >>> 16)) % 18446744073709551616
  let value := (value ||| (value >>> 32)) % 18446744073709551616
  CountBit64 (notW 64 value)

/-- `impl::CountZeroR(uint8_t value)`, line 104. -/
def CountZeroR8 (value : Nat) : Nat := CountBit8 (notW 8 value &&& predW 8 value)

/-- `impl::CountZeroR(uint16_t value)`, line 105. -/
def CountZeroR16 (value : Nat) : Nat := CountBit16 (notW 16 value &&& predW 16 value)

/-- `impl::CountZeroR(uint32_t value)`, line 106. -/
def CountZeroR32 (value : Nat) : Nat := CountBit32 (notW 32 value &&& predW 32 value)

/-- `impl::CountZeroR(uint64_t value)`, line 107. -/
def CountZeroR64 (value : Nat) : Nat := CountBit64 (notW 64 value &&& predW 64 value)

/-- The number of leading zero bits of a `W`-bit value, in the words of the
specification: `W - 1` minus the index of the highest set bit for a non-zero value, and
`W` for zero. -/
def leadingZeroBits (W v : Nat) : Nat := if v = 0 then W else W - 1 - Nat.log2 v

/-- The number of trailing zero bits of a `W`-bit value, in the words of the
specification: the index of the lowest set bit for a non-zero value (found by scanning
upwards from bit 0), and `W` for zero. -/
def trailingZeroBits (W v : Nat) : Nat := if v = 0 then W else tzcntAux v W 0

end impl

namespace OffsetAllocator

/-- The bitmap consistency invariant: bit `t` of `m_UsedBinsTop` is set iff
`m_UsedBins[t]` is not zero, and bit `l` of `m_UsedBins[t]` is set iff the head of bin
`t * 8 + l` is not `UNUSED`; `m_UsedBinsTop` is a 32-bit and `m_UsedBins[t]` an 8-bit
value. -/
structure BitmapsOK (s : OffsetAllocator) : Prop where
  top_lt : s.m_UsedBinsTop < 4294967296
  leaf_lt : ∀ t, s.usedBinsAt t < 256
  topBit : ∀ t, t < 32 → (s.m_UsedBinsTop.testBit t = true ↔ s.usedBinsAt t ≠ 0)
  leafBit : ∀ t l, t < 32 → l < 8 →
    ((s.usedBinsAt t).testBit l = true ↔ s.binAt (t * 8 + l) ≠ Node.UNUSED)

/-- The LIFO scenario, first call: `Init(1024, 8)` then `a = Alloc(100)`. -/
def lifoA : OffsetAllocator × OffsetHandle := demoInit.Alloc 100

/-- The LIFO scenario: `b = Alloc(10)`. -/
def lifoB : OffsetAllocator × OffsetHandle := lifoA.1.Alloc 10

/-- The LIFO scenario: `c = Alloc(100)`. -/
def lifoC : OffsetAllocator × OffsetHandle := lifoB.1.Alloc 100

/-- The LIFO scenario: `d = Alloc(10)`. -/
def lifoD : OffsetAllocator × OffsetHandle := lifoC.1.Alloc 10

/-- The LIFO scenario after `Free(a)`: the free node `[0, 100)` is in the bin of size
100, and `b`, `c`, `d` are held. -/
def lifoState : OffsetAllocator := (lifoD.1.Free lifoA.2).1

/-- The handles held in `lifoState`. -/
def lifoHandles : List OffsetHandle := [lifoD.2, lifoC.2, lifoB.2]

/-- The state inside `Free(c)` on `lifoState` at the call of `InsertNode` (line 429):
after the two merge steps and the push of the slot of `c`. -/
def lifoSite : OffsetAllocator :=
  ((((lifoState.FreeMergePrev lifoC.2.m_MetaData
      (lifoState.nodeAt lifoC.2.m_MetaData).DataOffset
      (lifoState.nodeAt lifoC.2.m_MetaData).DataSize).1.FreeMergeNext lifoC.2.m_MetaData
      (lifoState.FreeMergePrev lifoC.2.m_MetaData
        (lifoState.nodeAt lifoC.2.m_MetaData).DataOffset
        (lifoState.nodeAt lifoC.2.m_MetaData).DataSize).2.2).1.setFreeOffset
    (((lifoState.FreeMergePrev lifoC.2.m_MetaData
      (lifoState.nodeAt lifoC.2.m_MetaData).DataOffset
      (lifoState.nodeAt lifoC.2.m_MetaData).DataSize).1.FreeMergeNext lifoC.2.m_MetaData
      (lifoState.FreeMergePrev lifoC.2.m_MetaData
        (lifoState.nodeAt lifoC.2.m_MetaData).DataOffset
        (lifoState.nodeAt lifoC.2.m_MetaData).DataSize).2.2).1.m_FreeOffset + 1)).setFreeNodeAt
    (((lifoState.FreeMergePrev lifoC.2.m_MetaData
      (lifoState.nodeAt lifoC.2.m_MetaData).DataOffset
      (lifoState.nodeAt lifoC.2.m_MetaData).DataSize).1.FreeMergeNext lifoC.2.m_MetaData
      (lifoState.FreeMergePrev lifoC.2.m_MetaData
        (lifoState.nodeAt lifoC.2.m_MetaData).DataOffset
        (lifoState.nodeAt lifoC.2.m_MetaData).DataSize).2.2).1.m_FreeOffset + 1)
    lifoC.2.m_MetaData)

end OffsetAllocator

/-! ## Descriptor heap (`src/skeleton/asf/src/asfDescriptorHeap.cpp`) -/

/-- The data members of `class DescriptorHeap` (`asfDescriptorHeap.h`, lines 51-53). The
D3D12 heap behind `m_pHeap` is represented by the address of its first descriptor
(`none` for a null pointer). -/
structure DescriptorHeap where
  m_pHeap : Option Nat := none
  m_Increment : Nat := 0
  m_Allocator : OffsetAllocator := OffsetAllocator.empty

namespace DescriptorHeap

/-- `Init(pDevice, pDesc)`, lines 22-34. The device is represented by what its two calls
return: `created` is the start address of the heap `CreateDescriptorHeap` made (`none`
when an argument is null or the call fails) and `increment` the descriptor increment;
`numDescriptors` is `pDesc->NumDescriptors`. The product
`sizeof(uint32_t) * NumDescriptors` is reduced to the 32-bit parameter of
`OffsetAllocator::Init`. Returns the heap and the `bool`. -/
def Init (d : DescriptorHeap) (created : Option Nat) (increment numDescriptors : Nat) :
    DescriptorHeap × Bool :=
  match created with
  | none => (d, false)
  | some heap =>
    ({ m_pHeap := some heap
       m_Increment := increment
       m_Allocator := d.m_Allocator.Init ((4 * numDescriptors) % 4294967296) numDescriptors },
      true)

/-- `GetHandleCPU(handle)`, lines 52-60: the address in `result.ptr`. -/
def GetHandleCPU (d : DescriptorHeap) (handle : OffsetHandle) : Nat :=
  match d.m_pHeap with
  | none => 0
  | some heap =>
    if !handle.IsValid then 0
    else (heap + d.m_Increment * handle.GetOffset) % 18446744073709551616

/-- `GetHandleGPU(handle)`, lines 65-73: the address in `result.ptr`. -/
def GetHandleGPU (d : DescriptorHeap) (handle : OffsetHandle) : Nat :=
  match d.m_pHeap with
  | none => 0
  | some heap =>
    if !handle.IsValid then 0
    else (heap + d.m_Increment * handle.GetOffset) % 18446744073709551616

/-- `Alloc(count)`, lines 84-85: returns the heap and the handle. -/
def Alloc (d : DescriptorHeap) (count : Nat) : DescriptorHeap × OffsetHandle :=
  ({ d with m_Allocator := (d.m_Allocator.Alloc count).1 }, (d.m_Allocator.Alloc count).2)

/-- `Free(handle)`, lines 90-91: returns the heap and the handle variable. -/
def Free (d : DescriptorHeap) (handle : OffsetHandle) : DescriptorHeap × OffsetHandle :=
  ({ d with m_Allocator := (d.m_Allocator.Free handle).1 }, (d.m_Allocator.Free handle).2)

/-- The heaps reachable from a successful `Init` with `NumDescriptors = N` by `Alloc` and
`Free` calls, with the handles the caller holds. -/
inductive Reachable (N : Nat) : DescriptorHeap → List OffsetHandle → Prop
  | init (d0 : DescriptorHeap) (heap increment : Nat) :
      Reachable N (d0.Init (some heap) increment N).1 []
  | alloc {d : DescriptorHeap} {L : List OffsetHandle} (count : Nat) :
      Reachable N d L → count < 4294967296 →
      Reachable N (d.Alloc count).1
        (if (d.Alloc count).2.IsValid = true then (d.Alloc count).2 :: L else L)
  | free {d : DescriptorHeap} {L : List OffsetHandle} (h : OffsetHandle) :
      Reachable N d L → h ∈ L → Reachable N (d.Free h).1 (L.erase h)

/-- A heap of two descriptors of 32 bytes at address 4096. -/
def demoHeap : DescriptorHeap := (Init {} (some 4096) 32 2).1

/-- The first `Alloc(2)` on the heap of two descriptors. -/
def demoRunA : DescriptorHeap × OffsetHandle := demoHeap.Alloc 2

/-- The second `Alloc(2)` on the heap of two descriptors. -/
def demoRunB : DescriptorHeap × OffsetHandle := demoRunA.1.Alloc 2

end DescriptorHeap

/-! Theorems -/

/-! ## Bit-level lemmas -/

theorem shl32_eq {n : Nat} (h : n < 32) : shl32 n = 2 ^ n := by
  unfold shl32
  rw [Nat.one_shiftLeft]
  apply Nat.mod_eq_of_lt
  calc 2 ^ n < 2 ^ 32 := Nat.pow_lt_pow_right (by norm_num) h
    _ = 4294967296 := by norm_num

theorem testBit_false_of_lt {x n k : Nat} (hx : x < 2 ^ n) (hk : n ≤ k) : x.testBit k = false :=
  Nat.testBit_lt_two_pow (lt_of_lt_of_le hx (Nat.pow_le_pow_right (by norm_num) hk))

theorem testBit_or_shl32 (x : Nat) {n : Nat} (k : Nat) (hn : n < 32) :
    (x ||| shl32 n).testBit k = (x.testBit k || decide (k = n)) := by
  rw [shl32_eq hn, Nat.testBit_or, Nat.testBit_two_pow]
  congr 1
  by_cases h : n = k <;> simp [h, eq_comm]

theorem not32_eq {v : Nat} (h : v < 4294967296) : not32 v = 2 ^ 32 - (v + 1) := by
  unfold not32
  rw [Nat.mod_eq_of_lt h]
  omega

theorem testBit_not32 {v : Nat} (h : v < 4294967296) (k : Nat) :
    (not32 v).testBit k = (decide (k < 32) && !v.testBit k) := by
  rw [not32_eq h]
  exact Nat.testBit_two_pow_sub_succ (by simpa using h) k

theorem shl32_lt (n : Nat) : shl32 n < 4294967296 := by
  unfold shl32
  exact Nat.mod_lt _ (by norm_num)

theorem testBit_and_not32_shl32 (x : Nat) {n : Nat} (k : Nat) (hx : x < 4294967296) (hn : n < 32) :
    (x &&& not32 (shl32 n)).testBit k = (x.testBit k && !decide (k = n)) := by
  rw [Nat.testBit_and, testBit_not32 (shl32_lt n), shl32_eq hn, Nat.testBit_two_pow]
  by_cases hk : k < 32
  · by_cases h : n = k <;> simp [h, hk, eq_comm]
  · have : x.testBit k = false := testBit_false_of_lt (n := 32) (by simpa using hx) (by omega)
    simp [this]

theorem and_shl32_ne_zero (x : Nat) {t : Nat} (ht : t < 32) :
    x &&& shl32 t ≠ 0 ↔ x.testBit t = true := by
  rw [shl32_eq ht]
  constructor
  · intro h
    obtain ⟨i, hi⟩ := Nat.ne_zero_implies_bit_true h
    rw [Nat.testBit_and, Nat.testBit_two_pow] at hi
    simp at hi
    obtain ⟨h1, h2⟩ := hi
    subst h2
    exact h1
  · intro h h0
    have := congrArg (fun y => y.testBit t) h0
    simp [Nat.testBit_and, Nat.testBit_two_pow, h] at this

theorem mod_256_of_lt {x : Nat} (h : x < 256) : x % 256 = x := Nat.mod_eq_of_lt h

theorem lt_256_of_testBit {x : Nat} (h : ∀ k, 8 ≤ k → x.testBit k = false) : x < 256 := by
  have := Nat.lt_pow_two_of_testBit (n := 8) x h
  simpa using this

theorem or_shl32_lt_256 {x n : Nat} (hx : x < 256) (hn : n < 8) : x ||| shl32 n < 256 := by
  apply lt_256_of_testBit
  intro k hk
  rw [testBit_or_shl32 x k (by omega)]
  have : x.testBit k = false := testBit_false_of_lt (n := 8) (by simpa using hx) hk
  simp [this]
  omega

theorem and_lt_256 {x : Nat} (y : Nat) (hx : x < 256) : x &&& y < 256 :=
  lt_of_le_of_lt Nat.and_le_left hx

theorem and_lt_32bit {x : Nat} (y : Nat) (hx : x < 4294967296) : x &&& y < 4294967296 :=
  lt_of_le_of_lt Nat.and_le_left hx

theorem or_shl32_lt_32bit {x n : Nat} (hx : x < 4294967296) (hn : n < 32) :
    x ||| shl32 n < 4294967296 := by
  have : x ||| shl32 n < 2 ^ 32 := by
    apply Nat.lt_pow_two_of_testBit
    intro k hk
    rw [testBit_or_shl32 x k hn]
    have : x.testBit k = false := testBit_false_of_lt (n := 32) (by simpa using hx) hk
    simp [this]
    omega
  simpa using this

theorem ne_zero_iff_testBit {x : Nat} : x ≠ 0 ↔ ∃ k, x.testBit k = true := by
  constructor
  · exact Nat.ne_zero_implies_bit_true
  · rintro ⟨k, hk⟩ h0
    simp [h0] at hk

/-! ### Trailing zeros -/

theorem tzcntAux_spec (x : Nat) : ∀ (fuel i : Nat),
    (tzcntAux x fuel i = i + fuel ∧ ∀ k, i ≤ k → k < i + fuel → x.testBit k = false) ∨
    (x.testBit (tzcntAux x fuel i) = true ∧ i ≤ tzcntAux x fuel i ∧ tzcntAux x fuel i < i + fuel ∧
      ∀ k, i ≤ k → k < tzcntAux x fuel i → x.testBit k = false) := by
  intro fuel
  induction fuel with
  | zero =>
    intro i
    left
    refine ⟨rfl, ?_⟩
    intro k h1 h2
    omega
  | succ f ih =>
    intro i
    unfold tzcntAux
    by_cases hb : x.testBit i = true
    · right
      simp only [hb, if_true]
      refine ⟨trivial, le_refl _, by omega, ?_⟩
      intro k h1 h2
      omega
    · have hb' : x.testBit i = false := by simpa using hb
      simp only [hb', Bool.false_eq_true, if_false]
      rcases ih (i + 1) with ⟨h1, h2⟩ | ⟨h1, h2, h3, h4⟩
      · left
        refine ⟨by omega, ?_⟩
        intro k hk1 hk2
        by_cases hki : k = i
        · subst hki; exact hb'
        · exact h2 k (by omega) (by omega)
      · right
        refine ⟨h1, by omega, by omega, ?_⟩
        intro k hk1 hk2
        by_cases hki : k = i
        · subst hki; exact hb'
        · exact h4 k (by omega) hk2

theorem CountZeroR_spec {x : Nat} (hx : x ≠ 0) (hlt : x < 4294967296) :
    x.testBit (CountZeroR x) = true ∧ CountZeroR x < 32 ∧
      ∀ k, k < CountZeroR x → x.testBit k = false := by
  unfold CountZeroR
  rcases tzcntAux_spec x 32 0 with ⟨_, h2⟩ | ⟨h1, _, h3, h4⟩
  · exfalso
    obtain ⟨k, hk⟩ := Nat.ne_zero_implies_bit_true hx
    by_cases hk32 : k < 32
    · rw [h2 k (by omega) (by omega)] at hk
      cases hk
    · rw [testBit_false_of_lt (n := 32) (by simpa using hlt) (by omega)] at hk
      cases hk
  · exact ⟨h1, by omega, fun k hk => h4 k (by omega) hk⟩

theorem testBit_after_mask (mask : Nat) {start : Nat} (k : Nat) (hs : start < 32) :
    (mask &&& not32 (sub32 (shl32 start) 1)).testBit k =
      (mask.testBit k && (decide (k < 32) && decide (start ≤ k))) := by
  have h1 : sub32 (shl32 start) 1 = 2 ^ start - 1 := by
    rw [shl32_eq hs]
    have hp : 0 < 2 ^ start := Nat.pos_pow_of_pos _ (by norm_num)
    have hlt : 2 ^ start < 4294967296 := by
      calc 2 ^ start < 2 ^ 32 := Nat.pow_lt_pow_right (by norm_num) hs
        _ = 4294967296 := by norm_num
    unfold sub32
    omega
  have h2 : 2 ^ start - 1 < 4294967296 := by
    have hlt : 2 ^ start < 4294967296 := by
      calc 2 ^ start < 2 ^ 32 := Nat.pow_lt_pow_right (by norm_num) hs
        _ = 4294967296 := by norm_num
    omega
  rw [Nat.testBit_and, h1, testBit_not32 h2, Nat.testBit_two_pow_sub_one]
  by_cases hk : k < start
  · have hk' : ¬ start ≤ k := by omega
    simp [hk, hk']
  · have hk' : start ≤ k := by omega
    simp [hk, hk']

/-- What `FindLowestSetBitAfter` returns, on a 32-bit mask and a start position below 32. -/
theorem FindLowestSetBitAfter_spec {mask start : Nat} (hm : mask < 4294967296) (hs : start < 32) :
    (FindLowestSetBitAfter mask start = UINT32_MAX ∧
      ∀ k, start ≤ k → mask.testBit k = false) ∨
    (FindLowestSetBitAfter mask start < 32 ∧ start ≤ FindLowestSetBitAfter mask start ∧
      mask.testBit (FindLowestSetBitAfter mask start) = true ∧
      ∀ k, start ≤ k → k < FindLowestSetBitAfter mask start → mask.testBit k = false) := by
  have hdef : FindLowestSetBitAfter mask start =
      if mask &&& not32 (sub32 (shl32 start) 1) = 0 then UINT32_MAX
      else CountZeroR (mask &&& not32 (sub32 (shl32 start) 1)) := rfl
  rw [hdef]
  by_cases h0 : mask &&& not32 (sub32 (shl32 start) 1) = 0
  · left
    rw [if_pos h0]
    refine ⟨rfl, ?_⟩
    intro k hk
    by_cases hk32 : k < 32
    · have := congrArg (fun y => y.testBit k) h0
      simp only [testBit_after_mask mask k hs, Nat.zero_testBit] at this
      simpa [hk32, hk] using this
    · exact testBit_false_of_lt (n := 32) (by simpa using hm) (by omega)
  · right
    rw [if_neg h0]
    obtain ⟨h1, h2, h3⟩ := CountZeroR_spec h0 (and_lt_32bit _ hm)
    rw [testBit_after_mask mask _ hs] at h1
    simp only [Bool.and_eq_true, decide_eq_true_eq] at h1
    refine ⟨h2, h1.2.2, h1.1, ?_⟩
    intro k hk1 hk2
    have := h3 k hk2
    rw [testBit_after_mask mask _ hs] at this
    have hk32 : k < 32 := by omega
    simpa [hk32, hk1] using this

/-! ### Leading zeros and the size classes -/

theorem two_pow_le_of_testBit_false {n k : Nat} (h1 : n < 2 ^ (k + 1)) (h2 : n.testBit k = false) :
    n < 2 ^ k := by
  apply Nat.lt_pow_two_of_testBit
  intro i hi
  by_cases hik : i = k
  · subst hik; exact h2
  · exact testBit_false_of_lt h1 (by omega)

theorem lzcntAux_spec (n : Nat) : ∀ k, n ≠ 0 → n < 2 ^ k →
    lzcntAux n k < k ∧ 2 ^ (k - 1 - lzcntAux n k) ≤ n ∧ n < 2 ^ (k - lzcntAux n k) := by
  intro k
  induction k with
  | zero =>
    intro h0 h1
    simp at h1
    exact absurd h1 h0
  | succ k ih =>
    intro h0 h1
    unfold lzcntAux
    by_cases hb : n.testBit k = true
    · simp only [hb, if_true]
      refine ⟨by omega, ?_, by simpa using h1⟩
      simpa using Nat.testBit_implies_ge hb
    · have hb' : n.testBit k = false := by simpa using hb
      simp only [hb', Bool.false_eq_true, if_false]
      obtain ⟨a, b, c⟩ := ih h0 (two_pow_le_of_testBit_false h1 hb')
      refine ⟨by omega, ?_, ?_⟩
      · have : k + 1 - 1 - (1 + lzcntAux n k) = k - 1 - lzcntAux n k := by omega
        rw [this]; exact b
      · have : k + 1 - (1 + lzcntAux n k) = k - lzcntAux n k := by omega
        rw [this]; exact c

/-- The highest set bit of a non-zero 32-bit word, as `Alloc` computes it. -/
theorem highestSetBit_spec {n : Nat} (h0 : n ≠ 0) (hlt : n < 4294967296) :
    sub32 31 (CountZeroL n) ≤ 31 ∧ 2 ^ (sub32 31 (CountZeroL n)) ≤ n ∧
      n < 2 ^ (sub32 31 (CountZeroL n) + 1) := by
  obtain ⟨a, b, c⟩ := lzcntAux_spec n 32 h0 (by simpa using hlt)
  have hz : CountZeroL n = lzcntAux n 32 := rfl
  have hs : sub32 31 (CountZeroL n) = 31 - lzcntAux n 32 := by
    rw [hz]; unfold sub32; omega
  rw [hs]
  refine ⟨by omega, ?_, ?_⟩
  · have : 32 - 1 - lzcntAux n 32 = 31 - lzcntAux n 32 := by omega
    rw [← this]; exact b
  · have : 31 - lzcntAux n 32 + 1 = 32 - lzcntAux n 32 := by omega
    rw [this]; exact c

theorem shl3_or {a b : Nat} (hb : b < 8) : (a <<< 3) ||| b = 8 * a + b := by
  rw [Nat.shiftLeft_eq]
  have := Nat.mul_add_lt_is_or (i := 3) (b := b) (by simpa using hb) a
  simp only [Nat.reducePow] at this
  have h8 : a * 2 ^ 3 = 8 * a := by ring
  rw [h8, ← this]

theorem and_7 (x : Nat) : x &&& 7 = x % 8 := by
  have := Nat.and_pow_two_sub_one_eq_mod x 3
  simpa using this

theorem shr_3 (x : Nat) : x >>> 3 = x / 8 := by
  rw [Nat.shiftRight_eq_div_pow]

/-- The exponent and the mantissa of a size of at least 8. -/
theorem float_decompose {n : Nat} (h8 : 8 ≤ n) (hlt : n < 4294967296) :
    ∃ e, e ≤ 28 ∧ 2 ^ (e + 3) ≤ n ∧ n < 2 ^ (e + 4) ∧
      FloatRoundDown n = 8 * e + n / 2 ^ e ∧
      FloatRoundUp n = 8 * e + n / 2 ^ e + (if n % 2 ^ e = 0 then 0 else 1) := by
  obtain ⟨a, b, c⟩ := highestSetBit_spec (n := n) (by omega) hlt
  generalize hh : sub32 31 (CountZeroL n) = h at a b c
  have h3 : 3 ≤ h := by
    by_contra hc
    have : 2 ^ (h + 1) ≤ 2 ^ 3 := Nat.pow_le_pow_right (by norm_num) (by omega)
    have : n < 8 := by
      calc n < 2 ^ (h + 1) := c
        _ ≤ 2 ^ 3 := this
        _ = 8 := by norm_num
    omega
  refine ⟨h - 3, by omega, ?_, ?_, ?_, ?_⟩
  · have : h - 3 + 3 = h := by omega
    rw [this]; exact b
  · have : h - 3 + 4 = h + 1 := by omega
    rw [this]; exact c
  all_goals
    have he : sub32 h MANTISSA_BITS = h - 3 := by
      unfold sub32 MANTISSA_BITS; omega
    have hp : 0 < 2 ^ (h - 3) := Nat.pos_pow_of_pos _ (by norm_num)
    have hq1 : 8 ≤ n / 2 ^ (h - 3) := by
      rw [Nat.le_div_iff_mul_le hp]
      calc 8 * 2 ^ (h - 3) = 2 ^ (h - 3 + 3) := by rw [pow_add]; ring
        _ = 2 ^ h := by rw [show h - 3 + 3 = h from by omega]
        _ ≤ n := b
    have hq2 : n / 2 ^ (h - 3) < 16 := by
      rw [Nat.div_lt_iff_lt_mul hp]
      calc n < 2 ^ (h + 1) := c
        _ = 2 ^ (h - 3 + 4) := by rw [show h - 3 + 4 = h + 1 from by omega]
        _ = 16 * 2 ^ (h - 3) := by rw [pow_add]; ring
    have hexp : (add32 (h - 3) 1 <<< MANTISSA_BITS) % 4294967296 = 8 * (h - 3 + 1) := by
      have : add32 (h - 3) 1 = h - 3 + 1 := by unfold add32; omega
      rw [this]
      unfold MANTISSA_BITS
      rw [Nat.shiftLeft_eq]
      omega
    have hman : (n >>> (h - 3)) &&& MANTISSA_MASK = n / 2 ^ (h - 3) - 8 := by
      have : MANTISSA_MASK = 7 := by decide
      rw [this, and_7, Nat.shiftRight_eq_div_pow]
      omega
    have hnlt : ¬ n < MANTISSA_VALUE := by
      have : MANTISSA_VALUE = 8 := by decide
      omega
  · unfold FloatRoundDown
    simp only [hnlt, if_false, hh, he, hexp, hman]
    have := shl3_or (a := h - 3 + 1) (b := n / 2 ^ (h - 3) - 8) (by omega)
    rw [Nat.shiftLeft_eq] at this
    have h8' : (h - 3 + 1) * 2 ^ 3 = 8 * (h - 3 + 1) := by ring
    rw [h8'] at this
    rw [this]
    omega
  · unfold FloatRoundUp
    have hlow : sub32 (shl32 (h - 3)) 1 = 2 ^ (h - 3) - 1 := by
      rw [shl32_eq (by omega)]
      have hlt' : 2 ^ (h - 3) < 4294967296 := by
        calc 2 ^ (h - 3) < 2 ^ 32 := Nat.pow_lt_pow_right (by norm_num) (by omega)
          _ = 4294967296 := by norm_num
      unfold sub32
      omega
    simp only [hnlt, if_false, hh, he, hexp, hman, hlow, Nat.and_pow_two_sub_one_eq_mod]
    by_cases hr : n % 2 ^ (h - 3) = 0
    · simp only [hr, ne_eq, not_true_eq_false, if_false, if_true]
      unfold add32
      omega
    · simp only [hr, ne_eq, not_false_eq_true, if_true, if_false]
      unfold add32
      omega

theorem FloatRoundDown_small {n : Nat} (h : n < 8) : FloatRoundDown n = n := by
  unfold FloatRoundDown
  have : n < MANTISSA_VALUE := by
    have : MANTISSA_VALUE = 8 := by decide
    omega
  simp [this]

theorem FloatRoundUp_small {n : Nat} (h : n < 8) : FloatRoundUp n = n := by
  unfold FloatRoundUp
  have : n < MANTISSA_VALUE := by
    have : MANTISSA_VALUE = 8 := by decide
    omega
  simp [this, add32]
  omega

/-- Every 32-bit size is filed in a bin below 240. -/
theorem FloatRoundDown_lt {n : Nat} (hlt : n < 4294967296) : FloatRoundDown n < 240 := by
  by_cases h8 : n < 8
  · rw [FloatRoundDown_small h8]; omega
  · obtain ⟨e, he, h1, h2, h3, -⟩ := float_decompose (by omega) hlt
    have hp : 0 < 2 ^ e := Nat.pos_pow_of_pos _ (by norm_num)
    have : n / 2 ^ e < 16 := by
      rw [Nat.div_lt_iff_lt_mul hp]
      calc n < 2 ^ (e + 4) := h2
        _ = 16 * 2 ^ e := by rw [pow_add]; ring
    omega

/-- The search for a 32-bit request starts at a bin no higher than 240. -/
theorem FloatRoundUp_le {n : Nat} (hlt : n < 4294967296) : FloatRoundUp n ≤ 240 := by
  by_cases h8 : n < 8
  · rw [FloatRoundUp_small h8]; omega
  · obtain ⟨e, he, h1, h2, -, h3⟩ := float_decompose (by omega) hlt
    have hp : 0 < 2 ^ e := Nat.pos_pow_of_pos _ (by norm_num)
    have : n / 2 ^ e < 16 := by
      rw [Nat.div_lt_iff_lt_mul hp]
      calc n < 2 ^ (e + 4) := h2
        _ = 16 * 2 ^ e := by rw [pow_add]; ring
    split_ifs at h3 <;> omega

/-- A node filed at or above the bin where the search for `s` starts is at least `s` long. -/
theorem le_of_FloatRoundUp_le_FloatRoundDown {s n : Nat} (hs : s < 4294967296)
    (hn : n < 4294967296) (h : FloatRoundUp s ≤ FloatRoundDown n) : s ≤ n := by
  by_cases hs8 : s < 8
  · rw [FloatRoundUp_small hs8] at h
    by_cases hn8 : n < 8
    · rw [FloatRoundDown_small hn8] at h; exact h
    · omega
  · obtain ⟨es, hes, s1, s2, -, s3⟩ := float_decompose (by omega) hs
    have hps : 0 < 2 ^ es := Nat.pos_pow_of_pos _ (by norm_num)
    have hqs1 : 8 ≤ s / 2 ^ es := by
      rw [Nat.le_div_iff_mul_le hps]
      calc 8 * 2 ^ es = 2 ^ (es + 3) := by rw [pow_add]; ring
        _ ≤ s := s1
    by_cases hn8 : n < 8
    · rw [FloatRoundDown_small hn8] at h
      split_ifs at s3 <;> omega
    · obtain ⟨en, hen, n1, n2, n3, -⟩ := float_decompose (by omega) hn
      have hpn : 0 < 2 ^ en := Nat.pos_pow_of_pos _ (by norm_num)
      have hqn2 : n / 2 ^ en < 16 := by
        rw [Nat.div_lt_iff_lt_mul hpn]
        calc n < 2 ^ (en + 4) := n2
          _ = 16 * 2 ^ en := by rw [pow_add]; ring
      by_contra hc
      have hlt : n < s := by omega
      -- the exponent of `n` is at most that of `s`
      have hee : en ≤ es := by
        by_contra hce
        have : 2 ^ (es + 4) ≤ 2 ^ (en + 3) := Nat.pow_le_pow_right (by norm_num) (by omega)
        omega
      by_cases heq : en = es
      · subst heq
        have hdiv : n / 2 ^ en ≤ s / 2 ^ en := Nat.div_le_div_right (by omega)
        by_cases hr : s % 2 ^ en = 0
        · simp only [hr, if_true] at s3
          have hqeq : s / 2 ^ en = n / 2 ^ en := by omega
          have hs_eq : s = 2 ^ en * (s / 2 ^ en) := by
            have := Nat.mod_add_div s (2 ^ en)
            omega
          have hn_ge : 2 ^ en * (n / 2 ^ en) ≤ n := Nat.mul_div_le n (2 ^ en)
          rw [hqeq] at hs_eq
          omega
        · simp only [hr, if_false] at s3
          omega
      · split_ifs at s3 <;> omega

namespace OffsetAllocator

/-! ## Elementary reads after writes -/

theorem getD_set_eq {α : Type} (l : List α) (i j : Nat) (a d : α) :
    (l.set i a).getD j d = if j = i ∧ i < l.length then a else l.getD j d := by
  simp only [List.getD_eq_getElem?_getD, List.getElem?_set]
  by_cases h : i = j
  · subst h
    by_cases h2 : i < l.length
    · simp [h2]
    · simp [h2]
      rw [List.getElem?_eq_none (by omega)]
      rfl
  · have h' : ¬ j = i := fun e => h e.symm
    simp [h, h']

@[simp] theorem arenaLen_setNodeAt (s : OffsetAllocator) (i : Nat) (n : Node)  :
    (s.setNodeAt i n).arenaLen = s.arenaLen := by
  unfold arenaLen setNodeAt
  cases s.m_Nodes <;> simp

@[simp] theorem slotsLen_setNodeAt (s : OffsetAllocator) (i : Nat) (n : Node)  :
    (s.setNodeAt i n).slotsLen = s.slotsLen := rfl

@[simp] theorem freeNodeAt_setNodeAt (s : OffsetAllocator) (i : Nat) (n : Node) (q : Int) :
    (s.setNodeAt i n).freeNodeAt q = s.freeNodeAt q := rfl

@[simp] theorem usedBinsAt_setNodeAt (s : OffsetAllocator) (i : Nat) (n : Node) (u : Nat) :
    (s.setNodeAt i n).usedBinsAt u = s.usedBinsAt u := rfl

@[simp] theorem binAt_setNodeAt (s : OffsetAllocator) (i : Nat) (n : Node) (c : Nat) :
    (s.setNodeAt i n).binAt c = s.binAt c := rfl

@[simp] theorem m_UsedBinsTop_setNodeAt (s : OffsetAllocator) (i : Nat) (n : Node)  :
    (s.setNodeAt i n).m_UsedBinsTop = s.m_UsedBinsTop := rfl

@[simp] theorem m_FreeOffset_setNodeAt (s : OffsetAllocator) (i : Nat) (n : Node)  :
    (s.setNodeAt i n).m_FreeOffset = s.m_FreeOffset := rfl

@[simp] theorem m_FreeStorage_setNodeAt (s : OffsetAllocator) (i : Nat) (n : Node)  :
    (s.setNodeAt i n).m_FreeStorage = s.m_FreeStorage := rfl

@[simp] theorem m_Size_setNodeAt (s : OffsetAllocator) (i : Nat) (n : Node)  :
    (s.setNodeAt i n).m_Size = s.m_Size := rfl

@[simp] theorem m_MaxAllocatableCount_setNodeAt (s : OffsetAllocator) (i : Nat) (n : Node)  :
    (s.setNodeAt i n).m_MaxAllocatableCount = s.m_MaxAllocatableCount := rfl

@[simp] theorem stack_setNodeAt (s : OffsetAllocator) (i : Nat) (n : Node)  :
    (s.setNodeAt i n).stack = s.stack := rfl

@[simp] theorem isLive_setNodeAt (s : OffsetAllocator) (i : Nat) (n : Node) (j : Nat) :
    (s.setNodeAt i n).isLive j ↔ s.isLive j := by
  unfold isLive arenaLen setNodeAt stack
  cases s.m_Nodes <;> simp

@[simp] theorem usedBinsLen_setNodeAt (s : OffsetAllocator) (i : Nat) (n : Node)  :
    (s.setNodeAt i n).m_UsedBins.length = s.m_UsedBins.length := rfl

@[simp] theorem binsLen_setNodeAt (s : OffsetAllocator) (i : Nat) (n : Node)  :
    (s.setNodeAt i n).m_BinIndices.length = s.m_BinIndices.length := rfl

@[simp] theorem isNone_setNodeAt (s : OffsetAllocator) (i : Nat) (n : Node)  :
    (s.setNodeAt i n).m_Nodes.isNone = s.m_Nodes.isNone := by
  unfold setNodeAt
  cases s.m_Nodes <;> simp

@[simp] theorem GetFreeSize_setNodeAt (s : OffsetAllocator) (i : Nat) (n : Node)  :
    (s.setNodeAt i n).GetFreeSize = s.GetFreeSize := rfl

@[simp] theorem nodeAt_setFreeNodeAt (s : OffsetAllocator) (k : Int) (v : Nat) (j : Nat) :
    (s.setFreeNodeAt k v).nodeAt j = s.nodeAt j := by
  unfold setFreeNodeAt
  split <;> rfl

@[simp] theorem arenaLen_setFreeNodeAt (s : OffsetAllocator) (k : Int) (v : Nat)  :
    (s.setFreeNodeAt k v).arenaLen = s.arenaLen := by
  unfold setFreeNodeAt
  split <;> rfl

@[simp] theorem slotsLen_setFreeNodeAt (s : OffsetAllocator) (k : Int) (v : Nat)  :
    (s.setFreeNodeAt k v).slotsLen = s.slotsLen := by
  unfold setFreeNodeAt slotsLen
  split
  · cases s.m_FreeNodes <;> simp
  · rfl

@[simp] theorem usedBinsAt_setFreeNodeAt (s : OffsetAllocator) (k : Int) (v : Nat) (u : Nat) :
    (s.setFreeNodeAt k v).usedBinsAt u = s.usedBinsAt u := by
  unfold setFreeNodeAt
  split <;> rfl

@[simp] theorem binAt_setFreeNodeAt (s : OffsetAllocator) (k : Int) (v : Nat) (c : Nat) :
    (s.setFreeNodeAt k v).binAt c = s.binAt c := by
  unfold setFreeNodeAt
  split <;> rfl

@[simp] theorem m_UsedBinsTop_setFreeNodeAt (s : OffsetAllocator) (k : Int) (v : Nat)  :
    (s.setFreeNodeAt k v).m_UsedBinsTop = s.m_UsedBinsTop := by
  unfold setFreeNodeAt
  split <;> rfl

@[simp] theorem m_FreeOffset_setFreeNodeAt (s : OffsetAllocator) (k : Int) (v : Nat)  :
    (s.setFreeNodeAt k v).m_FreeOffset = s.m_FreeOffset := by
  unfold setFreeNodeAt
  split <;> rfl

@[simp] theorem m_FreeStorage_setFreeNodeAt (s : OffsetAllocator) (k : Int) (v : Nat)  :
    (s.setFreeNodeAt k v).m_FreeStorage = s.m_FreeStorage := by
  unfold setFreeNodeAt
  split <;> rfl

@[simp] theorem m_Size_setFreeNodeAt (s : OffsetAllocator) (k : Int) (v : Nat)  :
    (s.setFreeNodeAt k v).m_Size = s.m_Size := by
  unfold setFreeNodeAt
  split <;> rfl

@[simp] theorem m_MaxAllocatableCount_setFreeNodeAt (s : OffsetAllocator) (k : Int) (v : Nat)  :
    (s.setFreeNodeAt k v).m_MaxAllocatableCount = s.m_MaxAllocatableCount := by
  unfold setFreeNodeAt
  split <;> rfl

@[simp] theorem usedBinsLen_setFreeNodeAt (s : OffsetAllocator) (k : Int) (v : Nat)  :
    (s.setFreeNodeAt k v).m_UsedBins.length = s.m_UsedBins.length := by
  unfold setFreeNodeAt
  split <;> rfl

@[simp] theorem binsLen_setFreeNodeAt (s : OffsetAllocator) (k : Int) (v : Nat)  :
    (s.setFreeNodeAt k v).m_BinIndices.length = s.m_BinIndices.length := by
  unfold setFreeNodeAt
  split <;> rfl

@[simp] theorem isNone_setFreeNodeAt (s : OffsetAllocator) (k : Int) (v : Nat)  :
    (s.setFreeNodeAt k v).m_Nodes.isNone = s.m_Nodes.isNone := by
  unfold setFreeNodeAt
  split <;> rfl

@[simp] theorem GetFreeSize_setFreeNodeAt (s : OffsetAllocator) (k : Int) (v : Nat)  :
    (s.setFreeNodeAt k v).GetFreeSize = s.GetFreeSize := by
  unfold setFreeNodeAt
  split <;> rfl

@[simp] theorem nodeAt_setUsedBinsAt (s : OffsetAllocator) (t v : Nat) (j : Nat) :
    (s.setUsedBinsAt t v).nodeAt j = s.nodeAt j := rfl

@[simp] theorem arenaLen_setUsedBinsAt (s : OffsetAllocator) (t v : Nat)  :
    (s.setUsedBinsAt t v).arenaLen = s.arenaLen := rfl

@[simp] theorem slotsLen_setUsedBinsAt (s : OffsetAllocator) (t v : Nat)  :
    (s.setUsedBinsAt t v).slotsLen = s.slotsLen := rfl

@[simp] theorem freeNodeAt_setUsedBinsAt (s : OffsetAllocator) (t v : Nat) (q : Int) :
    (s.setUsedBinsAt t v).freeNodeAt q = s.freeNodeAt q := rfl

@[simp] theorem binAt_setUsedBinsAt (s : OffsetAllocator) (t v : Nat) (c : Nat) :
    (s.setUsedBinsAt t v).binAt c = s.binAt c := rfl

@[simp] theorem m_UsedBinsTop_setUsedBinsAt (s : OffsetAllocator) (t v : Nat)  :
    (s.setUsedBinsAt t v).m_UsedBinsTop = s.m_UsedBinsTop := rfl

@[simp] theorem m_FreeOffset_setUsedBinsAt (s : OffsetAllocator) (t v : Nat)  :
    (s.setUsedBinsAt t v).m_FreeOffset = s.m_FreeOffset := rfl

@[simp] theorem m_FreeStorage_setUsedBinsAt (s : OffsetAllocator) (t v : Nat)  :
    (s.setUsedBinsAt t v).m_FreeStorage = s.m_FreeStorage := rfl

@[simp] theorem m_Size_setUsedBinsAt (s : OffsetAllocator) (t v : Nat)  :
    (s.setUsedBinsAt t v).m_Size = s.m_Size := rfl

@[simp] theorem m_MaxAllocatableCount_setUsedBinsAt (s : OffsetAllocator) (t v : Nat)  :
    (s.setUsedBinsAt t v).m_MaxAllocatableCount = s.m_MaxAllocatableCount := rfl

@[simp] theorem stack_setUsedBinsAt (s : OffsetAllocator) (t v : Nat)  :
    (s.setUsedBinsAt t v).stack = s.stack := rfl

@[simp] theorem isLive_setUsedBinsAt (s : OffsetAllocator) (t v : Nat) (j : Nat) :
    (s.setUsedBinsAt t v).isLive j ↔ s.isLive j := Iff.rfl

@[simp] theorem usedBinsLen_setUsedBinsAt (s : OffsetAllocator) (t v : Nat)  :
    (s.setUsedBinsAt t v).m_UsedBins.length = s.m_UsedBins.length := by
  simp [setUsedBinsAt]

@[simp] theorem binsLen_setUsedBinsAt (s : OffsetAllocator) (t v : Nat)  :
    (s.setUsedBinsAt t v).m_BinIndices.length = s.m_BinIndices.length := rfl

@[simp] theorem isNone_setUsedBinsAt (s : OffsetAllocator) (t v : Nat)  :
    (s.setUsedBinsAt t v).m_Nodes.isNone = s.m_Nodes.isNone := rfl

@[simp] theorem GetFreeSize_setUsedBinsAt (s : OffsetAllocator) (t v : Nat)  :
    (s.setUsedBinsAt t v).GetFreeSize = s.GetFreeSize := rfl

@[simp] theorem nodeAt_setBinAt (s : OffsetAllocator) (b v : Nat) (j : Nat) :
    (s.setBinAt b v).nodeAt j = s.nodeAt j := rfl

@[simp] theorem arenaLen_setBinAt (s : OffsetAllocator) (b v : Nat)  :
    (s.setBinAt b v).arenaLen = s.arenaLen := rfl

@[simp] theorem slotsLen_setBinAt (s : OffsetAllocator) (b v : Nat)  :
    (s.setBinAt b v).slotsLen = s.slotsLen := rfl

@[simp] theorem freeNodeAt_setBinAt (s : OffsetAllocator) (b v : Nat) (q : Int) :
    (s.setBinAt b v).freeNodeAt q = s.freeNodeAt q := rfl

@[simp] theorem usedBinsAt_setBinAt (s : OffsetAllocator) (b v : Nat) (u : Nat) :
    (s.setBinAt b v).usedBinsAt u = s.usedBinsAt u := rfl

@[simp] theorem m_UsedBinsTop_setBinAt (s : OffsetAllocator) (b v : Nat)  :
    (s.setBinAt b v).m_UsedBinsTop = s.m_UsedBinsTop := rfl

@[simp] theorem m_FreeOffset_setBinAt (s : OffsetAllocator) (b v : Nat)  :
    (s.setBinAt b v).m_FreeOffset = s.m_FreeOffset := rfl

@[simp] theorem m_FreeStorage_setBinAt (s : OffsetAllocator) (b v : Nat)  :
    (s.setBinAt b v).m_FreeStorage = s.m_FreeStorage := rfl

@[simp] theorem m_Size_setBinAt (s : OffsetAllocator) (b v : Nat)  :
    (s.setBinAt b v).m_Size = s.m_Size := rfl

@[simp] theorem m_MaxAllocatableCount_setBinAt (s : OffsetAllocator) (b v : Nat)  :
    (s.setBinAt b v).m_MaxAllocatableCount = s.m_MaxAllocatableCount := rfl

@[simp] theorem stack_setBinAt (s : OffsetAllocator) (b v : Nat)  :
    (s.setBinAt b v).stack = s.stack := rfl

@[simp] theorem isLive_setBinAt (s : OffsetAllocator) (b v : Nat) (j : Nat) :
    (s.setBinAt b v).isLive j ↔ s.isLive j := Iff.rfl

@[simp] theorem usedBinsLen_setBinAt (s : OffsetAllocator) (b v : Nat)  :
    (s.setBinAt b v).m_UsedBins.length = s.m_UsedBins.length := rfl

@[simp] theorem binsLen_setBinAt (s : OffsetAllocator) (b v : Nat)  :
    (s.setBinAt b v).m_BinIndices.length = s.m_BinIndices.length := by
  simp [setBinAt]

@[simp] theorem isNone_setBinAt (s : OffsetAllocator) (b v : Nat)  :
    (s.setBinAt b v).m_Nodes.isNone = s.m_Nodes.isNone := rfl

@[simp] theorem GetFreeSize_setBinAt (s : OffsetAllocator) (b v : Nat)  :
    (s.setBinAt b v).GetFreeSize = s.GetFreeSize := rfl

@[simp] theorem nodeAt_setUsedBinsTop (s : OffsetAllocator) (v : Nat) (j : Nat) :
    (s.setUsedBinsTop v).nodeAt j = s.nodeAt j := rfl

@[simp] theorem arenaLen_setUsedBinsTop (s : OffsetAllocator) (v : Nat)  :
    (s.setUsedBinsTop v).arenaLen = s.arenaLen := rfl

@[simp] theorem slotsLen_setUsedBinsTop (s : OffsetAllocator) (v : Nat)  :
    (s.setUsedBinsTop v).slotsLen = s.slotsLen := rfl

@[simp] theorem freeNodeAt_setUsedBinsTop (s : OffsetAllocator) (v : Nat) (q : Int) :
    (s.setUsedBinsTop v).freeNodeAt q = s.freeNodeAt q := rfl

@[simp] theorem usedBinsAt_setUsedBinsTop (s : OffsetAllocator) (v : Nat) (u : Nat) :
    (s.setUsedBinsTop v).usedBinsAt u = s.usedBinsAt u := rfl

@[simp] theorem binAt_setUsedBinsTop (s : OffsetAllocator) (v : Nat) (c : Nat) :
    (s.setUsedBinsTop v).binAt c = s.binAt c := rfl

@[simp] theorem m_FreeOffset_setUsedBinsTop (s : OffsetAllocator) (v : Nat)  :
    (s.setUsedBinsTop v).m_FreeOffset = s.m_FreeOffset := rfl

@[simp] theorem m_FreeStorage_setUsedBinsTop (s : OffsetAllocator) (v : Nat)  :
    (s.setUsedBinsTop v).m_FreeStorage = s.m_FreeStorage := rfl

@[simp] theorem m_Size_setUsedBinsTop (s : OffsetAllocator) (v : Nat)  :
    (s.setUsedBinsTop v).m_Size = s.m_Size := rfl

@[simp] theorem m_MaxAllocatableCount_setUsedBinsTop (s : OffsetAllocator) (v : Nat)  :
    (s.setUsedBinsTop v).m_MaxAllocatableCount = s.m_MaxAllocatableCount := rfl

@[simp] theorem stack_setUsedBinsTop (s : OffsetAllocator) (v : Nat)  :
    (s.setUsedBinsTop v).stack = s.stack := rfl

@[simp] theorem isLive_setUsedBinsTop (s : OffsetAllocator) (v : Nat) (j : Nat) :
    (s.setUsedBinsTop v).isLive j ↔ s.isLive j := Iff.rfl

@[simp] theorem usedBinsLen_setUsedBinsTop (s : OffsetAllocator) (v : Nat)  :
    (s.setUsedBinsTop v).m_UsedBins.length = s.m_UsedBins.length := rfl

@[simp] theorem binsLen_setUsedBinsTop (s : OffsetAllocator) (v : Nat)  :
    (s.setUsedBinsTop v).m_BinIndices.length = s.m_BinIndices.length := rfl

@[simp] theorem isNone_setUsedBinsTop (s : OffsetAllocator) (v : Nat)  :
    (s.setUsedBinsTop v).m_Nodes.isNone = s.m_Nodes.isNone := rfl

@[simp] theorem GetFreeSize_setUsedBinsTop (s : OffsetAllocator) (v : Nat)  :
    (s.setUsedBinsTop v).GetFreeSize = s.GetFreeSize := rfl

@[simp] theorem nodeAt_setFreeOffset (s : OffsetAllocator) (k : Int) (j : Nat) :
    (s.setFreeOffset k).nodeAt j = s.nodeAt j := rfl

@[simp] theorem arenaLen_setFreeOffset (s : OffsetAllocator) (k : Int)  :
    (s.setFreeOffset k).arenaLen = s.arenaLen := rfl

@[simp] theorem slotsLen_setFreeOffset (s : OffsetAllocator) (k : Int)  :
    (s.setFreeOffset k).slotsLen = s.slotsLen := rfl

@[simp] theorem freeNodeAt_setFreeOffset (s : OffsetAllocator) (k : Int) (q : Int) :
    (s.setFreeOffset k).freeNodeAt q = s.freeNodeAt q := rfl

@[simp] theorem usedBinsAt_setFreeOffset (s : OffsetAllocator) (k : Int) (u : Nat) :
    (s.setFreeOffset k).usedBinsAt u = s.usedBinsAt u := rfl

@[simp] theorem binAt_setFreeOffset (s : OffsetAllocator) (k : Int) (c : Nat) :
    (s.setFreeOffset k).binAt c = s.binAt c := rfl

@[simp] theorem m_UsedBinsTop_setFreeOffset (s : OffsetAllocator) (k : Int)  :
    (s.setFreeOffset k).m_UsedBinsTop = s.m_UsedBinsTop := rfl

@[simp] theorem m_FreeStorage_setFreeOffset (s : OffsetAllocator) (k : Int)  :
    (s.setFreeOffset k).m_FreeStorage = s.m_FreeStorage := rfl

@[simp] theorem m_Size_setFreeOffset (s : OffsetAllocator) (k : Int)  :
    (s.setFreeOffset k).m_Size = s.m_Size := rfl

@[simp] theorem m_MaxAllocatableCount_setFreeOffset (s : OffsetAllocator) (k : Int)  :
    (s.setFreeOffset k).m_MaxAllocatableCount = s.m_MaxAllocatableCount := rfl

@[simp] theorem usedBinsLen_setFreeOffset (s : OffsetAllocator) (k : Int)  :
    (s.setFreeOffset k).m_UsedBins.length = s.m_UsedBins.length := rfl

@[simp] theorem binsLen_setFreeOffset (s : OffsetAllocator) (k : Int)  :
    (s.setFreeOffset k).m_BinIndices.length = s.m_BinIndices.length := rfl

@[simp] theorem isNone_setFreeOffset (s : OffsetAllocator) (k : Int)  :
    (s.setFreeOffset k).m_Nodes.isNone = s.m_Nodes.isNone := rfl

@[simp] theorem nodeAt_setFreeStorage (s : OffsetAllocator) (v : Nat) (j : Nat) :
    (s.setFreeStorage v).nodeAt j = s.nodeAt j := rfl

@[simp] theorem arenaLen_setFreeStorage (s : OffsetAllocator) (v : Nat)  :
    (s.setFreeStorage v).arenaLen = s.arenaLen := rfl

@[simp] theorem slotsLen_setFreeStorage (s : OffsetAllocator) (v : Nat)  :
    (s.setFreeStorage v).slotsLen = s.slotsLen := rfl

@[simp] theorem freeNodeAt_setFreeStorage (s : OffsetAllocator) (v : Nat) (q : Int) :
    (s.setFreeStorage v).freeNodeAt q = s.freeNodeAt q := rfl

@[simp] theorem usedBinsAt_setFreeStorage (s : OffsetAllocator) (v : Nat) (u : Nat) :
    (s.setFreeStorage v).usedBinsAt u = s.usedBinsAt u := rfl

@[simp] theorem binAt_setFreeStorage (s : OffsetAllocator) (v : Nat) (c : Nat) :
    (s.setFreeStorage v).binAt c = s.binAt c := rfl

@[simp] theorem m_UsedBinsTop_setFreeStorage (s : OffsetAllocator) (v : Nat)  :
    (s.setFreeStorage v).m_UsedBinsTop = s.m_UsedBinsTop := rfl

@[simp] theorem m_FreeOffset_setFreeStorage (s : OffsetAllocator) (v : Nat)  :
    (s.setFreeStorage v).m_FreeOffset = s.m_FreeOffset := rfl

@[simp] theorem m_Size_setFreeStorage (s : OffsetAllocator) (v : Nat)  :
    (s.setFreeStorage v).m_Size = s.m_Size := rfl

@[simp] theorem m_MaxAllocatableCount_setFreeStorage (s : OffsetAllocator) (v : Nat)  :
    (s.setFreeStorage v).m_MaxAllocatableCount = s.m_MaxAllocatableCount := rfl

@[simp] theorem stack_setFreeStorage (s : OffsetAllocator) (v : Nat)  :
    (s.setFreeStorage v).stack = s.stack := rfl

@[simp] theorem isLive_setFreeStorage (s : OffsetAllocator) (v : Nat) (j : Nat) :
    (s.setFreeStorage v).isLive j ↔ s.isLive j := Iff.rfl

@[simp] theorem usedBinsLen_setFreeStorage (s : OffsetAllocator) (v : Nat)  :
    (s.setFreeStorage v).m_UsedBins.length = s.m_UsedBins.length := rfl

@[simp] theorem binsLen_setFreeStorage (s : OffsetAllocator) (v : Nat)  :
    (s.setFreeStorage v).m_BinIndices.length = s.m_BinIndices.length := rfl

@[simp] theorem isNone_setFreeStorage (s : OffsetAllocator) (v : Nat)  :
    (s.setFreeStorage v).m_Nodes.isNone = s.m_Nodes.isNone := rfl

@[simp] theorem nodeAt_setNodeAt (s : OffsetAllocator) (i : Nat) (n : Node) (j : Nat) :
    (s.setNodeAt i n).nodeAt j = if j = i ∧ i < s.arenaLen then n else s.nodeAt j := by
  unfold nodeAt setNodeAt arenaLen
  cases h : s.m_Nodes with
  | none => simp
  | some a => simp only [Option.map_some', Option.getD_some, getD_set_eq]

@[simp] theorem usedBinsAt_setUsedBinsAt (s : OffsetAllocator) (t v u : Nat) :
    (s.setUsedBinsAt t v).usedBinsAt u =
      if u = t ∧ t < s.m_UsedBins.length then v else s.usedBinsAt u := by
  unfold usedBinsAt setUsedBinsAt
  simp only [getD_set_eq]

@[simp] theorem binAt_setBinAt (s : OffsetAllocator) (b v c : Nat) :
    (s.setBinAt b v).binAt c =
      if c = b ∧ b < s.m_BinIndices.length then v else s.binAt c := by
  unfold binAt setBinAt
  simp only [getD_set_eq]

@[simp] theorem m_UsedBinsTop_setUsedBinsTop (s : OffsetAllocator) (v : Nat) :
    (s.setUsedBinsTop v).m_UsedBinsTop = v := rfl

@[simp] theorem m_FreeOffset_setFreeOffset (s : OffsetAllocator) (k : Int) :
    (s.setFreeOffset k).m_FreeOffset = k := rfl

@[simp] theorem m_FreeStorage_setFreeStorage (s : OffsetAllocator) (v : Nat) :
    (s.setFreeStorage v).m_FreeStorage = v := rfl

/-! Projections of a node chosen by a test. -/

@[simp] theorem ite_DataOffset (c : Prop) [Decidable c] (a b : Node) :
    (if c then a else b).DataOffset = if c then a.DataOffset else b.DataOffset := by
  split_ifs <;> rfl

@[simp] theorem ite_DataSize (c : Prop) [Decidable c] (a b : Node) :
    (if c then a else b).DataSize = if c then a.DataSize else b.DataSize := by
  split_ifs <;> rfl

@[simp] theorem ite_BinListPrev (c : Prop) [Decidable c] (a b : Node) :
    (if c then a else b).BinListPrev = if c then a.BinListPrev else b.BinListPrev := by
  split_ifs <;> rfl

@[simp] theorem ite_BinListNext (c : Prop) [Decidable c] (a b : Node) :
    (if c then a else b).BinListNext = if c then a.BinListNext else b.BinListNext := by
  split_ifs <;> rfl

@[simp] theorem ite_NeighborPrev (c : Prop) [Decidable c] (a b : Node) :
    (if c then a else b).NeighborPrev = if c then a.NeighborPrev else b.NeighborPrev := by
  split_ifs <;> rfl

@[simp] theorem ite_NeighborNext (c : Prop) [Decidable c] (a b : Node) :
    (if c then a else b).NeighborNext = if c then a.NeighborNext else b.NeighborNext := by
  split_ifs <;> rfl

@[simp] theorem ite_Used (c : Prop) [Decidable c] (a b : Node) :
    (if c then a else b).Used = if c then a.Used else b.Used := by
  split_ifs <;> rfl

end OffsetAllocator

namespace OffsetAllocator

/-! ## The free-index stack -/

theorem stack_length {s : OffsetAllocator} (hs : s.Shape) :
    s.stack.length = (s.m_FreeOffset + 1).toNat := by
  unfold stack
  rw [List.length_take]
  have h1 := hs.slots
  have h2 := hs.off_hi
  unfold slotsLen at h1
  omega

theorem nodup_bounded_length {l : List Nat} {n : Nat} (hn : l.Nodup) (hb : ∀ x ∈ l, x < n) :
    l.length ≤ n := by
  have hsub : l ⊆ List.range n := fun x hx => List.mem_range.mpr (hb x hx)
  have := (List.subperm_of_subset hn hsub).length_le
  simpa using this

/-- A live slot leaves room for one more push on the free-index stack. -/
theorem room_of_isLive {s : OffsetAllocator} (hs : s.Shape) {i : Nat} (hl : s.isLive i) :
    s.m_FreeOffset + 1 < (s.slotsLen : Int) := by
  have hnd : (i :: s.stack).Nodup := List.nodup_cons.mpr ⟨hl.2, hs.stack_nodup⟩
  have hb : ∀ x ∈ i :: s.stack, x < s.arenaLen := by
    intro x hx
    rcases List.mem_cons.mp hx with h | h
    · subst h; exact hl.1
    · exact hs.stack_lt x h
  have := nodup_bounded_length hnd hb
  simp only [List.length_cons] at this
  rw [stack_length hs] at this
  have h1 := hs.slots
  have h2 := hs.arena
  have h3 := hs.off_lo
  omega

theorem stack_pop {s : OffsetAllocator} (hs : s.Shape) (h0 : 0 ≤ s.m_FreeOffset) :
    s.stack = (s.setFreeOffset (s.m_FreeOffset - 1)).stack ++ [s.freeNodeAt s.m_FreeOffset] := by
  unfold stack freeNodeAt setFreeOffset
  simp only [h0, if_true]
  have h1 := hs.slots
  have h2 := hs.off_hi
  unfold slotsLen at h1
  have e1 : (s.m_FreeOffset + 1).toNat = s.m_FreeOffset.toNat + 1 := by omega
  have e2 : (s.m_FreeOffset - 1 + 1).toNat = s.m_FreeOffset.toNat := by omega
  have hlt : s.m_FreeOffset.toNat < (s.m_FreeNodes.getD []).length := by omega
  rw [e1, e2, List.take_succ, List.getD_eq_getElem?_getD, List.getElem?_eq_getElem hlt]
  rfl

theorem stack_push {s : OffsetAllocator} (hlo : -1 ≤ s.m_FreeOffset)
    (hlt : s.m_FreeOffset + 1 < (s.slotsLen : Int)) (v : Nat) :
    ((s.setFreeOffset (s.m_FreeOffset + 1)).setFreeNodeAt (s.m_FreeOffset + 1) v).stack =
      s.stack ++ [v] := by
  unfold stack setFreeNodeAt setFreeOffset slotsLen at *
  have h0 : (0 : Int) ≤ s.m_FreeOffset + 1 := by omega
  simp only [h0, if_true]
  cases hf : s.m_FreeNodes with
  | none => simp [hf] at hlt; omega
  | some fr =>
    simp only [hf, Option.getD_some, Option.map_some'] at hlt ⊢
    have e1 : (s.m_FreeOffset + 1 + 1).toNat = (s.m_FreeOffset + 1).toNat + 1 := by omega
    have hlt' : (s.m_FreeOffset + 1).toNat < fr.length := by omega
    rw [e1, List.take_succ, List.set_take, List.set_eq_of_length_le (by simp),
      List.getElem?_set]
    simp [hlt']

end OffsetAllocator

namespace OffsetAllocator

/-! ## `InsertNode` -/

section InsertNode
variable (s : OffsetAllocator) (size offset : Nat)

@[simp] theorem InsertNode_snd : (s.InsertNode size offset).2 = s.freeNodeAt s.m_FreeOffset := by
  by_cases h : s.binAt (FloatRoundDown size) = Node.UNUSED <;> simp [InsertNode, h]

@[simp] theorem InsertNode_m_FreeOffset :
    (s.InsertNode size offset).1.m_FreeOffset = s.m_FreeOffset - 1 := by
  by_cases h : s.binAt (FloatRoundDown size) = Node.UNUSED <;> simp [InsertNode, h]

@[simp] theorem InsertNode_m_FreeStorage :
    (s.InsertNode size offset).1.m_FreeStorage = add32 s.m_FreeStorage size := by
  by_cases h : s.binAt (FloatRoundDown size) = Node.UNUSED <;> simp [InsertNode, h]

@[simp] theorem InsertNode_m_Size : (s.InsertNode size offset).1.m_Size = s.m_Size := by
  by_cases h : s.binAt (FloatRoundDown size) = Node.UNUSED <;> simp [InsertNode, h]

@[simp] theorem InsertNode_m_MaxAllocatableCount :
    (s.InsertNode size offset).1.m_MaxAllocatableCount = s.m_MaxAllocatableCount := by
  by_cases h : s.binAt (FloatRoundDown size) = Node.UNUSED <;> simp [InsertNode, h]

@[simp] theorem InsertNode_arenaLen : (s.InsertNode size offset).1.arenaLen = s.arenaLen := by
  by_cases h : s.binAt (FloatRoundDown size) = Node.UNUSED <;> simp [InsertNode, h]

@[simp] theorem InsertNode_slotsLen : (s.InsertNode size offset).1.slotsLen = s.slotsLen := by
  by_cases h : s.binAt (FloatRoundDown size) = Node.UNUSED <;> simp [InsertNode, h]

@[simp] theorem InsertNode_usedBinsLen :
    (s.InsertNode size offset).1.m_UsedBins.length = s.m_UsedBins.length := by
  by_cases h : s.binAt (FloatRoundDown size) = Node.UNUSED <;> simp [InsertNode, h]

@[simp] theorem InsertNode_binsLen :
    (s.InsertNode size offset).1.m_BinIndices.length = s.m_BinIndices.length := by
  by_cases h : s.binAt (FloatRoundDown size) = Node.UNUSED <;> simp [InsertNode, h]

theorem InsertNode_stack :
    (s.InsertNode size offset).1.stack = (s.setFreeOffset (s.m_FreeOffset - 1)).stack := by
  by_cases h : s.binAt (FloatRoundDown size) = Node.UNUSED <;> simp [InsertNode, h, stack]
  all_goals rfl

theorem InsertNode_binAt (c : Nat) :
    (s.InsertNode size offset).1.binAt c =
      if c = FloatRoundDown size ∧ FloatRoundDown size < s.m_BinIndices.length
      then s.freeNodeAt s.m_FreeOffset else s.binAt c := by
  by_cases h : s.binAt (FloatRoundDown size) = Node.UNUSED <;> simp [InsertNode, h]

theorem InsertNode_nodeAt (j : Nat) :
    (s.InsertNode size offset).1.nodeAt j =
      if j = s.binAt (FloatRoundDown size) ∧ s.binAt (FloatRoundDown size) ≠ Node.UNUSED ∧
          s.binAt (FloatRoundDown size) < s.arenaLen then
        { (if s.binAt (FloatRoundDown size) = s.freeNodeAt s.m_FreeOffset ∧
              s.freeNodeAt s.m_FreeOffset < s.arenaLen
            then GenNode offset size (s.binAt (FloatRoundDown size))
            else s.nodeAt (s.binAt (FloatRoundDown size))) with
          BinListPrev := s.freeNodeAt s.m_FreeOffset }
      else if j = s.freeNodeAt s.m_FreeOffset ∧ s.freeNodeAt s.m_FreeOffset < s.arenaLen then
        GenNode offset size (s.binAt (FloatRoundDown size))
      else s.nodeAt j := by
  by_cases h : s.binAt (FloatRoundDown size) = Node.UNUSED <;> simp [InsertNode, h]

theorem InsertNode_usedBinsAt (u : Nat) :
    (s.InsertNode size offset).1.usedBinsAt u =
      if s.binAt (FloatRoundDown size) = Node.UNUSED ∧
          u = FloatRoundDown size >>> 3 ∧ FloatRoundDown size >>> 3 < s.m_UsedBins.length then
        (s.usedBinsAt (FloatRoundDown size >>> 3) ||| shl32 (FloatRoundDown size &&& 7)) % 256
      else s.usedBinsAt u := by
  by_cases h : s.binAt (FloatRoundDown size) = Node.UNUSED <;>
    simp [InsertNode, h, TOP_BINS_INDEX_SHIFT, LEAF_BINS_INDEX_MASK]

theorem InsertNode_m_UsedBinsTop :
    (s.InsertNode size offset).1.m_UsedBinsTop =
      if s.binAt (FloatRoundDown size) = Node.UNUSED then
        s.m_UsedBinsTop ||| shl32 (FloatRoundDown size >>> 3)
      else s.m_UsedBinsTop := by
  by_cases h : s.binAt (FloatRoundDown size) = Node.UNUSED <;>
    simp [InsertNode, h, TOP_BINS_INDEX_SHIFT]

end InsertNode

end OffsetAllocator

namespace OffsetAllocator

theorem ne_UNUSED_of_lt {s : OffsetAllocator} (hs : s.Shape) {i : Nat} (h : i < s.arenaLen) :
    i ≠ Node.UNUSED := by
  have h1 := hs.arena
  have h2 := hs.count_lt
  unfold Node.UNUSED
  omega

theorem isLive.ne_UNUSED {s : OffsetAllocator} {i : Nat} (h : s.isLive i) (hs : s.Shape) :
    i ≠ Node.UNUSED := ne_UNUSED_of_lt hs h.1

section InsertNode
variable {s : OffsetAllocator} {size offset : Nat}

theorem top_mem_stack (hs : s.Shape) (h0 : 0 ≤ s.m_FreeOffset) :
    s.freeNodeAt s.m_FreeOffset ∈ s.stack := by
  rw [stack_pop hs h0]
  simp

theorem top_lt_arenaLen (hs : s.Shape) (h0 : 0 ≤ s.m_FreeOffset) :
    s.freeNodeAt s.m_FreeOffset < s.arenaLen :=
  hs.stack_lt _ (top_mem_stack hs h0)

theorem top_not_isLive (hs : s.Shape) (h0 : 0 ≤ s.m_FreeOffset) :
    ¬ s.isLive (s.freeNodeAt s.m_FreeOffset) :=
  fun h => h.2 (top_mem_stack hs h0)

theorem isLive_pop (hs : s.Shape) (h0 : 0 ≤ s.m_FreeOffset) (j : Nat) :
    (s.setFreeOffset (s.m_FreeOffset - 1)).isLive j ↔
      s.isLive j ∨ j = s.freeNodeAt s.m_FreeOffset := by
  have hst := stack_pop hs h0
  have hnd := hs.stack_nodup
  rw [hst] at hnd
  have hlt := top_lt_arenaLen hs h0
  unfold isLive
  rw [hst]
  simp only [arenaLen_setFreeOffset, List.mem_append, List.mem_singleton, not_or]
  constructor
  · rintro ⟨h1, h2⟩
    by_cases hj : j = s.freeNodeAt s.m_FreeOffset
    · exact Or.inr hj
    · exact Or.inl ⟨h1, h2, hj⟩
  · rintro (⟨h1, h2, _⟩ | h)
    · exact ⟨h1, h2⟩
    · subst h
      refine ⟨hlt, ?_⟩
      intro hmem
      have := (List.nodup_append.mp hnd).2.2
      exact this hmem (List.mem_singleton.mpr rfl)

theorem isLive_InsertNode (hs : s.Shape) (h0 : 0 ≤ s.m_FreeOffset) (j : Nat) :
    (s.InsertNode size offset).1.isLive j ↔ s.isLive j ∨ j = s.freeNodeAt s.m_FreeOffset := by
  rw [← isLive_pop hs h0]
  unfold isLive
  rw [InsertNode_stack, InsertNode_arenaLen]
  simp

theorem Shape_pop (hs : s.Shape) (h0 : 0 ≤ s.m_FreeOffset) :
    (s.setFreeOffset (s.m_FreeOffset - 1)).Shape := by
  have hst := stack_pop hs h0
  have hnd := hs.stack_nodup
  rw [hst] at hnd
  refine ⟨hs.count_lt, hs.size_lt, ?_, ?_, hs.usedBins_len, hs.bins_len, ?_, ?_, ?_, ?_,
    hs.free_lt, hs.top_lt, hs.leaf_lt⟩
  · simpa using hs.arena
  · simpa using hs.slots
  · simp; omega
  · have := hs.off_hi
    simp; omega
  · exact (List.nodup_append.mp hnd).1
  · intro i hi
    have := hs.stack_lt i (by rw [hst]; exact List.mem_append_left _ hi)
    simpa using this

theorem Shape_InsertNode (hs : s.Shape) (h0 : 0 ≤ s.m_FreeOffset) (hsz : size < 4294967296) :
    (s.InsertNode size offset).1.Shape := by
  have hp := Shape_pop hs h0
  have hb : FloatRoundDown size < 240 := FloatRoundDown_lt hsz
  refine ⟨?_, ?_, ?_, ?_, ?_, ?_, ?_, ?_, ?_, ?_, ?_, ?_, ?_⟩
  · simpa using hs.count_lt
  · simpa using hs.size_lt
  · simpa using hs.arena
  · simpa using hs.slots
  · simpa using hs.usedBins_len
  · simpa using hs.bins_len
  · simpa using hp.off_lo
  · simpa using hp.off_hi
  · rw [InsertNode_stack]; exact hp.stack_nodup
  · rw [InsertNode_stack, InsertNode_arenaLen]; simpa using hp.stack_lt
  · rw [InsertNode_m_FreeStorage]; unfold add32; omega
  · rw [InsertNode_m_UsedBinsTop]
    split_ifs
    · apply or_shl32_lt_32bit hs.top_lt
      rw [shr_3]; omega
    · exact hs.top_lt
  · intro t
    rw [InsertNode_usedBinsAt]
    split_ifs
    · exact Nat.mod_lt _ (by norm_num)
    · exact hs.leaf_lt t

end InsertNode

end OffsetAllocator

namespace OffsetAllocator

section InsertNode
variable {s : OffsetAllocator} {size offset : Nat}

/-- The nodes after `InsertNode`, in a state that satisfies the invariant. -/
theorem InsertNode_nodeAt_inv (hs : s.Shape) (hb : s.BinsOK) (h0 : 0 ≤ s.m_FreeOffset)
    (hsz : size < 4294967296) (j : Nat) :
    (s.InsertNode size offset).1.nodeAt j =
      if j = s.freeNodeAt s.m_FreeOffset then GenNode offset size (s.binAt (FloatRoundDown size))
      else if j = s.binAt (FloatRoundDown size) ∧ s.binAt (FloatRoundDown size) ≠ Node.UNUSED then
        { s.nodeAt j with BinListPrev := s.freeNodeAt s.m_FreeOffset }
      else s.nodeAt j := by
  have hb256 : FloatRoundDown size < 256 := by have := FloatRoundDown_lt hsz; omega
  have hrlt := top_lt_arenaLen hs h0
  have hrd := top_not_isLive hs h0
  rw [InsertNode_nodeAt]
  by_cases hu : s.binAt (FloatRoundDown size) = Node.UNUSED
  · simp only [hu, ne_eq, not_true_eq_false, false_and, and_false, if_false, hrlt, and_true]
  · obtain ⟨hl, -, -, -⟩ := hb.head _ hb256 hu
    have hne : s.binAt (FloatRoundDown size) ≠ s.freeNodeAt s.m_FreeOffset := by
      intro e; rw [e] at hl; exact hrd hl
    by_cases hj : j = s.freeNodeAt s.m_FreeOffset
    · subst hj
      have hne' : ¬ s.freeNodeAt s.m_FreeOffset = s.binAt (FloatRoundDown size) := fun e => hne e.symm
      simp [hne', hrlt]
    · by_cases hj2 : j = s.binAt (FloatRoundDown size)
      · subst hj2
        simp [hu, hl.1, hne]
      · simp [hj, hj2]

theorem InsertNode_binAt_inv (hs : s.Shape) (hsz : size < 4294967296) (c : Nat) :
    (s.InsertNode size offset).1.binAt c =
      if c = FloatRoundDown size then s.freeNodeAt s.m_FreeOffset else s.binAt c := by
  have hb256 : FloatRoundDown size < 256 := by have := FloatRoundDown_lt hsz; omega
  rw [InsertNode_binAt, hs.bins_len]
  simp [hb256]

theorem bin_split {b c : Nat} : (c >>> 3 = b >>> 3 ∧ c &&& 7 = b &&& 7) ↔ c = b := by
  simp only [shr_3, and_7]
  omega

theorem BinsOK_InsertNode (hs : s.Shape) (hb : s.BinsOK) (h0 : 0 ≤ s.m_FreeOffset)
    (hsz : size < 4294967296) : (s.InsertNode size offset).1.BinsOK := by
  have hb256 : FloatRoundDown size < 256 := by have := FloatRoundDown_lt hsz; omega
  have hrlt := top_lt_arenaLen hs h0
  have hrd := top_not_isLive hs h0
  have hrU := ne_UNUSED_of_lt hs hrlt
  have hlive := @isLive_InsertNode _ size offset hs h0
  have hnode := @InsertNode_nodeAt_inv _ _ offset hs hb h0 hsz
  have hbin := @InsertNode_binAt_inv _ _ offset hs hsz
  have hhead := hb.head _ hb256
  generalize hr : s.freeNodeAt s.m_FreeOffset = r at *
  generalize hbb : FloatRoundDown size = b at *
  generalize hhd : s.binAt b = head at *
  -- nodes other than the new one and the old head are unchanged
  have hnode_r : (s.InsertNode size offset).1.nodeAt r = GenNode offset size head := by
    rw [hnode]; simp
  have hnode_ne : ∀ j, j ≠ r → (s.InsertNode size offset).1.nodeAt j =
      { s.nodeAt j with BinListPrev :=
          if j = head ∧ head ≠ Node.UNUSED then r else (s.nodeAt j).BinListPrev } := by
    intro j hj
    rw [hnode]
    simp only [hj, if_false]
    split_ifs <;> rfl
  have hlive_ne : ∀ j, s.isLive j → j ≠ r := by
    intro j hj e; subst e; exact hrd hj
  constructor
  · -- size_lt
    intro i hi
    rw [hlive] at hi
    by_cases hir : i = r
    · subst hir; rw [hnode_r]; exact hsz
    · rw [hnode_ne i hir]
      exact hb.size_lt i (hi.resolve_right hir)
  · -- head
    intro c hc hne
    rw [hbin] at hne ⊢
    by_cases hcb : c = b
    · subst hcb
      simp only [if_true]
      rw [hnode_r, hlive]
      exact ⟨Or.inr rfl, rfl, hbb, rfl⟩
    · simp only [hcb, if_false] at hne ⊢
      obtain ⟨h1, h2, h3, h4⟩ := hb.head c hc hne
      have hcr := hlive_ne _ h1
      rw [hnode_ne _ hcr, hlive]
      refine ⟨Or.inl h1, h2, h3, ?_⟩
      have : ¬ (s.binAt c = head ∧ head ≠ Node.UNUSED) := by
        rintro ⟨e, hu⟩
        obtain ⟨-, -, h3', -⟩ := hhead hu
        rw [← e, h3] at h3'
        exact hcb h3'
      simp only [this, if_false]
      exact h4
  · -- prev
    intro i hi hfree
    rw [hlive] at hi
    by_cases hir : i = r
    · subst hir
      rw [hnode_r]
      refine ⟨fun _ => ?_, fun h => absurd rfl h⟩
      show (s.InsertNode size offset).1.binAt (FloatRoundDown size) = i
      rw [hbin, hbb]; simp
    · have hil := hi.resolve_right hir
      rw [hnode_ne i hir] at hfree ⊢
      simp only at hfree ⊢
      obtain ⟨p1, p2⟩ := hb.prev i hil hfree
      by_cases hih : i = head ∧ head ≠ Node.UNUSED
      · rw [if_pos hih]
        refine ⟨fun h => absurd h hrU, fun _ => ?_⟩
        rw [hnode_r, hlive]
        exact ⟨Or.inr rfl, rfl, hih.1.symm⟩
      · simp only [hih, if_false]
        constructor
        · intro hp
          have := p1 hp
          rw [hbin]
          have hne : FloatRoundDown (s.nodeAt i).DataSize ≠ b := by
            intro e
            rw [e, hhd] at this
            exact hih ⟨this.symm, by rw [this]; exact hil.ne_UNUSED hs⟩
          simp only [hne, if_false]
          exact this
        · intro hp
          obtain ⟨q1, q2, q3⟩ := p2 hp
          have hpr := hlive_ne _ q1
          rw [hnode_ne _ hpr, hlive]
          exact ⟨Or.inl q1, q2, q3⟩
  · -- next
    intro i hi hfree hn
    rw [hlive] at hi
    by_cases hir : i = r
    · subst hir
      rw [hnode_r] at hn ⊢
      have hu : head ≠ Node.UNUSED := hn
      obtain ⟨h1, h2, h3, h4⟩ := hhead hu
      have hhr := hlive_ne _ h1
      show (s.InsertNode size offset).1.isLive head ∧
        ((s.InsertNode size offset).1.nodeAt head).Used = false ∧
        ((s.InsertNode size offset).1.nodeAt head).BinListPrev = i ∧
        FloatRoundDown ((s.InsertNode size offset).1.nodeAt head).DataSize = FloatRoundDown size
      rw [hnode_ne _ hhr, hlive]
      refine ⟨Or.inl h1, h2, ?_, ?_⟩
      · simp [hu]
      · rw [hbb]; exact h3
    · have hil := hi.resolve_right hir
      rw [hnode_ne i hir] at hfree hn ⊢
      simp only at hfree hn ⊢
      obtain ⟨q1, q2, q3, q4⟩ := hb.next i hil hfree hn
      have hnr := hlive_ne _ q1
      rw [hnode_ne _ hnr, hlive]
      refine ⟨Or.inl q1, q2, ?_, q4⟩
      have : ¬ ((s.nodeAt i).BinListNext = head ∧ head ≠ Node.UNUSED) := by
        rintro ⟨e, hu⟩
        obtain ⟨-, -, -, h4⟩ := hhead hu
        rw [e, h4] at q3
        exact hil.ne_UNUSED hs q3.symm
      simp only [this, if_false]
      exact q3
  · -- leafBit
    intro c hc
    rw [InsertNode_usedBinsAt, hbin, hbb, hhd, hs.usedBins_len]
    have hl := hb.leafBit c hc
    have hlb := hb.leafBit b hb256
    rw [hhd] at hlb
    by_cases hu : head = Node.UNUSED
    · by_cases hcb : c = b
      · subst hcb
        have h32 : c >>> 3 < 32 := by rw [shr_3]; omega
        simp only [hu, h32, and_self, if_true]
        rw [mod_256_of_lt (or_shl32_lt_256 (hs.leaf_lt _) (by rw [and_7]; omega)),
          testBit_or_shl32 _ _ (by rw [and_7]; omega)]
        simp [hrU]
      · by_cases ht : c >>> 3 = b >>> 3
        · have h32 : b >>> 3 < 32 := by rw [shr_3]; omega
          have hleaf : c &&& 7 ≠ b &&& 7 := fun e => hcb (bin_split.mp ⟨ht, e⟩)
          simp only [hu, ht, h32, and_self, if_true, hcb, if_false]
          rw [mod_256_of_lt (or_shl32_lt_256 (hs.leaf_lt _) (by rw [and_7]; omega)),
            testBit_or_shl32 _ _ (by rw [and_7]; omega)]
          rw [ht] at hl
          simp only [hleaf, decide_False, Bool.or_false]
          exact hl
        · simp only [ht, false_and, and_false, if_false, hcb]
          exact hl
    · simp only [hu, false_and, if_false]
      by_cases hcb : c = b
      · subst hcb
        simp only [if_true]
        rw [hlb]
        simp [hu, hrU]
      · simp only [hcb, if_false]
        exact hl
  · -- topBit
    intro t ht
    rw [InsertNode_m_UsedBinsTop, InsertNode_usedBinsAt, hbb, hhd, hs.usedBins_len]
    have hl := hb.topBit t ht
    have h32 : b >>> 3 < 32 := by rw [shr_3]; omega
    by_cases hu : head = Node.UNUSED
    · simp only [hu, if_true, true_and]
      rw [testBit_or_shl32 _ _ h32]
      by_cases htb : t = b >>> 3
      · subst htb
        simp only [h32, and_self, if_true, decide_True, Bool.or_true, true_iff]
        rw [mod_256_of_lt (or_shl32_lt_256 (hs.leaf_lt _) (by rw [and_7]; omega))]
        intro e
        have := congrArg (fun y => y.testBit (b &&& 7)) e
        simp [testBit_or_shl32 _ _ (show b &&& 7 < 32 by rw [and_7]; omega)] at this
      · simp only [htb, false_and, if_false, decide_False, Bool.or_false]
        exact hl
    · simp only [hu, if_false, false_and]
      exact hl

end InsertNode

end OffsetAllocator

namespace OffsetAllocator

/-! ## `clearBinBits` -/

@[simp] theorem nodeAt_clearBinBits (s : OffsetAllocator) (b t l : Nat) (j : Nat) :
    (s.clearBinBits b t l).nodeAt j = s.nodeAt j := by
  simp only [clearBinBits]
  split_ifs <;> simp

@[simp] theorem arenaLen_clearBinBits (s : OffsetAllocator) (b t l : Nat)  :
    (s.clearBinBits b t l).arenaLen = s.arenaLen := by
  simp only [clearBinBits]
  split_ifs <;> simp

@[simp] theorem slotsLen_clearBinBits (s : OffsetAllocator) (b t l : Nat)  :
    (s.clearBinBits b t l).slotsLen = s.slotsLen := by
  simp only [clearBinBits]
  split_ifs <;> simp

@[simp] theorem freeNodeAt_clearBinBits (s : OffsetAllocator) (b t l : Nat) (q : Int) :
    (s.clearBinBits b t l).freeNodeAt q = s.freeNodeAt q := by
  simp only [clearBinBits]
  split_ifs <;> simp

@[simp] theorem binAt_clearBinBits (s : OffsetAllocator) (b t l : Nat) (c : Nat) :
    (s.clearBinBits b t l).binAt c = s.binAt c := by
  simp only [clearBinBits]
  split_ifs <;> simp

@[simp] theorem m_FreeOffset_clearBinBits (s : OffsetAllocator) (b t l : Nat)  :
    (s.clearBinBits b t l).m_FreeOffset = s.m_FreeOffset := by
  simp only [clearBinBits]
  split_ifs <;> simp

@[simp] theorem m_FreeStorage_clearBinBits (s : OffsetAllocator) (b t l : Nat)  :
    (s.clearBinBits b t l).m_FreeStorage = s.m_FreeStorage := by
  simp only [clearBinBits]
  split_ifs <;> simp

@[simp] theorem m_Size_clearBinBits (s : OffsetAllocator) (b t l : Nat)  :
    (s.clearBinBits b t l).m_Size = s.m_Size := by
  simp only [clearBinBits]
  split_ifs <;> simp

@[simp] theorem m_MaxAllocatableCount_clearBinBits (s : OffsetAllocator) (b t l : Nat)  :
    (s.clearBinBits b t l).m_MaxAllocatableCount = s.m_MaxAllocatableCount := by
  simp only [clearBinBits]
  split_ifs <;> simp

@[simp] theorem stack_clearBinBits (s : OffsetAllocator) (b t l : Nat)  :
    (s.clearBinBits b t l).stack = s.stack := by
  simp only [clearBinBits]
  split_ifs <;> simp

@[simp] theorem isLive_clearBinBits (s : OffsetAllocator) (b t l : Nat) (j : Nat) :
    (s.clearBinBits b t l).isLive j ↔ s.isLive j := by
  simp only [clearBinBits]
  split_ifs <;> simp

@[simp] theorem usedBinsLen_clearBinBits (s : OffsetAllocator) (b t l : Nat)  :
    (s.clearBinBits b t l).m_UsedBins.length = s.m_UsedBins.length := by
  simp only [clearBinBits]
  split_ifs <;> simp

@[simp] theorem binsLen_clearBinBits (s : OffsetAllocator) (b t l : Nat)  :
    (s.clearBinBits b t l).m_BinIndices.length = s.m_BinIndices.length := by
  simp only [clearBinBits]
  split_ifs <;> simp

@[simp] theorem isNone_clearBinBits (s : OffsetAllocator) (b t l : Nat)  :
    (s.clearBinBits b t l).m_Nodes.isNone = s.m_Nodes.isNone := by
  simp only [clearBinBits]
  split_ifs <;> simp

@[simp] theorem GetFreeSize_clearBinBits (s : OffsetAllocator) (b t l : Nat)  :
    (s.clearBinBits b t l).GetFreeSize = s.GetFreeSize := by
  simp only [clearBinBits]
  split_ifs <;> simp

theorem clearBinBits_usedBinsAt (s : OffsetAllocator) (b t l u : Nat) :
    (s.clearBinBits b t l).usedBinsAt u =
      if s.binAt b = Node.UNUSED ∧ u = t ∧ t < s.m_UsedBins.length then
        (s.usedBinsAt t &&& not32 (shl32 l)) % 256
      else s.usedBinsAt u := by
  simp only [clearBinBits]
  split_ifs <;> simp_all

theorem clearBinBits_m_UsedBinsTop (s : OffsetAllocator) (b t l : Nat)
    (ht : t < s.m_UsedBins.length) :
    (s.clearBinBits b t l).m_UsedBinsTop =
      if s.binAt b = Node.UNUSED ∧ (s.usedBinsAt t &&& not32 (shl32 l)) % 256 = 0 then
        s.m_UsedBinsTop &&& not32 (shl32 t)
      else s.m_UsedBinsTop := by
  simp only [clearBinBits]
  split_ifs <;> simp_all

/-- Once bin `b` has lost its head, `clearBinBits` makes the two bitmaps agree with the
bin heads again. -/
theorem bits_clearBinBits {s : OffsetAllocator} {b : Nat} (hb : b < 256)
    (hlen : s.m_UsedBins.length = 32) (hleaf : ∀ t, s.usedBinsAt t < 256)
    (htop : s.m_UsedBinsTop < 4294967296)
    (h1 : ∀ c, c < 256 → c ≠ b →
      ((s.usedBinsAt (c >>> 3)).testBit (c &&& 7) = true ↔ s.binAt c ≠ Node.UNUSED))
    (h2 : (s.usedBinsAt (b >>> 3)).testBit (b &&& 7) = true)
    (h3 : ∀ t, t < 32 → (s.m_UsedBinsTop.testBit t = true ↔ s.usedBinsAt t ≠ 0)) :
    (∀ c, c < 256 →
      (((s.clearBinBits b (b >>> 3) (b &&& 7)).usedBinsAt (c >>> 3)).testBit (c &&& 7) = true ↔
        s.binAt c ≠ Node.UNUSED)) ∧
    (∀ t, t < 32 → ((s.clearBinBits b (b >>> 3) (b &&& 7)).m_UsedBinsTop.testBit t = true ↔
      (s.clearBinBits b (b >>> 3) (b &&& 7)).usedBinsAt t ≠ 0)) ∧
    (∀ t, (s.clearBinBits b (b >>> 3) (b &&& 7)).usedBinsAt t < 256) ∧
    (s.clearBinBits b (b >>> 3) (b &&& 7)).m_UsedBinsTop < 4294967296 := by
  have h32 : b >>> 3 < 32 := by rw [shr_3]; omega
  have h8 : b &&& 7 < 32 := by rw [and_7]; omega
  have hlt32 : ∀ t, s.usedBinsAt t < 4294967296 := fun t => by have := hleaf t; omega
  have hmod : (s.usedBinsAt (b >>> 3) &&& not32 (shl32 (b &&& 7))) % 256 =
      s.usedBinsAt (b >>> 3) &&& not32 (shl32 (b &&& 7)) :=
    mod_256_of_lt (and_lt_256 _ (hleaf _))
  refine ⟨?_, ?_, ?_, ?_⟩
  · intro c hc
    rw [clearBinBits_usedBinsAt, hlen, hmod]
    by_cases hu : s.binAt b = Node.UNUSED
    · by_cases hcb : c = b
      · subst hcb
        simp only [hu, h32, and_self, if_true]
        rw [testBit_and_not32_shl32 _ _ (hlt32 _) h8]
        simp
      · by_cases ht : c >>> 3 = b >>> 3
        · have hl : c &&& 7 ≠ b &&& 7 := fun e => hcb (bin_split.mp ⟨ht, e⟩)
          simp only [hu, ht, h32, and_self, if_true]
          rw [testBit_and_not32_shl32 _ _ (hlt32 _) h8]
          have := h1 c hc hcb
          rw [ht] at this
          simp only [hl, decide_False, Bool.not_false, Bool.and_true]
          exact this
        · simp only [ht, false_and, and_false, if_false]
          exact h1 c hc hcb
    · simp only [hu, false_and, if_false]
      by_cases hcb : c = b
      · subst hcb
        simp [h2, hu]
      · exact h1 c hc hcb
  · intro t ht
    rw [clearBinBits_m_UsedBinsTop _ _ _ _ (by rw [hlen]; exact h32), clearBinBits_usedBinsAt,
      hlen, hmod]
    by_cases hu : s.binAt b = Node.UNUSED
    · by_cases hz : s.usedBinsAt (b >>> 3) &&& not32 (shl32 (b &&& 7)) = 0
      · simp only [hu, hz, and_self, if_true, true_and]
        rw [testBit_and_not32_shl32 _ _ htop h32]
        by_cases htb : t = b >>> 3
        · subst htb
          simp [h32]
        · simp only [htb, decide_False, Bool.not_false, Bool.and_true, false_and, if_false]
          exact h3 t ht
      · simp only [hu, hz, and_false, if_false, true_and]
        by_cases htb : t = b >>> 3
        · subst htb
          simp only [h32, and_self, if_true]
          have := h3 _ ht
          constructor
          · intro _; exact hz
          · intro _
            rw [this]
            intro e
            rw [e] at h2
            simp at h2
        · simp only [htb, false_and, if_false]
          exact h3 t ht
    · simp only [hu, false_and, if_false]
      exact h3 t ht
  · intro t
    rw [clearBinBits_usedBinsAt]
    split_ifs
    · exact Nat.mod_lt _ (by norm_num)
    · exact hleaf t
  · rw [clearBinBits_m_UsedBinsTop _ _ _ _ (by rw [hlen]; exact h32)]
    split_ifs
    · exact and_lt_32bit _ htop
    · exact htop

end OffsetAllocator

namespace OffsetAllocator

/-! ## `AllocPop` -/

theorem binIndex_eq {top leaf : Nat} (ht : top < 32) (hl : leaf < 8) :
    ((top <<< TOP_BINS_INDEX_SHIFT) % 4294967296) ||| leaf = 8 * top + leaf := by
  have h1 : (top <<< TOP_BINS_INDEX_SHIFT) % 4294967296 = top <<< 3 := by
    unfold TOP_BINS_INDEX_SHIFT
    rw [Nat.shiftLeft_eq]
    omega
  rw [h1, shl3_or hl]

@[simp] theorem arenaLen_AllocPop (s : OffsetAllocator) (size t l : Nat)  :
    (s.AllocPop size t l).arenaLen = s.arenaLen := by
  simp only [AllocPop]
  split_ifs <;> simp

@[simp] theorem slotsLen_AllocPop (s : OffsetAllocator) (size t l : Nat)  :
    (s.AllocPop size t l).slotsLen = s.slotsLen := by
  simp only [AllocPop]
  split_ifs <;> simp

@[simp] theorem freeNodeAt_AllocPop (s : OffsetAllocator) (size t l : Nat) (q : Int) :
    (s.AllocPop size t l).freeNodeAt q = s.freeNodeAt q := by
  simp only [AllocPop]
  split_ifs <;> simp

@[simp] theorem m_FreeOffset_AllocPop (s : OffsetAllocator) (size t l : Nat)  :
    (s.AllocPop size t l).m_FreeOffset = s.m_FreeOffset := by
  simp only [AllocPop]
  split_ifs <;> simp

@[simp] theorem m_Size_AllocPop (s : OffsetAllocator) (size t l : Nat)  :
    (s.AllocPop size t l).m_Size = s.m_Size := by
  simp only [AllocPop]
  split_ifs <;> simp

@[simp] theorem m_MaxAllocatableCount_AllocPop (s : OffsetAllocator) (size t l : Nat)  :
    (s.AllocPop size t l).m_MaxAllocatableCount = s.m_MaxAllocatableCount := by
  simp only [AllocPop]
  split_ifs <;> simp

@[simp] theorem stack_AllocPop (s : OffsetAllocator) (size t l : Nat)  :
    (s.AllocPop size t l).stack = s.stack := by
  simp only [AllocPop]
  split_ifs <;> simp

@[simp] theorem isLive_AllocPop (s : OffsetAllocator) (size t l : Nat) (j : Nat) :
    (s.AllocPop size t l).isLive j ↔ s.isLive j := by
  simp only [AllocPop]
  split_ifs <;> simp

@[simp] theorem usedBinsLen_AllocPop (s : OffsetAllocator) (size t l : Nat)  :
    (s.AllocPop size t l).m_UsedBins.length = s.m_UsedBins.length := by
  simp only [AllocPop]
  split_ifs <;> simp

@[simp] theorem binsLen_AllocPop (s : OffsetAllocator) (size t l : Nat)  :
    (s.AllocPop size t l).m_BinIndices.length = s.m_BinIndices.length := by
  simp only [AllocPop]
  split_ifs <;> simp

@[simp] theorem isNone_AllocPop (s : OffsetAllocator) (size t l : Nat)  :
    (s.AllocPop size t l).m_Nodes.isNone = s.m_Nodes.isNone := by
  simp only [AllocPop]
  split_ifs <;> simp

theorem AllocPop_m_FreeStorage (s : OffsetAllocator) (size t l : Nat) :
    (s.AllocPop size t l).m_FreeStorage =
      sub32 s.m_FreeStorage
        (s.nodeAt (s.binAt (((t <<< TOP_BINS_INDEX_SHIFT) % 4294967296) ||| l))).DataSize := by
  simp only [AllocPop]
  split_ifs <;> simp

theorem AllocPop_binAt {s : OffsetAllocator} (hs : s.Shape) {t l : Nat} (ht : t < 32)
    (hl : l < 8) (size c : Nat) :
    (s.AllocPop size t l).binAt c =
      if c = 8 * t + l then (s.nodeAt (s.binAt (8 * t + l))).BinListNext else s.binAt c := by
  have hlen : 8 * t + l < s.m_BinIndices.length := by rw [hs.bins_len]; omega
  simp only [AllocPop, binIndex_eq ht hl]
  by_cases hX : s.binAt (8 * t + l) < s.arenaLen
  · by_cases hc : c = 8 * t + l <;> simp [hX, hlen, hc] <;> split_ifs <;> simp [hlen, hc]
  · by_cases hc : c = 8 * t + l <;> simp [hX, hlen, hc] <;> split_ifs <;> simp [hlen, hc]

/-- The head of a non-empty bin differs from its successor in the bin list. -/
theorem head_next_ne {s : OffsetAllocator} (hb : s.BinsOK) {b : Nat}
    (hb256 : b < 256) (hne : s.binAt b ≠ Node.UNUSED) :
    (s.nodeAt (s.binAt b)).BinListNext ≠ s.binAt b := by
  obtain ⟨h1, h2, h3, h4⟩ := hb.head b hb256 hne
  intro e
  have hn : (s.nodeAt (s.binAt b)).BinListNext ≠ Node.UNUSED := by rw [e]; exact hne
  obtain ⟨-, -, q3, -⟩ := hb.next _ h1 h2 hn
  rw [e, h4] at q3
  exact hne q3.symm

theorem AllocPop_nodeAt {s : OffsetAllocator} (hs : s.Shape) (hb : s.BinsOK) {t l : Nat}
    (ht : t < 32) (hl : l < 8) (hne : s.binAt (8 * t + l) ≠ Node.UNUSED) (size j : Nat) :
    (s.AllocPop size t l).nodeAt j =
      if j = s.binAt (8 * t + l) then
        { s.nodeAt j with DataSize := size, Used := true }
      else if j = (s.nodeAt (s.binAt (8 * t + l))).BinListNext ∧
          (s.nodeAt (s.binAt (8 * t + l))).BinListNext ≠ Node.UNUSED then
        { s.nodeAt j with BinListPrev := Node.UNUSED }
      else s.nodeAt j := by
  have hb256 : 8 * t + l < 256 := by omega
  obtain ⟨h1, h2, h3, h4⟩ := hb.head _ hb256 hne
  have hnx := head_next_ne hb hb256 hne
  have hXlt := h1.1
  simp only [AllocPop, binIndex_eq ht hl]
  by_cases hn : (s.nodeAt (s.binAt (8 * t + l))).BinListNext = Node.UNUSED
  · by_cases hj : j = s.binAt (8 * t + l)
    · subst hj; simp [hn, hXlt]
    · simp [hn, hXlt, hj]
  · obtain ⟨q1, -, -, -⟩ := hb.next _ h1 h2 hn
    have hnlt := q1.1
    by_cases hj : j = s.binAt (8 * t + l)
    · subst hj; simp [hn, hXlt, hnx.symm]
    · by_cases hj2 : j = (s.nodeAt (s.binAt (8 * t + l))).BinListNext
      · subst hj2; simp [hn, hXlt, hnlt, hnx]
      · simp [hn, hXlt, hj, hj2]

end OffsetAllocator

namespace OffsetAllocator

theorem bin_top_leaf {t l : Nat} (hl : l < 8) : (8 * t + l) >>> 3 = t ∧ (8 * t + l) &&& 7 = l := by
  rw [shr_3, and_7]
  omega

/-- `AllocPop` ends with `clearBinBits`, applied to a state with the bitmaps of the start. -/
theorem AllocPop_split (s : OffsetAllocator) {t l : Nat} (ht : t < 32) (hl : l < 8)
    (size : Nat) :
    ∃ s5 : OffsetAllocator,
      s.AllocPop size t l = s5.clearBinBits (8 * t + l) ((8 * t + l) >>> 3) ((8 * t + l) &&& 7) ∧
      (∀ c, s5.binAt c = (s.AllocPop size t l).binAt c) ∧
      (∀ u, s5.usedBinsAt u = s.usedBinsAt u) ∧
      s5.m_UsedBinsTop = s.m_UsedBinsTop ∧
      s5.m_UsedBins.length = s.m_UsedBins.length := by
  obtain ⟨e1, e2⟩ := bin_top_leaf (t := t) hl
  simp only [AllocPop, binIndex_eq ht hl, e1, e2]
  refine ⟨_, rfl, ?_, ?_, ?_, ?_⟩
  · intro c; simp
  · intro u; split_ifs <;> simp
  · split_ifs <;> simp
  · split_ifs <;> simp

theorem Shape_AllocPop {s : OffsetAllocator} (hs : s.Shape) {t l : Nat}
    (ht : t < 32) (hl : l < 8) (hne : s.binAt (8 * t + l) ≠ Node.UNUSED) (hb : s.BinsOK)
    (size : Nat) : (s.AllocPop size t l).Shape := by
  obtain ⟨s5, h5, b1, b2, b3, b4⟩ := AllocPop_split s ht hl size
  have hbit := (hb.leafBit (8 * t + l) (by omega)).mpr hne
  obtain ⟨-, -, r3, r4⟩ := bits_clearBinBits (s := s5) (b := 8 * t + l) (by omega)
    (by rw [b4]; exact hs.usedBins_len) (fun u => by rw [b2]; exact hs.leaf_lt u)
    (by rw [b3]; exact hs.top_lt)
    (by
      intro c hc hcb
      rw [b2, b1, AllocPop_binAt hs ht hl]
      simp only [hcb, if_false]
      exact hb.leafBit c hc)
    (by rw [b2]; exact hbit)
    (by intro u hu; rw [b3, b2]; exact hb.topBit u hu)
  rw [← h5] at r3 r4
  refine ⟨?_, ?_, ?_, ?_, ?_, ?_, ?_, ?_, ?_, ?_, ?_, r4, r3⟩
  · simpa using hs.count_lt
  · simpa using hs.size_lt
  · simpa using hs.arena
  · simpa using hs.slots
  · simpa using hs.usedBins_len
  · simpa using hs.bins_len
  · simpa using hs.off_lo
  · simpa using hs.off_hi
  · simpa using hs.stack_nodup
  · simpa using hs.stack_lt
  · rw [AllocPop_m_FreeStorage]; unfold sub32; omega

theorem BinsOK_AllocPop {s : OffsetAllocator} (hs : s.Shape) (hb : s.BinsOK) {t l : Nat}
    (ht : t < 32) (hl : l < 8) (hne : s.binAt (8 * t + l) ≠ Node.UNUSED)
    {size : Nat} (hsz : size < 4294967296) : (s.AllocPop size t l).BinsOK := by
  have hb256 : 8 * t + l < 256 := by omega
  obtain ⟨h1, h2, h3, h4⟩ := hb.head _ hb256 hne
  have hnx := head_next_ne hb hb256 hne
  have hnode := AllocPop_nodeAt hs hb ht hl hne size
  have hbin := AllocPop_binAt hs ht hl size
  have hXU := h1.ne_UNUSED hs
  generalize hbb : 8 * t + l = b at *
  generalize hX : s.binAt b = X at *
  generalize hn : (s.nodeAt X).BinListNext = n at *
  have hnext : n ≠ Node.UNUSED → s.isLive n ∧ (s.nodeAt n).Used = false ∧
      (s.nodeAt n).BinListPrev = X ∧ FloatRoundDown (s.nodeAt n).DataSize = b := by
    intro hu
    have := hb.next X h1 h2 (by rw [hn]; exact hu)
    rw [hn, h3] at this
    exact this
  have hnode_X : (s.AllocPop size t l).nodeAt X =
      { s.nodeAt X with DataSize := size, Used := true } := by
    rw [hnode]; simp
  have hnode_ne : ∀ j, j ≠ X → (s.AllocPop size t l).nodeAt j =
      { s.nodeAt j with BinListPrev :=
          if j = n ∧ n ≠ Node.UNUSED then Node.UNUSED else (s.nodeAt j).BinListPrev } := by
    intro j hj
    rw [hnode]
    simp only [hj, if_false]
    split_ifs <;> rfl
  have hfree_ne : ∀ j, ((s.AllocPop size t l).nodeAt j).Used = false → j ≠ X := by
    intro j hj e
    subst e
    rw [hnode_X] at hj
    simp at hj
  constructor
  · -- size_lt
    intro i hi
    rw [isLive_AllocPop] at hi
    by_cases hiX : i = X
    · subst hiX; rw [hnode_X]; exact hsz
    · rw [hnode_ne i hiX]; exact hb.size_lt i hi
  · -- head
    intro c hc hcne
    rw [hbin] at hcne ⊢
    by_cases hcb : c = b
    · subst hcb
      simp only [if_true] at hcne ⊢
      obtain ⟨q1, q2, q3, q4⟩ := hnext hcne
      rw [isLive_AllocPop, hnode_ne n hnx]
      exact ⟨q1, q2, q4, by simp [hcne]⟩
    · simp only [hcb, if_false] at hcne ⊢
      obtain ⟨q1, q2, q3, q4⟩ := hb.head c hc hcne
      have hcX : s.binAt c ≠ X := by
        intro e
        rw [e, h3] at q3
        exact hcb q3.symm
      rw [isLive_AllocPop, hnode_ne _ hcX]
      refine ⟨q1, q2, q3, ?_⟩
      split_ifs
      · rfl
      · exact q4
  · -- prev
    intro i hi hfree
    rw [isLive_AllocPop] at hi
    have hiX := hfree_ne i hfree
    rw [hnode_ne i hiX] at hfree ⊢
    simp only at hfree ⊢
    obtain ⟨p1, p2⟩ := hb.prev i hi hfree
    by_cases hin : i = n ∧ n ≠ Node.UNUSED
    · rw [if_pos hin]
      refine ⟨fun _ => ?_, fun h => absurd rfl h⟩
      obtain ⟨q1, q2, q3, q4⟩ := hnext hin.2
      rw [hbin, hin.1, q4]
      simp [hn]
    · rw [if_neg hin]
      constructor
      · intro hp
        have := p1 hp
        rw [hbin]
        have hne' : FloatRoundDown (s.nodeAt i).DataSize ≠ b := by
          intro e
          rw [e, hX] at this
          exact hiX this.symm
        simp only [hne', if_false]
        exact this
      · intro hp
        obtain ⟨q1, q2, q3⟩ := p2 hp
        have hpX : (s.nodeAt i).BinListPrev ≠ X := by
          intro e
          rw [e, hn] at q3
          exact hin ⟨q3.symm, by rw [q3]; exact hi.ne_UNUSED hs⟩
        rw [isLive_AllocPop, hnode_ne _ hpX]
        exact ⟨q1, q2, q3⟩
  · -- next
    intro i hi hfree hnn
    rw [isLive_AllocPop] at hi
    have hiX := hfree_ne i hfree
    rw [hnode_ne i hiX] at hfree hnn ⊢
    simp only at hfree hnn ⊢
    obtain ⟨q1, q2, q3, q4⟩ := hb.next i hi hfree hnn
    have hmX : (s.nodeAt i).BinListNext ≠ X := by
      intro e
      rw [e, h4] at q3
      exact hi.ne_UNUSED hs q3.symm
    rw [isLive_AllocPop, hnode_ne _ hmX]
    refine ⟨q1, q2, ?_, q4⟩
    have : ¬ ((s.nodeAt i).BinListNext = n ∧ n ≠ Node.UNUSED) := by
      rintro ⟨e, hu⟩
      obtain ⟨-, -, r3, -⟩ := hnext hu
      rw [e, r3] at q3
      exact hiX q3.symm
    simp only [this, if_false]
    exact q3
  · -- leafBit
    subst hbb
    obtain ⟨s5, h5, b1, b2, b3, b4⟩ := AllocPop_split s ht hl size
    have hbit := (hb.leafBit (8 * t + l) (by omega)).mpr (by rw [hX]; exact hXU)
    obtain ⟨r1, -, -, -⟩ := bits_clearBinBits (s := s5) (b := 8 * t + l) (by omega)
      (by rw [b4]; exact hs.usedBins_len) (fun u => by rw [b2]; exact hs.leaf_lt u)
      (by rw [b3]; exact hs.top_lt)
      (by
        intro c hc hcb
        rw [b2, b1, hbin]
        simp only [hcb, if_false]
        exact hb.leafBit c hc)
      (by rw [b2]; exact hbit)
      (by intro u hu; rw [b3, b2]; exact hb.topBit u hu)
    intro c hc
    have := r1 c hc
    rw [← h5, b1] at this
    exact this
  · -- topBit
    subst hbb
    obtain ⟨s5, h5, b1, b2, b3, b4⟩ := AllocPop_split s ht hl size
    have hbit := (hb.leafBit (8 * t + l) (by omega)).mpr (by rw [hX]; exact hXU)
    obtain ⟨-, r2, -, -⟩ := bits_clearBinBits (s := s5) (b := 8 * t + l) (by omega)
      (by rw [b4]; exact hs.usedBins_len) (fun u => by rw [b2]; exact hs.leaf_lt u)
      (by rw [b3]; exact hs.top_lt)
      (by
        intro c hc hcb
        rw [b2, b1, hbin]
        simp only [hcb, if_false]
        exact hb.leafBit c hc)
      (by rw [b2]; exact hbit)
      (by intro u hu; rw [b3, b2]; exact hb.topBit u hu)
    intro u hu
    have := r2 u hu
    rw [← h5] at this
    exact this

end OffsetAllocator

namespace OffsetAllocator

/-! ## `RemoveNode` -/

@[simp] theorem arenaLen_RemoveNodeUnlink (s : OffsetAllocator) (i : Nat)  :
    (s.RemoveNodeUnlink i).arenaLen = s.arenaLen := by
  simp only [RemoveNodeUnlink]
  split_ifs <;> simp

@[simp] theorem slotsLen_RemoveNodeUnlink (s : OffsetAllocator) (i : Nat)  :
    (s.RemoveNodeUnlink i).slotsLen = s.slotsLen := by
  simp only [RemoveNodeUnlink]
  split_ifs <;> simp

@[simp] theorem freeNodeAt_RemoveNodeUnlink (s : OffsetAllocator) (i : Nat) (q : Int) :
    (s.RemoveNodeUnlink i).freeNodeAt q = s.freeNodeAt q := by
  simp only [RemoveNodeUnlink]
  split_ifs <;> simp

@[simp] theorem m_FreeOffset_RemoveNodeUnlink (s : OffsetAllocator) (i : Nat)  :
    (s.RemoveNodeUnlink i).m_FreeOffset = s.m_FreeOffset := by
  simp only [RemoveNodeUnlink]
  split_ifs <;> simp

@[simp] theorem m_FreeStorage_RemoveNodeUnlink (s : OffsetAllocator) (i : Nat)  :
    (s.RemoveNodeUnlink i).m_FreeStorage = s.m_FreeStorage := by
  simp only [RemoveNodeUnlink]
  split_ifs <;> simp

@[simp] theorem m_Size_RemoveNodeUnlink (s : OffsetAllocator) (i : Nat)  :
    (s.RemoveNodeUnlink i).m_Size = s.m_Size := by
  simp only [RemoveNodeUnlink]
  split_ifs <;> simp

@[simp] theorem m_MaxAllocatableCount_RemoveNodeUnlink (s : OffsetAllocator) (i : Nat)  :
    (s.RemoveNodeUnlink i).m_MaxAllocatableCount = s.m_MaxAllocatableCount := by
  simp only [RemoveNodeUnlink]
  split_ifs <;> simp

@[simp] theorem stack_RemoveNodeUnlink (s : OffsetAllocator) (i : Nat)  :
    (s.RemoveNodeUnlink i).stack = s.stack := by
  simp only [RemoveNodeUnlink]
  split_ifs <;> simp

@[simp] theorem isLive_RemoveNodeUnlink (s : OffsetAllocator) (i : Nat) (j : Nat) :
    (s.RemoveNodeUnlink i).isLive j ↔ s.isLive j := by
  simp only [RemoveNodeUnlink]
  split_ifs <;> simp

@[simp] theorem usedBinsLen_RemoveNodeUnlink (s : OffsetAllocator) (i : Nat)  :
    (s.RemoveNodeUnlink i).m_UsedBins.length = s.m_UsedBins.length := by
  simp only [RemoveNodeUnlink]
  split_ifs <;> simp

@[simp] theorem binsLen_RemoveNodeUnlink (s : OffsetAllocator) (i : Nat)  :
    (s.RemoveNodeUnlink i).m_BinIndices.length = s.m_BinIndices.length := by
  simp only [RemoveNodeUnlink]
  split_ifs <;> simp

@[simp] theorem isNone_RemoveNodeUnlink (s : OffsetAllocator) (i : Nat)  :
    (s.RemoveNodeUnlink i).m_Nodes.isNone = s.m_Nodes.isNone := by
  simp only [RemoveNodeUnlink]
  split_ifs <;> simp

@[simp] theorem GetFreeSize_RemoveNodeUnlink (s : OffsetAllocator) (i : Nat)  :
    (s.RemoveNodeUnlink i).GetFreeSize = s.GetFreeSize := by
  simp only [RemoveNodeUnlink]
  split_ifs <;> simp

@[simp] theorem arenaLen_RemoveNode (s : OffsetAllocator) (i : Nat)  :
    (s.RemoveNode i).arenaLen = s.arenaLen := by
  simp [RemoveNode]

@[simp] theorem slotsLen_RemoveNode (s : OffsetAllocator) (i : Nat)  :
    (s.RemoveNode i).slotsLen = s.slotsLen := by
  simp [RemoveNode]

@[simp] theorem m_Size_RemoveNode (s : OffsetAllocator) (i : Nat)  :
    (s.RemoveNode i).m_Size = s.m_Size := by
  simp [RemoveNode]

@[simp] theorem m_MaxAllocatableCount_RemoveNode (s : OffsetAllocator) (i : Nat)  :
    (s.RemoveNode i).m_MaxAllocatableCount = s.m_MaxAllocatableCount := by
  simp [RemoveNode]

@[simp] theorem usedBinsLen_RemoveNode (s : OffsetAllocator) (i : Nat)  :
    (s.RemoveNode i).m_UsedBins.length = s.m_UsedBins.length := by
  simp [RemoveNode]

@[simp] theorem binsLen_RemoveNode (s : OffsetAllocator) (i : Nat)  :
    (s.RemoveNode i).m_BinIndices.length = s.m_BinIndices.length := by
  simp [RemoveNode]

@[simp] theorem isNone_RemoveNode (s : OffsetAllocator) (i : Nat)  :
    (s.RemoveNode i).m_Nodes.isNone = s.m_Nodes.isNone := by
  simp [RemoveNode]

@[simp] theorem m_FreeOffset_RemoveNode (s : OffsetAllocator) (i : Nat) :
    (s.RemoveNode i).m_FreeOffset = s.m_FreeOffset + 1 := by
  simp [RemoveNode]

@[simp] theorem nodeAt_RemoveNode (s : OffsetAllocator) (i j : Nat) :
    (s.RemoveNode i).nodeAt j = (s.RemoveNodeUnlink i).nodeAt j := by
  simp [RemoveNode]

@[simp] theorem binAt_RemoveNode (s : OffsetAllocator) (i c : Nat) :
    (s.RemoveNode i).binAt c = (s.RemoveNodeUnlink i).binAt c := by
  simp [RemoveNode]

@[simp] theorem usedBinsAt_RemoveNode (s : OffsetAllocator) (i u : Nat) :
    (s.RemoveNode i).usedBinsAt u = (s.RemoveNodeUnlink i).usedBinsAt u := by
  simp [RemoveNode]

@[simp] theorem m_UsedBinsTop_RemoveNode (s : OffsetAllocator) (i : Nat) :
    (s.RemoveNode i).m_UsedBinsTop = (s.RemoveNodeUnlink i).m_UsedBinsTop := by
  simp [RemoveNode]

theorem RemoveNode_stack {s : OffsetAllocator} (hs : s.Shape) {i : Nat} (hl : s.isLive i) :
    (s.RemoveNode i).stack = s.stack ++ [i] := by
  have hroom := room_of_isLive hs hl
  have hpush := stack_push (s := s.RemoveNodeUnlink i) (by simpa using hs.off_lo)
    (by simpa using hroom) i
  simp only [RemoveNode, stack_setFreeStorage, m_FreeOffset_setFreeOffset]
  rw [hpush, stack_RemoveNodeUnlink]

theorem isLive_push {s s' : OffsetAllocator} {i : Nat} (ha : s'.arenaLen = s.arenaLen)
    (hst : s'.stack = s.stack ++ [i]) (j : Nat) :
    s'.isLive j ↔ s.isLive j ∧ j ≠ i := by
  unfold isLive
  rw [ha, hst]
  simp only [List.mem_append, List.mem_singleton, not_or]
  tauto

theorem isLive_RemoveNode {s : OffsetAllocator} (hs : s.Shape) {i : Nat} (hl : s.isLive i)
    (j : Nat) : (s.RemoveNode i).isLive j ↔ s.isLive j ∧ j ≠ i :=
  isLive_push (arenaLen_RemoveNode s i) (RemoveNode_stack hs hl) j

theorem RemoveNodeUnlink_nodeAt {s : OffsetAllocator} (hb : s.BinsOK) {i : Nat}
    (hl : s.isLive i) (hf : (s.nodeAt i).Used = false) (j : Nat) :
    (s.RemoveNodeUnlink i).nodeAt j =
      { s.nodeAt j with
        BinListNext :=
          if j = (s.nodeAt i).BinListPrev ∧ (s.nodeAt i).BinListPrev ≠ Node.UNUSED then
            (s.nodeAt i).BinListNext
          else (s.nodeAt j).BinListNext
        BinListPrev :=
          if j = (s.nodeAt i).BinListNext ∧ (s.nodeAt i).BinListNext ≠ Node.UNUSED then
            (s.nodeAt i).BinListPrev
          else (s.nodeAt j).BinListPrev } := by
  obtain ⟨-, p2⟩ := hb.prev i hl hf
  have n2 := hb.next i hl hf
  have hplt : (s.nodeAt i).BinListPrev ≠ Node.UNUSED → (s.nodeAt i).BinListPrev < s.arenaLen :=
    fun h => (p2 h).1.1
  have hnlt : (s.nodeAt i).BinListNext ≠ Node.UNUSED → (s.nodeAt i).BinListNext < s.arenaLen :=
    fun h => (n2 h).1.1
  clear p2 n2
  unfold RemoveNodeUnlink
  generalize hpd : (s.nodeAt i).BinListPrev = p at *
  generalize hnd : (s.nodeAt i).BinListNext = n at *
  -- the links of `i` read the same after the first unlinking write
  have hre : ((s.setNodeAt p { s.nodeAt p with BinListNext := n }).nodeAt i).BinListNext = n := by
    rw [nodeAt_setNodeAt]
    split_ifs
    · rfl
    · exact hnd
  have hre2 : ((s.setNodeAt p { s.nodeAt p with BinListNext := n }).nodeAt i).BinListPrev = p := by
    rw [nodeAt_setNodeAt]
    split_ifs with h
    · show (s.nodeAt p).BinListPrev = p
      have := h.1
      subst this
      exact hpd
    · exact hpd
  by_cases hp : p = Node.UNUSED
  · simp only [hp, ne_eq, not_true_eq_false, if_false, and_false, nodeAt_setBinAt]
    by_cases hn : n = Node.UNUSED
    · simp [hn, hnd]
    · have := hnlt hn
      simp only [hnd, hn, not_false_eq_true, if_true, nodeAt_clearBinBits, nodeAt_setNodeAt,
        arenaLen_setBinAt, this, and_true]
      split_ifs with h
      · subst h; rfl
      · rfl
  · have hpl := hplt hp
    simp only [hp, ne_eq, not_false_eq_true, if_true, and_true, hre, hre2]
    by_cases hn : n = Node.UNUSED
    · simp only [hn, not_true_eq_false, if_false, and_false, nodeAt_setNodeAt, hpl, and_true]
      split_ifs with h
      · subst h; rfl
      · rfl
    · have hnl := hnlt hn
      simp only [hn, not_false_eq_true, if_true, and_true, nodeAt_setNodeAt, arenaLen_setNodeAt,
        hpl, hnl]
      by_cases h1 : j = n
      · subst h1
        by_cases h2 : j = p
        · subst h2; simp
        · simp [h2]
      · by_cases h2 : j = p
        · subst h2; simp [h1]
        · simp [h1, h2]

end OffsetAllocator

namespace OffsetAllocator

theorem RemoveNodeUnlink_easy (s : OffsetAllocator) {i : Nat}
    (hp : (s.nodeAt i).BinListPrev ≠ Node.UNUSED) :
    (∀ c, (s.RemoveNodeUnlink i).binAt c = s.binAt c) ∧
    (∀ u, (s.RemoveNodeUnlink i).usedBinsAt u = s.usedBinsAt u) ∧
    (s.RemoveNodeUnlink i).m_UsedBinsTop = s.m_UsedBinsTop := by
  simp only [RemoveNodeUnlink, hp, ne_eq, not_false_eq_true, if_true]
  refine ⟨?_, ?_, ?_⟩
  · intro c; split_ifs <;> simp
  · intro u; split_ifs <;> simp
  · split_ifs <;> simp

/-- In the hard case `RemoveNodeUnlink` ends with `clearBinBits`, applied to a state with
the bitmaps of the start. -/
theorem RemoveNodeUnlink_hard (s : OffsetAllocator) {i : Nat}
    (hp : (s.nodeAt i).BinListPrev = Node.UNUSED) :
    ∃ s2 : OffsetAllocator,
      s.RemoveNodeUnlink i =
        s2.clearBinBits (FloatRoundDown (s.nodeAt i).DataSize)
          (FloatRoundDown (s.nodeAt i).DataSize >>> 3)
          (FloatRoundDown (s.nodeAt i).DataSize &&& 7) ∧
      (∀ c, s2.binAt c = (s.RemoveNodeUnlink i).binAt c) ∧
      (∀ u, s2.usedBinsAt u = s.usedBinsAt u) ∧
      s2.m_UsedBinsTop = s.m_UsedBinsTop ∧
      s2.m_UsedBins.length = s.m_UsedBins.length := by
  simp only [RemoveNodeUnlink, hp, ne_eq, not_true_eq_false, if_false,
    TOP_BINS_INDEX_SHIFT, LEAF_BINS_INDEX_MASK]
  refine ⟨_, rfl, ?_, ?_, ?_, ?_⟩
  · intro c; simp
  · intro u; split_ifs <;> simp
  · split_ifs <;> simp
  · split_ifs <;> simp

theorem RemoveNodeUnlink_binAt {s : OffsetAllocator} (hs : s.Shape) (hb : s.BinsOK) {i : Nat}
    (hl : s.isLive i) (c : Nat) :
    (s.RemoveNodeUnlink i).binAt c =
      if (s.nodeAt i).BinListPrev = Node.UNUSED ∧ c = FloatRoundDown (s.nodeAt i).DataSize then
        (s.nodeAt i).BinListNext
      else s.binAt c := by
  have hb256 : FloatRoundDown (s.nodeAt i).DataSize < s.m_BinIndices.length := by
    have := FloatRoundDown_lt (hb.size_lt i hl)
    rw [hs.bins_len]; omega
  by_cases hp : (s.nodeAt i).BinListPrev = Node.UNUSED
  · simp only [RemoveNodeUnlink, hp, ne_eq, not_true_eq_false, if_false, true_and]
    by_cases hc : c = FloatRoundDown (s.nodeAt i).DataSize
    · split_ifs <;> simp [hc, hb256]
    · split_ifs <;> simp [hc, hb256]
  · simp only [hp, false_and, if_false]
    exact (RemoveNodeUnlink_easy s hp).1 c

theorem RemoveNode_m_FreeStorage {s : OffsetAllocator} (hb : s.BinsOK) {i : Nat}
    (hl : s.isLive i) (hf : (s.nodeAt i).Used = false) :
    (s.RemoveNode i).m_FreeStorage = sub32 s.m_FreeStorage (s.nodeAt i).DataSize := by
  simp [RemoveNode, RemoveNodeUnlink_nodeAt hb hl hf]

theorem RemoveNode_freeNodeAt_top {s : OffsetAllocator} (hs : s.Shape) {i : Nat}
    (hl : s.isLive i) :
    (s.RemoveNode i).freeNodeAt (s.RemoveNode i).m_FreeOffset = i := by
  have h1 := top_mem_stack (s := s.RemoveNode i)
  have hst := RemoveNode_stack hs hl
  have hroom := room_of_isLive hs hl
  have hlo := hs.off_lo
  have hsl : (s.RemoveNodeUnlink i).m_FreeNodes.map List.length = s.m_FreeNodes.map List.length := by
    simp only [RemoveNodeUnlink]
    split_ifs <;> simp [clearBinBits, setNodeAt, setBinAt, setUsedBinsAt, setUsedBinsTop] <;>
      split_ifs <;> simp
  unfold slotsLen at hroom
  simp only [RemoveNode, freeNodeAt, setFreeStorage, setFreeNodeAt, setFreeOffset]
  have h0 : (0 : Int) ≤ s.m_FreeOffset + 1 := by omega
  simp only [m_FreeOffset_RemoveNodeUnlink, h0, if_true]
  cases hfn : (s.RemoveNodeUnlink i).m_FreeNodes with
  | none =>
    rw [hfn] at hsl
    cases hfs : s.m_FreeNodes with
    | none => rw [hfs] at hroom; simp at hroom; omega
    | some fr => rw [hfs] at hsl; simp at hsl
  | some fr' =>
    rw [hfn] at hsl
    cases hfs : s.m_FreeNodes with
    | none => rw [hfs] at hsl; simp at hsl
    | some fr =>
      rw [hfs] at hsl hroom
      simp only [Option.map_some', Option.some.injEq, Option.getD_some] at hsl hroom ⊢
      rw [getD_set_eq]
      have : (s.m_FreeOffset + 1).toNat < fr'.length := by omega
      simp [this]

end OffsetAllocator

namespace OffsetAllocator

section RemoveNode
variable {s : OffsetAllocator} {i : Nat}

theorem bits_RemoveNodeUnlink (hs : s.Shape) (hb : s.BinsOK) (hl : s.isLive i)
    (hf : (s.nodeAt i).Used = false) :
    (∀ c, c < 256 →
      (((s.RemoveNodeUnlink i).usedBinsAt (c >>> 3)).testBit (c &&& 7) = true ↔
        (s.RemoveNodeUnlink i).binAt c ≠ Node.UNUSED)) ∧
    (∀ t, t < 32 → ((s.RemoveNodeUnlink i).m_UsedBinsTop.testBit t = true ↔
      (s.RemoveNodeUnlink i).usedBinsAt t ≠ 0)) ∧
    (∀ t, (s.RemoveNodeUnlink i).usedBinsAt t < 256) ∧
    (s.RemoveNodeUnlink i).m_UsedBinsTop < 4294967296 := by
  by_cases hp : (s.nodeAt i).BinListPrev = Node.UNUSED
  · obtain ⟨s2, h2, b1, b2, b3, b4⟩ := RemoveNodeUnlink_hard s hp
    have hb256 : FloatRoundDown (s.nodeAt i).DataSize < 256 := by
      have := FloatRoundDown_lt (hb.size_lt i hl); omega
    have hhead := (hb.prev i hl hf).1 hp
    have hbit := (hb.leafBit _ hb256).mpr (by rw [hhead]; exact hl.ne_UNUSED hs)
    obtain ⟨r1, r2, r3, r4⟩ := bits_clearBinBits (s := s2)
      (b := FloatRoundDown (s.nodeAt i).DataSize) hb256
      (by rw [b4]; exact hs.usedBins_len) (fun u => by rw [b2]; exact hs.leaf_lt u)
      (by rw [b3]; exact hs.top_lt)
      (by
        intro c hc hcb
        rw [b2, b1, RemoveNodeUnlink_binAt hs hb hl]
        simp only [hcb, and_false, if_false]
        exact hb.leafBit c hc)
      (by rw [b2]; exact hbit)
      (by intro u hu; rw [b3, b2]; exact hb.topBit u hu)
    rw [← h2] at r1 r2 r3 r4
    refine ⟨?_, r2, r3, r4⟩
    intro c hc
    have := r1 c hc
    rw [b1] at this
    exact this
  · obtain ⟨e1, e2, e3⟩ := RemoveNodeUnlink_easy s hp
    refine ⟨?_, ?_, ?_, ?_⟩
    · intro c hc; rw [e1, e2]; exact hb.leafBit c hc
    · intro t ht; rw [e2, e3]; exact hb.topBit t ht
    · intro t; rw [e2]; exact hs.leaf_lt t
    · rw [e3]; exact hs.top_lt

theorem Shape_RemoveNode (hs : s.Shape) (hb : s.BinsOK) (hl : s.isLive i)
    (hf : (s.nodeAt i).Used = false) : (s.RemoveNode i).Shape := by
  obtain ⟨-, -, r3, r4⟩ := bits_RemoveNodeUnlink hs hb hl hf
  have hroom := room_of_isLive hs hl
  have hst := RemoveNode_stack hs hl
  refine ⟨?_, ?_, ?_, ?_, ?_, ?_, ?_, ?_, ?_, ?_, ?_, ?_, ?_⟩
  · simpa using hs.count_lt
  · simpa using hs.size_lt
  · simpa using hs.arena
  · simpa using hs.slots
  · simpa using hs.usedBins_len
  · simpa using hs.bins_len
  · have := hs.off_lo
    simp; omega
  · have := hs.slots
    simp; omega
  · rw [hst]
    exact List.nodup_append.mpr ⟨hs.stack_nodup, List.nodup_singleton i,
      fun x hx hx' => hl.2 (by rw [List.mem_singleton] at hx'; rw [← hx']; exact hx)⟩
  · intro j hj
    rw [hst] at hj
    simp only [arenaLen_RemoveNode]
    rcases List.mem_append.mp hj with h | h
    · exact hs.stack_lt j h
    · rw [List.mem_singleton] at h; rw [h]; exact hl.1
  · rw [RemoveNode_m_FreeStorage hb hl hf]; unfold sub32; omega
  · simpa using r4
  · simpa using r3

theorem BinsOK_RemoveNode (hs : s.Shape) (hb : s.BinsOK) (hl : s.isLive i)
    (hf : (s.nodeAt i).Used = false) : (s.RemoveNode i).BinsOK := by
  obtain ⟨r1, r2, -, -⟩ := bits_RemoveNodeUnlink hs hb hl hf
  have hlive := isLive_RemoveNode hs hl
  have hnode := RemoveNodeUnlink_nodeAt hb hl hf
  have hbin := RemoveNodeUnlink_binAt hs hb hl
  obtain ⟨p1, p2⟩ := hb.prev i hl hf
  have n2 := hb.next i hl hf
  have hiU := hl.ne_UNUSED hs
  generalize hpd : (s.nodeAt i).BinListPrev = p at *
  generalize hnd : (s.nodeAt i).BinListNext = n at *
  generalize hbd : FloatRoundDown (s.nodeAt i).DataSize = b at *
  have hb256 : b < 256 := by
    have := FloatRoundDown_lt (hb.size_lt i hl); omega
  -- the fields that `RemoveNode` leaves alone
  have hsz : ∀ j, ((s.RemoveNodeUnlink i).nodeAt j).DataSize = (s.nodeAt j).DataSize := by
    intro j; rw [hnode]
  have hus : ∀ j, ((s.RemoveNodeUnlink i).nodeAt j).Used = (s.nodeAt j).Used := by
    intro j; rw [hnode]
  have hpv : ∀ j, ((s.RemoveNodeUnlink i).nodeAt j).BinListPrev =
      if j = n ∧ n ≠ Node.UNUSED then p else (s.nodeAt j).BinListPrev := by
    intro j; rw [hnode]
  have hnx : ∀ j, ((s.RemoveNodeUnlink i).nodeAt j).BinListNext =
      if j = p ∧ p ≠ Node.UNUSED then n else (s.nodeAt j).BinListNext := by
    intro j; rw [hnode]
  constructor
  · -- size_lt
    intro j hj
    rw [hlive] at hj
    rw [nodeAt_RemoveNode, hsz]
    exact hb.size_lt j hj.1
  · -- head
    intro c hc hcne
    simp only [binAt_RemoveNode, nodeAt_RemoveNode, hsz, hus, hpv, hlive] at hcne ⊢
    rw [hbin] at hcne ⊢
    by_cases hcase : p = Node.UNUSED ∧ c = b
    · rw [if_pos hcase] at hcne ⊢
      obtain ⟨q1, q2, q3, q4⟩ := n2 hcne
      have hni : n ≠ i := by
        intro e
        rw [e, hpd] at q3
        rw [q3] at hcase
        exact hiU hcase.1
      refine ⟨⟨q1, hni⟩, q2, by rw [q4, hcase.2], ?_⟩
      simp [hcne, hcase.1]
    · rw [if_neg hcase] at hcne ⊢
      obtain ⟨q1, q2, q3, q4⟩ := hb.head c hc hcne
      have hci : s.binAt c ≠ i := by
        intro e
        rw [e] at q3 q4
        rw [hpd] at q4
        rw [hbd] at q3
        exact hcase ⟨q4, q3.symm⟩
      refine ⟨⟨q1, hci⟩, q2, q3, ?_⟩
      have : ¬ (s.binAt c = n ∧ n ≠ Node.UNUSED) := by
        rintro ⟨e, hu⟩
        obtain ⟨-, -, r3, -⟩ := n2 hu
        rw [← e, q4] at r3
        exact hiU r3.symm
      rw [if_neg this]
      exact q4
  · -- prev
    intro j hj hfree
    simp only [binAt_RemoveNode, nodeAt_RemoveNode, hsz, hus, hpv, hnx, hlive] at hj hfree ⊢
    obtain ⟨hjl, hji⟩ := hj
    obtain ⟨o1, o2⟩ := hb.prev j hjl hfree
    by_cases hjn : j = n ∧ n ≠ Node.UNUSED
    · rw [if_pos hjn]
      obtain ⟨q1, q2, q3, q4⟩ := n2 hjn.2
      constructor
      · intro hp
        rw [hbin, hjn.1, q4]
        simp [hp]
      · intro hp
        obtain ⟨t1, t2, t3⟩ := p2 hp
        have hpi : p ≠ i := by
          intro e
          rw [e, hnd] at t3
          exact hji (by rw [hjn.1, t3])
        refine ⟨⟨t1, hpi⟩, t2, ?_⟩
        simp [hp, hjn.1]
    · rw [if_neg hjn]
      constructor
      · intro hq
        have := o1 hq
        rw [hbin]
        have hne' : ¬ (p = Node.UNUSED ∧ FloatRoundDown (s.nodeAt j).DataSize = b) := by
          rintro ⟨e1, e2⟩
          rw [e2, p1 e1] at this
          exact hji this.symm
        rw [if_neg hne']
        exact this
      · intro hq
        obtain ⟨t1, t2, t3⟩ := o2 hq
        have hqi : (s.nodeAt j).BinListPrev ≠ i := by
          intro e
          rw [e, hnd] at t3
          exact hjn ⟨t3.symm, by rw [t3]; exact hjl.ne_UNUSED hs⟩
        refine ⟨⟨t1, hqi⟩, t2, ?_⟩
        have : ¬ ((s.nodeAt j).BinListPrev = p ∧ p ≠ Node.UNUSED) := by
          rintro ⟨e, hu⟩
          obtain ⟨-, -, r3⟩ := p2 hu
          rw [e, r3] at t3
          exact hji t3.symm
        rw [if_neg this]
        exact t3
  · -- next
    intro j hj hfree hnn
    simp only [binAt_RemoveNode, nodeAt_RemoveNode, hsz, hus, hpv, hnx, hlive] at hj hfree hnn ⊢
    obtain ⟨hjl, hji⟩ := hj
    by_cases hjp : j = p ∧ p ≠ Node.UNUSED
    · rw [if_pos hjp] at hnn ⊢
      obtain ⟨q1, q2, q3, q4⟩ := n2 hnn
      obtain ⟨t1, t2, t3⟩ := p2 hjp.2
      have hni : n ≠ i := by
        intro e
        rw [e, hpd] at q3
        exact hji (by rw [hjp.1, q3])
      have hsame := (hb.next p t1 t2 (by rw [t3]; exact hiU)).2.2.2
      rw [t3, hbd] at hsame
      refine ⟨⟨q1, hni⟩, q2, ?_, ?_⟩
      · simp [hnn, hjp.1]
      · rw [q4, hjp.1, hsame]
    · rw [if_neg hjp] at hnn ⊢
      obtain ⟨q1, q2, q3, q4⟩ := hb.next j hjl hfree hnn
      have hmi : (s.nodeAt j).BinListNext ≠ i := by
        intro e
        rw [e, hpd] at q3
        exact hjp ⟨q3.symm, by rw [q3]; exact hjl.ne_UNUSED hs⟩
      refine ⟨⟨q1, hmi⟩, q2, ?_, q4⟩
      have : ¬ ((s.nodeAt j).BinListNext = n ∧ n ≠ Node.UNUSED) := by
        rintro ⟨e, hu⟩
        obtain ⟨-, -, r3, -⟩ := n2 hu
        rw [e, r3] at q3
        exact hji q3.symm
      rw [if_neg this]
      exact q3
  · -- leafBit
    intro c hc
    simp only [usedBinsAt_RemoveNode, binAt_RemoveNode]
    exact r1 c hc
  · -- topBit
    intro t ht
    simp only [usedBinsAt_RemoveNode, m_UsedBinsTop_RemoveNode]
    exact r2 t ht

end RemoveNode

end OffsetAllocator

namespace OffsetAllocator

/-! ## The physical chain under a split -/

/-- Marking a free node used, without changing its range, keeps the chain invariant. -/
theorem ChainOK_mark {s s' : OffsetAllocator} (hc : s.ChainOK) {X : Nat}
    (hS : s'.m_Size = s.m_Size)
    (hlive : ∀ j, s'.isLive j ↔ s.isLive j)
    (hview : ∀ j, SameChain (s'.nodeAt j)
      (if j = X then { s.nodeAt X with Used := true } else s.nodeAt j)) :
    s'.ChainOK := by
  have hoff : ∀ j, (s'.nodeAt j).DataOffset = (s.nodeAt j).DataOffset := by
    intro j; have := (hview j).1; split_ifs at this with h
    · subst h; exact this
    · exact this
  have hsz : ∀ j, (s'.nodeAt j).DataSize = (s.nodeAt j).DataSize := by
    intro j; have := (hview j).2.1; split_ifs at this with h
    · subst h; exact this
    · exact this
  have hpv : ∀ j, (s'.nodeAt j).NeighborPrev = (s.nodeAt j).NeighborPrev := by
    intro j; have := (hview j).2.2.2.1; split_ifs at this with h
    · subst h; exact this
    · exact this
  have hnx : ∀ j, (s'.nodeAt j).NeighborNext = (s.nodeAt j).NeighborNext := by
    intro j; have := (hview j).2.2.2.2; split_ifs at this with h
    · subst h; exact this
    · exact this
  have hus : ∀ j, (s.nodeAt j).Used = true → (s'.nodeAt j).Used = true := by
    intro j hj; have := (hview j).2.2.1; split_ifs at this with h
    · exact this
    · rw [this]; exact hj
  have hus' : ∀ j, (s'.nodeAt j).Used = false → (s.nodeAt j).Used = false := by
    intro j hj
    by_contra hc'
    have : (s.nodeAt j).Used = true := by simpa using hc'
    rw [hus j this] at hj
    cases hj
  constructor
  · intro i hi; rw [hsz]; exact hc.pos i ((hlive i).mp hi)
  · intro i hi; rw [hsz, hoff, hS]; exact hc.bound i ((hlive i).mp hi)
  · intro i hi
    simp only [hsz, hoff, hS, hnx, hpv, hlive]
    exact hc.next i ((hlive i).mp hi)
  · intro i hi
    simp only [hsz, hoff, hS, hnx, hpv, hlive]
    exact hc.prev i ((hlive i).mp hi)
  · intro i hi hf hn
    rw [hnx] at hn ⊢
    exact hus _ (hc.noAdj i ((hlive i).mp hi) (hus' i hf) hn)
  · intro i j hi hj hij
    simp only [hsz, hoff]
    exact hc.disjoint i j ((hlive i).mp hi) ((hlive j).mp hj) hij
  · intro x hx
    rw [hS] at hx
    obtain ⟨i, h1, h2, h3⟩ := hc.cover x hx
    exact ⟨i, (hlive i).mpr h1, by rw [hoff]; exact h2, by rw [hoff, hsz]; exact h3⟩

end OffsetAllocator

namespace OffsetAllocator

theorem split_disj_left {o T size jo js : Nat} (hlt : size < T)
    (h : o + T ≤ jo ∨ jo + js ≤ o) : o + size ≤ jo ∨ jo + js ≤ o := by omega

theorem split_disj_right {o T size jo js : Nat} (hlt : size < T)
    (h : o + T ≤ jo ∨ jo + js ≤ o) : o + size + (T - size) ≤ jo ∨ jo + js ≤ o + size := by omega

theorem split_disj_left' {o T size jo js : Nat} (hlt : size < T)
    (h : jo + js ≤ o ∨ o + T ≤ jo) : jo + js ≤ o ∨ o + size ≤ jo := by omega

theorem split_disj_right' {o T size jo js : Nat} (hlt : size < T)
    (h : jo + js ≤ o ∨ o + T ≤ jo) : jo + js ≤ o + size ∨ o + size + (T - size) ≤ jo := by omega

/-- Splitting a free node `X` into a used node of `size` bytes followed by a new free node
`r` with the remainder keeps the chain invariant. -/
theorem ChainOK_split {s s' : OffsetAllocator} (hc : s.ChainOK) {X r size : Nat}
    (hU : ∀ j, s.isLive j → j ≠ Node.UNUSED)
    (hXl : s.isLive X) (hXf : (s.nodeAt X).Used = false) (hr : ¬ s.isLive r)
    (hrU : r ≠ Node.UNUSED)
    (h0 : 0 < size) (hlt : size < (s.nodeAt X).DataSize)
    (hS : s'.m_Size = s.m_Size)
    (hlive : ∀ j, s'.isLive j ↔ s.isLive j ∨ j = r)
    (hview : ∀ j, SameChain (s'.nodeAt j)
      (if j = X then
        { s.nodeAt X with DataSize := size, Used := true, NeighborNext := r }
      else if j = r then
        { DataOffset := (s.nodeAt X).DataOffset + size
          DataSize := (s.nodeAt X).DataSize - size
          Used := false
          NeighborPrev := X
          NeighborNext := (s.nodeAt X).NeighborNext }
      else
        { s.nodeAt j with
          NeighborPrev :=
            if j = (s.nodeAt X).NeighborNext ∧ (s.nodeAt X).NeighborNext ≠ Node.UNUSED then r
            else (s.nodeAt j).NeighborPrev })) :
    s'.ChainOK := by
  have hXr : X ≠ r := by intro e; subst e; exact hr hXl
  have hlr : ∀ j, s.isLive j → j ≠ r := by intro j hj e; subst e; exact hr hj
  obtain ⟨nx1, nx2⟩ := hc.next X hXl
  obtain ⟨pv1, pv2⟩ := hc.prev X hXl
  have hadj := hc.noAdj X hXl hXf
  have hposX := hc.pos X hXl
  have hbX := hc.bound X hXl
  -- the views of the three kinds of node
  have vX : SameChain (s'.nodeAt X)
      { s.nodeAt X with DataSize := size, Used := true, NeighborNext := r } := by
    have := hview X; simpa using this
  have vr : SameChain (s'.nodeAt r)
      { DataOffset := (s.nodeAt X).DataOffset + size, DataSize := (s.nodeAt X).DataSize - size,
        Used := false, NeighborPrev := X, NeighborNext := (s.nodeAt X).NeighborNext } := by
    have := hview r; simpa [hXr.symm] using this
  have vo : ∀ j, j ≠ X → j ≠ r → SameChain (s'.nodeAt j)
      { s.nodeAt j with
        NeighborPrev :=
          if j = (s.nodeAt X).NeighborNext ∧ (s.nodeAt X).NeighborNext ≠ Node.UNUSED then r
          else (s.nodeAt j).NeighborPrev } := by
    intro j h1 h2
    have := hview j; simpa [h1, h2] using this
  clear hview
  obtain ⟨vX1, vX2, vX3, vX4, vX5⟩ := vX
  obtain ⟨vr1, vr2, vr3, vr4, vr5⟩ := vr
  simp only at vX1 vX2 vX3 vX4 vX5 vr1 vr2 vr3 vr4 vr5
  have hNX : (s.nodeAt X).NeighborNext ≠ Node.UNUSED → (s.nodeAt X).NeighborNext ≠ X := by
    intro hu e
    have := (nx2 hu).2.2
    rw [e] at this
    omega
  have hNr : (s.nodeAt X).NeighborNext ≠ Node.UNUSED → (s.nodeAt X).NeighborNext ≠ r :=
    fun hu => hlr _ (nx2 hu).1
  -- ranges after the split
  have hrange : ∀ i, s'.isLive i →
      (i = X ∧ (s'.nodeAt i).DataOffset = (s.nodeAt X).DataOffset ∧
        (s'.nodeAt i).DataSize = size) ∨
      (i = r ∧ (s'.nodeAt i).DataOffset = (s.nodeAt X).DataOffset + size ∧
        (s'.nodeAt i).DataSize = (s.nodeAt X).DataSize - size) ∨
      (i ≠ X ∧ i ≠ r ∧ s.isLive i ∧ (s'.nodeAt i).DataOffset = (s.nodeAt i).DataOffset ∧
        (s'.nodeAt i).DataSize = (s.nodeAt i).DataSize) := by
    intro i hi
    rw [hlive] at hi
    by_cases hiX : i = X
    · left; rw [hiX]; exact ⟨rfl, vX1, vX2⟩
    · by_cases hir : i = r
      · right; left; rw [hir]; exact ⟨rfl, vr1, vr2⟩
      · right; right
        exact ⟨hiX, hir, hi.resolve_right hir, (vo i hiX hir).1, (vo i hiX hir).2.1⟩
  constructor
  · -- pos
    intro i hi
    rcases hrange i hi with ⟨-, -, h2⟩ | ⟨-, -, h2⟩ | ⟨-, -, hl, -, h2⟩
    · rw [h2]; exact h0
    · rw [h2]; omega
    · rw [h2]; exact hc.pos i hl
  · -- bound
    intro i hi
    rw [hS]
    rcases hrange i hi with ⟨-, h1, h2⟩ | ⟨-, h1, h2⟩ | ⟨-, -, hl, h1, h2⟩
    · rw [h1, h2]; omega
    · rw [h1, h2]; omega
    · rw [h1, h2]; exact hc.bound i hl
  · -- next
    intro i hi
    rw [hlive] at hi
    rw [hS]
    by_cases hiX : i = X
    · rw [hiX, vX5, vX1, vX2]
      refine ⟨fun h => absurd h hrU, fun _ => ?_⟩
      rw [hlive, vr4, vr1]
      exact ⟨Or.inr rfl, rfl, rfl⟩
    · by_cases hir : i = r
      · rw [hir, vr5, vr1, vr2]
        refine ⟨fun h => by have := nx1 h; omega, fun hu => ?_⟩
        obtain ⟨q1, q2, q3⟩ := nx2 hu
        obtain ⟨w1, -, -, w4, -⟩ := vo _ (hNX hu) (hNr hu)
        rw [hlive, w1, w4]
        simp only
        refine ⟨Or.inl q1, by simp [hu], by rw [q3]; omega⟩
      · have hil := hi.resolve_right hir
        obtain ⟨w1, w2, -, -, w5⟩ := vo i hiX hir
        rw [w1, w2, w5]
        simp only
        obtain ⟨m1, m2⟩ := hc.next i hil
        refine ⟨m1, fun hu => ?_⟩
        obtain ⟨q1, q2, q3⟩ := m2 hu
        rw [hlive]
        refine ⟨Or.inl q1, ?_, ?_⟩
        · by_cases hmX : (s.nodeAt i).NeighborNext = X
          · rw [hmX, vX4]; rw [hmX] at q2; exact q2
          · obtain ⟨-, -, -, y4, -⟩ := vo _ hmX (hlr _ q1)
            rw [y4]
            simp only
            have : ¬ ((s.nodeAt i).NeighborNext = (s.nodeAt X).NeighborNext ∧
                (s.nodeAt X).NeighborNext ≠ Node.UNUSED) := by
              rintro ⟨e, hu'⟩
              have := (nx2 hu').2.1
              rw [← e, q2] at this
              exact hiX this
            rw [if_neg this]
            exact q2
        · by_cases hmX : (s.nodeAt i).NeighborNext = X
          · rw [hmX, vX1]; rw [hmX] at q3; exact q3
          · rw [(vo _ hmX (hlr _ q1)).1]
            exact q3
  · -- prev
    intro i hi
    rw [hlive] at hi
    by_cases hiX : i = X
    · rw [hiX, vX4, vX1]
      refine ⟨pv1, fun hu => ?_⟩
      obtain ⟨q1, q2⟩ := pv2 hu
      have hPX : (s.nodeAt X).NeighborPrev ≠ X := by
        intro e
        have := ((hc.next _ q1).2 (by rw [q2]; exact hU X hXl)).2.2
        rw [q2, e] at this
        omega
      rw [hlive, (vo _ hPX (hlr _ q1)).2.2.2.2]
      exact ⟨Or.inl q1, q2⟩
    · by_cases hir : i = r
      · rw [hir, vr4, vr1]
        refine ⟨fun h => absurd h (hU X hXl), fun _ => ?_⟩
        rw [hlive, vX5]
        exact ⟨Or.inl hXl, rfl⟩
      · have hil := hi.resolve_right hir
        obtain ⟨w1, -, -, w4, -⟩ := vo i hiX hir
        rw [w1, w4]
        simp only
        by_cases hiN : i = (s.nodeAt X).NeighborNext ∧ (s.nodeAt X).NeighborNext ≠ Node.UNUSED
        · rw [if_pos hiN]
          refine ⟨fun h => absurd h hrU, fun _ => ?_⟩
          rw [hlive, vr5]
          exact ⟨Or.inr rfl, hiN.1.symm⟩
        · rw [if_neg hiN]
          obtain ⟨m1, m2⟩ := hc.prev i hil
          refine ⟨m1, fun hu => ?_⟩
          obtain ⟨q1, q2⟩ := m2 hu
          have hqX : (s.nodeAt i).NeighborPrev ≠ X := by
            intro e
            rw [e] at q2
            exact hiN ⟨q2.symm, by rw [q2]; exact hU i hil⟩
          rw [hlive, (vo _ hqX (hlr _ q1)).2.2.2.2]
          exact ⟨Or.inl q1, q2⟩
  · -- noAdj
    intro i hi hf hn
    rw [hlive] at hi
    by_cases hiX : i = X
    · rw [hiX, vX3] at hf; cases hf
    · by_cases hir : i = r
      · rw [hir] at hn ⊢
        rw [vr5] at hn ⊢
        rw [(vo _ (hNX hn) (hNr hn)).2.2.1]
        exact hadj hn
      · have hil := hi.resolve_right hir
        obtain ⟨-, -, w3, -, w5⟩ := vo i hiX hir
        rw [w3] at hf
        rw [w5] at hn ⊢
        simp only at hf hn ⊢
        have hused := hc.noAdj i hil hf hn
        obtain ⟨q1, -, -⟩ := (hc.next i hil).2 hn
        by_cases hmX : (s.nodeAt i).NeighborNext = X
        · rw [hmX, vX3]
        · rw [(vo _ hmX (hlr _ q1)).2.2.1]
          exact hused
  · -- disjoint
    intro i j hi hj hij
    rcases hrange i hi with ⟨a0, a1, a2⟩ | ⟨a0, a1, a2⟩ | ⟨a0, a0', al, a1, a2⟩ <;>
    rcases hrange j hj with ⟨b0, b1, b2⟩ | ⟨b0, b1, b2⟩ | ⟨b0, b0', bl, b1, b2⟩ <;>
    rw [a1, a2, b1, b2]
    · exact absurd (a0.trans b0.symm) hij
    · exact Or.inl (le_refl _)
    · exact split_disj_left hlt (hc.disjoint X j hXl bl (fun e => b0 e.symm))
    · exact Or.inr (le_refl _)
    · exact absurd (a0.trans b0.symm) hij
    · exact split_disj_right hlt (hc.disjoint X j hXl bl (fun e => b0 e.symm))
    · exact split_disj_left' hlt (hc.disjoint i X al hXl a0)
    · exact split_disj_right' hlt (hc.disjoint i X al hXl a0)
    · exact hc.disjoint i j al bl hij
  · -- cover
    intro x hx
    rw [hS] at hx
    obtain ⟨i, h1, h2, h3⟩ := hc.cover x hx
    by_cases hiX : i = X
    · rw [hiX] at h2 h3
      by_cases hxs : x < (s.nodeAt X).DataOffset + size
      · exact ⟨X, (hlive X).mpr (Or.inl hXl), by rw [vX1]; exact h2, by rw [vX1, vX2]; exact hxs⟩
      · exact ⟨r, (hlive r).mpr (Or.inr rfl), by rw [vr1]; omega, by rw [vr1, vr2]; omega⟩
    · have hir := hlr i h1
      obtain ⟨w1, w2, -, -, -⟩ := vo i hiX hir
      exact ⟨i, (hlive i).mpr (Or.inl h1), by rw [w1]; exact h2, by rw [w1, w2]; exact h3⟩

end OffsetAllocator

namespace OffsetAllocator

/-! ## The physical chain under a merge -/

theorem merge_disj {po ps xo xs no ns jo js : Nat}
    (hp : po + ps = xo) (hn : no = xo + xs)
    (h1 : xo + xs ≤ jo ∨ jo + js ≤ xo)
    (h2 : po + ps ≤ jo ∨ jo + js ≤ po)
    (h3 : no + ns ≤ jo ∨ jo + js ≤ no)
    (hjs : 0 < js) (hxs : 0 < xs) :
    no + ns ≤ jo ∨ jo + js ≤ po := by omega

/-- The facts about the node before `X` that the merge relies on. -/
theorem merge_prev_facts {s : OffsetAllocator} (hc : s.ChainOK)
    (hU : ∀ j, s.isLive j → j ≠ Node.UNUSED) {X : Nat} (hXl : s.isLive X) :
    (s.nodeAt X).NeighborPrev ≠ Node.UNUSED →
      s.isLive (s.nodeAt X).NeighborPrev ∧
      (s.nodeAt (s.nodeAt X).NeighborPrev).NeighborNext = X ∧
      (s.nodeAt (s.nodeAt X).NeighborPrev).DataOffset +
        (s.nodeAt (s.nodeAt X).NeighborPrev).DataSize = (s.nodeAt X).DataOffset ∧
      (s.nodeAt X).NeighborPrev ≠ X := by
  intro hu
  obtain ⟨q1, q2⟩ := (hc.prev X hXl).2 hu
  have q3 := ((hc.next _ q1).2 (by rw [q2]; exact hU X hXl)).2.2
  rw [q2] at q3
  refine ⟨q1, q2, q3.symm, ?_⟩
  intro e
  have := hc.pos X hXl
  rw [e] at q3
  omega

/-- The facts about the node after `X` that the merge relies on. -/
theorem merge_next_facts {s : OffsetAllocator} (hc : s.ChainOK) {X : Nat} (hXl : s.isLive X) :
    (s.nodeAt X).NeighborNext ≠ Node.UNUSED →
      s.isLive (s.nodeAt X).NeighborNext ∧
      (s.nodeAt (s.nodeAt X).NeighborNext).NeighborPrev = X ∧
      (s.nodeAt (s.nodeAt X).NeighborNext).DataOffset =
        (s.nodeAt X).DataOffset + (s.nodeAt X).DataSize ∧
      (s.nodeAt X).NeighborNext ≠ X := by
  intro hu
  obtain ⟨q1, q2, q3⟩ := (hc.next X hXl).2 hu
  refine ⟨q1, q2, q3, ?_⟩
  intro e
  have := hc.pos X hXl
  rw [e] at q3
  omega

/-- A free node has used neighbours. -/
theorem prev_used_of_free {s : OffsetAllocator} (hc : s.ChainOK) {i : Nat} (hl : s.isLive i)
    (hf : (s.nodeAt i).Used = false) (hu : (s.nodeAt i).NeighborPrev ≠ Node.UNUSED)
    (hU : ∀ j, s.isLive j → j ≠ Node.UNUSED) :
    (s.nodeAt (s.nodeAt i).NeighborPrev).Used = true := by
  obtain ⟨q1, q2⟩ := (hc.prev i hl).2 hu
  by_contra h
  have hf' : (s.nodeAt (s.nodeAt i).NeighborPrev).Used = false := by simpa using h
  have := hc.noAdj _ q1 hf' (by rw [q2]; exact hU i hl)
  rw [q2, hf] at this
  cases this

end OffsetAllocator

namespace OffsetAllocator

/-- Replacing a used node `X`, together with its free neighbours `P` (when `mp`) and `N`
(when `mn`), by one free node over the union of their ranges keeps the chain invariant. -/
theorem ChainOK_merge {s s' : OffsetAllocator} (hc : s.ChainOK)
    (hU : ∀ j, s.isLive j → j ≠ Node.UNUSED)
    {X P N P' N' off' size' : Nat} {mp mn : Prop}
    (hXl : s.isLive X) (hXu : (s.nodeAt X).Used = true)
    (hP : (s.nodeAt X).NeighborPrev = P) (hN : (s.nodeAt X).NeighborNext = N)
    (hmp : mp ↔ P ≠ Node.UNUSED ∧ (s.nodeAt P).Used = false)
    (hmn : mn ↔ N ≠ Node.UNUSED ∧ (s.nodeAt N).Used = false)
    (hP' : (mp → P' = (s.nodeAt P).NeighborPrev) ∧ (¬ mp → P' = P))
    (hN' : (mn → N' = (s.nodeAt N).NeighborNext) ∧ (¬ mn → N' = N))
    (hoff : (mp → off' = (s.nodeAt P).DataOffset) ∧ (¬ mp → off' = (s.nodeAt X).DataOffset))
    (hend : (mn → off' + size' = (s.nodeAt N).DataOffset + (s.nodeAt N).DataSize) ∧
      (¬ mn → off' + size' = (s.nodeAt X).DataOffset + (s.nodeAt X).DataSize))
    (hS : s'.m_Size = s.m_Size)
    (hlive : ∀ j, s'.isLive j ↔ s.isLive j ∧ ¬ (mp ∧ j = P) ∧ ¬ (mn ∧ j = N))
    (hview : ∀ j, SameChain (s'.nodeAt j)
      (if j = X then
        { DataOffset := off', DataSize := size', Used := false,
          NeighborPrev := P', NeighborNext := N' }
      else
        { s.nodeAt j with
          NeighborPrev := if j = N' ∧ N' ≠ Node.UNUSED then X else (s.nodeAt j).NeighborPrev
          NeighborNext := if j = P' ∧ P' ≠ Node.UNUSED then X else (s.nodeAt j).NeighborNext })) :
    s'.ChainOK := by
  have hXU := hU X hXl
  have hposX := hc.pos X hXl
  -- views
  have vX : SameChain (s'.nodeAt X)
      { DataOffset := off', DataSize := size', Used := false,
        NeighborPrev := P', NeighborNext := N' } := by
    have := hview X; simpa using this
  have vo : ∀ j, j ≠ X → SameChain (s'.nodeAt j)
      { s.nodeAt j with
        NeighborPrev := if j = N' ∧ N' ≠ Node.UNUSED then X else (s.nodeAt j).NeighborPrev
        NeighborNext := if j = P' ∧ P' ≠ Node.UNUSED then X else (s.nodeAt j).NeighborNext } := by
    intro j h1
    have := hview j; simpa [h1] using this
  clear hview
  obtain ⟨vX1, vX2, vX3, vX4, vX5⟩ := vX
  simp only at vX1 vX2 vX3 vX4 vX5
  -- the neighbours of `X` before the merge
  have fP : P ≠ Node.UNUSED → s.isLive P ∧ (s.nodeAt P).NeighborNext = X ∧
      (s.nodeAt P).DataOffset + (s.nodeAt P).DataSize = (s.nodeAt X).DataOffset ∧ P ≠ X := by
    have := merge_prev_facts hc hU hXl
    rw [hP] at this; exact this
  have fN : N ≠ Node.UNUSED → s.isLive N ∧ (s.nodeAt N).NeighborPrev = X ∧
      (s.nodeAt N).DataOffset = (s.nodeAt X).DataOffset + (s.nodeAt X).DataSize ∧ N ≠ X := by
    have := merge_next_facts hc hXl
    rw [hN] at this; exact this
  have hXlive' : s'.isLive X := by
    rw [hlive]
    refine ⟨hXl, ?_, ?_⟩
    · rintro ⟨h1, h2⟩; exact (fP (hmp.mp h1).1).2.2.2 h2.symm
    · rintro ⟨h1, h2⟩; exact (fN (hmn.mp h1).1).2.2.2 h2.symm
  -- left boundary
  have L3 : off' ≤ (s.nodeAt X).DataOffset := by
    by_cases h : mp
    · have := (fP (hmp.mp h).1).2.2.1
      rw [hoff.1 h]; omega
    · rw [hoff.2 h]
  have R3 : (s.nodeAt X).DataOffset + (s.nodeAt X).DataSize ≤ off' + size' := by
    by_cases h : mn
    · have := (fN (hmn.mp h).1).2.2.1
      rw [hend.1 h]; omega
    · rw [hend.2 h]
  have L1 : P' = Node.UNUSED → off' = 0 := by
    intro hu
    by_cases h : mp
    · rw [hoff.1 h]
      rw [hP'.1 h] at hu
      exact (hc.prev P (fP (hmp.mp h).1).1).1 hu
    · rw [hoff.2 h]
      rw [hP'.2 h] at hu
      rw [← hP] at hu
      exact (hc.prev X hXl).1 hu
  have L2 : P' ≠ Node.UNUSED → s.isLive P' ∧ P' ≠ X ∧ (s.nodeAt P').Used = true ∧
      (s.nodeAt P').DataOffset + (s.nodeAt P').DataSize = off' ∧
      ¬ (mp ∧ P' = P) ∧ ((s.nodeAt P').NeighborNext = X ∨ (mp ∧ (s.nodeAt P').NeighborNext = P)) := by
    intro hu
    by_cases h : mp
    · obtain ⟨a1, a2, a3, a4⟩ := fP (hmp.mp h).1
      rw [hP'.1 h] at hu ⊢
      obtain ⟨b1, b2, b3, b4⟩ := merge_prev_facts hc hU a1 hu
      have b5 := prev_used_of_free hc a1 (hmp.mp h).2 hu hU
      have hpp := hc.pos _ b1
      refine ⟨b1, ?_, b5, by rw [hoff.1 h]; exact b3, ?_, Or.inr ⟨h, b2⟩⟩
      · intro e; rw [e] at b3; omega
      · rintro ⟨-, e⟩; exact b4 e
    · rw [hP'.2 h] at hu ⊢
      obtain ⟨a1, a2, a3, a4⟩ := fP hu
      refine ⟨a1, a4, ?_, by rw [hoff.2 h]; exact a3, fun hh => h hh.1, Or.inl a2⟩
      by_contra hf
      exact h (hmp.mpr ⟨hu, by simpa using hf⟩)
  have R1 : N' = Node.UNUSED → off' + size' = s.m_Size := by
    intro hu
    by_cases h : mn
    · rw [hend.1 h]
      rw [hN'.1 h] at hu
      exact (hc.next N (fN (hmn.mp h).1).1).1 hu
    · rw [hend.2 h]
      rw [hN'.2 h] at hu
      rw [← hN] at hu
      exact (hc.next X hXl).1 hu
  have R2 : N' ≠ Node.UNUSED → s.isLive N' ∧ N' ≠ X ∧ (s.nodeAt N').Used = true ∧
      (s.nodeAt N').DataOffset = off' + size' ∧
      ¬ (mn ∧ N' = N) ∧ ((s.nodeAt N').NeighborPrev = X ∨ (mn ∧ (s.nodeAt N').NeighborPrev = N)) := by
    intro hu
    by_cases h : mn
    · obtain ⟨a1, a2, a3, a4⟩ := fN (hmn.mp h).1
      rw [hN'.1 h] at hu ⊢
      obtain ⟨b1, b2, b3, b4⟩ := merge_next_facts hc a1 hu
      have b5 := hc.noAdj N a1 (hmn.mp h).2 hu
      have hpn := hc.pos _ a1
      refine ⟨b1, ?_, b5, by rw [hend.1 h]; exact b3, ?_, Or.inr ⟨h, b2⟩⟩
      · intro e; rw [e] at b3; omega
      · rintro ⟨-, e⟩; exact b4 e
    · rw [hN'.2 h] at hu ⊢
      obtain ⟨a1, a2, a3, a4⟩ := fN hu
      refine ⟨a1, a4, ?_, by rw [hend.2 h]; exact a3, fun hh => h hh.1, Or.inl a2⟩
      by_contra hf
      exact h (hmn.mpr ⟨hu, by simpa using hf⟩)
  have hsize : 0 < size' := by omega
  -- `P'` and `N'` survive the merge
  have L2l : P' ≠ Node.UNUSED → s'.isLive P' := by
    intro hu
    obtain ⟨a1, a2, a3, a4, a5, a6⟩ := L2 hu
    rw [hlive]
    refine ⟨a1, a5, ?_⟩
    rintro ⟨h1, h2⟩
    have := (fN (hmn.mp h1).1).2.2.1
    have hp := hc.pos _ a1
    rw [h2] at a4 hp
    omega
  have R2l : N' ≠ Node.UNUSED → s'.isLive N' := by
    intro hu
    obtain ⟨a1, a2, a3, a4, a5, a6⟩ := R2 hu
    rw [hlive]
    refine ⟨a1, ?_, a5⟩
    rintro ⟨h1, h2⟩
    obtain ⟨c1, c2, c3, c4⟩ := fP (hmp.mp h1).1
    have hp := hc.pos _ c1
    rw [h2] at a4
    omega
  -- ranges after the merge
  have hrange : ∀ i, s'.isLive i →
      (i = X ∧ (s'.nodeAt i).DataOffset = off' ∧ (s'.nodeAt i).DataSize = size') ∨
      (i ≠ X ∧ s.isLive i ∧ ¬ (mp ∧ i = P) ∧ ¬ (mn ∧ i = N) ∧
        (s'.nodeAt i).DataOffset = (s.nodeAt i).DataOffset ∧
        (s'.nodeAt i).DataSize = (s.nodeAt i).DataSize) := by
    intro i hi
    rw [hlive] at hi
    by_cases hiX : i = X
    · left; rw [hiX]; exact ⟨rfl, vX1, vX2⟩
    · right
      exact ⟨hiX, hi.1, hi.2.1, hi.2.2, (vo i hiX).1, (vo i hiX).2.1⟩
  -- nodes outside the merged range
  have houtside : ∀ j, s.isLive j → j ≠ X → ¬ (mp ∧ j = P) → ¬ (mn ∧ j = N) →
      off' + size' ≤ (s.nodeAt j).DataOffset ∨
      (s.nodeAt j).DataOffset + (s.nodeAt j).DataSize ≤ off' := by
    intro j hj hjX hjP hjN
    have d1 := hc.disjoint X j hXl hj (fun e => hjX e.symm)
    have hpj := hc.pos j hj
    by_cases h1 : mp
    · obtain ⟨c1, c2, c3, c4⟩ := fP (hmp.mp h1).1
      have d2 := hc.disjoint P j c1 hj (fun e => hjP ⟨h1, e.symm⟩)
      have e1 := hoff.1 h1
      by_cases h2 : mn
      · obtain ⟨g1, g2, g3, g4⟩ := fN (hmn.mp h2).1
        have d3 := hc.disjoint N j g1 hj (fun e => hjN ⟨h2, e.symm⟩)
        have e2 := hend.1 h2
        omega
      · have e2 := hend.2 h2
        omega
    · have e1 := hoff.2 h1
      by_cases h2 : mn
      · obtain ⟨g1, g2, g3, g4⟩ := fN (hmn.mp h2).1
        have d3 := hc.disjoint N j g1 hj (fun e => hjN ⟨h2, e.symm⟩)
        have e2 := hend.1 h2
        omega
      · have e2 := hend.2 h2
        omega
  constructor
  · -- pos
    intro i hi
    rcases hrange i hi with ⟨-, -, h2⟩ | ⟨-, hl, -, -, -, h2⟩
    · rw [h2]; exact hsize
    · rw [h2]; exact hc.pos i hl
  · -- bound
    intro i hi
    rw [hS]
    rcases hrange i hi with ⟨-, h1, h2⟩ | ⟨-, hl, -, -, h1, h2⟩
    · rw [h1, h2]
      by_cases h : mn
      · rw [hend.1 h]; exact hc.bound N (fN (hmn.mp h).1).1
      · rw [hend.2 h]; exact hc.bound X hXl
    · rw [h1, h2]; exact hc.bound i hl
  · -- next
    intro i hi
    rw [hS]
    by_cases hiX : i = X
    · rw [hiX, vX5, vX1, vX2]
      refine ⟨R1, fun hu => ?_⟩
      obtain ⟨a1, a2, a3, a4, a5, a6⟩ := R2 hu
      obtain ⟨w1, -, -, w4, -⟩ := vo N' a2
      rw [w1, w4]
      exact ⟨R2l hu, by simp [hu], a4⟩
    · obtain ⟨hil, hiP, hiN⟩ := (hlive i).mp hi
      obtain ⟨w1, w2, -, -, w5⟩ := vo i hiX
      rw [w1, w2, w5]
      simp only
      by_cases hiP' : i = P' ∧ P' ≠ Node.UNUSED
      · rw [if_pos hiP']
        refine ⟨fun h => absurd h hXU, fun _ => ?_⟩
        obtain ⟨a1, a2, a3, a4, a5, a6⟩ := L2 hiP'.2
        rw [vX4, vX1, hiP'.1]
        exact ⟨hXlive', rfl, a4.symm⟩
      · rw [if_neg hiP']
        obtain ⟨m1, m2⟩ := hc.next i hil
        refine ⟨m1, fun hu => ?_⟩
        obtain ⟨q1, q2, q3⟩ := m2 hu
        -- the next node of `i` is none of `X`, `P`, `N`
        have hmX : (s.nodeAt i).NeighborNext ≠ X := by
          intro e
          rw [e, hP] at q2
          by_cases h : mp
          · exact hiP ⟨h, q2.symm⟩
          · exact hiP' ⟨by rw [hP'.2 h]; exact q2.symm, by rw [hP'.2 h, q2]; exact hU i hil⟩
        have hmP : ¬ (mp ∧ (s.nodeAt i).NeighborNext = P) := by
          rintro ⟨h, e⟩
          rw [e] at q2
          exact hiP' ⟨by rw [hP'.1 h]; exact q2.symm, by rw [hP'.1 h, q2]; exact hU i hil⟩
        have hmN : ¬ (mn ∧ (s.nodeAt i).NeighborNext = N) := by
          rintro ⟨h, e⟩
          rw [e, (fN (hmn.mp h).1).2.1] at q2
          exact hiX q2.symm
        obtain ⟨y1, -, -, y4, -⟩ := vo _ hmX
        rw [hlive, y1, y4]
        simp only
        refine ⟨⟨q1, hmP, hmN⟩, ?_, q3⟩
        have : ¬ ((s.nodeAt i).NeighborNext = N' ∧ N' ≠ Node.UNUSED) := by
          rintro ⟨e, hu'⟩
          obtain ⟨a1, a2, a3, a4, a5, a6⟩ := R2 hu'
          rw [← e, q2] at a6
          rcases a6 with a6 | ⟨h, a6⟩
          · exact hiX a6
          · exact hiN ⟨h, a6⟩
        rw [if_neg this]
        exact q2
  · -- prev
    intro i hi
    by_cases hiX : i = X
    · rw [hiX, vX4, vX1]
      refine ⟨L1, fun hu => ?_⟩
      obtain ⟨a1, a2, a3, a4, a5, a6⟩ := L2 hu
      obtain ⟨-, -, -, -, w5⟩ := vo P' a2
      rw [w5]
      exact ⟨L2l hu, by simp [hu]⟩
    · obtain ⟨hil, hiP, hiN⟩ := (hlive i).mp hi
      obtain ⟨w1, -, -, w4, -⟩ := vo i hiX
      rw [w1, w4]
      simp only
      by_cases hiN' : i = N' ∧ N' ≠ Node.UNUSED
      · rw [if_pos hiN']
        refine ⟨fun h => absurd h hXU, fun _ => ?_⟩
        rw [vX5, hiN'.1]
        exact ⟨hXlive', rfl⟩
      · rw [if_neg hiN']
        obtain ⟨m1, m2⟩ := hc.prev i hil
        refine ⟨m1, fun hu => ?_⟩
        obtain ⟨q1, q2⟩ := m2 hu
        have hqX : (s.nodeAt i).NeighborPrev ≠ X := by
          intro e
          rw [e, hN] at q2
          by_cases h : mn
          · exact hiN ⟨h, q2.symm⟩
          · exact hiN' ⟨by rw [hN'.2 h]; exact q2.symm, by rw [hN'.2 h, q2]; exact hU i hil⟩
        have hqP : ¬ (mp ∧ (s.nodeAt i).NeighborPrev = P) := by
          rintro ⟨h, e⟩
          rw [e, (fP (hmp.mp h).1).2.1] at q2
          exact hiX q2.symm
        have hqN : ¬ (mn ∧ (s.nodeAt i).NeighborPrev = N) := by
          rintro ⟨h, e⟩
          rw [e] at q2
          exact hiN' ⟨by rw [hN'.1 h]; exact q2.symm, by rw [hN'.1 h, q2]; exact hU i hil⟩
        obtain ⟨-, -, -, -, y5⟩ := vo _ hqX
        rw [hlive, y5]
        simp only
        refine ⟨⟨q1, hqP, hqN⟩, ?_⟩
        have : ¬ ((s.nodeAt i).NeighborPrev = P' ∧ P' ≠ Node.UNUSED) := by
          rintro ⟨e, hu'⟩
          obtain ⟨a1, a2, a3, a4, a5, a6⟩ := L2 hu'
          rw [← e, q2] at a6
          rcases a6 with a6 | ⟨h, a6⟩
          · exact hiX a6
          · exact hiP ⟨h, a6⟩
        rw [if_neg this]
        exact q2
  · -- noAdj
    intro i hi hf hn
    by_cases hiX : i = X
    · rw [hiX, vX5] at hn ⊢
      obtain ⟨a1, a2, a3, a4, a5, a6⟩ := R2 hn
      rw [(vo N' a2).2.2.1]
      exact a3
    · obtain ⟨hil, hiP, hiN⟩ := (hlive i).mp hi
      obtain ⟨-, -, w3, -, w5⟩ := vo i hiX
      rw [w3] at hf
      rw [w5] at hn ⊢
      simp only at hf hn ⊢
      by_cases hiP' : i = P' ∧ P' ≠ Node.UNUSED
      · obtain ⟨a1, a2, a3, a4, a5, a6⟩ := L2 hiP'.2
        rw [← hiP'.1, hf] at a3
        cases a3
      · rw [if_neg hiP'] at hn ⊢
        have hused := hc.noAdj i hil hf hn
        obtain ⟨q1, q2, q3⟩ := (hc.next i hil).2 hn
        have hmX : (s.nodeAt i).NeighborNext ≠ X := by
          intro e
          rw [e, hP] at q2
          by_cases h : mp
          · exact hiP ⟨h, q2.symm⟩
          · exact hiP' ⟨by rw [hP'.2 h]; exact q2.symm, by rw [hP'.2 h, q2]; exact hU i hil⟩
        rw [(vo _ hmX).2.2.1]
        exact hused
  · -- disjoint
    intro i j hi hj hij
    rcases hrange i hi with ⟨a0, a1, a2⟩ | ⟨a0, al, aP, aN, a1, a2⟩ <;>
    rcases hrange j hj with ⟨b0, b1, b2⟩ | ⟨b0, bl, bP, bN, b1, b2⟩ <;>
    rw [a1, a2, b1, b2]
    · exact absurd (a0.trans b0.symm) hij
    · exact houtside j bl b0 bP bN
    · exact (houtside i al a0 aP aN).symm
    · exact hc.disjoint i j al bl hij
  · -- cover
    intro x hx
    rw [hS] at hx
    by_cases hin : off' ≤ x ∧ x < off' + size'
    · exact ⟨X, hXlive', by rw [vX1]; exact hin.1, by rw [vX1, vX2]; exact hin.2⟩
    · obtain ⟨i, h1, h2, h3⟩ := hc.cover x hx
      have hiX : i ≠ X := by
        intro e; rw [e] at h2 h3; omega
      have hiP : ¬ (mp ∧ i = P) := by
        rintro ⟨h, e⟩
        obtain ⟨c1, c2, c3, c4⟩ := fP (hmp.mp h).1
        have := hoff.1 h
        rw [e] at h2 h3; omega
      have hiN : ¬ (mn ∧ i = N) := by
        rintro ⟨h, e⟩
        obtain ⟨c1, c2, c3, c4⟩ := fN (hmn.mp h).1
        have := hend.1 h
        rw [e] at h2 h3; omega
      obtain ⟨w1, w2, -, -, -⟩ := vo i hiX
      exact ⟨i, (hlive i).mpr ⟨h1, hiP, hiN⟩, by rw [w1]; exact h2, by rw [w1, w2]; exact h3⟩

end OffsetAllocator

namespace OffsetAllocator

/-! ## The bin search of `Alloc` -/

theorem leaf_lt_8 {x l : Nat} (hx : x < 256) (h : x.testBit l = true) : l < 8 := by
  by_contra hc
  rw [testBit_false_of_lt (n := 8) (by simpa using hx) (by omega)] at h
  cases h

/-- The outcome of the bin search in a state whose bitmaps are consistent with the bin
heads: either no bin at or above `FloatRoundUp size` has a node and `Alloc` fails, or
`Alloc` serves the request from the lowest such bin. -/
theorem Alloc_search_bits {s : OffsetAllocator} (hleaf : ∀ t, s.usedBinsAt t < 256)
    (htop32 : s.m_UsedBinsTop < 4294967296)
    (hlb : ∀ b, b < 256 →
      ((s.usedBinsAt (b >>> 3)).testBit (b &&& 7) = true ↔ s.binAt b ≠ Node.UNUSED))
    (htb : ∀ t, t < 32 → (s.m_UsedBinsTop.testBit t = true ↔ s.usedBinsAt t ≠ 0))
    {size : Nat} (hsz : size < 4294967296)
    (hg : ¬ (s.m_FreeOffset < 0 ∨ size = 0 ∨ size > s.GetFreeSize)) :
    (s.Alloc size = (s, { m_Offset := NO_SPACE, m_Size := 0, m_MetaData := NO_SPACE }) ∧
      ∀ b, b < 256 → FloatRoundUp size ≤ b → s.binAt b = Node.UNUSED) ∨
    (∃ t l, t < 32 ∧ l < 8 ∧ s.binAt (8 * t + l) ≠ Node.UNUSED ∧
      FloatRoundUp size ≤ 8 * t + l ∧
      (∀ b, b < 8 * t + l → FloatRoundUp size ≤ b → s.binAt b = Node.UNUSED) ∧
      s.Alloc size = s.AllocFromBin size t l) := by
  have hfru := FloatRoundUp_le hsz
  have hmt : FloatRoundUp size >>> 3 < 31 := by rw [shr_3]; omega
  have hml : FloatRoundUp size &&& 7 < 8 := by rw [and_7]; omega
  have hsplit : FloatRoundUp size = 8 * (FloatRoundUp size >>> 3) + (FloatRoundUp size &&& 7) := by
    rw [shr_3, and_7]; omega
  generalize hmT : FloatRoundUp size >>> 3 = mT at *
  generalize hmL : FloatRoundUp size &&& 7 = mL at *
  have hNS : NO_SPACE = 4294967295 := rfl
  have hUM : UINT32_MAX = 4294967295 := rfl
  -- a bin is empty when its leaf bit is clear
  have hempty : ∀ t l, t < 32 → l < 8 → (s.usedBinsAt t).testBit l = false →
      s.binAt (8 * t + l) = Node.UNUSED := by
    intro t l ht hl hbit
    by_contra hne
    have := (hlb (8 * t + l) (by omega)).mpr hne
    rw [(bin_top_leaf hl).1, (bin_top_leaf hl).2, hbit] at this
    cases this
  have hfull : ∀ t l, t < 32 → l < 8 → (s.usedBinsAt t).testBit l = true →
      s.binAt (8 * t + l) ≠ Node.UNUSED := by
    intro t l ht hl hbit
    have := (hlb (8 * t + l) (by omega)).mp
    rw [(bin_top_leaf hl).1, (bin_top_leaf hl).2] at this
    exact this hbit
  have hdecomp : ∀ b, b < 256 → b = 8 * (b / 8) + b % 8 ∧ b / 8 < 32 ∧ b % 8 < 8 := by
    intro b hb; omega
  -- the first scan, inside the top bin of the request
  have hfirst : (if s.m_UsedBinsTop &&& shl32 mT ≠ 0 then
        FindLowestSetBitAfter (s.usedBinsAt mT) mL else NO_SPACE) = NO_SPACE ∧
        (∀ l, mL ≤ l → (s.usedBinsAt mT).testBit l = false) ∨
      (∃ l, (if s.m_UsedBinsTop &&& shl32 mT ≠ 0 then
        FindLowestSetBitAfter (s.usedBinsAt mT) mL else NO_SPACE) = l ∧ l < 8 ∧ mL ≤ l ∧
        (s.usedBinsAt mT).testBit l = true ∧
        ∀ k, mL ≤ k → k < l → (s.usedBinsAt mT).testBit k = false) := by
    by_cases htop : s.m_UsedBinsTop &&& shl32 mT ≠ 0
    · rw [if_pos htop]
      rcases @FindLowestSetBitAfter_spec (s.usedBinsAt mT) mL
        (by have := hleaf mT; omega) (by omega) with ⟨h1, h2⟩ | ⟨h1, h2, h3, h4⟩
      · left; exact ⟨by rw [h1, hUM, hNS], h2⟩
      · right
        exact ⟨_, rfl, leaf_lt_8 (hleaf mT) h3, h2, h3, h4⟩
    · rw [if_neg htop]
      left
      refine ⟨rfl, ?_⟩
      intro l _
      have hz : s.usedBinsAt mT = 0 := by
        by_contra hne
        have := (htb mT (by omega)).mpr hne
        exact htop ((and_shl32_ne_zero _ (by omega)).mpr this)
      rw [hz]; exact Nat.zero_testBit l
  have hAdef : s.Alloc size =
      if (if s.m_UsedBinsTop &&& shl32 mT ≠ 0 then
          FindLowestSetBitAfter (s.usedBinsAt mT) mL else NO_SPACE) = NO_SPACE then
        if FindLowestSetBitAfter s.m_UsedBinsTop (add32 mT 1) = NO_SPACE then
          (s, { m_Offset := NO_SPACE, m_Size := 0, m_MetaData := NO_SPACE })
        else
          s.AllocFromBin size (FindLowestSetBitAfter s.m_UsedBinsTop (add32 mT 1))
            (CountZeroR (s.usedBinsAt (FindLowestSetBitAfter s.m_UsedBinsTop (add32 mT 1))))
      else
        s.AllocFromBin size mT
          (if s.m_UsedBinsTop &&& shl32 mT ≠ 0 then
            FindLowestSetBitAfter (s.usedBinsAt mT) mL else NO_SPACE) := by
    simp only [Alloc, hg, if_false, TOP_BINS_INDEX_SHIFT, LEAF_BINS_INDEX_MASK, hmT, hmL]
  rw [hAdef]
  have hadd : add32 mT 1 = mT + 1 := by unfold add32; omega
  rcases hfirst with ⟨hf1, hf2⟩ | ⟨l, hf1, hl8, hf3, hf4, hf5⟩
  · rw [if_pos hf1, hadd]
    rcases @FindLowestSetBitAfter_spec s.m_UsedBinsTop (mT + 1)
      htop32 (by omega) with ⟨h1, h2⟩ | ⟨h1, h2, h3, h4⟩
    · left
      rw [if_pos (by rw [h1, hUM, hNS])]
      refine ⟨rfl, ?_⟩
      intro b hb256 hge
      obtain ⟨e1, e2, e3⟩ := hdecomp b hb256
      rw [e1]
      apply hempty _ _ e2 e3
      by_cases htop : b / 8 = mT
      · rw [htop]; exact hf2 _ (by omega)
      · have hz : s.usedBinsAt (b / 8) = 0 := by
          by_contra hne
          have := (htb _ e2).mpr hne
          rw [h2 _ (by omega)] at this
          cases this
        rw [hz]; exact Nat.zero_testBit _
    · right
      rw [if_neg (by rw [hNS]; omega)]
      generalize hT : FindLowestSetBitAfter s.m_UsedBinsTop (mT + 1) = t at *
      have hne0 := (htb t h1).mp h3
      obtain ⟨c1, c2, c3⟩ := CountZeroR_spec hne0 (by have := hleaf t; omega)
      have hl8 := leaf_lt_8 (hleaf t) c1
      refine ⟨t, _, h1, hl8, hfull t _ h1 hl8 c1, by omega, ?_, rfl⟩
      intro b hblt hge
      obtain ⟨e1, e2, e3⟩ := hdecomp b (by omega)
      rw [e1]
      apply hempty _ _ e2 e3
      by_cases htop : b / 8 = mT
      · rw [htop]; exact hf2 _ (by omega)
      · by_cases htop2 : b / 8 = t
        · rw [htop2]; exact c3 _ (by omega)
        · have hz : s.usedBinsAt (b / 8) = 0 := by
            by_contra hne
            have := (htb _ e2).mpr hne
            rw [h4 _ (by omega) (by omega)] at this
            cases this
          rw [hz]; exact Nat.zero_testBit _
  · right
    rw [hf1, if_neg (by rw [hNS]; omega)]
    refine ⟨mT, l, by omega, hl8, hfull mT l (by omega) hl8 hf4, by omega, ?_, rfl⟩
    intro b hblt hge
    obtain ⟨e1, e2, e3⟩ := hdecomp b (by omega)
    rw [e1]
    apply hempty _ _ e2 e3
    have htop : b / 8 = mT := by omega
    rw [htop]; exact hf5 _ (by omega) (by omega)

/-- The outcome of the bin search: either no bin at or above `FloatRoundUp size` has a
node and `Alloc` fails, or `Alloc` serves the request from the lowest such bin. -/
theorem Alloc_search {s : OffsetAllocator} (hs : s.Shape) (hb : s.BinsOK) {size : Nat}
    (hsz : size < 4294967296)
    (hg : ¬ (s.m_FreeOffset < 0 ∨ size = 0 ∨ size > s.GetFreeSize)) :
    (s.Alloc size = (s, { m_Offset := NO_SPACE, m_Size := 0, m_MetaData := NO_SPACE }) ∧
      ∀ b, b < 256 → FloatRoundUp size ≤ b → s.binAt b = Node.UNUSED) ∨
    (∃ t l, t < 32 ∧ l < 8 ∧ s.binAt (8 * t + l) ≠ Node.UNUSED ∧
      FloatRoundUp size ≤ 8 * t + l ∧
      (∀ b, b < 8 * t + l → FloatRoundUp size ≤ b → s.binAt b = Node.UNUSED) ∧
      s.Alloc size = s.AllocFromBin size t l) :=
  Alloc_search_bits hs.leaf_lt hs.top_lt hb.leafBit hb.topBit hsz hg

end OffsetAllocator

namespace OffsetAllocator

/-! ## Linking neighbours -/

@[simp] theorem arenaLen_AllocLink (s : OffsetAllocator) (x r : Nat)  :
    (s.AllocLink x r).arenaLen = s.arenaLen := by
  simp only [AllocLink]
  split_ifs <;> simp

@[simp] theorem arenaLen_FreeLink (s : OffsetAllocator) (x n p : Nat)  :
    (s.FreeLink x n p).arenaLen = s.arenaLen := by
  simp only [FreeLink]
  split_ifs <;> simp

@[simp] theorem slotsLen_AllocLink (s : OffsetAllocator) (x r : Nat)  :
    (s.AllocLink x r).slotsLen = s.slotsLen := by
  simp only [AllocLink]
  split_ifs <;> simp

@[simp] theorem slotsLen_FreeLink (s : OffsetAllocator) (x n p : Nat)  :
    (s.FreeLink x n p).slotsLen = s.slotsLen := by
  simp only [FreeLink]
  split_ifs <;> simp

@[simp] theorem freeNodeAt_AllocLink (s : OffsetAllocator) (x r : Nat) (q : Int) :
    (s.AllocLink x r).freeNodeAt q = s.freeNodeAt q := by
  simp only [AllocLink]
  split_ifs <;> simp

@[simp] theorem freeNodeAt_FreeLink (s : OffsetAllocator) (x n p : Nat) (q : Int) :
    (s.FreeLink x n p).freeNodeAt q = s.freeNodeAt q := by
  simp only [FreeLink]
  split_ifs <;> simp

@[simp] theorem usedBinsAt_AllocLink (s : OffsetAllocator) (x r : Nat) (u : Nat) :
    (s.AllocLink x r).usedBinsAt u = s.usedBinsAt u := by
  simp only [AllocLink]
  split_ifs <;> simp

@[simp] theorem usedBinsAt_FreeLink (s : OffsetAllocator) (x n p : Nat) (u : Nat) :
    (s.FreeLink x n p).usedBinsAt u = s.usedBinsAt u := by
  simp only [FreeLink]
  split_ifs <;> simp

@[simp] theorem binAt_AllocLink (s : OffsetAllocator) (x r : Nat) (c : Nat) :
    (s.AllocLink x r).binAt c = s.binAt c := by
  simp only [AllocLink]
  split_ifs <;> simp

@[simp] theorem binAt_FreeLink (s : OffsetAllocator) (x n p : Nat) (c : Nat) :
    (s.FreeLink x n p).binAt c = s.binAt c := by
  simp only [FreeLink]
  split_ifs <;> simp

@[simp] theorem m_UsedBinsTop_AllocLink (s : OffsetAllocator) (x r : Nat)  :
    (s.AllocLink x r).m_UsedBinsTop = s.m_UsedBinsTop := by
  simp only [AllocLink]
  split_ifs <;> simp

@[simp] theorem m_UsedBinsTop_FreeLink (s : OffsetAllocator) (x n p : Nat)  :
    (s.FreeLink x n p).m_UsedBinsTop = s.m_UsedBinsTop := by
  simp only [FreeLink]
  split_ifs <;> simp

@[simp] theorem m_FreeOffset_AllocLink (s : OffsetAllocator) (x r : Nat)  :
    (s.AllocLink x r).m_FreeOffset = s.m_FreeOffset := by
  simp only [AllocLink]
  split_ifs <;> simp

@[simp] theorem m_FreeOffset_FreeLink (s : OffsetAllocator) (x n p : Nat)  :
    (s.FreeLink x n p).m_FreeOffset = s.m_FreeOffset := by
  simp only [FreeLink]
  split_ifs <;> simp

@[simp] theorem m_FreeStorage_AllocLink (s : OffsetAllocator) (x r : Nat)  :
    (s.AllocLink x r).m_FreeStorage = s.m_FreeStorage := by
  simp only [AllocLink]
  split_ifs <;> simp

@[simp] theorem m_FreeStorage_FreeLink (s : OffsetAllocator) (x n p : Nat)  :
    (s.FreeLink x n p).m_FreeStorage = s.m_FreeStorage := by
  simp only [FreeLink]
  split_ifs <;> simp

@[simp] theorem m_Size_AllocLink (s : OffsetAllocator) (x r : Nat)  :
    (s.AllocLink x r).m_Size = s.m_Size := by
  simp only [AllocLink]
  split_ifs <;> simp

@[simp] theorem m_Size_FreeLink (s : OffsetAllocator) (x n p : Nat)  :
    (s.FreeLink x n p).m_Size = s.m_Size := by
  simp only [FreeLink]
  split_ifs <;> simp

@[simp] theorem m_MaxAllocatableCount_AllocLink (s : OffsetAllocator) (x r : Nat)  :
    (s.AllocLink x r).m_MaxAllocatableCount = s.m_MaxAllocatableCount := by
  simp only [AllocLink]
  split_ifs <;> simp

@[simp] theorem m_MaxAllocatableCount_FreeLink (s : OffsetAllocator) (x n p : Nat)  :
    (s.FreeLink x n p).m_MaxAllocatableCount = s.m_MaxAllocatableCount := by
  simp only [FreeLink]
  split_ifs <;> simp

@[simp] theorem stack_AllocLink (s : OffsetAllocator) (x r : Nat)  :
    (s.AllocLink x r).stack = s.stack := by
  simp only [AllocLink]
  split_ifs <;> simp

@[simp] theorem stack_FreeLink (s : OffsetAllocator) (x n p : Nat)  :
    (s.FreeLink x n p).stack = s.stack := by
  simp only [FreeLink]
  split_ifs <;> simp

@[simp] theorem isLive_AllocLink (s : OffsetAllocator) (x r : Nat) (j : Nat) :
    (s.AllocLink x r).isLive j ↔ s.isLive j := by
  simp only [AllocLink]
  split_ifs <;> simp

@[simp] theorem isLive_FreeLink (s : OffsetAllocator) (x n p : Nat) (j : Nat) :
    (s.FreeLink x n p).isLive j ↔ s.isLive j := by
  simp only [FreeLink]
  split_ifs <;> simp

@[simp] theorem usedBinsLen_AllocLink (s : OffsetAllocator) (x r : Nat)  :
    (s.AllocLink x r).m_UsedBins.length = s.m_UsedBins.length := by
  simp only [AllocLink]
  split_ifs <;> simp

@[simp] theorem usedBinsLen_FreeLink (s : OffsetAllocator) (x n p : Nat)  :
    (s.FreeLink x n p).m_UsedBins.length = s.m_UsedBins.length := by
  simp only [FreeLink]
  split_ifs <;> simp

@[simp] theorem binsLen_AllocLink (s : OffsetAllocator) (x r : Nat)  :
    (s.AllocLink x r).m_BinIndices.length = s.m_BinIndices.length := by
  simp only [AllocLink]
  split_ifs <;> simp

@[simp] theorem binsLen_FreeLink (s : OffsetAllocator) (x n p : Nat)  :
    (s.FreeLink x n p).m_BinIndices.length = s.m_BinIndices.length := by
  simp only [FreeLink]
  split_ifs <;> simp

@[simp] theorem isNone_AllocLink (s : OffsetAllocator) (x r : Nat)  :
    (s.AllocLink x r).m_Nodes.isNone = s.m_Nodes.isNone := by
  simp only [AllocLink]
  split_ifs <;> simp

@[simp] theorem isNone_FreeLink (s : OffsetAllocator) (x n p : Nat)  :
    (s.FreeLink x n p).m_Nodes.isNone = s.m_Nodes.isNone := by
  simp only [FreeLink]
  split_ifs <;> simp

@[simp] theorem GetFreeSize_AllocLink (s : OffsetAllocator) (x r : Nat)  :
    (s.AllocLink x r).GetFreeSize = s.GetFreeSize := by
  simp only [AllocLink]
  split_ifs <;> simp

@[simp] theorem GetFreeSize_FreeLink (s : OffsetAllocator) (x n p : Nat)  :
    (s.FreeLink x n p).GetFreeSize = s.GetFreeSize := by
  simp only [FreeLink]
  split_ifs <;> simp

theorem AllocLink_nodeAt (t : OffsetAllocator) {X r : Nat} (hX : X < t.arenaLen)
    (hr : r < t.arenaLen) (hXr : X ≠ r)
    (hN : (t.nodeAt X).NeighborNext ≠ Node.UNUSED →
      (t.nodeAt X).NeighborNext < t.arenaLen ∧ (t.nodeAt X).NeighborNext ≠ X ∧
      (t.nodeAt X).NeighborNext ≠ r) (j : Nat) :
    (t.AllocLink X r).nodeAt j =
      { t.nodeAt j with
        NeighborPrev :=
          if j = r then X
          else if j = (t.nodeAt X).NeighborNext ∧ (t.nodeAt X).NeighborNext ≠ Node.UNUSED then r
          else (t.nodeAt j).NeighborPrev
        NeighborNext :=
          if j = r then (t.nodeAt X).NeighborNext
          else if j = X then r
          else (t.nodeAt j).NeighborNext } := by
  generalize hNd : (t.nodeAt X).NeighborNext = N at *
  have hrX := hXr.symm
  unfold AllocLink
  rw [hNd]
  by_cases hu : N = Node.UNUSED
  · by_cases h1 : j = r
    · rw [h1]; simp [hu, hX, hr, hXr, hrX, hNd]
    · by_cases h2 : j = X
      · rw [h2]; simp [hu, hX, hr, hXr, hrX, hNd]
      · simp [hu, hX, hr, hXr, hrX, hNd, h1, h2]
  · obtain ⟨n1, n2, n3⟩ := hN hu
    have n2' := n2.symm
    have n3' := n3.symm
    by_cases h1 : j = r
    · rw [h1]; simp [hu, hX, hr, hXr, hrX, hNd, n1, n2, n3, n2', n3']
    · by_cases h2 : j = X
      · rw [h2]; simp [hu, hX, hr, hXr, hrX, hNd, n1, n2, n3, n2', n3']
      · by_cases h3 : j = N
        · rw [h3]; simp [hu, hX, hr, hXr, hrX, hNd, n1, n2, n3, n2', n3']
        · simp [hu, hX, hr, hXr, hrX, hNd, n1, n2, n3, n2', n3', h1, h2, h3]

theorem FreeLink_nodeAt (t : OffsetAllocator) {X n p : Nat} (hX : X < t.arenaLen)
    (hn : n ≠ Node.UNUSED → n < t.arenaLen ∧ n ≠ X)
    (hp : p ≠ Node.UNUSED → p < t.arenaLen ∧ p ≠ X ∧ p ≠ n)
    (hXn : (t.nodeAt X).NeighborNext = Node.UNUSED)
    (hXp : (t.nodeAt X).NeighborPrev = Node.UNUSED) (j : Nat) :
    (t.FreeLink X n p).nodeAt j =
      { t.nodeAt j with
        NeighborPrev :=
          if j = X then p
          else if j = n ∧ n ≠ Node.UNUSED then X
          else (t.nodeAt j).NeighborPrev
        NeighborNext :=
          if j = X then n
          else if j = p ∧ p ≠ Node.UNUSED then X
          else (t.nodeAt j).NeighborNext } := by
  unfold FreeLink
  by_cases hnu : n = Node.UNUSED
  · by_cases hpu : p = Node.UNUSED
    · by_cases h1 : j = X
      · rw [h1]
        simp only [hnu, hpu, ne_eq, not_true_eq_false, if_false, and_false, if_true]
        cases hx : t.nodeAt X with
        | mk a b c d e f g =>
          rw [hx] at hXn hXp
          simp only at hXn hXp
          simp [hXn, hXp]
      · simp [hnu, hpu, h1]
    · obtain ⟨p1, p2, p3⟩ := hp hpu
      have p2' := p2.symm
      by_cases h1 : j = X
      · rw [h1]; simp [hnu, hpu, hXn, hXp, hX, p1, p2, p2']
      · by_cases h2 : j = p
        · rw [h2]; simp [hnu, hpu, hXn, hXp, hX, p1, p2, p2']
        · simp [hnu, hpu, hXn, hXp, hX, p1, p2, p2', h1, h2]
  · obtain ⟨n1, n2⟩ := hn hnu
    have n2' := n2.symm
    by_cases hpu : p = Node.UNUSED
    · by_cases h1 : j = X
      · rw [h1]; simp [hnu, hpu, hXn, hXp, hX, n1, n2, n2']
      · by_cases h2 : j = n
        · rw [h2]; simp [hnu, hpu, hXn, hXp, hX, n1, n2, n2']
        · simp [hnu, hpu, hXn, hXp, hX, n1, n2, n2', h1, h2]
    · obtain ⟨p1, p2, p3⟩ := hp hpu
      have p2' := p2.symm
      have p3' := p3.symm
      by_cases h1 : j = X
      · rw [h1]; simp [hnu, hpu, hXn, hXp, hX, n1, n2, n2', p1, p2, p2', p3, p3']
      · by_cases h2 : j = n
        · rw [h2]; simp [hnu, hpu, hXn, hXp, hX, n1, n2, n2', p1, p2, p2', p3, p3']
        · by_cases h3 : j = p
          · rw [h3]; simp [hnu, hpu, hXn, hXp, hX, n1, n2, n2', p1, p2, p2', p3, p3']
          · simp [hnu, hpu, hXn, hXp, hX, n1, n2, n2', p1, p2, p2', p3, p3', h1, h2, h3]

end OffsetAllocator

namespace OffsetAllocator

/-! ## Invariants only depend on what they read -/

theorem Shape_of_eq {s s' : OffsetAllocator} (hs : s.Shape)
    (h1 : s'.m_MaxAllocatableCount = s.m_MaxAllocatableCount) (h2 : s'.m_Size = s.m_Size)
    (h3 : s'.arenaLen = s.arenaLen) (h4 : s'.slotsLen = s.slotsLen)
    (h5 : s'.m_UsedBins.length = s.m_UsedBins.length)
    (h6 : s'.m_BinIndices.length = s.m_BinIndices.length)
    (h7 : s'.m_FreeOffset = s.m_FreeOffset) (h8 : s'.stack = s.stack)
    (h9 : s'.m_FreeStorage = s.m_FreeStorage) (h10 : s'.m_UsedBinsTop = s.m_UsedBinsTop)
    (h11 : ∀ u, s'.usedBinsAt u = s.usedBinsAt u) : s'.Shape := by
  refine ⟨?_, ?_, ?_, ?_, ?_, ?_, ?_, ?_, ?_, ?_, ?_, ?_, ?_⟩
  · rw [h1]; exact hs.count_lt
  · rw [h2]; exact hs.size_lt
  · rw [h3, h1]; exact hs.arena
  · rw [h4, h1]; exact hs.slots
  · rw [h5]; exact hs.usedBins_len
  · rw [h6]; exact hs.bins_len
  · rw [h7]; exact hs.off_lo
  · rw [h7, h1]; exact hs.off_hi
  · rw [h8]; exact hs.stack_nodup
  · rw [h8, h3]; exact hs.stack_lt
  · rw [h9]; exact hs.free_lt
  · rw [h10]; exact hs.top_lt
  · intro t; rw [h11]; exact hs.leaf_lt t

theorem BinsOK_of_same {s s' : OffsetAllocator} (hb : s.BinsOK)
    (hlive : ∀ j, s'.isLive j ↔ s.isLive j)
    (hn : ∀ j, SameBins (s'.nodeAt j) (s.nodeAt j))
    (hbin : ∀ c, s'.binAt c = s.binAt c)
    (hu : ∀ u, s'.usedBinsAt u = s.usedBinsAt u)
    (ht : s'.m_UsedBinsTop = s.m_UsedBinsTop) : s'.BinsOK := by
  have e1 : ∀ j, (s'.nodeAt j).DataSize = (s.nodeAt j).DataSize := fun j => (hn j).1
  have e2 : ∀ j, (s'.nodeAt j).Used = (s.nodeAt j).Used := fun j => (hn j).2.1
  have e3 : ∀ j, (s'.nodeAt j).BinListPrev = (s.nodeAt j).BinListPrev := fun j => (hn j).2.2.1
  have e4 : ∀ j, (s'.nodeAt j).BinListNext = (s.nodeAt j).BinListNext := fun j => (hn j).2.2.2
  constructor
  · intro i hi
    rw [e1]; exact hb.size_lt i ((hlive i).mp hi)
  · intro b hb256 hne
    simp only [hbin, e1, e2, e3, hlive] at hne ⊢
    exact hb.head b hb256 hne
  · intro i hi hf
    simp only [hbin, e1, e2, e3, e4, hlive] at hi hf ⊢
    exact hb.prev i hi hf
  · intro i hi hf hnx
    simp only [hbin, e1, e2, e3, e4, hlive] at hi hf hnx ⊢
    exact hb.next i hi hf hnx
  · intro b hb256
    rw [hu, hbin]; exact hb.leafBit b hb256
  · intro t ht32
    rw [ht, hu]; exact hb.topBit t ht32

theorem Shape_AllocLink {s : OffsetAllocator} (hs : s.Shape) (x r : Nat) :
    (s.AllocLink x r).Shape :=
  Shape_of_eq hs (by simp) (by simp) (by simp) (by simp) (by simp) (by simp) (by simp)
    (by simp) (by simp) (by simp) (by simp)

theorem Shape_FreeLink {s : OffsetAllocator} (hs : s.Shape) (x n p : Nat) :
    (s.FreeLink x n p).Shape :=
  Shape_of_eq hs (by simp) (by simp) (by simp) (by simp) (by simp) (by simp) (by simp)
    (by simp) (by simp) (by simp) (by simp)

theorem Shape_setNodeAt {s : OffsetAllocator} (hs : s.Shape) (i : Nat) (n : Node) :
    (s.setNodeAt i n).Shape :=
  Shape_of_eq hs (by simp) (by simp) (by simp) (by simp) (by simp) (by simp) (by simp)
    (by simp) (by simp) (by simp) (by simp)

end OffsetAllocator

namespace OffsetAllocator

/-! ## `Alloc` keeps the invariant -/

section
variable {s : OffsetAllocator} {t l size : Nat}

theorem AllocFromBin_eq (ht : t < 32) (hl : l < 8) :
    s.AllocFromBin size t l =
      (((s.AllocPop size t l).AllocSplit size (s.binAt (8 * t + l))
          (s.nodeAt (s.binAt (8 * t + l))).DataSize),
        { m_Offset := (((s.AllocPop size t l).AllocSplit size (s.binAt (8 * t + l))
            (s.nodeAt (s.binAt (8 * t + l))).DataSize).nodeAt (s.binAt (8 * t + l))).DataOffset,
          m_Size := (((s.AllocPop size t l).AllocSplit size (s.binAt (8 * t + l))
            (s.nodeAt (s.binAt (8 * t + l))).DataSize).nodeAt (s.binAt (8 * t + l))).DataSize,
          m_MetaData := s.binAt (8 * t + l) }) := by
  simp only [AllocFromBin, binIndex_eq ht hl]

/-- The node at the head of the selected bin is large enough for the request. -/
theorem served_size_le (hb : s.BinsOK) (ht : t < 32) (hl : l < 8)
    (hne : s.binAt (8 * t + l) ≠ Node.UNUSED) (hsz : size < 4294967296)
    (hfru : FloatRoundUp size ≤ 8 * t + l) :
    size ≤ (s.nodeAt (s.binAt (8 * t + l))).DataSize := by
  obtain ⟨h1, h2, h3, h4⟩ := hb.head _ (by omega) hne
  apply le_of_FloatRoundUp_le_FloatRoundDown hsz (hb.size_lt _ h1)
  rw [h3]; exact hfru

theorem AllocSplit_exact (s6 : OffsetAllocator) {X T : Nat} (h : T = size)
    (hT : T < 4294967296) : s6.AllocSplit size X T = s6 := by
  have : sub32 T size = 0 := by unfold sub32; omega
  simp [AllocSplit, this]

theorem AllocSplit_rem (s6 : OffsetAllocator) {X T : Nat} (h : size < T)
    (hT : T < 4294967296) :
    s6.AllocSplit size X T =
      (s6.InsertNode (T - size) (add32 (s6.nodeAt X).DataOffset size)).1.AllocLink X
        (s6.freeNodeAt s6.m_FreeOffset) := by
  have : sub32 T size = T - size := by unfold sub32; omega
  have hpos : T - size > 0 := by omega
  simp [AllocSplit, this, hpos]

/-- What `AllocPop` does to the chain fields. -/
theorem AllocPop_chain (hs : s.Shape) (hb : s.BinsOK) (ht : t < 32) (hl : l < 8)
    (hne : s.binAt (8 * t + l) ≠ Node.UNUSED) (j : Nat) :
    SameChain ((s.AllocPop size t l).nodeAt j)
      (if j = s.binAt (8 * t + l) then
        { s.nodeAt (s.binAt (8 * t + l)) with DataSize := size, Used := true }
      else s.nodeAt j) := by
  rw [AllocPop_nodeAt hs hb ht hl hne]
  by_cases h1 : j = s.binAt (8 * t + l)
  · rw [h1]; simp [SameChain]
  · simp only [h1, if_false]
    split_ifs <;> simp [SameChain]

end

end OffsetAllocator

namespace OffsetAllocator

theorem SameChain.rfl' (a : Node) : SameChain a a := ⟨rfl, rfl, rfl, rfl, rfl⟩

theorem SameChain.trans' {a b c : Node} (h1 : SameChain a b) (h2 : SameChain b c) :
    SameChain a c :=
  ⟨h1.1.trans h2.1, h1.2.1.trans h2.2.1, h1.2.2.1.trans h2.2.2.1,
    h1.2.2.2.1.trans h2.2.2.2.1, h1.2.2.2.2.trans h2.2.2.2.2⟩

/-- What `InsertNode` does to the chain fields. -/
theorem InsertNode_chain {s : OffsetAllocator} {size offset : Nat} (hs : s.Shape)
    (hb : s.BinsOK) (h0 : 0 ≤ s.m_FreeOffset) (hsz : size < 4294967296) (j : Nat) :
    SameChain ((s.InsertNode size offset).1.nodeAt j)
      (if j = s.freeNodeAt s.m_FreeOffset then
        { DataOffset := offset, DataSize := size } else s.nodeAt j) := by
  rw [InsertNode_nodeAt_inv hs hb h0 hsz]
  split_ifs <;> simp [SameChain, GenNode]

/-- What `InsertNode` does to the bin fields of the nodes that were there. -/
theorem AllocLink_bins (t : OffsetAllocator) {X r : Nat} (hX : X < t.arenaLen)
    (hr : r < t.arenaLen) (hXr : X ≠ r)
    (hN : (t.nodeAt X).NeighborNext ≠ Node.UNUSED →
      (t.nodeAt X).NeighborNext < t.arenaLen ∧ (t.nodeAt X).NeighborNext ≠ X ∧
      (t.nodeAt X).NeighborNext ≠ r) (j : Nat) :
    SameBins ((t.AllocLink X r).nodeAt j) (t.nodeAt j) := by
  rw [AllocLink_nodeAt t hX hr hXr hN]
  exact ⟨rfl, rfl, rfl, rfl⟩

section
variable {s : OffsetAllocator} {t l size : Nat}

/-- `Alloc` from a bin whose head has exactly the requested size. -/
theorem Alloc_exact_inv (hs : s.Shape) (hb : s.BinsOK) (hc : s.ChainOK)
    (ht : t < 32) (hl : l < 8) (hne : s.binAt (8 * t + l) ≠ Node.UNUSED)
    (hsz : size < 4294967296)
    (hT : (s.nodeAt (s.binAt (8 * t + l))).DataSize = size) :
    (s.AllocPop size t l).Shape ∧ (s.AllocPop size t l).BinsOK ∧
    (s.AllocPop size t l).ChainOK := by
  refine ⟨Shape_AllocPop hs ht hl hne hb size, BinsOK_AllocPop hs hb ht hl hne hsz, ?_⟩
  apply ChainOK_mark hc (X := s.binAt (8 * t + l)) (by simp) (by simp)
  intro j
  have := @AllocPop_chain _ _ _ size hs hb ht hl hne j
  by_cases h1 : j = s.binAt (8 * t + l)
  · rw [if_pos h1] at this ⊢
    obtain ⟨a, b, c, d, e⟩ := this
    exact ⟨a, by rw [b]; exact hT.symm, c, d, e⟩
  · rw [if_neg h1] at this ⊢
    exact this

/-- `Alloc` from a bin whose head is larger than the request: the state after the split. -/
theorem Alloc_split_inv (hs : s.Shape) (hb : s.BinsOK) (hc : s.ChainOK)
    (ht : t < 32) (hl : l < 8) (hne : s.binAt (8 * t + l) ≠ Node.UNUSED)
    (hoff : 0 ≤ s.m_FreeOffset) (h0 : 0 < size)
    (hT : size < (s.nodeAt (s.binAt (8 * t + l))).DataSize) :
    (((s.AllocPop size t l).InsertNode ((s.nodeAt (s.binAt (8 * t + l))).DataSize - size)
        (add32 ((s.AllocPop size t l).nodeAt (s.binAt (8 * t + l))).DataOffset size)).1.AllocLink
        (s.binAt (8 * t + l)) ((s.AllocPop size t l).freeNodeAt
          (s.AllocPop size t l).m_FreeOffset)).Shape ∧
    (((s.AllocPop size t l).InsertNode ((s.nodeAt (s.binAt (8 * t + l))).DataSize - size)
        (add32 ((s.AllocPop size t l).nodeAt (s.binAt (8 * t + l))).DataOffset size)).1.AllocLink
        (s.binAt (8 * t + l)) ((s.AllocPop size t l).freeNodeAt
          (s.AllocPop size t l).m_FreeOffset)).BinsOK ∧
    (((s.AllocPop size t l).InsertNode ((s.nodeAt (s.binAt (8 * t + l))).DataSize - size)
        (add32 ((s.AllocPop size t l).nodeAt (s.binAt (8 * t + l))).DataOffset size)).1.AllocLink
        (s.binAt (8 * t + l)) ((s.AllocPop size t l).freeNodeAt
          (s.AllocPop size t l).m_FreeOffset)).ChainOK ∧
    (∀ j, (((s.AllocPop size t l).InsertNode ((s.nodeAt (s.binAt (8 * t + l))).DataSize - size)
        (add32 ((s.AllocPop size t l).nodeAt (s.binAt (8 * t + l))).DataOffset size)).1.AllocLink
        (s.binAt (8 * t + l)) ((s.AllocPop size t l).freeNodeAt
          (s.AllocPop size t l).m_FreeOffset)).isLive j ↔
        s.isLive j ∨ j = s.freeNodeAt s.m_FreeOffset) ∧
    (∀ j, SameChain
      ((((s.AllocPop size t l).InsertNode ((s.nodeAt (s.binAt (8 * t + l))).DataSize - size)
        (add32 ((s.AllocPop size t l).nodeAt (s.binAt (8 * t + l))).DataOffset size)).1.AllocLink
        (s.binAt (8 * t + l)) ((s.AllocPop size t l).freeNodeAt
          (s.AllocPop size t l).m_FreeOffset)).nodeAt j)
      (if j = s.binAt (8 * t + l) then
        { s.nodeAt (s.binAt (8 * t + l)) with
          DataSize := size, Used := true, NeighborNext := s.freeNodeAt s.m_FreeOffset }
      else if j = s.freeNodeAt s.m_FreeOffset then
        { DataOffset := (s.nodeAt (s.binAt (8 * t + l))).DataOffset + size
          DataSize := (s.nodeAt (s.binAt (8 * t + l))).DataSize - size
          Used := false
          NeighborPrev := s.binAt (8 * t + l)
          NeighborNext := (s.nodeAt (s.binAt (8 * t + l))).NeighborNext }
      else
        { s.nodeAt j with
          NeighborPrev :=
            if j = (s.nodeAt (s.binAt (8 * t + l))).NeighborNext ∧
                (s.nodeAt (s.binAt (8 * t + l))).NeighborNext ≠ Node.UNUSED then
              s.freeNodeAt s.m_FreeOffset
            else (s.nodeAt j).NeighborPrev })) ∧
    (∀ c, (((s.AllocPop size t l).InsertNode ((s.nodeAt (s.binAt (8 * t + l))).DataSize - size)
        (add32 ((s.AllocPop size t l).nodeAt (s.binAt (8 * t + l))).DataOffset size)).1.AllocLink
        (s.binAt (8 * t + l)) ((s.AllocPop size t l).freeNodeAt
          (s.AllocPop size t l).m_FreeOffset)).binAt c =
      if c = FloatRoundDown ((s.nodeAt (s.binAt (8 * t + l))).DataSize - size) then
        s.freeNodeAt s.m_FreeOffset
      else if c = 8 * t + l then (s.nodeAt (s.binAt (8 * t + l))).BinListNext
      else s.binAt c) ∧
    (∀ j, j ≠ s.binAt (8 * t + l) → j ≠ s.freeNodeAt s.m_FreeOffset →
      ((((s.AllocPop size t l).InsertNode ((s.nodeAt (s.binAt (8 * t + l))).DataSize - size)
        (add32 ((s.AllocPop size t l).nodeAt (s.binAt (8 * t + l))).DataOffset size)).1.AllocLink
        (s.binAt (8 * t + l)) ((s.AllocPop size t l).freeNodeAt
          (s.AllocPop size t l).m_FreeOffset)).nodeAt j).BinListNext = (s.nodeAt j).BinListNext) ∧
    ((((s.AllocPop size t l).InsertNode ((s.nodeAt (s.binAt (8 * t + l))).DataSize - size)
        (add32 ((s.AllocPop size t l).nodeAt (s.binAt (8 * t + l))).DataOffset size)).1.AllocLink
        (s.binAt (8 * t + l)) ((s.AllocPop size t l).freeNodeAt
          (s.AllocPop size t l).m_FreeOffset)).nodeAt (s.freeNodeAt s.m_FreeOffset)).BinListNext =
      (if FloatRoundDown ((s.nodeAt (s.binAt (8 * t + l))).DataSize - size) = 8 * t + l then
        (s.nodeAt (s.binAt (8 * t + l))).BinListNext
      else s.binAt (FloatRoundDown ((s.nodeAt (s.binAt (8 * t + l))).DataSize - size))) ∧
    ((((s.AllocPop size t l).InsertNode ((s.nodeAt (s.binAt (8 * t + l))).DataSize - size)
        (add32 ((s.AllocPop size t l).nodeAt (s.binAt (8 * t + l))).DataOffset size)).1.AllocLink
        (s.binAt (8 * t + l)) ((s.AllocPop size t l).freeNodeAt
          (s.AllocPop size t l).m_FreeOffset)).nodeAt (s.freeNodeAt s.m_FreeOffset)).BinListPrev = Node.UNUSED ∧
    (((s.AllocPop size t l).InsertNode ((s.nodeAt (s.binAt (8 * t + l))).DataSize - size)
        (add32 ((s.AllocPop size t l).nodeAt (s.binAt (8 * t + l))).DataOffset size)).1.AllocLink
        (s.binAt (8 * t + l)) ((s.AllocPop size t l).freeNodeAt
          (s.AllocPop size t l).m_FreeOffset)).m_FreeStorage =
      add32 (sub32 s.m_FreeStorage (s.nodeAt (s.binAt (8 * t + l))).DataSize)
        ((s.nodeAt (s.binAt (8 * t + l))).DataSize - size) ∧
    (((s.AllocPop size t l).InsertNode ((s.nodeAt (s.binAt (8 * t + l))).DataSize - size)
        (add32 ((s.AllocPop size t l).nodeAt (s.binAt (8 * t + l))).DataOffset size)).1.AllocLink
        (s.binAt (8 * t + l)) ((s.AllocPop size t l).freeNodeAt
          (s.AllocPop size t l).m_FreeOffset)).m_FreeOffset = s.m_FreeOffset - 1 := by
  have hb256 : 8 * t + l < 256 := by omega
  obtain ⟨h1, h2, h3, h4⟩ := hb.head _ hb256 hne
  have hTlt := hb.size_lt _ h1
  have hs6 := Shape_AllocPop hs ht hl hne hb size
  have hb6 := @BinsOK_AllocPop _ hs hb _ _ ht hl hne size (by omega)
  have hp := @AllocPop_chain _ _ _ size hs hb ht hl hne
  have hrlt := top_lt_arenaLen hs hoff
  have hrd := top_not_isLive hs hoff
  have hXr : s.binAt (8 * t + l) ≠ s.freeNodeAt s.m_FreeOffset := by
    intro e; rw [e] at h1; exact hrd h1
  have hbd := hc.bound _ h1
  have hSlt := hs.size_lt
  have hadd : add32 (s.nodeAt (s.binAt (8 * t + l))).DataOffset size =
      (s.nodeAt (s.binAt (8 * t + l))).DataOffset + size := by
    unfold add32; omega
  have ho6 : ((s.AllocPop size t l).nodeAt (s.binAt (8 * t + l))).DataOffset =
      (s.nodeAt (s.binAt (8 * t + l))).DataOffset := by
    have := (hp (s.binAt (8 * t + l))).1
    simpa using this
  rw [ho6, hadd]
  have hlive6 : ∀ j, (s.AllocPop size t l).isLive j ↔ s.isLive j := fun j => by simp
  have htop6 : (s.AllocPop size t l).freeNodeAt (s.AllocPop size t l).m_FreeOffset =
      s.freeNodeAt s.m_FreeOffset := by simp
  have hoff6 : 0 ≤ (s.AllocPop size t l).m_FreeOffset := by simpa using hoff
  have hal6 : (s.AllocPop size t l).arenaLen = s.arenaLen := by simp
  have hS6 : (s.AllocPop size t l).m_Size = s.m_Size := by simp
  have hbin6 := AllocPop_binAt hs ht hl size
  have hnode6 := AllocPop_nodeAt hs hb ht hl hne size
  have hfs6 : (s.AllocPop size t l).m_FreeStorage =
      sub32 s.m_FreeStorage (s.nodeAt (s.binAt (8 * t + l))).DataSize := by
    rw [AllocPop_m_FreeStorage, binIndex_eq ht hl]
  have hfo6 : (s.AllocPop size t l).m_FreeOffset = s.m_FreeOffset := by simp
  rw [htop6]
  generalize s.AllocPop size t l = s6 at *
  generalize hX : s.binAt (8 * t + l) = X at *
  generalize hr : s.freeNodeAt s.m_FreeOffset = r at *
  generalize hrem : (s.nodeAt X).DataSize - size = rem at *
  -- after `InsertNode`
  have hsI := @Shape_InsertNode _ _ ((s.nodeAt X).DataOffset + size) hs6 hoff6
    (show rem < 4294967296 by omega)
  have hbI := @BinsOK_InsertNode _ _ ((s.nodeAt X).DataOffset + size) hs6 hb6 hoff6
    (show rem < 4294967296 by omega)
  have hcI := @InsertNode_chain _ _ ((s.nodeAt X).DataOffset + size) hs6 hb6 hoff6
    (show rem < 4294967296 by omega)
  have hliveI := @isLive_InsertNode _ rem ((s.nodeAt X).DataOffset + size)
    hs6 hoff6
  have halI : (s6.InsertNode rem ((s.nodeAt X).DataOffset + size)).1.arenaLen = s.arenaLen := by
    rw [InsertNode_arenaLen, hal6]
  have hSI : (s6.InsertNode rem ((s.nodeAt X).DataOffset + size)).1.m_Size = s.m_Size := by
    rw [InsertNode_m_Size, hS6]
  rw [htop6] at hcI hliveI
  have hbinI := @InsertNode_binAt_inv _ rem
    ((s.nodeAt X).DataOffset + size) hs6 (show rem < 4294967296 by omega)
  have hnodeI := @InsertNode_nodeAt_inv _ rem
    ((s.nodeAt X).DataOffset + size) hs6 hb6 hoff6 (show rem < 4294967296 by omega)
  have hfsI : (s6.InsertNode rem ((s.nodeAt X).DataOffset + size)).1.m_FreeStorage =
      add32 s6.m_FreeStorage rem := by simp
  have hfoI : (s6.InsertNode rem ((s.nodeAt X).DataOffset + size)).1.m_FreeOffset =
      s6.m_FreeOffset - 1 := by simp
  rw [htop6] at hbinI hnodeI
  generalize (s6.InsertNode rem ((s.nodeAt X).DataOffset + size)).1 = I at *
  -- the neighbour links of `X` did not change so far
  have hIX : SameChain (I.nodeAt X) { s.nodeAt X with DataSize := size, Used := true } := by
    have a := hcI X
    rw [if_neg hXr] at a
    have b := hp X
    rw [if_pos rfl] at b
    exact a.trans' b
  have hIo : ∀ j, j ≠ X → j ≠ r → SameChain (I.nodeAt j) (s.nodeAt j) := by
    intro j j1 j2
    have a := hcI j
    rw [if_neg j2] at a
    have b := hp j
    rw [if_neg j1] at b
    exact a.trans' b
  have hIr : SameChain (I.nodeAt r)
      { DataOffset := (s.nodeAt X).DataOffset + size, DataSize := rem } := by
    have a := hcI r
    rw [if_pos rfl] at a
    exact a
  have hNcond : (I.nodeAt X).NeighborNext ≠ Node.UNUSED →
      (I.nodeAt X).NeighborNext < I.arenaLen ∧ (I.nodeAt X).NeighborNext ≠ X ∧
      (I.nodeAt X).NeighborNext ≠ r := by
    rw [hIX.2.2.2.2, halI]
    intro hu
    obtain ⟨q1, q2, q3⟩ := (hc.next _ h1).2 hu
    refine ⟨q1.1, ?_, ?_⟩
    · intro e
      have := hc.pos _ h1
      rw [e] at q3; omega
    · intro e; rw [e] at q1; exact hrd q1
  have hlink := AllocLink_nodeAt I (X := X) (r := r) (by rw [halI]; exact h1.1)
    (by rw [halI]; exact hrlt) hXr hNcond
  have hNI : (I.nodeAt X).NeighborNext = (s.nodeAt X).NeighborNext := hIX.2.2.2.2
  have hview : ∀ j, SameChain ((I.AllocLink X r).nodeAt j)
      (if j = X then
        { s.nodeAt X with DataSize := size, Used := true, NeighborNext := r }
      else if j = r then
        { DataOffset := (s.nodeAt X).DataOffset + size
          DataSize := rem
          Used := false
          NeighborPrev := X
          NeighborNext := (s.nodeAt X).NeighborNext }
      else
        { s.nodeAt j with
          NeighborPrev :=
            if j = (s.nodeAt X).NeighborNext ∧ (s.nodeAt X).NeighborNext ≠ Node.UNUSED then r
            else (s.nodeAt j).NeighborPrev }) := by
    intro j
    rw [hlink j, hNI]
    have hXN : ¬ (X = (s.nodeAt X).NeighborNext ∧ (s.nodeAt X).NeighborNext ≠ Node.UNUSED) := by
      rintro ⟨e, hu⟩
      rw [hNI] at hNcond
      exact (hNcond hu).2.1 e.symm
    by_cases j1 : j = X
    · rw [j1]
      obtain ⟨a1, a2, a3, a4, a5⟩ := hIX
      simp only at a1 a2 a3 a4 a5
      simp only [SameChain, if_true, hXr, if_false, hXN, a1, a2, a3, a4, and_self]
    · by_cases j2 : j = r
      · rw [j2]
        obtain ⟨a1, a2, a3, a4, a5⟩ := hIr
        simp only at a1 a2 a3 a4 a5
        simp only [SameChain, if_true, hXr.symm, if_false, a1, a2, a3, and_self]
      · obtain ⟨a1, a2, a3, a4, a5⟩ := hIo j j1 j2
        simp only [SameChain, j1, j2, if_false, a1, a2, a3, a4, a5, and_self]
  have hbinsL := AllocLink_bins I (X := X) (r := r) (by rw [halI]; exact h1.1)
    (by rw [halI]; exact hrlt) hXr hNcond
  refine ⟨Shape_AllocLink hsI X r, ?_, ?_, ?_, hview, ?_, ?_, ?_, ?_, ?_, ?_⟩
  · exact BinsOK_of_same hbI (by simp) (AllocLink_bins I (by rw [halI]; exact h1.1)
      (by rw [halI]; exact hrlt) hXr hNcond) (by simp) (by simp) (by simp)
  · apply ChainOK_split hc (fun j hj => hj.ne_UNUSED hs) h1 h2 hrd
      (ne_UNUSED_of_lt hs hrlt) h0 hT (by rw [m_Size_AllocLink, hSI])
      (by intro j; rw [isLive_AllocLink, hliveI, hlive6])
    rw [hrem]
    exact hview
  · intro j
    rw [isLive_AllocLink, hliveI, hlive6]
  · intro c
    rw [binAt_AllocLink, hbinI, hbin6]
  · intro j j1 j2
    rw [(hbinsL j).2.2.2, hnodeI, if_neg j2]
    have e6 := hnode6 j
    rw [if_neg j1] at e6
    split_ifs <;> rw [e6] <;> split_ifs <;> rfl
  · rw [(hbinsL r).2.2.2, hnodeI, if_pos rfl, hbin6]
    rfl
  · rw [(hbinsL r).2.2.1, hnodeI, if_pos rfl]
    rfl
  · rw [m_FreeStorage_AllocLink, hfsI, hfs6]
  · rw [m_FreeOffset_AllocLink, hfoI, hfo6]

end

end OffsetAllocator

namespace OffsetAllocator

section
variable {s : OffsetAllocator} {t l size : Nat}

/-- The state and the handle after a successful bin search. -/
theorem AllocFromBin_inv (hs : s.Shape) (hb : s.BinsOK) (hc : s.ChainOK)
    (ht : t < 32) (hl : l < 8) (hne : s.binAt (8 * t + l) ≠ Node.UNUSED)
    (hsz : size < 4294967296) (h0 : 0 < size) (hfru : FloatRoundUp size ≤ 8 * t + l)
    (hoff : 0 ≤ s.m_FreeOffset) :
    (s.AllocFromBin size t l).1.Shape ∧ (s.AllocFromBin size t l).1.BinsOK ∧
    (s.AllocFromBin size t l).1.ChainOK ∧
    (s.AllocFromBin size t l).2 =
      { m_Offset := (s.nodeAt (s.binAt (8 * t + l))).DataOffset, m_Size := size,
        m_MetaData := s.binAt (8 * t + l) } ∧
    (s.AllocFromBin size t l).1.isLive (s.binAt (8 * t + l)) ∧
    ((s.AllocFromBin size t l).1.nodeAt (s.binAt (8 * t + l))).Used = true ∧
    ((s.AllocFromBin size t l).1.nodeAt (s.binAt (8 * t + l))).DataOffset =
      (s.nodeAt (s.binAt (8 * t + l))).DataOffset ∧
    ((s.AllocFromBin size t l).1.nodeAt (s.binAt (8 * t + l))).DataSize = size ∧
    (∀ j, s.isLive j → j ≠ s.binAt (8 * t + l) →
      (s.AllocFromBin size t l).1.isLive j ∧
      ((s.AllocFromBin size t l).1.nodeAt j).Used = (s.nodeAt j).Used ∧
      ((s.AllocFromBin size t l).1.nodeAt j).DataOffset = (s.nodeAt j).DataOffset ∧
      ((s.AllocFromBin size t l).1.nodeAt j).DataSize = (s.nodeAt j).DataSize) := by
  have hb256 : 8 * t + l < 256 := by omega
  obtain ⟨h1, h2, h3, h4⟩ := hb.head _ hb256 hne
  have hTlt := hb.size_lt _ h1
  have hle := served_size_le hb ht hl hne hsz hfru
  rw [AllocFromBin_eq ht hl]
  simp only
  by_cases hT : (s.nodeAt (s.binAt (8 * t + l))).DataSize = size
  · rw [AllocSplit_exact _ hT hTlt]
    obtain ⟨r1, r2, r3⟩ := Alloc_exact_inv hs hb hc ht hl hne hsz hT
    have hp := @AllocPop_chain _ _ _ size hs hb ht hl hne
    have hX := hp (s.binAt (8 * t + l))
    rw [if_pos rfl] at hX
    obtain ⟨x1, x2, x3, x4, x5⟩ := hX
    simp only at x1 x2 x3 x4 x5
    refine ⟨r1, r2, r3, ?_, by simpa using h1, x3, x1, x2, ?_⟩
    · rw [x1, x2]
    · intro j hj hjX
      have hj' := hp j
      rw [if_neg hjX] at hj'
      exact ⟨by simpa using hj, hj'.2.2.1, hj'.1, hj'.2.1⟩
  · have hlt : size < (s.nodeAt (s.binAt (8 * t + l))).DataSize := by omega
    rw [AllocSplit_rem _ hlt hTlt]
    obtain ⟨r1, r2, r3, r4, r5, -⟩ := Alloc_split_inv hs hb hc ht hl hne hoff h0 hlt
    have hrd := top_not_isLive hs hoff
    have hX := r5 (s.binAt (8 * t + l))
    rw [if_pos rfl] at hX
    obtain ⟨x1, x2, x3, x4, x5⟩ := hX
    simp only at x1 x2 x3 x4 x5
    refine ⟨r1, r2, r3, ?_, (r4 _).mpr (Or.inl h1), x3, x1, x2, ?_⟩
    · rw [x1, x2]
    · intro j hj hjX
      have hjr : j ≠ s.freeNodeAt s.m_FreeOffset := by
        intro e; rw [e] at hj; exact hrd hj
      have hj' := r5 j
      rw [if_neg hjX, if_neg hjr] at hj'
      exact ⟨(r4 _).mpr (Or.inl hj), hj'.2.2.1, hj'.1, hj'.2.1⟩

end

theorem invalid_not_valid :
    OffsetHandle.IsValid { m_Offset := NO_SPACE, m_Size := 0, m_MetaData := NO_SPACE } = false := by
  decide

/-- `Alloc` keeps the invariant; a valid handle it returns joins the held handles. -/
theorem Inv_Alloc {s : OffsetAllocator} {L : List OffsetHandle} (hinv : s.Inv L) {size : Nat}
    (hsz : size < 4294967296) :
    (s.Alloc size).1.Inv
      (if (s.Alloc size).2.IsValid = true then (s.Alloc size).2 :: L else L) := by
  obtain ⟨hs, hb, hc, hh⟩ := hinv
  by_cases hg : s.m_FreeOffset < 0 ∨ size = 0 ∨ size > s.GetFreeSize
  · have : s.Alloc size = (s, { m_Offset := NO_SPACE, m_Size := 0, m_MetaData := NO_SPACE }) := by
      simp [Alloc, hg]
    rw [this]
    simp only [invalid_not_valid, Bool.false_eq_true, if_false]
    exact ⟨hs, hb, hc, hh⟩
  · rcases Alloc_search hs hb hsz hg with ⟨h1, -⟩ | ⟨t, l, ht, hl, hne, hfru, -, hA⟩
    · rw [h1]
      simp only [invalid_not_valid, Bool.false_eq_true, if_false]
      exact ⟨hs, hb, hc, hh⟩
    · rw [hA]
      have h0 : 0 < size := by
        rcases Nat.eq_zero_or_pos size with h | h
        · exact absurd (Or.inr (Or.inl h)) hg
        · exact h
      have hoff : 0 ≤ s.m_FreeOffset := by
        by_contra hc'
        exact hg (Or.inl (by omega))
      obtain ⟨r1, r2, r3, r4, r5, r6, r7, r8, r9⟩ :=
        AllocFromBin_inv hs hb hc ht hl hne hsz h0 hfru hoff
      obtain ⟨h1, h2, h3, h4⟩ := hb.head _ (by omega) hne
      have hXU := h1.ne_UNUSED hs
      have hbd := hc.bound _ h1
      have hps := hc.pos _ h1
      have hSlt := hs.size_lt
      have hvalid : (s.AllocFromBin size t l).2.IsValid = true := by
        rw [r4]
        unfold OffsetHandle.IsValid NO_SPACE OffsetHandle.INVALID_OFFSET
        unfold Node.UNUSED at hXU
        simp only [bne_iff_ne, ne_eq, Bool.and_eq_true]
        exact ⟨by omega, hXU⟩
      rw [if_pos hvalid]
      refine ⟨r1, r2, r3, ?_, ?_⟩
      · intro h hmem
        rcases List.mem_cons.mp hmem with e | hmem
        · rw [e]
          refine ⟨hvalid, ?_⟩
          rw [r4]
          exact ⟨r5, r6, r7, r8⟩
        · obtain ⟨a1, a2, a3, a4, a5⟩ := hh.node h hmem
          have hne' : h.m_MetaData ≠ s.binAt (8 * t + l) := by
            intro e
            rw [e, h2] at a3
            cases a3
          obtain ⟨b1, b2, b3, b4⟩ := r9 _ a2 hne'
          exact ⟨a1, b1, by rw [b2]; exact a3, by rw [b3]; exact a4, by rw [b4]; exact a5⟩
      · rw [List.pairwise_cons]
        refine ⟨?_, hh.distinct⟩
        intro h hmem
        rw [r4]
        obtain ⟨a1, a2, a3, a4, a5⟩ := hh.node h hmem
        intro e
        simp only at e
        rw [← e, h2] at a3
        cases a3

end OffsetAllocator

namespace OffsetAllocator

/-! ## `Free` keeps the invariant -/

/-- What `RemoveNode` does to the chain fields: nothing. -/
theorem RemoveNode_chain {s : OffsetAllocator} (hb : s.BinsOK) {i : Nat} (hl : s.isLive i)
    (hf : (s.nodeAt i).Used = false) (j : Nat) :
    SameChain ((s.RemoveNode i).nodeAt j) (s.nodeAt j) := by
  rw [nodeAt_RemoveNode, RemoveNodeUnlink_nodeAt hb hl hf]
  exact ⟨rfl, rfl, rfl, rfl, rfl⟩

/-- Removing a free node and then rewriting a neighbour link of a used node. -/
theorem RemoveNode_relink {s : OffsetAllocator} (hs : s.Shape) (hb : s.BinsOK) {i X : Nat}
    (hl : s.isLive i) (hf : (s.nodeAt i).Used = false) (hXl : s.isLive X) (n' : Node)
    (hn' : SameBins n' ((s.RemoveNode i).nodeAt X)) :
    ((s.RemoveNode i).setNodeAt X n').Shape ∧ ((s.RemoveNode i).setNodeAt X n').BinsOK ∧
    (∀ j, ((s.RemoveNode i).setNodeAt X n').isLive j ↔ s.isLive j ∧ j ≠ i) ∧
    (∀ j, ((s.RemoveNode i).setNodeAt X n').nodeAt j =
      if j = X then n' else (s.RemoveNode i).nodeAt j) := by
  have hs1 := Shape_RemoveNode hs hb hl hf
  have hb1 := BinsOK_RemoveNode hs hb hl hf
  have hnode : ∀ j, ((s.RemoveNode i).setNodeAt X n').nodeAt j =
      if j = X then n' else (s.RemoveNode i).nodeAt j := by
    intro j
    rw [nodeAt_setNodeAt, arenaLen_RemoveNode]
    simp [hXl.1]
  refine ⟨Shape_setNodeAt hs1 _ _, ?_, ?_, hnode⟩
  · apply BinsOK_of_same hb1 (by simp) _ (by simp) (by simp) (by simp)
    intro j
    rw [hnode]
    split_ifs with h
    · rw [h]; exact hn'
    · exact ⟨rfl, rfl, rfl, rfl⟩
  · intro j
    rw [isLive_setNodeAt, isLive_RemoveNode hs hl]

/-- The first merge of `Free`. -/
theorem FreeMergePrev_spec {s : OffsetAllocator} (hs : s.Shape) (hb : s.BinsOK) {X : Nat}
    (hXl : s.isLive X)
    (hP : (s.nodeAt X).NeighborPrev ≠ Node.UNUSED → s.isLive (s.nodeAt X).NeighborPrev)
    (o sz : Nat) :
    (s.FreeMergePrev X o sz).1.Shape ∧ (s.FreeMergePrev X o sz).1.BinsOK ∧
    (∀ j, (s.FreeMergePrev X o sz).1.isLive j ↔ s.isLive j ∧
      ¬ (((s.nodeAt X).NeighborPrev ≠ Node.UNUSED ∧
          (s.nodeAt (s.nodeAt X).NeighborPrev).Used = false) ∧ j = (s.nodeAt X).NeighborPrev)) ∧
    (∀ j, SameChain ((s.FreeMergePrev X o sz).1.nodeAt j)
      { s.nodeAt j with
        NeighborPrev :=
          if j = X ∧ ((s.nodeAt X).NeighborPrev ≠ Node.UNUSED ∧
              (s.nodeAt (s.nodeAt X).NeighborPrev).Used = false) then
            (s.nodeAt (s.nodeAt X).NeighborPrev).NeighborPrev
          else (s.nodeAt j).NeighborPrev }) ∧
    (s.FreeMergePrev X o sz).2.1 =
      (if (s.nodeAt X).NeighborPrev ≠ Node.UNUSED ∧
          (s.nodeAt (s.nodeAt X).NeighborPrev).Used = false then
        (s.nodeAt (s.nodeAt X).NeighborPrev).DataOffset else o) ∧
    (s.FreeMergePrev X o sz).2.2 =
      (if (s.nodeAt X).NeighborPrev ≠ Node.UNUSED ∧
          (s.nodeAt (s.nodeAt X).NeighborPrev).Used = false then
        add32 sz (s.nodeAt (s.nodeAt X).NeighborPrev).DataSize else sz) ∧
    (s.FreeMergePrev X o sz).1.m_Size = s.m_Size ∧
    (s.FreeMergePrev X o sz).1.m_FreeStorage =
      (if (s.nodeAt X).NeighborPrev ≠ Node.UNUSED ∧
          (s.nodeAt (s.nodeAt X).NeighborPrev).Used = false then
        sub32 s.m_FreeStorage (s.nodeAt (s.nodeAt X).NeighborPrev).DataSize
      else s.m_FreeStorage) := by
  by_cases hmp : (s.nodeAt X).NeighborPrev ≠ Node.UNUSED ∧
      (s.nodeAt (s.nodeAt X).NeighborPrev).Used = false
  · have hPl := hP hmp.1
    have hch := RemoveNode_chain hb hPl hmp.2
    obtain ⟨r1, r2, r3, r4⟩ := RemoveNode_relink hs hb hPl hmp.2 hXl
      { (s.RemoveNode (s.nodeAt X).NeighborPrev).nodeAt X with
        NeighborPrev :=
          ((s.RemoveNode (s.nodeAt X).NeighborPrev).nodeAt (s.nodeAt X).NeighborPrev).NeighborPrev }
      ⟨rfl, rfl, rfl, rfl⟩
    have hfs := RemoveNode_m_FreeStorage hb hPl hmp.2
    simp only [FreeMergePrev, hmp, and_self, if_true, true_and, ne_eq, not_false_eq_true]
    simp only [ne_eq, not_false_eq_true] at r1 r2 r3 r4
    refine ⟨r1, r2, ?_, ?_, by simp, by simp [hfs]⟩
    · intro j; rw [r3]
    · intro j
      rw [r4]
      by_cases hj : j = X
      · rw [hj]
        simp only [if_true, and_self]
        obtain ⟨a1, a2, a3, a4, a5⟩ := hch X
        exact ⟨a1, a2, a3, (hch _).2.2.2.1, a5⟩
      · simp only [hj, if_false, false_and]
        exact hch j
  · have he : s.FreeMergePrev X o sz = (s, o, sz) := by
      simp only [FreeMergePrev, hmp, if_false]
    rw [he]
    refine ⟨hs, hb, fun j => ?_, fun j => ?_, ?_, ?_, rfl, ?_⟩
    · simp only [hmp, false_and, not_false_eq_true, and_true]
    · simp only [hmp, and_false, if_false]
      exact ⟨rfl, rfl, rfl, rfl, rfl⟩
    · simp only [hmp, if_false]
    · simp only [hmp, if_false]
    · simp only [hmp, if_false]

/-- The second merge of `Free`. -/
theorem FreeMergeNext_spec {s : OffsetAllocator} (hs : s.Shape) (hb : s.BinsOK) {X : Nat}
    (hXl : s.isLive X)
    (hN : (s.nodeAt X).NeighborNext ≠ Node.UNUSED → s.isLive (s.nodeAt X).NeighborNext)
    (sz : Nat) :
    (s.FreeMergeNext X sz).1.Shape ∧ (s.FreeMergeNext X sz).1.BinsOK ∧
    (∀ j, (s.FreeMergeNext X sz).1.isLive j ↔ s.isLive j ∧
      ¬ (((s.nodeAt X).NeighborNext ≠ Node.UNUSED ∧
          (s.nodeAt (s.nodeAt X).NeighborNext).Used = false) ∧ j = (s.nodeAt X).NeighborNext)) ∧
    (∀ j, SameChain ((s.FreeMergeNext X sz).1.nodeAt j)
      { s.nodeAt j with
        NeighborNext :=
          if j = X ∧ ((s.nodeAt X).NeighborNext ≠ Node.UNUSED ∧
              (s.nodeAt (s.nodeAt X).NeighborNext).Used = false) then
            (s.nodeAt (s.nodeAt X).NeighborNext).NeighborNext
          else (s.nodeAt j).NeighborNext }) ∧
    (s.FreeMergeNext X sz).2 =
      (if (s.nodeAt X).NeighborNext ≠ Node.UNUSED ∧
          (s.nodeAt (s.nodeAt X).NeighborNext).Used = false then
        add32 sz (s.nodeAt (s.nodeAt X).NeighborNext).DataSize else sz) ∧
    (s.FreeMergeNext X sz).1.m_Size = s.m_Size ∧
    (s.FreeMergeNext X sz).1.m_FreeStorage =
      (if (s.nodeAt X).NeighborNext ≠ Node.UNUSED ∧
          (s.nodeAt (s.nodeAt X).NeighborNext).Used = false then
        sub32 s.m_FreeStorage (s.nodeAt (s.nodeAt X).NeighborNext).DataSize
      else s.m_FreeStorage) := by
  by_cases hmn : (s.nodeAt X).NeighborNext ≠ Node.UNUSED ∧
      (s.nodeAt (s.nodeAt X).NeighborNext).Used = false
  · have hNl := hN hmn.1
    have hch := RemoveNode_chain hb hNl hmn.2
    obtain ⟨r1, r2, r3, r4⟩ := RemoveNode_relink hs hb hNl hmn.2 hXl
      { (s.RemoveNode (s.nodeAt X).NeighborNext).nodeAt X with
        NeighborNext :=
          ((s.RemoveNode (s.nodeAt X).NeighborNext).nodeAt (s.nodeAt X).NeighborNext).NeighborNext }
      ⟨rfl, rfl, rfl, rfl⟩
    have hfs := RemoveNode_m_FreeStorage hb hNl hmn.2
    simp only [FreeMergeNext, hmn, and_self, if_true, true_and, ne_eq, not_false_eq_true]
    simp only [ne_eq, not_false_eq_true] at r1 r2 r3 r4
    refine ⟨r1, r2, ?_, ?_, by simp, by simp [hfs]⟩
    · intro j; rw [r3]
    · intro j
      rw [r4]
      by_cases hj : j = X
      · rw [hj]
        simp only [if_true, and_self]
        obtain ⟨a1, a2, a3, a4, a5⟩ := hch X
        exact ⟨a1, a2, a3, a4, (hch _).2.2.2.2⟩
      · simp only [hj, if_false, false_and]
        exact hch j
  · have he : s.FreeMergeNext X sz = (s, sz) := by
      simp only [FreeMergeNext, hmn, if_false]
    rw [he]
    refine ⟨hs, hb, fun j => ?_, fun j => ?_, ?_, rfl, ?_⟩
    · simp only [hmn, false_and, not_false_eq_true, and_true]
    · simp only [hmn, and_false, if_false]
      exact ⟨rfl, rfl, rfl, rfl, rfl⟩
    · simp only [hmn, if_false]
    · simp only [hmn, if_false]

end OffsetAllocator

namespace OffsetAllocator

/-- A member of the free list of bin `b` is a free node whose size belongs to bin `b`. -/
theorem InBin.facts {s : OffsetAllocator} (hb : s.BinsOK) {b i : Nat} (h256 : b < 256)
    (h : InBin s b i) :
    s.isLive i ∧ (s.nodeAt i).Used = false ∧ FloatRoundDown (s.nodeAt i).DataSize = b := by
  induction h with
  | head hne =>
    obtain ⟨a1, a2, a3, -⟩ := hb.head b h256 hne
    exact ⟨a1, a2, a3⟩
  | next hi hne ih =>
    obtain ⟨l, f, e⟩ := ih
    obtain ⟨a1, a2, -, a4⟩ := hb.next _ l f hne
    exact ⟨a1, a2, a4.trans e⟩

/-- Unlinking node `x` from its bin list keeps every other member in its list. -/
theorem InBin_remove {s t : OffsetAllocator} (hb : s.BinsOK) {x : Nat}
    (hbin : ∀ c, c < 256 → t.binAt c =
      if s.binAt c = x then (s.nodeAt x).BinListNext else s.binAt c)
    (hnext : ∀ j, s.isLive j → (s.nodeAt j).Used = false → j ≠ x →
      (t.nodeAt j).BinListNext =
        if (s.nodeAt j).BinListNext = x then (s.nodeAt x).BinListNext
        else (s.nodeAt j).BinListNext)
    {b i : Nat} (h256 : b < 256) (h : InBin s b i) :
    (i ≠ x → InBin t b i) ∧
    (i = x → (s.nodeAt x).BinListNext ≠ Node.UNUSED →
      InBin t b (s.nodeAt x).BinListNext) := by
  induction h with
  | head hne =>
    have e := hbin b h256
    constructor
    · intro hx
      rw [if_neg hx] at e
      have := InBin.head (s := t) (b := b) (by rw [e]; exact hne)
      rw [e] at this
      exact this
    · intro hx hn
      rw [if_pos hx] at e
      have := InBin.head (s := t) (b := b) (by rw [e]; exact hn)
      rw [e] at this
      exact this
  | next hi hne ih =>
    rename_i j
    obtain ⟨l, f, -⟩ := InBin.facts hb h256 hi
    constructor
    · intro hx
      by_cases hj : j = x
      · have := ih.2 hj (by rw [← hj]; exact hne)
        rw [← hj] at this
        exact this
      · have e := hnext j l f hj
        rw [if_neg hx] at e
        have := InBin.next (ih.1 hj) (by rw [e]; exact hne)
        rw [e] at this
        exact this
    · intro hx hn
      by_cases hj : j = x
      · exact ih.2 hj hn
      · have e := hnext j l f hj
        rw [if_pos hx] at e
        have := InBin.next (ih.1 hj) (by rw [e]; exact hn)
        rw [e] at this
        exact this

/-- Putting node `r` in front of the list of bin `b0` makes it a member and keeps every
member of every list. -/
theorem InBin_insert {u t : OffsetAllocator} (hb : u.BinsOK) {b0 r : Nat} (hb0 : b0 < 256)
    (hr : r ≠ Node.UNUSED)
    (hbin : ∀ c, c < 256 → t.binAt c = if c = b0 then r else u.binAt c)
    (hrn : (t.nodeAt r).BinListNext = u.binAt b0)
    (hnext : ∀ j, u.isLive j → (u.nodeAt j).Used = false →
      (t.nodeAt j).BinListNext = (u.nodeAt j).BinListNext) :
    InBin t b0 r ∧ ∀ b i, b < 256 → InBin u b i → InBin t b i := by
  have h0 : InBin t b0 r := by
    have e := hbin b0 hb0
    rw [if_pos rfl] at e
    have := InBin.head (s := t) (b := b0) (by rw [e]; exact hr)
    rw [e] at this
    exact this
  refine ⟨h0, ?_⟩
  intro b i h256 h
  induction h with
  | head hne =>
    by_cases hbb : b = b0
    · rw [hbb] at hne ⊢
      have := InBin.next h0 (by rw [hrn]; exact hne)
      rw [hrn] at this
      exact this
    · have e := hbin b h256
      rw [if_neg hbb] at e
      have := InBin.head (s := t) (b := b) (by rw [e]; exact hne)
      rw [e] at this
      exact this
  | next hi hne ih =>
    rename_i j
    obtain ⟨l, f, -⟩ := InBin.facts hb h256 hi
    have e := hnext j l f
    have := InBin.next ih (by rw [e]; exact hne)
    rw [e] at this
    exact this

/-- `RemoveNode(i)` followed by a write to node `X` that leaves its bin fields alone keeps
every free node in its list. -/
theorem Listed_RemoveNode_relink {s : OffsetAllocator} (hs : s.Shape) (hb : s.BinsOK)
    (hL : s.Listed) {i X : Nat} (hl : s.isLive i) (hf : (s.nodeAt i).Used = false)
    (hXl : s.isLive X) (n' : Node) (hn' : SameBins n' ((s.RemoveNode i).nodeAt X)) :
    ((s.RemoveNode i).setNodeAt X n').Listed := by
  obtain ⟨-, -, r3, r4⟩ := RemoveNode_relink hs hb hl hf hXl n' hn'
  have hun := RemoveNodeUnlink_nodeAt hb hl hf
  have hbin := RemoveNodeUnlink_binAt hs hb hl
  have hiU : i ≠ Node.UNUSED := hl.ne_UNUSED hs
  have hsame : ∀ j, SameBins (((s.RemoveNode i).setNodeAt X n').nodeAt j)
      ((s.RemoveNodeUnlink i).nodeAt j) := by
    intro j
    rw [r4]
    split_ifs with h
    · rw [h]
      have := hn'
      rw [nodeAt_RemoveNode] at this
      exact this
    · rw [nodeAt_RemoveNode]
      exact ⟨rfl, rfl, rfl, rfl⟩
  have hbin2 : ∀ c, c < 256 → ((s.RemoveNode i).setNodeAt X n').binAt c =
      if s.binAt c = i then (s.nodeAt i).BinListNext else s.binAt c := by
    intro c hc
    simp only [binAt_setNodeAt, binAt_RemoveNode]
    rw [hbin]
    by_cases h : s.binAt c = i
    · obtain ⟨-, -, e, p⟩ := hb.head c hc (by rw [h]; exact hiU)
      rw [h] at e p
      rw [if_pos ⟨p, e.symm⟩, if_pos h]
    · rw [if_neg h, if_neg]
      rintro ⟨p, e⟩
      apply h
      rw [e]
      exact (hb.prev i hl hf).1 p
  have hnext2 : ∀ j, s.isLive j → (s.nodeAt j).Used = false → j ≠ i →
      (((s.RemoveNode i).setNodeAt X n').nodeAt j).BinListNext =
        if (s.nodeAt j).BinListNext = i then (s.nodeAt i).BinListNext
        else (s.nodeAt j).BinListNext := by
    intro j hjl hjf hji
    rw [(hsame j).2.2.2, hun]
    simp only
    by_cases h : (s.nodeAt j).BinListNext = i
    · obtain ⟨-, -, e, -⟩ := hb.next j hjl hjf (by rw [h]; exact hiU)
      rw [h] at e
      rw [if_pos h, if_pos ⟨e.symm, by rw [e]; exact hjl.ne_UNUSED hs⟩]
    · rw [if_neg h, if_neg]
      rintro ⟨e, pu⟩
      apply h
      rw [e]
      exact ((hb.prev i hl hf).2 pu).2.2
  intro j hjl hjf
  rw [r3] at hjl
  have e1 : (((s.RemoveNode i).setNodeAt X n').nodeAt j).DataSize = (s.nodeAt j).DataSize := by
    rw [(hsame j).1, hun]
  have e2 : (((s.RemoveNode i).setNodeAt X n').nodeAt j).Used = (s.nodeAt j).Used := by
    rw [(hsame j).2.1, hun]
  rw [e2] at hjf
  rw [e1]
  have h256 : FloatRoundDown (s.nodeAt j).DataSize < 256 := by
    have := FloatRoundDown_lt (hb.size_lt j hjl.1)
    omega
  exact (InBin_remove hb hbin2 hnext2 h256 (hL j hjl.1 hjf)).1 hjl.2

/-- The first merge of `Free` keeps every free node in its list. -/
theorem Listed_FreeMergePrev {s : OffsetAllocator} (hs : s.Shape) (hb : s.BinsOK)
    (hL : s.Listed) {X : Nat} (hXl : s.isLive X)
    (hP : (s.nodeAt X).NeighborPrev ≠ Node.UNUSED → s.isLive (s.nodeAt X).NeighborPrev)
    (o sz : Nat) : (s.FreeMergePrev X o sz).1.Listed := by
  by_cases hmp : (s.nodeAt X).NeighborPrev ≠ Node.UNUSED ∧
      (s.nodeAt (s.nodeAt X).NeighborPrev).Used = false
  · have hE : (s.FreeMergePrev X o sz).1 =
        (s.RemoveNode (s.nodeAt X).NeighborPrev).setNodeAt X
          { (s.RemoveNode (s.nodeAt X).NeighborPrev).nodeAt X with
            NeighborPrev :=
              ((s.RemoveNode (s.nodeAt X).NeighborPrev).nodeAt
                (s.nodeAt X).NeighborPrev).NeighborPrev } := by
      simp only [FreeMergePrev, if_pos hmp]
    rw [hE]
    exact Listed_RemoveNode_relink hs hb hL (hP hmp.1) hmp.2 hXl _ ⟨rfl, rfl, rfl, rfl⟩
  · have he : s.FreeMergePrev X o sz = (s, o, sz) := by
      simp only [FreeMergePrev, if_neg hmp]
    rw [he]
    exact hL

/-- The second merge of `Free` keeps every free node in its list. -/
theorem Listed_FreeMergeNext {s : OffsetAllocator} (hs : s.Shape) (hb : s.BinsOK)
    (hL : s.Listed) {X : Nat} (hXl : s.isLive X)
    (hN : (s.nodeAt X).NeighborNext ≠ Node.UNUSED → s.isLive (s.nodeAt X).NeighborNext)
    (sz : Nat) : (s.FreeMergeNext X sz).1.Listed := by
  by_cases hmn : (s.nodeAt X).NeighborNext ≠ Node.UNUSED ∧
      (s.nodeAt (s.nodeAt X).NeighborNext).Used = false
  · have hE : (s.FreeMergeNext X sz).1 =
        (s.RemoveNode (s.nodeAt X).NeighborNext).setNodeAt X
          { (s.RemoveNode (s.nodeAt X).NeighborNext).nodeAt X with
            NeighborNext :=
              ((s.RemoveNode (s.nodeAt X).NeighborNext).nodeAt
                (s.nodeAt X).NeighborNext).NeighborNext } := by
      simp only [FreeMergeNext, if_pos hmn]
    rw [hE]
    exact Listed_RemoveNode_relink hs hb hL (hN hmn.1) hmn.2 hXl _ ⟨rfl, rfl, rfl, rfl⟩
  · have he : s.FreeMergeNext X sz = (s, sz) := by
      simp only [FreeMergeNext, if_neg hmn]
    rw [he]
    exact hL

end OffsetAllocator

namespace OffsetAllocator

/-- The top entry of the free-index stack is the last element of `stack`. -/
theorem top_of_stack_eq {s : OffsetAllocator} (hs : s.Shape) (h0 : 0 ≤ s.m_FreeOffset)
    {k : Int} (hk : s.m_FreeOffset = k) {l : List Nat} {x : Nat} (hst : s.stack = l ++ [x]) :
    s.freeNodeAt k = x := by
  have h := stack_pop hs h0
  rw [hst] at h
  have := List.append_inj_right' h rfl
  rw [← hk]
  exact (List.singleton_inj.mp this).symm

/-- Returning the slot of a used node to the free-index stack. -/
theorem push_used {s : OffsetAllocator} (hs : s.Shape) (hb : s.BinsOK) {X : Nat}
    (hXl : s.isLive X) (hXu : (s.nodeAt X).Used = true) :
    ((s.setFreeOffset (s.m_FreeOffset + 1)).setFreeNodeAt (s.m_FreeOffset + 1) X).Shape ∧
    ((s.setFreeOffset (s.m_FreeOffset + 1)).setFreeNodeAt (s.m_FreeOffset + 1) X).BinsOK ∧
    (∀ j, ((s.setFreeOffset (s.m_FreeOffset + 1)).setFreeNodeAt
      (s.m_FreeOffset + 1) X).isLive j ↔ s.isLive j ∧ j ≠ X) ∧
    ((s.setFreeOffset (s.m_FreeOffset + 1)).setFreeNodeAt (s.m_FreeOffset + 1) X).freeNodeAt
      (s.m_FreeOffset + 1) = X := by
  have hroom := room_of_isLive hs hXl
  have hlo := hs.off_lo
  have hsl := hs.slots
  have hst := stack_push hlo (by omega) X
  have hlive := @isLive_push s
    ((s.setFreeOffset (s.m_FreeOffset + 1)).setFreeNodeAt (s.m_FreeOffset + 1) X) X
    (by simp) hst
  have hS' : ((s.setFreeOffset (s.m_FreeOffset + 1)).setFreeNodeAt
      (s.m_FreeOffset + 1) X).Shape := by
    refine ⟨?_, ?_, ?_, ?_, ?_, ?_, ?_, ?_, ?_, ?_, ?_, ?_, ?_⟩
    · simpa using hs.count_lt
    · simpa using hs.size_lt
    · simpa using hs.arena
    · simpa using hs.slots
    · simpa using hs.usedBins_len
    · simpa using hs.bins_len
    · simp; omega
    · simp; omega
    · rw [hst]
      exact List.nodup_append.mpr ⟨hs.stack_nodup, List.nodup_singleton X,
        fun x hx hx' => hXl.2 (by rw [List.mem_singleton] at hx'; rw [← hx']; exact hx)⟩
    · intro j hj
      rw [hst] at hj
      have : ((s.setFreeOffset (s.m_FreeOffset + 1)).setFreeNodeAt
          (s.m_FreeOffset + 1) X).arenaLen = s.arenaLen := by simp
      rw [this]
      rcases List.mem_append.mp hj with h | h
      · exact hs.stack_lt j h
      · rw [List.mem_singleton] at h; rw [h]; exact hXl.1
    · simpa using hs.free_lt
    · simpa using hs.top_lt
    · simpa using hs.leaf_lt
  refine ⟨hS', ?_, hlive, ?_⟩
  · have hfree_ne : ∀ j, (s.nodeAt j).Used = false → j ≠ X := by
      intro j hj h
      rw [h, hXu] at hj
      exact Bool.noConfusion hj
    constructor
    · intro j hj
      rw [hlive] at hj
      simpa using hb.size_lt j hj.1
    · intro b hb256 hne
      simp only [binAt_setFreeNodeAt, binAt_setFreeOffset, nodeAt_setFreeNodeAt,
        nodeAt_setFreeOffset] at hne ⊢
      obtain ⟨h1, h2, h3, h4⟩ := hb.head b hb256 hne
      exact ⟨(hlive _).mpr ⟨h1, hfree_ne _ h2⟩, h2, h3, h4⟩
    · intro i hi hf
      simp only [binAt_setFreeNodeAt, binAt_setFreeOffset, nodeAt_setFreeNodeAt,
        nodeAt_setFreeOffset] at hf ⊢
      rw [hlive] at hi
      obtain ⟨p1, p2⟩ := hb.prev i hi.1 hf
      refine ⟨p1, fun h => ?_⟩
      obtain ⟨q1, q2, q3⟩ := p2 h
      exact ⟨(hlive _).mpr ⟨q1, hfree_ne _ q2⟩, q2, q3⟩
    · intro i hi hf hne
      simp only [binAt_setFreeNodeAt, binAt_setFreeOffset, nodeAt_setFreeNodeAt,
        nodeAt_setFreeOffset] at hf hne ⊢
      rw [hlive] at hi
      obtain ⟨q1, q2, q3, q4⟩ := hb.next i hi.1 hf hne
      exact ⟨(hlive _).mpr ⟨q1, hfree_ne _ q2⟩, q2, q3, q4⟩
    · intro b hb256
      simpa using hb.leafBit b hb256
    · intro t ht
      simpa using hb.topBit t ht
  · exact top_of_stack_eq hS' (by simp; omega) (by simp) hst

end OffsetAllocator

namespace OffsetAllocator

/-- The last phase of `Free`: the slot of the freed node is recycled for the merged block,
which is linked to the neighbours that remain. -/
theorem FreeInsert_spec {u : OffsetAllocator} (hs : u.Shape) (hb : u.BinsOK) {X : Nat}
    (hXl : u.isLive X) (hXu : (u.nodeAt X).Used = true) {off size : Nat}
    (hsz : size < 4294967296)
    (hn : (u.nodeAt X).NeighborNext ≠ Node.UNUSED →
      (u.nodeAt X).NeighborNext < u.arenaLen ∧ (u.nodeAt X).NeighborNext ≠ X)
    (hp : (u.nodeAt X).NeighborPrev ≠ Node.UNUSED →
      (u.nodeAt X).NeighborPrev < u.arenaLen ∧ (u.nodeAt X).NeighborPrev ≠ X ∧
      (u.nodeAt X).NeighborPrev ≠ (u.nodeAt X).NeighborNext) :
    (u.FreeInsert X off size).Shape ∧ (u.FreeInsert X off size).BinsOK ∧
    (∀ j, (u.FreeInsert X off size).isLive j ↔ u.isLive j) ∧
    (∀ j, SameChain ((u.FreeInsert X off size).nodeAt j)
      (if j = X then
        { DataOffset := off, DataSize := size, Used := false,
          NeighborPrev := (u.nodeAt X).NeighborPrev,
          NeighborNext := (u.nodeAt X).NeighborNext }
      else
        { u.nodeAt j with
          NeighborPrev :=
            if j = (u.nodeAt X).NeighborNext ∧ (u.nodeAt X).NeighborNext ≠ Node.UNUSED then X
            else (u.nodeAt j).NeighborPrev
          NeighborNext :=
            if j = (u.nodeAt X).NeighborPrev ∧ (u.nodeAt X).NeighborPrev ≠ Node.UNUSED then X
            else (u.nodeAt j).NeighborNext })) ∧
    (u.FreeInsert X off size).m_Size = u.m_Size ∧
    (∀ c, (u.FreeInsert X off size).binAt c =
      if c = FloatRoundDown size then X else u.binAt c) ∧
    (∀ j, j ≠ X → ((u.FreeInsert X off size).nodeAt j).BinListNext =
      (u.nodeAt j).BinListNext) ∧
    ((u.FreeInsert X off size).nodeAt X).BinListNext = u.binAt (FloatRoundDown size) ∧
    (u.FreeInsert X off size).m_FreeStorage = add32 u.m_FreeStorage size ∧
    (u.FreeInsert X off size).m_FreeOffset = u.m_FreeOffset := by
  obtain ⟨a1, a2, a3, a4⟩ := push_used hs hb hXl hXu
  have hlo := hs.off_lo
  generalize hs2 : (u.setFreeOffset (u.m_FreeOffset + 1)).setFreeNodeAt (u.m_FreeOffset + 1) X
    = s2 at a1 a2 a3 a4
  have hoff : s2.m_FreeOffset = u.m_FreeOffset + 1 := by rw [← hs2]; simp
  have h0 : 0 ≤ s2.m_FreeOffset := by omega
  have htop : s2.freeNodeAt s2.m_FreeOffset = X := by rw [hoff]; exact a4
  have hnode2 : ∀ j, s2.nodeAt j = u.nodeAt j := by intro j; rw [← hs2]; simp
  have hal2 : s2.arenaLen = u.arenaLen := by rw [← hs2]; simp
  have hsz2 : s2.m_Size = u.m_Size := by rw [← hs2]; simp
  have hF : u.FreeInsert X off size =
      (s2.InsertNode size off).1.FreeLink X (u.nodeAt X).NeighborNext
        (u.nodeAt X).NeighborPrev := by
    simp only [FreeInsert, m_FreeOffset_setFreeOffset, InsertNode_snd]
    rw [hs2, htop]
  have b1 := @Shape_InsertNode _ size off a1 h0 hsz
  have b2 := @BinsOK_InsertNode _ size off a1 a2 h0 hsz
  have b3 := @isLive_InsertNode _ size off a1 h0
  have b4 := @InsertNode_chain _ size off a1 a2 h0 hsz
  have hbin2 : ∀ c, s2.binAt c = u.binAt c := by intro c; rw [← hs2]; simp
  have hfs2 : s2.m_FreeStorage = u.m_FreeStorage := by rw [← hs2]; simp
  have b5 := @InsertNode_binAt_inv _ size off a1 hsz
  have b6 := @InsertNode_nodeAt_inv _ size off a1 a2 h0 hsz
  have b7 : (s2.InsertNode size off).1.m_FreeStorage = add32 u.m_FreeStorage size := by
    rw [InsertNode_m_FreeStorage, hfs2]
  have b8 : (s2.InsertNode size off).1.m_FreeOffset = u.m_FreeOffset := by
    rw [InsertNode_m_FreeOffset, hoff]; omega
  rw [htop] at b3 b4 b5 b6
  generalize hI : (s2.InsertNode size off).1 = I at hF b1 b2 b3 b4 b5 b6 b7 b8
  have hIal : I.arenaLen = u.arenaLen := by rw [← hI, InsertNode_arenaLen, hal2]
  have hISz : I.m_Size = u.m_Size := by rw [← hI, InsertNode_m_Size, hsz2]
  have hIX := b4 X
  simp only [if_true] at hIX
  have hfl := FreeLink_nodeAt I (X := X) (n := (u.nodeAt X).NeighborNext)
    (p := (u.nodeAt X).NeighborPrev) (by rw [hIal]; exact hXl.1)
    (by rw [hIal]; exact hn) (by rw [hIal]; exact hp) hIX.2.2.2.2 hIX.2.2.2.1
  rw [hF]
  refine ⟨Shape_FreeLink b1 _ _ _, ?_, ?_, ?_, by simp [hISz], ?_, ?_, ?_,
    by rw [m_FreeStorage_FreeLink, b7], by rw [m_FreeOffset_FreeLink, b8]⟩
  · apply BinsOK_of_same b2 (by simp) _ (by simp) (by simp) (by simp)
    intro j
    rw [hfl]
    exact ⟨rfl, rfl, rfl, rfl⟩
  · intro j
    rw [isLive_FreeLink, b3, a3]
    constructor
    · rintro (h | h)
      · exact h.1
      · rw [h]; exact hXl
    · intro h
      by_cases hj : j = X
      · exact Or.inr hj
      · exact Or.inl ⟨h, hj⟩
  · intro j
    rw [hfl]
    have hj := b4 j
    by_cases hjX : j = X
    · simp only [hjX, if_true] at hj ⊢
      exact ⟨hj.1, hj.2.1, hj.2.2.1, rfl, rfl⟩
    · simp only [hjX, if_false] at hj ⊢
      rw [hnode2] at hj
      exact ⟨hj.1, hj.2.1, hj.2.2.1, by rw [hj.2.2.2.1], by rw [hj.2.2.2.2]⟩
  · intro c
    rw [binAt_FreeLink, b5, hbin2]
  · intro j hj
    rw [hfl, b6, if_neg hj]
    split_ifs <;> rw [hnode2]
  · rw [hfl, b6, if_pos rfl, hbin2]
    rfl

end OffsetAllocator

namespace OffsetAllocator

theorem ne_of_off_lt {s : OffsetAllocator} {a b : Nat}
    (h : (s.nodeAt a).DataOffset < (s.nodeAt b).DataOffset) : a ≠ b := by
  intro e; rw [e] at h; exact Nat.lt_irrefl _ h

theorem add32_of_lt {a b : Nat} (h : a + b < 4294967296) : add32 a b = a + b := by
  unfold add32; omega

/-- The two merges of `Free`, described against the state before the call. -/
theorem FreeMerge_spec {s : OffsetAllocator} (hs : s.Shape) (hb : s.BinsOK) (hc : s.ChainOK)
    {X : Nat} (hXl : s.isLive X) (hXu : (s.nodeAt X).Used = true)
    {P N : Nat} (hP : (s.nodeAt X).NeighborPrev = P) (hN : (s.nodeAt X).NeighborNext = N)
    {p : OffsetAllocator × Nat × Nat} {n : OffsetAllocator × Nat}
    (hp : s.FreeMergePrev X (s.nodeAt X).DataOffset (s.nodeAt X).DataSize = p)
    (hn : p.1.FreeMergeNext X p.2.2 = n) :
    n.1.Shape ∧ n.1.BinsOK ∧
    (∀ j, n.1.isLive j ↔ s.isLive j ∧
      ¬ ((P ≠ Node.UNUSED ∧ (s.nodeAt P).Used = false) ∧ j = P) ∧
      ¬ ((N ≠ Node.UNUSED ∧ (s.nodeAt N).Used = false) ∧ j = N)) ∧
    (∀ j, j ≠ X → SameChain (n.1.nodeAt j) (s.nodeAt j)) ∧
    (n.1.nodeAt X).Used = true ∧
    (((P ≠ Node.UNUSED ∧ (s.nodeAt P).Used = false) →
        (n.1.nodeAt X).NeighborPrev = (s.nodeAt P).NeighborPrev) ∧
      (¬ (P ≠ Node.UNUSED ∧ (s.nodeAt P).Used = false) → (n.1.nodeAt X).NeighborPrev = P)) ∧
    (((N ≠ Node.UNUSED ∧ (s.nodeAt N).Used = false) →
        (n.1.nodeAt X).NeighborNext = (s.nodeAt N).NeighborNext) ∧
      (¬ (N ≠ Node.UNUSED ∧ (s.nodeAt N).Used = false) → (n.1.nodeAt X).NeighborNext = N)) ∧
    (((P ≠ Node.UNUSED ∧ (s.nodeAt P).Used = false) → p.2.1 = (s.nodeAt P).DataOffset) ∧
      (¬ (P ≠ Node.UNUSED ∧ (s.nodeAt P).Used = false) → p.2.1 = (s.nodeAt X).DataOffset)) ∧
    (((N ≠ Node.UNUSED ∧ (s.nodeAt N).Used = false) →
        p.2.1 + n.2 = (s.nodeAt N).DataOffset + (s.nodeAt N).DataSize) ∧
      (¬ (N ≠ Node.UNUSED ∧ (s.nodeAt N).Used = false) →
        p.2.1 + n.2 = (s.nodeAt X).DataOffset + (s.nodeAt X).DataSize)) ∧
    n.2 < 4294967296 ∧ n.1.m_Size = s.m_Size ∧
    p.1.m_FreeStorage =
      (if P ≠ Node.UNUSED ∧ (s.nodeAt P).Used = false then
        sub32 s.m_FreeStorage (s.nodeAt P).DataSize else s.m_FreeStorage) ∧
    n.1.m_FreeStorage =
      (if N ≠ Node.UNUSED ∧ (s.nodeAt N).Used = false then
        sub32 p.1.m_FreeStorage (s.nodeAt N).DataSize else p.1.m_FreeStorage) ∧
    (s.Listed → n.1.Listed) := by
  have hU : ∀ j, s.isLive j → j ≠ Node.UNUSED := fun j h => h.ne_UNUSED hs
  have fP := merge_prev_facts hc hU hXl
  have fN := merge_next_facts hc hXl
  rw [hP] at fP
  rw [hN] at fN
  have hSlt := hs.size_lt
  have hposX := hc.pos X hXl
  have hbX := hc.bound X hXl
  have hLp : s.Listed →
      (s.FreeMergePrev X (s.nodeAt X).DataOffset (s.nodeAt X).DataSize).1.Listed :=
    fun h => Listed_FreeMergePrev hs hb h hXl (by rw [hP]; exact fun h => (fP h).1) _ _
  rw [hp] at hLp
  obtain ⟨p1, p2, p3, p4, p5, p6, p7, p8⟩ := FreeMergePrev_spec hs hb hXl
    (by rw [hP]; exact fun h => (fP h).1) (s.nodeAt X).DataOffset (s.nodeAt X).DataSize
  rw [hp] at p1 p2 p3 p4 p5 p6 p7 p8
  rw [hP] at p3 p4 p5 p6 p8
  clear hp
  -- the state after the first merge
  have hX1 : p.1.isLive X := by
    rw [p3]
    refine ⟨hXl, fun h => ?_⟩
    have := h.1.2
    rw [← h.2, hXu] at this
    cases this
  have v1X := p4 X
  obtain ⟨v1a, v1b, v1c, v1d, v1e⟩ := v1X
  simp only [true_and, if_true] at v1a v1b v1c v1d v1e
  have v1o : ∀ j, j ≠ X → SameChain (p.1.nodeAt j) (s.nodeAt j) := by
    intro j hj
    have := p4 j
    simpa only [hj, false_and, if_false] using this
  rw [hN] at v1e
  have hNP : N ≠ Node.UNUSED → N ≠ P := by
    intro hNu e
    by_cases hPu : P = Node.UNUSED
    · exact hNu (e.trans hPu)
    · obtain ⟨-, -, a3, -⟩ := fP hPu
      obtain ⟨-, -, b3, -⟩ := fN hNu
      have := hc.pos P (fP hPu).1
      rw [e] at b3
      omega
  have hN1 : (p.1.nodeAt X).NeighborNext ≠ Node.UNUSED →
      p.1.isLive (p.1.nodeAt X).NeighborNext := by
    rw [v1e]
    intro h
    rw [p3]
    exact ⟨(fN h).1, fun h' => hNP h h'.2⟩
  have hLn : p.1.Listed → (p.1.FreeMergeNext X p.2.2).1.Listed :=
    fun h => Listed_FreeMergeNext p1 p2 h hX1 hN1 _
  rw [hn] at hLn
  obtain ⟨n1, n2, n3, n4, n5, n6, n7⟩ := FreeMergeNext_spec p1 p2 hX1 hN1 p.2.2
  rw [hn] at n1 n2 n3 n4 n5 n6 n7
  rw [v1e] at n3 n4 n5 n7
  clear hn
  have hNX : N ≠ Node.UNUSED → N ≠ X := fun h => (fN h).2.2.2
  have v1N : N ≠ Node.UNUSED → SameChain (p.1.nodeAt N) (s.nodeAt N) :=
    fun h => v1o N (hNX h)
  have hmn : (N ≠ Node.UNUSED ∧ (p.1.nodeAt N).Used = false) ↔
      (N ≠ Node.UNUSED ∧ (s.nodeAt N).Used = false) := by
    constructor
    · rintro ⟨h1, h2⟩; exact ⟨h1, by rw [← (v1N h1).2.2.1]; exact h2⟩
    · rintro ⟨h1, h2⟩; exact ⟨h1, by rw [(v1N h1).2.2.1]; exact h2⟩
  simp only [hmn] at n3 n4 n5 n7
  have v2X := n4 X
  obtain ⟨v2a, v2b, v2c, v2d, v2e⟩ := v2X
  simp only [true_and, if_true] at v2a v2b v2c v2d v2e
  have hE : p.2.1 + p.2.2 = (s.nodeAt X).DataOffset + (s.nodeAt X).DataSize ∧
      p.2.2 < 4294967296 := by
    by_cases h : P ≠ Node.UNUSED ∧ (s.nodeAt P).Used = false
    · rw [p5, p6, if_pos h, if_pos h]
      obtain ⟨-, -, a3, -⟩ := fP h.1
      rw [add32_of_lt (by omega)]
      omega
    · rw [p5, p6, if_neg h, if_neg h]
      omega
  have hfsn : n.1.m_FreeStorage =
      (if N ≠ Node.UNUSED ∧ (s.nodeAt N).Used = false then
        sub32 p.1.m_FreeStorage (s.nodeAt N).DataSize else p.1.m_FreeStorage) := by
    rw [n7]
    by_cases h : N ≠ Node.UNUSED ∧ (s.nodeAt N).Used = false
    · rw [if_pos h, if_pos h, (v1N h.1).2.1]
    · rw [if_neg h, if_neg h]
  refine ⟨n1, n2, ?_, ?_, ?_, ⟨?_, ?_⟩, ⟨?_, ?_⟩, ⟨?_, ?_⟩, ⟨?_, ?_⟩, ?_, n6.trans p7, p8,
    hfsn, fun h => hLn (hLp h)⟩
  · intro j
    rw [n3, p3, and_assoc]
  · intro j hj
    have := n4 j
    simp only [hj, false_and, if_false] at this
    exact SameChain.trans' this (v1o j hj)
  · rw [v2c, v1c, hXu]
  · intro h
    rw [v2d, v1d, if_pos h]
  · intro h
    rw [v2d, v1d, if_neg h]
    exact hP
  · intro h
    rw [v2e, if_pos h, (v1N h.1).2.2.2.2]
  · intro h
    rw [v2e, if_neg h, v1e]
  · intro h; rw [p5, if_pos h]
  · intro h; rw [p5, if_neg h]
  · intro h
    rw [n5, if_pos h, (v1N h.1).2.1]
    obtain ⟨b1, -, b3, -⟩ := fN h.1
    have := hc.bound N b1
    rw [add32_of_lt (by omega)]
    omega
  · intro h
    rw [n5, if_neg h]
    exact hE.1
  · by_cases h : N ≠ Node.UNUSED ∧ (s.nodeAt N).Used = false
    · rw [n5, if_pos h]
      unfold add32; omega
    · rw [n5, if_neg h]; omega

end OffsetAllocator

namespace OffsetAllocator

/-- The main path of `Free` on a used node `X` keeps the structural invariants, and leaves
one free node at slot `X`. -/
theorem Free_main {s : OffsetAllocator} (hs : s.Shape) (hb : s.BinsOK) (hc : s.ChainOK)
    {X : Nat} (hXl : s.isLive X) (hXu : (s.nodeAt X).Used = true)
    {P N : Nat} (hP : (s.nodeAt X).NeighborPrev = P) (hN : (s.nodeAt X).NeighborNext = N)
    {p : OffsetAllocator × Nat × Nat} {n : OffsetAllocator × Nat}
    (hp : s.FreeMergePrev X (s.nodeAt X).DataOffset (s.nodeAt X).DataSize = p)
    (hn : p.1.FreeMergeNext X p.2.2 = n) :
    (n.1.FreeInsert X p.2.1 n.2).Shape ∧ (n.1.FreeInsert X p.2.1 n.2).BinsOK ∧
    (n.1.FreeInsert X p.2.1 n.2).ChainOK ∧
    (∀ j, (n.1.FreeInsert X p.2.1 n.2).isLive j ↔ s.isLive j ∧
      ¬ ((P ≠ Node.UNUSED ∧ (s.nodeAt P).Used = false) ∧ j = P) ∧
      ¬ ((N ≠ Node.UNUSED ∧ (s.nodeAt N).Used = false) ∧ j = N)) ∧
    ((n.1.FreeInsert X p.2.1 n.2).nodeAt X).Used = false ∧
    (∀ j, j ≠ X →
      ((n.1.FreeInsert X p.2.1 n.2).nodeAt j).DataOffset = (s.nodeAt j).DataOffset ∧
      ((n.1.FreeInsert X p.2.1 n.2).nodeAt j).DataSize = (s.nodeAt j).DataSize ∧
      ((n.1.FreeInsert X p.2.1 n.2).nodeAt j).Used = (s.nodeAt j).Used) ∧
    (n.1.FreeInsert X p.2.1 n.2).m_Size = s.m_Size ∧
    ((n.1.FreeInsert X p.2.1 n.2).nodeAt X).DataOffset ≤ (s.nodeAt X).DataOffset ∧
    (s.nodeAt X).DataOffset + (s.nodeAt X).DataSize ≤
      ((n.1.FreeInsert X p.2.1 n.2).nodeAt X).DataOffset +
        ((n.1.FreeInsert X p.2.1 n.2).nodeAt X).DataSize ∧
    ((n.1.FreeInsert X p.2.1 n.2).nodeAt X).DataOffset = p.2.1 ∧
    ((n.1.FreeInsert X p.2.1 n.2).nodeAt X).DataSize = n.2 ∧
    (∀ c, (n.1.FreeInsert X p.2.1 n.2).binAt c =
      if c = FloatRoundDown n.2 then X else n.1.binAt c) ∧
    (∀ j, j ≠ X → ((n.1.FreeInsert X p.2.1 n.2).nodeAt j).BinListNext =
      (n.1.nodeAt j).BinListNext) ∧
    ((n.1.FreeInsert X p.2.1 n.2).nodeAt X).BinListNext = n.1.binAt (FloatRoundDown n.2) ∧
    (n.1.FreeInsert X p.2.1 n.2).m_FreeStorage = add32 n.1.m_FreeStorage n.2 ∧
    (n.1.FreeInsert X p.2.1 n.2).m_FreeOffset = n.1.m_FreeOffset ∧
    (n.1.FreeInsert X p.2.1 n.2).m_FreeStorage =
      add32 s.m_FreeStorage (s.nodeAt X).DataSize := by
  have hU : ∀ j, s.isLive j → j ≠ Node.UNUSED := fun j h => h.ne_UNUSED hs
  have fP := merge_prev_facts hc hU hXl
  have fN := merge_next_facts hc hXl
  rw [hP] at fP
  rw [hN] at fN
  have hposX := hc.pos X hXl
  obtain ⟨m1, m2, m3, m4, m5, m6, m7, m8, m9, m10, m11, m12, m13, -⟩ :=
    FreeMerge_spec hs hb hc hXl hXu hP hN hp hn
  have hoX_N : N ≠ Node.UNUSED → (s.nodeAt X).DataOffset < (s.nodeAt N).DataOffset := by
    intro h; have := (fN h).2.2.1; omega
  have hoP_X : P ≠ Node.UNUSED → (s.nodeAt P).DataOffset < (s.nodeAt X).DataOffset := by
    intro h; have := (fP h).2.2.1; have := hc.pos P (fP h).1; omega
  -- the neighbours that remain
  have kP : (n.1.nodeAt X).NeighborPrev ≠ Node.UNUSED →
      s.isLive (n.1.nodeAt X).NeighborPrev ∧
      (s.nodeAt (n.1.nodeAt X).NeighborPrev).DataOffset < (s.nodeAt X).DataOffset ∧
      ¬ ((P ≠ Node.UNUSED ∧ (s.nodeAt P).Used = false) ∧ (n.1.nodeAt X).NeighborPrev = P) := by
    intro hu
    by_cases h : P ≠ Node.UNUSED ∧ (s.nodeAt P).Used = false
    · have e := m6.1 h
      rw [e] at hu ⊢
      obtain ⟨c1, -, c3, -⟩ := merge_prev_facts hc hU (fP h.1).1 hu
      have := hc.pos _ c1
      have := hoP_X h.1
      exact ⟨c1, by omega, fun h' => ne_of_off_lt (s := s) (by omega) h'.2⟩
    · have e := m6.2 h
      rw [e] at hu ⊢
      exact ⟨(fP hu).1, hoP_X hu, fun h' => h h'.1⟩
  have kN : (n.1.nodeAt X).NeighborNext ≠ Node.UNUSED →
      s.isLive (n.1.nodeAt X).NeighborNext ∧
      (s.nodeAt X).DataOffset < (s.nodeAt (n.1.nodeAt X).NeighborNext).DataOffset ∧
      ¬ ((N ≠ Node.UNUSED ∧ (s.nodeAt N).Used = false) ∧ (n.1.nodeAt X).NeighborNext = N) := by
    intro hu
    by_cases h : N ≠ Node.UNUSED ∧ (s.nodeAt N).Used = false
    · have e := m7.1 h
      rw [e] at hu ⊢
      obtain ⟨c1, -, c3, -⟩ := merge_next_facts hc (fN h.1).1 hu
      have := hc.pos _ (fN h.1).1
      have := hoX_N h.1
      exact ⟨c1, by omega, fun h' => ne_of_off_lt (s := s) (by omega) h'.2.symm⟩
    · have e := m7.2 h
      rw [e] at hu ⊢
      exact ⟨(fN hu).1, hoX_N hu, fun h' => h h'.1⟩
  have hXl2 : n.1.isLive X := by
    rw [m3]
    refine ⟨hXl, fun h => ?_, fun h => ?_⟩
    · have := h.1.2; rw [← h.2, hXu] at this; cases this
    · have := h.1.2; rw [← h.2, hXu] at this; cases this
  have lP : (n.1.nodeAt X).NeighborPrev ≠ Node.UNUSED →
      n.1.isLive (n.1.nodeAt X).NeighborPrev := by
    intro hu
    obtain ⟨c1, c2, c3⟩ := kP hu
    rw [m3]
    refine ⟨c1, c3, fun h => ?_⟩
    have := hoX_N h.1.1
    exact ne_of_off_lt (s := s) (by omega) h.2
  have lN : (n.1.nodeAt X).NeighborNext ≠ Node.UNUSED →
      n.1.isLive (n.1.nodeAt X).NeighborNext := by
    intro hu
    obtain ⟨c1, c2, c3⟩ := kN hu
    rw [m3]
    refine ⟨c1, fun h => ?_, c3⟩
    have := hoP_X h.1.1
    exact ne_of_off_lt (s := s) (by omega) h.2.symm
  obtain ⟨g1, g2, g3, g4, g5, g6, g7, g8, g9, g10⟩ := @FreeInsert_spec _ m1 m2 _ hXl2 m5 p.2.1 _ m10
    (fun hu => ⟨(lN hu).1, (ne_of_off_lt (s := s) (kN hu).2.1).symm⟩)
    (fun hu => ⟨(lP hu).1, ne_of_off_lt (s := s) (kP hu).2.1, fun e => by
      have hu' : (n.1.nodeAt X).NeighborNext ≠ Node.UNUSED := by rw [← e]; exact hu
      have a := (kP hu).2.1
      have b := (kN hu').2.1
      rw [← e] at b
      omega⟩)
  have hlive : ∀ j, (n.1.FreeInsert X p.2.1 n.2).isLive j ↔ s.isLive j ∧
      ¬ ((P ≠ Node.UNUSED ∧ (s.nodeAt P).Used = false) ∧ j = P) ∧
      ¬ ((N ≠ Node.UNUSED ∧ (s.nodeAt N).Used = false) ∧ j = N) := by
    intro j; rw [g3, m3]
  have hview : ∀ j, SameChain ((n.1.FreeInsert X p.2.1 n.2).nodeAt j)
      (if j = X then
        { DataOffset := p.2.1, DataSize := n.2, Used := false,
          NeighborPrev := (n.1.nodeAt X).NeighborPrev,
          NeighborNext := (n.1.nodeAt X).NeighborNext }
      else
        { s.nodeAt j with
          NeighborPrev :=
            if j = (n.1.nodeAt X).NeighborNext ∧ (n.1.nodeAt X).NeighborNext ≠ Node.UNUSED
            then X else (s.nodeAt j).NeighborPrev
          NeighborNext :=
            if j = (n.1.nodeAt X).NeighborPrev ∧ (n.1.nodeAt X).NeighborPrev ≠ Node.UNUSED
            then X else (s.nodeAt j).NeighborNext }) := by
    intro j
    have h := g4 j
    by_cases hj : j = X
    · simpa only [hj, if_true] using h
    · simp only [hj, if_false] at h ⊢
      obtain ⟨a1, a2, a3, a4, a5⟩ := h
      obtain ⟨b1, b2, b3, b4, b5⟩ := m4 j hj
      simp only at a1 a2 a3 a4 a5
      exact ⟨a1.trans b1, a2.trans b2, a3.trans b3, by rw [a4, b4], by rw [a5, b5]⟩
  have hchain := ChainOK_merge hc hU hXl hXu hP hN Iff.rfl Iff.rfl
    ⟨fun h => m6.1 h, fun h => m6.2 h⟩ ⟨fun h => m7.1 h, fun h => m7.2 h⟩ m8 m9
    (g5.trans m11) hlive hview
  have hvX := hview X
  simp only [if_true] at hvX
  have hoX : ((n.1.FreeInsert X p.2.1 n.2).nodeAt X).DataOffset = p.2.1 := hvX.1
  have hzX : ((n.1.FreeInsert X p.2.1 n.2).nodeAt X).DataSize = n.2 := hvX.2.1
  have hlo : p.2.1 ≤ (s.nodeAt X).DataOffset := by
    by_cases h : P ≠ Node.UNUSED ∧ (s.nodeAt P).Used = false
    · rw [m8.1 h]; exact Nat.le_of_lt (hoP_X h.1)
    · rw [m8.2 h]
  have hhi : (s.nodeAt X).DataOffset + (s.nodeAt X).DataSize ≤ p.2.1 + n.2 := by
    by_cases h : N ≠ Node.UNUSED ∧ (s.nodeAt N).Used = false
    · rw [m9.1 h]; have := (fN h.1).2.2.1; omega
    · rw [m9.2 h]
  refine ⟨g1, g2, hchain, hlive, ?_, ?_, g5.trans m11, by rw [hoX]; exact hlo,
    by rw [hoX, hzX]; exact hhi, hoX, hzX, g6, g7, g8, g9, g10, ?_⟩
  · have := (hview X).2.2.1
    simpa only [if_true] using this
  · intro j hj
    have := hview j
    simp only [hj, if_false] at this
    exact ⟨this.1, this.2.1, this.2.2.1⟩
  · rw [g9, m13, m12]
    have hxlt : (s.nodeAt X).DataSize < 4294967296 := by
      have := hc.bound X hXl; have := hs.size_lt; omega
    by_cases hmp : P ≠ Node.UNUSED ∧ (s.nodeAt P).Used = false
    · have a1 := m8.1 hmp
      have a2 := (fP hmp.1).2.2.1
      have a3 := hc.bound P (fP hmp.1).1
      have a4 := hs.size_lt
      by_cases hmn : N ≠ Node.UNUSED ∧ (s.nodeAt N).Used = false
      · have b1 := m9.1 hmn
        have b2 := (fN hmn.1).2.2.1
        have b3 := hc.bound N (fN hmn.1).1
        rw [if_pos hmp, if_pos hmn]
        simp only [add32, sub32]; omega
      · have b1 := m9.2 hmn
        rw [if_pos hmp, if_neg hmn]
        simp only [add32, sub32]; omega
    · have a1 := m8.2 hmp
      have a4 := hs.size_lt
      by_cases hmn : N ≠ Node.UNUSED ∧ (s.nodeAt N).Used = false
      · have b1 := m9.1 hmn
        have b2 := (fN hmn.1).2.2.1
        have b3 := hc.bound N (fN hmn.1).1
        rw [if_neg hmp, if_pos hmn]
        simp only [add32, sub32]; omega
      · have b1 := m9.2 hmn
        rw [if_neg hmp, if_neg hmn]
        simp only [add32, sub32]; omega

end OffsetAllocator

namespace OffsetAllocator

theorem erase_token_ne {L : List OffsetHandle}
    (hd : L.Pairwise (fun a b => a.m_MetaData ≠ b.m_MetaData)) {h h' : OffsetHandle}
    (hh : h ∈ L) (hh' : h' ∈ L.erase h) : h'.m_MetaData ≠ h.m_MetaData := by
  induction L with
  | nil => cases hh
  | cons a t ih =>
    rw [List.pairwise_cons] at hd
    by_cases e : a = h
    · rw [e, List.erase_cons_head] at hh'
      rw [e] at hd
      exact (hd.1 h' hh').symm
    · rw [List.erase_cons_tail (by simpa using e)] at hh'
      have ht : h ∈ t := by
        rcases List.mem_cons.mp hh with h1 | h1
        · exact absurd h1.symm e
        · exact h1
      rcases List.mem_cons.mp hh' with h1 | h1
      · rw [h1]; exact hd.1 h ht
      · exact ih hd.2 ht h1

theorem isSome_of_isLive {s : OffsetAllocator} {i : Nat} (h : s.isLive i) :
    s.m_Nodes.isNone = false := by
  have := h.1
  unfold arenaLen at this
  cases hm : s.m_Nodes with
  | none => rw [hm] at this; simp at this
  | some a => rfl

/-- On a used node `Free` takes its main path. -/
theorem Free_eq {s : OffsetAllocator} {h : OffsetHandle} (hv : h.IsValid = true)
    (hl : s.isLive h.m_MetaData) (hu : (s.nodeAt h.m_MetaData).Used = true) :
    s.Free h =
      (((s.FreeMergePrev h.m_MetaData (s.nodeAt h.m_MetaData).DataOffset
          (s.nodeAt h.m_MetaData).DataSize).1.FreeMergeNext h.m_MetaData
          (s.FreeMergePrev h.m_MetaData (s.nodeAt h.m_MetaData).DataOffset
            (s.nodeAt h.m_MetaData).DataSize).2.2).1.FreeInsert h.m_MetaData
        (s.FreeMergePrev h.m_MetaData (s.nodeAt h.m_MetaData).DataOffset
          (s.nodeAt h.m_MetaData).DataSize).2.1
        ((s.FreeMergePrev h.m_MetaData (s.nodeAt h.m_MetaData).DataOffset
          (s.nodeAt h.m_MetaData).DataSize).1.FreeMergeNext h.m_MetaData
          (s.FreeMergePrev h.m_MetaData (s.nodeAt h.m_MetaData).DataOffset
            (s.nodeAt h.m_MetaData).DataSize).2.2).2, h) := by
  simp only [Free, hv, isSome_of_isLive hl, hu, Bool.not_true, Bool.false_eq_true, if_false]

/-- `Free` of a handle the caller holds keeps the invariant; the handle value is
returned as it was, and the slot it names holds a free node afterwards. -/
theorem Inv_Free {s : OffsetAllocator} {L : List OffsetHandle} (hinv : s.Inv L)
    {h : OffsetHandle} (hh : h ∈ L) :
    (s.Free h).1.Inv (L.erase h) ∧ (s.Free h).2 = h ∧
    (s.Free h).1.isLive h.m_MetaData ∧
    ((s.Free h).1.nodeAt h.m_MetaData).Used = false ∧
    ((s.Free h).1.nodeAt h.m_MetaData).DataOffset ≤ h.m_Offset ∧
    h.m_Offset + h.m_Size ≤ ((s.Free h).1.nodeAt h.m_MetaData).DataOffset +
      ((s.Free h).1.nodeAt h.m_MetaData).DataSize := by
  obtain ⟨hv, hl, hu, ho, hz⟩ := hinv.handles.node h hh
  rw [Free_eq hv hl hu]
  obtain ⟨f1, f2, f3, f4, f5, f6, f7, f8, f9, -⟩ :=
    Free_main hinv.shape hinv.bins hinv.chain hl hu rfl rfl rfl rfl
  have hnot : ∀ j, (s.nodeAt j).Used = true → ∀ Q, ¬ ((Q ≠ Node.UNUSED ∧
      (s.nodeAt Q).Used = false) ∧ j = Q) := by
    intro j hj Q hq
    have := hq.1.2
    rw [← hq.2, hj] at this
    cases this
  refine ⟨⟨f1, f2, f3, ⟨?_, ?_⟩⟩, rfl, ?_, f5, by rw [← ho]; exact f8,
    by rw [← ho, ← hz]; exact f9⟩
  · intro h' hh'
    have hne := erase_token_ne hinv.handles.distinct hh hh'
    obtain ⟨a1, a2, a3, a4, a5⟩ := hinv.handles.node h' (List.mem_of_mem_erase hh')
    obtain ⟨b1, b2, b3⟩ := f6 _ hne
    refine ⟨a1, ?_, by rw [b3]; exact a3, by rw [b1]; exact a4, by rw [b2]; exact a5⟩
    rw [f4]
    exact ⟨a2, hnot _ a3 _, hnot _ a3 _⟩
  · exact hinv.handles.distinct.sublist (List.erase_sublist h L)
  · rw [f4]
    exact ⟨hl, hnot _ hu _, hnot _ hu _⟩

end OffsetAllocator

namespace OffsetAllocator

/-- The state `Reset` builds before it inserts the first node: every slot is on the
free-index stack and every bin is empty. -/
theorem fresh_state {t : OffsetAllocator} {M : Nat} (hM : M + 1 < 4294967296)
    (hS : t.m_Size < 4294967296)
    (h1 : t.m_MaxAllocatableCount = M) (h2 : t.m_FreeStorage = 0) (h3 : t.m_UsedBinsTop = 0)
    (h4 : t.m_FreeOffset = (M : Int))
    (h5 : t.m_UsedBins = List.replicate TOP_BINS_COUNT 0)
    (h6 : t.m_BinIndices = List.replicate LEAF_BINS_COUNT Node.UNUSED)
    (h7 : t.m_Nodes = some (List.replicate (add32 M 1) default))
    (h8 : t.m_FreeNodes = some ((List.range (add32 M 1)).map (fun i => M - i))) :
    t.Shape ∧ t.BinsOK ∧ (∀ j, ¬ t.isLive j) ∧ t.freeNodeAt t.m_FreeOffset = 0 := by
  have ha : add32 M 1 = M + 1 := add32_of_lt hM
  rw [ha] at h7 h8
  have hstack : t.stack = (List.range (M + 1)).map (fun i => M - i) := by
    unfold stack
    rw [h8, h4]
    simp only [Option.getD_some]
    apply List.take_of_length_le
    simp
  have hal : t.arenaLen = M + 1 := by
    unfold arenaLen; rw [h7]; simp
  have hub : ∀ u, t.usedBinsAt u = 0 := by
    intro u
    unfold usedBinsAt
    rw [h5]
    by_cases hu : u < TOP_BINS_COUNT
    · rw [List.getD_eq_getElem _ _ (by simpa using hu)]; simp
    · rw [List.getD_eq_default _ _ (by simpa using hu)]
  have hbin : ∀ c, c < 256 → t.binAt c = Node.UNUSED := by
    intro c hu
    unfold binAt
    rw [h6, List.getD_eq_getElem _ _ (by rw [List.length_replicate]; exact hu)]
    simp
  have hdead : ∀ j, ¬ t.isLive j := by
    intro j hj
    apply hj.2
    have hlt := hj.1
    rw [hal] at hlt
    rw [hstack, List.mem_map]
    exact ⟨M - j, List.mem_range.mpr (by omega), by omega⟩
  refine ⟨?_, ?_, hdead, ?_⟩
  · refine ⟨by rw [h1]; exact hM, hS, by rw [hal, h1], ?_, by rw [h5, List.length_replicate]; rfl,
      by rw [h6, List.length_replicate]; rfl, by rw [h4]; omega, by rw [h4, h1], ?_, ?_,
      by rw [h2]; omega, by rw [h3]; omega, fun u => by rw [hub]; omega⟩
    · unfold slotsLen; rw [h8, h1]; simp
    · rw [hstack]
      apply List.Nodup.map_on _ (List.nodup_range _)
      intro x hx y hy hxy
      rw [List.mem_range] at hx hy
      omega
    · intro i hi
      rw [hstack, List.mem_map] at hi
      obtain ⟨a, -, rfl⟩ := hi
      rw [hal]; omega
  · refine ⟨fun i hi => absurd hi (hdead i), fun b hb hne => absurd (hbin b hb) hne,
      fun i hi => absurd hi (hdead i), fun i hi => absurd hi (hdead i), ?_, ?_⟩
    · intro b hb
      rw [hub, hbin b hb]
      simp
    · intro u _
      rw [h3, hub]
      simp
  · unfold freeNodeAt
    rw [h4, h8]
    simp only [Int.toNat_ofNat, Option.getD_some, Int.natCast_nonneg, if_true]
    rw [List.getD_eq_getElem _ _ (by simp)]
    simp

/-- `Init` establishes the invariant, with no handle handed out; the arena then holds one
node, free, over the whole range. -/
theorem Inv_Init (s0 : OffsetAllocator) {S M : Nat} (hS0 : 0 < S) (hS : S < 4294967296)
    (hM : M + 1 < 4294967296) :
    (s0.Init S M).Inv [] ∧ (∀ j, (s0.Init S M).isLive j ↔ j = 0) ∧
    SameChain ((s0.Init S M).nodeAt 0) { DataOffset := 0, DataSize := S } ∧
    (s0.Init S M).m_Size = S := by
  obtain ⟨t, ht, h0, h1, h2, h3, h4, h5, h6, h7, h8⟩ :
      ∃ t : OffsetAllocator, s0.Init S M = (t.InsertNode S 0).1 ∧ t.m_Size = S ∧
        t.m_MaxAllocatableCount = M ∧ t.m_FreeStorage = 0 ∧ t.m_UsedBinsTop = 0 ∧
        t.m_FreeOffset = (M : Int) ∧ t.m_UsedBins = List.replicate TOP_BINS_COUNT 0 ∧
        t.m_BinIndices = List.replicate LEAF_BINS_COUNT Node.UNUSED ∧
        t.m_Nodes = some (List.replicate (add32 M 1) default) ∧
        t.m_FreeNodes = some ((List.range (add32 M 1)).map (fun i => M - i)) :=
    ⟨_, rfl, rfl, rfl, rfl, rfl, rfl, rfl, rfl, rfl, rfl⟩
  obtain ⟨a1, a2, a3, a4⟩ := fresh_state hM (by rw [h0]; exact hS) h1 h2 h3 h4 h5 h6 h7 h8
  have hoff : 0 ≤ t.m_FreeOffset := by rw [h4]; omega
  have b1 := @Shape_InsertNode t S 0 a1 hoff hS
  have b2 := @BinsOK_InsertNode t S 0 a1 a2 hoff hS
  have b3 := @isLive_InsertNode t S 0 a1 hoff
  have b4 := @InsertNode_chain t S 0 a1 a2 hoff hS 0
  rw [a4] at b3 b4
  simp only [if_true] at b4
  have hsz : (t.InsertNode S 0).1.m_Size = S := by rw [InsertNode_m_Size, h0]
  rw [ht]
  generalize (t.InsertNode S 0).1 = r at b1 b2 b3 b4 hsz
  have hlive : ∀ j, r.isLive j ↔ j = 0 := by
    intro j; rw [b3]
    exact ⟨fun h => h.resolve_left (a3 j), Or.inr⟩
  obtain ⟨c1, c2, c3, c4, c5⟩ := b4
  simp only at c1 c2 c3 c4 c5
  refine ⟨⟨b1, b2, ?_, ⟨fun h hh => (by cases hh), List.Pairwise.nil⟩⟩, hlive,
    ⟨c1, c2, c3, c4, c5⟩, hsz⟩
  constructor
  · intro i hi
    rw [(hlive i).mp hi, c2]; exact hS0
  · intro i hi
    rw [(hlive i).mp hi, c1, c2, hsz]; omega
  · intro i hi
    rw [(hlive i).mp hi]
    exact ⟨fun _ => by rw [c1, c2, hsz]; omega, fun h => absurd c5 h⟩
  · intro i hi
    rw [(hlive i).mp hi]
    exact ⟨fun _ => c1, fun h => absurd c4 h⟩
  · intro i hi _ h
    rw [(hlive i).mp hi] at h
    exact absurd c5 h
  · intro i j hi hj hij
    exact absurd (((hlive i).mp hi).trans ((hlive j).mp hj).symm) hij
  · intro x hx
    refine ⟨0, (hlive 0).mpr rfl, by rw [c1]; omega, by rw [c1, c2]; omega⟩

end OffsetAllocator

namespace OffsetAllocator

@[simp] theorem m_Size_AllocSplit (s : OffsetAllocator) (size i total : Nat) :
    (s.AllocSplit size i total).m_Size = s.m_Size := by
  simp only [AllocSplit]
  split_ifs <;> simp

@[simp] theorem m_Size_AllocFromBin (s : OffsetAllocator) (size t l : Nat) :
    (s.AllocFromBin size t l).1.m_Size = s.m_Size := by
  simp [AllocFromBin]

@[simp] theorem m_Size_Alloc (s : OffsetAllocator) (size : Nat) :
    (s.Alloc size).1.m_Size = s.m_Size := by
  simp only [Alloc]
  split_ifs <;> simp

@[simp] theorem m_Size_FreeMergePrev (s : OffsetAllocator) (i o z : Nat) :
    (s.FreeMergePrev i o z).1.m_Size = s.m_Size := by
  simp only [FreeMergePrev]
  split_ifs <;> simp

@[simp] theorem m_Size_FreeMergeNext (s : OffsetAllocator) (i z : Nat) :
    (s.FreeMergeNext i z).1.m_Size = s.m_Size := by
  simp only [FreeMergeNext]
  split_ifs <;> simp

@[simp] theorem m_Size_FreeInsert (s : OffsetAllocator) (i o z : Nat) :
    (s.FreeInsert i o z).m_Size = s.m_Size := by
  simp [FreeInsert]

@[simp] theorem m_Size_Free (s : OffsetAllocator) (h : OffsetHandle) :
    (s.Free h).1.m_Size = s.m_Size := by
  simp only [Free]
  split_ifs <;> simp

theorem Free_invalid (s : OffsetAllocator) {h : OffsetHandle} (hv : h.IsValid = false) :
    s.Free h = (s, h) := by
  simp [Free, hv]

/-- Every reachable state satisfies the invariant. -/
theorem Reachable.inv {S M : Nat} (hS0 : 0 < S) (hS : S < 4294967296)
    (hM : M + 1 < 4294967296) {s : OffsetAllocator} {L : List OffsetHandle}
    (hr : Reachable S M s L) : s.Inv L ∧ s.m_Size = S := by
  induction hr with
  | init s0 =>
    obtain ⟨a, -, -, b⟩ := Inv_Init s0 hS0 hS hM
    exact ⟨a, b⟩
  | alloc size _ hsz ih => exact ⟨Inv_Alloc ih.1 hsz, by rw [m_Size_Alloc]; exact ih.2⟩
  | free h _ hh ih => exact ⟨(Inv_Free ih.1 hh).1, by rw [m_Size_Free]; exact ih.2⟩
  | freeInvalid h _ hv ih =>
    rw [Free_invalid _ hv]
    exact ih

end OffsetAllocator

namespace OffsetAllocator

/-- From a live node the chain runs, in increasing offsets and without gaps, to the end
of the range. -/
theorem chain_walk {s : OffsetAllocator} (hs : s.Shape) (hc : s.ChainOK) :
    ∀ d i, s.isLive i → s.m_Size - (s.nodeAt i).DataOffset ≤ d →
      ∃ c : List Nat, s.chainFrom (c.length + 1) i = c ∧ c.headD 0 = i ∧ c ≠ [] ∧
        (∀ j ∈ c, s.isLive j ∧ (s.nodeAt i).DataOffset ≤ (s.nodeAt j).DataOffset) ∧
        c.Pairwise (fun a b =>
          (s.nodeAt a).DataOffset + (s.nodeAt a).DataSize ≤ (s.nodeAt b).DataOffset) ∧
        (∀ x, (s.nodeAt i).DataOffset ≤ x → x < s.m_Size →
          ∃ j ∈ c, (s.nodeAt j).DataOffset ≤ x ∧
            x < (s.nodeAt j).DataOffset + (s.nodeAt j).DataSize) ∧
        (s.nodeAt i).DataOffset + (c.map (fun j => (s.nodeAt j).DataSize)).sum = s.m_Size := by
  intro d
  induction d with
  | zero =>
    intro i hi hd
    have := hc.pos i hi
    have := hc.bound i hi
    omega
  | succ d ih =>
    intro i hi hd
    have hpos := hc.pos i hi
    have hbd := hc.bound i hi
    have hiU : i ≠ Node.UNUSED := hi.ne_UNUSED hs
    by_cases hn : (s.nodeAt i).NeighborNext = Node.UNUSED
    · have hend := (hc.next i hi).1 hn
      refine ⟨[i], ?_, rfl, by simp, ?_, List.pairwise_singleton _ _, ?_, by simpa using hend⟩
      · simp [chainFrom, hiU, hn]
      · intro j hj
        rw [List.mem_singleton] at hj
        rw [hj]; exact ⟨hi, Nat.le_refl _⟩
      · intro x hx1 hx2
        exact ⟨i, List.mem_singleton.mpr rfl, hx1, by omega⟩
    · obtain ⟨k1, -, k3⟩ := (hc.next i hi).2 hn
      obtain ⟨c, c1, c2, c3, c4, c5, c6, c7⟩ := ih _ k1 (by omega)
      refine ⟨i :: c, ?_, rfl, by simp, ?_, ?_, ?_, ?_⟩
      · rw [List.length_cons, chainFrom, if_neg hiU, c1]
      · intro j hj
        rcases List.mem_cons.mp hj with h | h
        · rw [h]; exact ⟨hi, Nat.le_refl _⟩
        · obtain ⟨a, b⟩ := c4 j h
          exact ⟨a, by omega⟩
      · rw [List.pairwise_cons]
        refine ⟨fun j hj => ?_, c5⟩
        have := (c4 j hj).2
        omega
      · intro x hx1 hx2
        by_cases hx : x < (s.nodeAt i).DataOffset + (s.nodeAt i).DataSize
        · exact ⟨i, List.mem_cons_self _ _, hx1, hx⟩
        · obtain ⟨j, j1, j2, j3⟩ := c6 x (by omega) hx2
          exact ⟨j, List.mem_cons_of_mem _ j1, j2, j3⟩
      · rw [List.map_cons, List.sum_cons, ← c7, k3]
        omega

/-- The chain of a state that satisfies the invariant. -/
theorem chain_exists {s : OffsetAllocator} (hs : s.Shape) (hc : s.ChainOK)
    (hS : 0 < s.m_Size) :
    ∃ c : List Nat,
      (s.nodeAt (c.headD 0)).NeighborPrev = Node.UNUSED ∧
      s.chainFrom (c.length + 1) (c.headD 0) = c ∧ c ≠ [] ∧
      (∀ i, i ∈ c ↔ s.isLive i) ∧
      c.Pairwise (fun i j =>
        (s.nodeAt i).DataOffset + (s.nodeAt i).DataSize ≤ (s.nodeAt j).DataOffset) ∧
      (∀ x, x < s.m_Size ↔ ∃ i ∈ c, (s.nodeAt i).DataOffset ≤ x ∧
        x < (s.nodeAt i).DataOffset + (s.nodeAt i).DataSize) ∧
      (c.map (fun j => (s.nodeAt j).DataSize)).sum = s.m_Size ∧ c.Nodup := by
  have hU : ∀ j, s.isLive j → j ≠ Node.UNUSED := fun j h => h.ne_UNUSED hs
  obtain ⟨i0, l0, o0, -⟩ := hc.cover 0 hS
  have ho0 : (s.nodeAt i0).DataOffset = 0 := by omega
  have hp0 : (s.nodeAt i0).NeighborPrev = Node.UNUSED := by
    by_contra h
    obtain ⟨q1, -, q3, -⟩ := merge_prev_facts hc hU l0 h
    have := hc.pos _ q1
    omega
  obtain ⟨c, c1, c2, c3, c4, c5, c6, c7⟩ := chain_walk hs hc s.m_Size i0 l0 (by omega)
  have hnd : c.Nodup := by
    refine c5.imp_of_mem ?_
    intro a b ha hb hab e
    have := hc.pos a (c4 a ha).1
    rw [e] at hab this
    omega
  refine ⟨c, by rw [c2]; exact hp0, by rw [c2]; exact c1, c3, ?_, c5, ?_, by omega, hnd⟩
  · intro i
    refine ⟨fun h => (c4 i h).1, fun h => ?_⟩
    have hpos := hc.pos i h
    have hbd := hc.bound i h
    obtain ⟨j, j1, j2, j3⟩ := c6 (s.nodeAt i).DataOffset (by omega) (by omega)
    by_cases e : i = j
    · rw [e]; exact j1
    · rcases hc.disjoint i j h (c4 j j1).1 e with h1 | h1 <;> omega
  · intro x
    constructor
    · intro hx
      exact c6 x (by omega) hx
    · rintro ⟨i, i1, i2, i3⟩
      have := hc.bound i (c4 i i1).1
      omega

end OffsetAllocator

namespace OffsetAllocator

section
variable {s : OffsetAllocator} {t l size : Nat}

/-- What `Alloc` does with the rest of the node it serves from. -/
theorem AllocFromBin_rem (hs : s.Shape) (hb : s.BinsOK) (hc : s.ChainOK)
    (ht : t < 32) (hl : l < 8) (hne : s.binAt (8 * t + l) ≠ Node.UNUSED)
    (hsz : size < 4294967296) (h0 : 0 < size) (hfru : FloatRoundUp size ≤ 8 * t + l)
    (hoff : 0 ≤ s.m_FreeOffset) :
    ((s.nodeAt (s.binAt (8 * t + l))).DataSize = size →
      ∀ j, (s.AllocFromBin size t l).1.isLive j ↔ s.isLive j) ∧
    (size < (s.nodeAt (s.binAt (8 * t + l))).DataSize →
      ¬ s.isLive (s.freeNodeAt s.m_FreeOffset) ∧
      (∀ j, (s.AllocFromBin size t l).1.isLive j ↔
        s.isLive j ∨ j = s.freeNodeAt s.m_FreeOffset) ∧
      ((s.AllocFromBin size t l).1.nodeAt (s.binAt (8 * t + l))).NeighborNext =
        s.freeNodeAt s.m_FreeOffset ∧
      ((s.AllocFromBin size t l).1.nodeAt (s.freeNodeAt s.m_FreeOffset)).Used = false ∧
      ((s.AllocFromBin size t l).1.nodeAt (s.freeNodeAt s.m_FreeOffset)).DataOffset =
        (s.nodeAt (s.binAt (8 * t + l))).DataOffset + size ∧
      ((s.AllocFromBin size t l).1.nodeAt (s.freeNodeAt s.m_FreeOffset)).DataSize =
        (s.nodeAt (s.binAt (8 * t + l))).DataSize - size) := by
  have hb256 : 8 * t + l < 256 := by omega
  obtain ⟨h1, h2, h3, h4⟩ := hb.head _ hb256 hne
  have hTlt := hb.size_lt _ h1
  rw [AllocFromBin_eq ht hl]
  simp only
  constructor
  · intro hT j
    rw [AllocSplit_exact _ hT hTlt]
    simp
  · intro hlt
    rw [AllocSplit_rem _ hlt hTlt]
    obtain ⟨r1, r2, r3, r4, r5, -⟩ := Alloc_split_inv hs hb hc ht hl hne hoff h0 hlt
    have hrd := top_not_isLive hs hoff
    have hrX : s.freeNodeAt s.m_FreeOffset ≠ s.binAt (8 * t + l) := by
      intro e; rw [e] at hrd; exact hrd h1
    have hX := r5 (s.binAt (8 * t + l))
    rw [if_pos rfl] at hX
    have hR := r5 (s.freeNodeAt s.m_FreeOffset)
    rw [if_neg hrX, if_pos rfl] at hR
    exact ⟨hrd, r4, hX.2.2.2.2, hR.2.2.1, hR.1, hR.2.1⟩

end

/-- A valid handle comes from the second half of `Alloc`, run on a non-empty bin at or
above the size's class. -/
theorem Alloc_valid {s : OffsetAllocator} (hs : s.Shape) (hb : s.BinsOK) {size : Nat}
    (hsz : size < 4294967296) (hv : (s.Alloc size).2.IsValid = true) :
    0 ≤ s.m_FreeOffset ∧ 0 < size ∧ size ≤ s.GetFreeSize ∧
    ∃ t l, t < 32 ∧ l < 8 ∧ s.binAt (8 * t + l) ≠ Node.UNUSED ∧
      FloatRoundUp size ≤ 8 * t + l ∧ s.Alloc size = s.AllocFromBin size t l := by
  by_cases hg : s.m_FreeOffset < 0 ∨ size = 0 ∨ size > s.GetFreeSize
  · have : s.Alloc size = (s, { m_Offset := NO_SPACE, m_Size := 0, m_MetaData := NO_SPACE }) := by
      simp only [Alloc, hg, if_true]
    rw [this] at hv
    have hv' : OffsetHandle.IsValid { m_Offset := NO_SPACE, m_Size := 0, m_MetaData := NO_SPACE }
        = true := hv
    rw [invalid_not_valid] at hv'
    cases hv'
  · rcases Alloc_search hs hb hsz hg with ⟨h1, -⟩ | ⟨t, l, h1, h2, h3, h4, -, h6⟩
    · rw [h1] at hv
      have hv' : OffsetHandle.IsValid
          { m_Offset := NO_SPACE, m_Size := 0, m_MetaData := NO_SPACE } = true := hv
      rw [invalid_not_valid] at hv'
      cases hv'
    · exact ⟨by omega, by omega, by omega, t, l, h1, h2, h3, h4, h6⟩

end OffsetAllocator

namespace OffsetAllocator

/-- C1. Coverage invariant: in every state reachable from `Init(S, M)` by `Alloc` and
`Free` calls that redeem each valid handle at most once, the nodes linked through the
physical-neighbour chain form a list `c` that starts at a node without a predecessor,
follows `NeighborNext` to the end, and consists of exactly the arena slots that hold a
node; their ranges `[DataOffset, DataOffset + DataSize)` are pairwise disjoint (each ends
at or before the start of every later one) and their union is exactly `[0, S)`. Every
held handle names a used node of the chain with the handle's offset and size, lies inside
`[0, S)`, and no two held handles overlap. `S` and `M + 1` fit in 32 bits. -/
theorem coverage_invariant {S M : Nat} (hS0 : 0 < S) (hS : S < 4294967296)
    (hM : M + 1 < 4294967296) {s : OffsetAllocator} {L : List OffsetHandle}
    (hr : Reachable S M s L) :
    ∃ c : List Nat,
      (s.nodeAt (c.headD 0)).NeighborPrev = Node.UNUSED ∧
      s.chainFrom (c.length + 1) (c.headD 0) = c ∧ c ≠ [] ∧
      (∀ i, i ∈ c ↔ s.isLive i) ∧
      c.Pairwise (fun i j =>
        (s.nodeAt i).DataOffset + (s.nodeAt i).DataSize ≤ (s.nodeAt j).DataOffset) ∧
      (∀ x, x < S ↔ ∃ i ∈ c, (s.nodeAt i).DataOffset ≤ x ∧
        x < (s.nodeAt i).DataOffset + (s.nodeAt i).DataSize) ∧
      (∀ h ∈ L, h.IsValid = true ∧ h.m_MetaData ∈ c ∧
        (s.nodeAt h.m_MetaData).Used = true ∧
        (s.nodeAt h.m_MetaData).DataOffset = h.m_Offset ∧
        (s.nodeAt h.m_MetaData).DataSize = h.m_Size ∧ h.m_Offset + h.m_Size ≤ S) ∧
      L.Pairwise (fun a b =>
        a.m_Offset + a.m_Size ≤ b.m_Offset ∨ b.m_Offset + b.m_Size ≤ a.m_Offset) := by
  obtain ⟨hinv, hsz⟩ := hr.inv hS0 hS hM
  obtain ⟨c, c1, c2, c3, c4, c5, c6, -⟩ :=
    chain_exists hinv.shape hinv.chain (by rw [hsz]; exact hS0)
  rw [hsz] at c6
  refine ⟨c, c1, c2, c3, c4, c5, c6, ?_, ?_⟩
  · intro h hh
    obtain ⟨a1, a2, a3, a4, a5⟩ := hinv.handles.node h hh
    have := hinv.chain.bound _ a2
    rw [a4, a5, hsz] at this
    exact ⟨a1, (c4 _).mpr a2, a3, a4, a5, this⟩
  · refine hinv.handles.distinct.imp_of_mem ?_
    intro a b ha hb hab
    obtain ⟨-, a2, -, a4, a5⟩ := hinv.handles.node a ha
    obtain ⟨-, b2, -, b4, b5⟩ := hinv.handles.node b hb
    have := hinv.chain.disjoint _ _ a2 b2 hab
    rw [a4, a5, b4, b5] at this
    exact this

/-- C7. No-adjacent-free invariant: in every state reachable from `Init` by `Alloc` and
`Free` calls (each valid handle freed at most once), a free node has no free physical
neighbour: its `NeighborNext` and its `NeighborPrev`, when present, are nodes marked
used. In particular, after `Free` of a held handle the slot the handle names holds one
free node that contains the handle's range and whose neighbours are used. -/
theorem no_adjacent_free {S M : Nat} (hS0 : 0 < S) (hS : S < 4294967296)
    (hM : M + 1 < 4294967296) {s : OffsetAllocator} {L : List OffsetHandle}
    (hr : Reachable S M s L) :
    (∀ i, s.isLive i → (s.nodeAt i).Used = false →
      ((s.nodeAt i).NeighborNext ≠ Node.UNUSED →
        s.isLive (s.nodeAt i).NeighborNext ∧
        (s.nodeAt (s.nodeAt i).NeighborNext).Used = true) ∧
      ((s.nodeAt i).NeighborPrev ≠ Node.UNUSED →
        s.isLive (s.nodeAt i).NeighborPrev ∧
        (s.nodeAt (s.nodeAt i).NeighborPrev).Used = true)) ∧
    (∀ h ∈ L,
      (s.Free h).1.isLive h.m_MetaData ∧
      ((s.Free h).1.nodeAt h.m_MetaData).Used = false ∧
      ((s.Free h).1.nodeAt h.m_MetaData).DataOffset ≤ h.m_Offset ∧
      h.m_Offset + h.m_Size ≤ ((s.Free h).1.nodeAt h.m_MetaData).DataOffset +
        ((s.Free h).1.nodeAt h.m_MetaData).DataSize ∧
      (((s.Free h).1.nodeAt h.m_MetaData).NeighborNext ≠ Node.UNUSED →
        ((s.Free h).1.nodeAt ((s.Free h).1.nodeAt h.m_MetaData).NeighborNext).Used = true) ∧
      (((s.Free h).1.nodeAt h.m_MetaData).NeighborPrev ≠ Node.UNUSED →
        ((s.Free h).1.nodeAt ((s.Free h).1.nodeAt h.m_MetaData).NeighborPrev).Used = true)) := by
  have key : ∀ {t : OffsetAllocator} {K : List OffsetHandle}, t.Inv K →
      ∀ i, t.isLive i → (t.nodeAt i).Used = false →
      ((t.nodeAt i).NeighborNext ≠ Node.UNUSED →
        t.isLive (t.nodeAt i).NeighborNext ∧
        (t.nodeAt (t.nodeAt i).NeighborNext).Used = true) ∧
      ((t.nodeAt i).NeighborPrev ≠ Node.UNUSED →
        t.isLive (t.nodeAt i).NeighborPrev ∧
        (t.nodeAt (t.nodeAt i).NeighborPrev).Used = true) := by
    intro t K hinv i hi hf
    have hU : ∀ j, t.isLive j → j ≠ Node.UNUSED := fun j h => h.ne_UNUSED hinv.shape
    exact ⟨fun h => ⟨((hinv.chain.next i hi).2 h).1, hinv.chain.noAdj i hi hf h⟩,
      fun h => ⟨((hinv.chain.prev i hi).2 h).1, prev_used_of_free hinv.chain hi hf h hU⟩⟩
  obtain ⟨hinv, -⟩ := hr.inv hS0 hS hM
  refine ⟨key hinv, ?_⟩
  intro h hh
  obtain ⟨f1, -, f3, f4, f5, f6⟩ := Inv_Free hinv hh
  obtain ⟨k1, k2⟩ := key f1 _ f3 f4
  exact ⟨f3, f4, f5, f6, fun hn => (k1 hn).2, fun hp => (k2 hp).2⟩

/-- C2. `Alloc` postcondition: in every reachable state, when `Alloc(size)` returns a
valid handle `h`, then `h.GetSize() == size`; the token of `h` is the arena index of a
node that is now marked used, with `DataSize == size` and `DataOffset == h.GetOffset()`;
before the call that slot held a free node of at least `size` bytes that starts at
`h.GetOffset()` (the allocation is left-aligned in it). When the free node was larger, the
rest is a new free node at `offset + size`, linked as the next neighbour of the allocated
node; when it had exactly `size` bytes no node is added. -/
theorem alloc_postcondition {S M : Nat} (hS0 : 0 < S) (hS : S < 4294967296)
    (hM : M + 1 < 4294967296) {s : OffsetAllocator} {L : List OffsetHandle}
    (hr : Reachable S M s L) {size : Nat} (hsz : size < 4294967296)
    (hv : (s.Alloc size).2.IsValid = true) :
    (s.Alloc size).2.GetSize = size ∧
    (s.Alloc size).1.isLive (s.Alloc size).2.m_MetaData ∧
    ((s.Alloc size).1.nodeAt (s.Alloc size).2.m_MetaData).Used = true ∧
    ((s.Alloc size).1.nodeAt (s.Alloc size).2.m_MetaData).DataSize = size ∧
    ((s.Alloc size).1.nodeAt (s.Alloc size).2.m_MetaData).DataOffset =
      (s.Alloc size).2.GetOffset ∧
    s.isLive (s.Alloc size).2.m_MetaData ∧
    (s.nodeAt (s.Alloc size).2.m_MetaData).Used = false ∧
    (s.nodeAt (s.Alloc size).2.m_MetaData).DataOffset = (s.Alloc size).2.GetOffset ∧
    size ≤ (s.nodeAt (s.Alloc size).2.m_MetaData).DataSize ∧
    (size < (s.nodeAt (s.Alloc size).2.m_MetaData).DataSize →
      ¬ s.isLive ((s.Alloc size).1.nodeAt (s.Alloc size).2.m_MetaData).NeighborNext ∧
      (∀ j, (s.Alloc size).1.isLive j ↔ s.isLive j ∨
        j = ((s.Alloc size).1.nodeAt (s.Alloc size).2.m_MetaData).NeighborNext) ∧
      ((s.Alloc size).1.nodeAt
        ((s.Alloc size).1.nodeAt (s.Alloc size).2.m_MetaData).NeighborNext).Used = false ∧
      ((s.Alloc size).1.nodeAt
        ((s.Alloc size).1.nodeAt (s.Alloc size).2.m_MetaData).NeighborNext).DataOffset =
          (s.Alloc size).2.GetOffset + size ∧
      ((s.Alloc size).1.nodeAt
        ((s.Alloc size).1.nodeAt (s.Alloc size).2.m_MetaData).NeighborNext).DataSize =
          (s.nodeAt (s.Alloc size).2.m_MetaData).DataSize - size) ∧
    ((s.nodeAt (s.Alloc size).2.m_MetaData).DataSize = size →
      ∀ j, (s.Alloc size).1.isLive j ↔ s.isLive j) := by
  obtain ⟨hinv, -⟩ := hr.inv hS0 hS hM
  obtain ⟨g1, g2, -, t, l, ht, hl, hne, hfru, he⟩ := Alloc_valid hinv.shape hinv.bins hsz hv
  obtain ⟨-, -, -, a4, a5, a6, a7, a8, -⟩ :=
    AllocFromBin_inv hinv.shape hinv.bins hinv.chain ht hl hne hsz g2 hfru g1
  obtain ⟨b1, b2⟩ :=
    AllocFromBin_rem hinv.shape hinv.bins hinv.chain ht hl hne hsz g2 hfru g1
  obtain ⟨h1, h2, -, -⟩ := hinv.bins.head _ (by omega) hne
  have hle := served_size_le hinv.bins ht hl hne hsz hfru
  rw [he, a4]
  simp only [OffsetHandle.GetSize, OffsetHandle.GetOffset]
  refine ⟨trivial, a5, a6, a8, a7, h1, h2, trivial, hle, ?_, b1⟩
  intro hlt
  obtain ⟨c1, c2, c3, c4, c5, c6⟩ := b2 hlt
  rw [c3]
  exact ⟨c1, c2, c4, c5, c6⟩

end OffsetAllocator

namespace OffsetAllocator

/-- The handle the second half of `Alloc` returns is valid. -/
theorem AllocFromBin_valid {s : OffsetAllocator} {t l size : Nat} (hs : s.Shape)
    (hb : s.BinsOK) (hc : s.ChainOK) (ht : t < 32) (hl : l < 8)
    (hne : s.binAt (8 * t + l) ≠ Node.UNUSED) (hsz : size < 4294967296) (h0 : 0 < size)
    (hfru : FloatRoundUp size ≤ 8 * t + l) (hoff : 0 ≤ s.m_FreeOffset) :
    (s.AllocFromBin size t l).2.IsValid = true ∧ (s.AllocFromBin size t l).2.m_Size = size := by
  obtain ⟨-, -, -, r4, -⟩ := AllocFromBin_inv hs hb hc ht hl hne hsz h0 hfru hoff
  obtain ⟨h1, -, -, -⟩ := hb.head _ (by omega) hne
  have hXU := h1.ne_UNUSED hs
  have hbd := hc.bound _ h1
  have hps := hc.pos _ h1
  have hSlt := hs.size_lt
  rw [r4]
  refine ⟨?_, rfl⟩
  unfold OffsetHandle.IsValid NO_SPACE OffsetHandle.INVALID_OFFSET
  unfold Node.UNUSED at hXU
  simp only [bne_iff_ne, ne_eq, Bool.and_eq_true]
  exact ⟨by omega, hXU⟩

/-- C3. `Alloc` failure condition: in every reachable state, `Alloc(size)` returns the
invalid handle (offset and token equal to the sentinel `0xFFFFFFFF`, size 0) if and only
if `size == 0`, or the free-index stack is empty (`m_FreeOffset < 0`), or `size` exceeds
`GetFreeSize()`, or every bin with index at least `FloatRoundUp(size)` is empty;
otherwise the handle it returns has `IsValid()` true. -/
theorem alloc_failure_iff {S M : Nat} (hS0 : 0 < S) (hS : S < 4294967296)
    (hM : M + 1 < 4294967296) {s : OffsetAllocator} {L : List OffsetHandle}
    (hr : Reachable S M s L) {size : Nat} (hsz : size < 4294967296) :
    ((s.Alloc size).2 = { m_Offset := 4294967295, m_Size := 0, m_MetaData := 4294967295 } ↔
      (size = 0 ∨ s.m_FreeOffset < 0 ∨ size > s.GetFreeSize ∨
        ∀ b, b < 256 → FloatRoundUp size ≤ b → s.binAt b = Node.UNUSED)) ∧
    ((s.Alloc size).2 ≠ { m_Offset := 4294967295, m_Size := 0, m_MetaData := 4294967295 } →
      (s.Alloc size).2.IsValid = true) := by
  obtain ⟨hinv, -⟩ := hr.inv hS0 hS hM
  by_cases hg : s.m_FreeOffset < 0 ∨ size = 0 ∨ size > s.GetFreeSize
  · have : s.Alloc size = (s, { m_Offset := NO_SPACE, m_Size := 0, m_MetaData := NO_SPACE }) := by
      simp [Alloc, hg]
    rw [this]
    refine ⟨⟨fun _ => ?_, fun _ => rfl⟩, fun h => absurd rfl h⟩
    rcases hg with h | h | h
    · exact Or.inr (Or.inl h)
    · exact Or.inl h
    · exact Or.inr (Or.inr (Or.inl h))
  · rcases Alloc_search hinv.shape hinv.bins hsz hg with
      ⟨h1, h2⟩ | ⟨t, l, ht, hl, hne, hfru, -, hA⟩
    · rw [h1]
      exact ⟨⟨fun _ => Or.inr (Or.inr (Or.inr h2)), fun _ => rfl⟩, fun h => absurd rfl h⟩
    · have h0 : 0 < size := by
        rcases Nat.eq_zero_or_pos size with h | h
        · exact absurd (Or.inr (Or.inl h)) hg
        · exact h
      have hoff : 0 ≤ s.m_FreeOffset := by
        by_contra hc'
        exact hg (Or.inl (by omega))
      obtain ⟨v1, v2⟩ := AllocFromBin_valid hinv.shape hinv.bins hinv.chain ht hl hne hsz h0
        hfru hoff
      rw [hA]
      refine ⟨⟨fun h => ?_, fun h => ?_⟩, fun _ => v1⟩
      · rw [h] at v2
        simp only at v2
        omega
      · rcases h with h | h | h | h
        · omega
        · omega
        · exact absurd (Or.inr (Or.inr h)) hg
        · exact absurd (h _ (by omega) hfru) hne

/-- C8. In every reachable state, `Free` of a held (valid, not yet freed) handle returns
the handle as it was: the handle variable still holds its offset, size and token, and
`IsValid()` is still true. The main path of `Free` never calls `Reset()`. -/
theorem free_keeps_handle {S M : Nat} (hS0 : 0 < S) (hS : S < 4294967296)
    (hM : M + 1 < 4294967296) {s : OffsetAllocator} {L : List OffsetHandle}
    (hr : Reachable S M s L) {h : OffsetHandle} (hh : h ∈ L) :
    (s.Free h).2 = h ∧ (s.Free h).2.IsValid = true := by
  obtain ⟨hinv, -⟩ := hr.inv hS0 hS hM
  obtain ⟨-, f2, -⟩ := Inv_Free hinv hh
  rw [f2]
  exact ⟨rfl, (hinv.handles.node h hh).1⟩

/-- C9. Idempotent double free: in every reachable state, for a held handle `h`, calling
`Free` on the handle variable and then `Free` on the same variable again leaves the
allocator state after the second call equal to the state after the first call (all
members: free-storage counter, bitmaps, bin heads, node arena, free-index stack). -/
theorem double_free_idempotent {S M : Nat} (hS0 : 0 < S) (hS : S < 4294967296)
    (hM : M + 1 < 4294967296) {s : OffsetAllocator} {L : List OffsetHandle}
    (hr : Reachable S M s L) {h : OffsetHandle} (hh : h ∈ L) :
    ((s.Free h).1.Free (s.Free h).2).1 = (s.Free h).1 := by
  obtain ⟨hinv, -⟩ := hr.inv hS0 hS hM
  obtain ⟨-, f2, f3, f4, -⟩ := Inv_Free hinv hh
  rw [f2]
  have hv := (hinv.handles.node h hh).1
  generalize (s.Free h).1 = u at f3 f4
  simp only [Free, hv, isSome_of_isLive f3, f4, Bool.not_true, Bool.not_false,
    Bool.false_eq_true, if_false, if_true]

/-- C10. `Free` guard: `Free(h)` leaves the allocator state unchanged whenever `h` is
invalid (its offset or its token equals the sentinel), or the allocator has no arena (as
after `Term`), or the node at the token of `h` is not marked used. -/
theorem free_guard (s : OffsetAllocator) (h : OffsetHandle)
    (hg : (h.m_Offset = 4294967295 ∨ h.m_MetaData = 4294967295) ∨ s.m_Nodes = none ∨
      (s.nodeAt h.m_MetaData).Used = false) :
    (s.Free h).1 = s := by
  unfold OffsetAllocator.Free
  rcases hg with hg | hg | hg
  · have hv : h.IsValid = false := by
      unfold OffsetHandle.IsValid NO_SPACE OffsetHandle.INVALID_OFFSET
      rcases hg with e | e <;> simp [e]
    simp [hv]
  · by_cases hv : h.IsValid = true <;> simp [hv, hg]
  · by_cases hv : h.IsValid = true <;> by_cases hn : s.m_Nodes.isNone = true <;>
      simp [hv, hn, hg]

end OffsetAllocator

namespace OffsetAllocator

/-- The second merge of `Free`, when the next neighbour is free and heads its bin: the
bin-side effect. -/
theorem FreeMergeNext_bins {s : OffsetAllocator} (hs : s.Shape) (hb : s.BinsOK) {X : Nat}
    (hXl : s.isLive X) {N : Nat} (hN : (s.nodeAt X).NeighborNext = N) (hNl : s.isLive N)
    (hNf : (s.nodeAt N).Used = false) (hNp : (s.nodeAt N).BinListPrev = Node.UNUSED)
    (sz : Nat) :
    (∀ c, (s.FreeMergeNext X sz).1.binAt c =
      if c = FloatRoundDown (s.nodeAt N).DataSize then (s.nodeAt N).BinListNext
      else s.binAt c) ∧
    (∀ j, ((s.FreeMergeNext X sz).1.nodeAt j).BinListNext = (s.nodeAt j).BinListNext) ∧
    (s.FreeMergeNext X sz).1.m_FreeStorage = sub32 s.m_FreeStorage (s.nodeAt N).DataSize ∧
    (s.FreeMergeNext X sz).1.m_FreeOffset = s.m_FreeOffset + 1 ∧
    (s.FreeMergeNext X sz).2 = add32 sz (s.nodeAt N).DataSize := by
  have hNU : N ≠ Node.UNUSED := hNl.ne_UNUSED hs
  have hmn : (s.nodeAt X).NeighborNext ≠ Node.UNUSED ∧
      (s.nodeAt (s.nodeAt X).NeighborNext).Used = false := by
    rw [hN]; exact ⟨hNU, hNf⟩
  obtain ⟨-, -, -, r4⟩ := RemoveNode_relink hs hb hNl hNf hXl
    { (s.RemoveNode N).nodeAt X with
      NeighborNext := ((s.RemoveNode N).nodeAt N).NeighborNext }
    ⟨rfl, rfl, rfl, rfl⟩
  have hun := RemoveNodeUnlink_nodeAt hb hNl hNf
  have hbin := RemoveNodeUnlink_binAt hs hb hNl
  have hfs := RemoveNode_m_FreeStorage hb hNl hNf
  have hE : s.FreeMergeNext X sz =
      ((s.RemoveNode N).setNodeAt X
        { (s.RemoveNode N).nodeAt X with
          NeighborNext := ((s.RemoveNode N).nodeAt N).NeighborNext },
        add32 sz (s.nodeAt N).DataSize) := by
    simp only [FreeMergeNext, hN, hNU, hNf, ne_eq, not_false_eq_true, and_self, if_true]
  rw [hE]
  refine ⟨?_, ?_, ?_, ?_, rfl⟩
  · intro c
    simp only [binAt_setNodeAt, binAt_RemoveNode]
    rw [hbin, hNp]
    simp only [true_and]
  · intro j
    simp only
    rw [r4]
    have e : ∀ k, ((s.RemoveNode N).nodeAt k).BinListNext = (s.nodeAt k).BinListNext := by
      intro k
      rw [nodeAt_RemoveNode, hun, hNp]
      simp only [ne_eq, not_true_eq_false, and_false, if_false]
    split_ifs with h
    · simp only; rw [e, h]
    · exact e j
  · simp only [m_FreeStorage_setNodeAt]
    exact hfs
  · simp only [m_FreeOffset_setNodeAt, m_FreeOffset_RemoveNode]

end OffsetAllocator

namespace OffsetAllocator

section
variable {s : OffsetAllocator} {t l size : Nat}

/-- The bin-side effect of the second half of `Alloc`. -/
theorem AllocFromBin_bins (hs : s.Shape) (hb : s.BinsOK) (hc : s.ChainOK)
    (ht : t < 32) (hl : l < 8) (hne : s.binAt (8 * t + l) ≠ Node.UNUSED)
    (hsz : size < 4294967296) (h0 : 0 < size) (hfru : FloatRoundUp size ≤ 8 * t + l)
    (hoff : 0 ≤ s.m_FreeOffset) :
    ((s.AllocFromBin size t l).1.nodeAt (s.binAt (8 * t + l))).NeighborPrev =
      (s.nodeAt (s.binAt (8 * t + l))).NeighborPrev ∧
    ((s.nodeAt (s.binAt (8 * t + l))).DataSize = size →
      (∀ c, (s.AllocFromBin size t l).1.binAt c =
        if c = 8 * t + l then (s.nodeAt (s.binAt (8 * t + l))).BinListNext else s.binAt c) ∧
      (∀ j, j ≠ s.binAt (8 * t + l) →
        ((s.AllocFromBin size t l).1.nodeAt j).BinListNext = (s.nodeAt j).BinListNext) ∧
      (s.AllocFromBin size t l).1.m_FreeStorage = sub32 s.m_FreeStorage size ∧
      (s.AllocFromBin size t l).1.m_FreeOffset = s.m_FreeOffset ∧
      ((s.AllocFromBin size t l).1.nodeAt (s.binAt (8 * t + l))).NeighborNext =
        (s.nodeAt (s.binAt (8 * t + l))).NeighborNext) ∧
    (size < (s.nodeAt (s.binAt (8 * t + l))).DataSize →
      (∀ c, (s.AllocFromBin size t l).1.binAt c =
        if c = FloatRoundDown ((s.nodeAt (s.binAt (8 * t + l))).DataSize - size) then
          s.freeNodeAt s.m_FreeOffset
        else if c = 8 * t + l then (s.nodeAt (s.binAt (8 * t + l))).BinListNext
        else s.binAt c) ∧
      (∀ j, j ≠ s.binAt (8 * t + l) → j ≠ s.freeNodeAt s.m_FreeOffset →
        ((s.AllocFromBin size t l).1.nodeAt j).BinListNext = (s.nodeAt j).BinListNext) ∧
      ((s.AllocFromBin size t l).1.nodeAt (s.freeNodeAt s.m_FreeOffset)).BinListNext =
        (if FloatRoundDown ((s.nodeAt (s.binAt (8 * t + l))).DataSize - size) = 8 * t + l then
          (s.nodeAt (s.binAt (8 * t + l))).BinListNext
        else s.binAt (FloatRoundDown ((s.nodeAt (s.binAt (8 * t + l))).DataSize - size))) ∧
      ((s.AllocFromBin size t l).1.nodeAt (s.freeNodeAt s.m_FreeOffset)).BinListPrev =
        Node.UNUSED ∧
      (s.AllocFromBin size t l).1.m_FreeStorage =
        add32 (sub32 s.m_FreeStorage (s.nodeAt (s.binAt (8 * t + l))).DataSize)
          ((s.nodeAt (s.binAt (8 * t + l))).DataSize - size) ∧
      (s.AllocFromBin size t l).1.m_FreeOffset = s.m_FreeOffset - 1) := by
  have hb256 : 8 * t + l < 256 := by omega
  obtain ⟨h1, h2, h3, h4⟩ := hb.head _ hb256 hne
  have hTlt := hb.size_lt _ h1
  rw [AllocFromBin_eq ht hl]
  simp only
  refine ⟨?_, ?_, ?_⟩
  · by_cases hT : (s.nodeAt (s.binAt (8 * t + l))).DataSize = size
    · rw [AllocSplit_exact _ hT hTlt]
      have := (@AllocPop_chain _ _ _ size hs hb ht hl hne (s.binAt (8 * t + l))).2.2.2.1
      rw [if_pos rfl] at this
      exact this
    · have hlt : size < (s.nodeAt (s.binAt (8 * t + l))).DataSize := by
        have := served_size_le hb ht hl hne hsz hfru
        omega
      rw [AllocSplit_rem _ hlt hTlt]
      obtain ⟨-, -, -, -, r5, -⟩ := Alloc_split_inv hs hb hc ht hl hne hoff h0 hlt
      have := (r5 (s.binAt (8 * t + l))).2.2.2.1
      rw [if_pos rfl] at this
      exact this
  · intro hT
    rw [AllocSplit_exact _ hT hTlt]
    refine ⟨AllocPop_binAt hs ht hl size, ?_, ?_, by simp, ?_⟩
    · intro j hj
      rw [AllocPop_nodeAt hs hb ht hl hne, if_neg hj]
      split_ifs <;> rfl
    · rw [AllocPop_m_FreeStorage, binIndex_eq ht hl, hT]
    · have := (@AllocPop_chain _ _ _ size hs hb ht hl hne (s.binAt (8 * t + l))).2.2.2.2
      rw [if_pos rfl] at this
      exact this
  · intro hlt
    rw [AllocSplit_rem _ hlt hTlt]
    obtain ⟨-, -, -, -, -, r6⟩ := Alloc_split_inv hs hb hc ht hl hne hoff h0 hlt
    exact r6

end

end OffsetAllocator

namespace OffsetAllocator

theorem roundtrip_arith_exact {fs z : Nat} (h : fs < 4294967296) (hz : z < 4294967296) :
    add32 (sub32 fs z) z = fs := by
  unfold add32 sub32; omega

theorem roundtrip_arith_split {fs T z : Nat} (h : fs < 4294967296) (hT : T < 4294967296)
    (hz : z < T) :
    add32 (sub32 (add32 (sub32 fs T) (T - z)) (T - z)) (add32 z (T - z)) = fs := by
  unfold add32 sub32; omega

section
variable {s : OffsetAllocator} {t l size : Nat}

/-- `Alloc` followed by `Free` of the handle it returned: every bin head, the bin links,
ranges of the nodes the state held before, the free-storage counter and the stack index
are as they were. -/
theorem roundtrip_core (hs : s.Shape) (hb : s.BinsOK) (hc : s.ChainOK)
    (ht : t < 32) (hl : l < 8) (hne : s.binAt (8 * t + l) ≠ Node.UNUSED)
    (hsz : size < 4294967296) (h0 : 0 < size) (hfru : FloatRoundUp size ≤ 8 * t + l)
    (hoff : 0 ≤ s.m_FreeOffset) :
    ((s.AllocFromBin size t l).1.Free (s.AllocFromBin size t l).2).1.Shape ∧
    ((s.AllocFromBin size t l).1.Free (s.AllocFromBin size t l).2).1.BinsOK ∧
    (∀ c, ((s.AllocFromBin size t l).1.Free (s.AllocFromBin size t l).2).1.binAt c =
      s.binAt c) ∧
    (∀ j, s.isLive j →
      (((s.AllocFromBin size t l).1.Free (s.AllocFromBin size t l).2).1.nodeAt j).BinListNext =
        (s.nodeAt j).BinListNext ∧
      (((s.AllocFromBin size t l).1.Free (s.AllocFromBin size t l).2).1.nodeAt j).DataOffset =
        (s.nodeAt j).DataOffset ∧
      (((s.AllocFromBin size t l).1.Free (s.AllocFromBin size t l).2).1.nodeAt j).DataSize =
        (s.nodeAt j).DataSize) ∧
    ((s.AllocFromBin size t l).1.Free (s.AllocFromBin size t l).2).1.m_FreeStorage =
      s.m_FreeStorage ∧
    ((s.AllocFromBin size t l).1.Free (s.AllocFromBin size t l).2).1.m_FreeOffset =
      s.m_FreeOffset := by
  have hb256 : 8 * t + l < 256 := by omega
  obtain ⟨h1, h2, h3, h4⟩ := hb.head _ hb256 hne
  have hU : ∀ j, s.isLive j → j ≠ Node.UNUSED := fun j h => h.ne_UNUSED hs
  have hle := served_size_le hb ht hl hne hsz hfru
  have hTlt := hb.size_lt _ h1
  have hfslt := hs.free_lt
  obtain ⟨A1, A2, A3, A4, A5, A6, A7, A8, A9⟩ :=
    AllocFromBin_inv hs hb hc ht hl hne hsz h0 hfru hoff
  obtain ⟨B0, B1, B2⟩ := AllocFromBin_bins hs hb hc ht hl hne hsz h0 hfru hoff
  obtain ⟨-, C2⟩ := AllocFromBin_rem hs hb hc ht hl hne hsz h0 hfru hoff
  obtain ⟨V1, -⟩ := AllocFromBin_valid hs hb hc ht hl hne hsz h0 hfru hoff
  have fP := merge_prev_facts hc hU h1
  have fN := merge_next_facts hc h1
  have uP := fun hu => prev_used_of_free hc h1 h2 hu hU
  have uN := hc.noAdj _ h1 h2
  rw [A4] at V1 ⊢
  generalize hX : s.binAt (8 * t + l) = X at *
  generalize (s.AllocFromBin size t l).1 = a at *
  have hFe := Free_eq V1 A5 A6
  simp only at hFe
  rw [hFe]
  simp only
  clear hFe
  -- no merge with the previous neighbour
  have hnp : ¬ ((a.nodeAt X).NeighborPrev ≠ Node.UNUSED ∧
      (a.nodeAt (a.nodeAt X).NeighborPrev).Used = false) := by
    rw [B0]
    rintro ⟨hu, hf⟩
    obtain ⟨q1, -, -, q4⟩ := fP hu
    rw [(A9 _ q1 q4).2.1, uP hu] at hf
    cases hf
  have hp : a.FreeMergePrev X (a.nodeAt X).DataOffset (a.nodeAt X).DataSize =
      (a, (a.nodeAt X).DataOffset, (a.nodeAt X).DataSize) := by
    simp only [FreeMergePrev]
    rw [if_neg hnp]
  obtain ⟨f1, f2, -, -, -, f6, -, -, -, f10, f11, f12, f13, f14, f15, f16, -⟩ :=
    Free_main A1 A2 A3 A5 A6 rfl rfl rfl rfl
  rw [hp] at f1 f2 f6 f10 f11 f12 f13 f14 f15 f16 ⊢
  simp only at f1 f2 f6 f10 f11 f12 f13 f14 f15 f16 ⊢
  rw [A7] at f1 f2 f6 f10 f11 f12 f13 f14 f15 f16 ⊢
  rw [A8] at f1 f2 f6 f10 f11 f12 f13 f14 f15 f16 ⊢
  by_cases hT : (s.nodeAt X).DataSize = size
  · obtain ⟨b1, b2, b3, b4, b5⟩ := B1 hT
    have hnn : ¬ ((a.nodeAt X).NeighborNext ≠ Node.UNUSED ∧
        (a.nodeAt (a.nodeAt X).NeighborNext).Used = false) := by
      rw [b5]
      rintro ⟨hu, hf⟩
      obtain ⟨q1, -, -, q4⟩ := fN hu
      rw [(A9 _ q1 q4).2.1, uN hu] at hf
      cases hf
    have hn : a.FreeMergeNext X size = (a, size) := by
      simp only [FreeMergeNext]
      rw [if_neg hnn]
    rw [hn] at f1 f2 f6 f10 f11 f12 f13 f14 f15 f16 ⊢
    simp only at f1 f2 f6 f10 f11 f12 f13 f14 f15 f16 ⊢
    have hfrd : FloatRoundDown size = 8 * t + l := by rw [← hT]; exact h3
    rw [hfrd] at f12 f14
    refine ⟨f1, f2, ?_, ?_, ?_, ?_⟩
    · intro c
      rw [f12, b1]
      by_cases hc' : c = 8 * t + l
      · rw [if_pos hc', hc', hX]
      · rw [if_neg hc', if_neg hc']
    · intro j hj
      by_cases hjX : j = X
      · rw [hjX, f14, b1, if_pos rfl, f10, f11]
        exact ⟨rfl, rfl, hT.symm⟩
      · obtain ⟨-, -, e1, e2⟩ := A9 j hj hjX
        obtain ⟨g1, g2, -⟩ := f6 j hjX
        exact ⟨by rw [f13 j hjX, b2 j hjX], by rw [g1, e1], by rw [g2, e2]⟩
    · rw [f15, b3]
      exact roundtrip_arith_exact hfslt hsz
    · rw [f16, b4]
  · have hlt : size < (s.nodeAt X).DataSize := by omega
    obtain ⟨d1, d2, d3, d4, d5, d6⟩ := B2 hlt
    obtain ⟨c1, c2, c3, c4, c5, c6⟩ := C2 hlt
    have hrl : a.isLive (s.freeNodeAt s.m_FreeOffset) := (c2 _).mpr (Or.inr rfl)
    obtain ⟨m1, m2, m3, m4, m5⟩ := FreeMergeNext_bins A1 A2 A5 c3 hrl c4 d4 size
    rw [c6] at m1 m3 m5
    have hadd : add32 size ((s.nodeAt X).DataSize - size) = (s.nodeAt X).DataSize := by
      unfold add32; omega
    rw [hadd] at m5
    generalize a.FreeMergeNext X size = n at *
    rw [m5] at f1 f2 f6 f10 f11 f12 f13 f14 f15 f16 ⊢
    rw [h3] at f12 f14
    have hnb : ∀ c, n.1.binAt c =
        if c = 8 * t + l then (s.nodeAt X).BinListNext else s.binAt c := by
      intro c
      rw [m1, d1, d3]
      by_cases e1 : c = FloatRoundDown ((s.nodeAt X).DataSize - size)
      · rw [if_pos e1, e1]
      · rw [if_neg e1, if_neg e1]
    refine ⟨f1, f2, ?_, ?_, ?_, ?_⟩
    · intro c
      rw [f12, hnb]
      by_cases hc' : c = 8 * t + l
      · rw [if_pos hc', hc', hX]
      · rw [if_neg hc', if_neg hc']
    · intro j hj
      by_cases hjX : j = X
      · rw [hjX, f14, hnb, if_pos rfl, f10, f11]
        exact ⟨rfl, rfl, rfl⟩
      · have hjr : j ≠ s.freeNodeAt s.m_FreeOffset := by
          intro e; rw [e] at hj; exact c1 hj
        obtain ⟨-, -, e1, e2⟩ := A9 j hj hjX
        obtain ⟨g1, g2, -⟩ := f6 j hjX
        exact ⟨by rw [f13 j hjX, m2, d2 j hjX hjr], by rw [g1, e1], by rw [g2, e2]⟩
    · rw [f15, m3, d5, ← hadd]
      rw [hadd]
      have := roundtrip_arith_split hfslt hTlt hlt
      rw [hadd] at this
      exact this
    · rw [f16, m4, d6]
      omega

end

end OffsetAllocator

namespace OffsetAllocator

/-- Two states whose free nodes agree on range and bin link list the same segments. -/
theorem binFrom_eq {s f : OffsetAllocator} (hb : s.BinsOK)
    (hn : ∀ j, s.isLive j → (f.nodeAt j).BinListNext = (s.nodeAt j).BinListNext ∧
      (f.nodeAt j).DataOffset = (s.nodeAt j).DataOffset ∧
      (f.nodeAt j).DataSize = (s.nodeAt j).DataSize) :
    ∀ fuel i, (i ≠ Node.UNUSED → s.isLive i ∧ (s.nodeAt i).Used = false) →
      f.binFrom fuel i = s.binFrom fuel i := by
  intro fuel
  induction fuel with
  | zero => intro i _; rfl
  | succ k ih =>
    intro i hi
    by_cases hu : i = Node.UNUSED
    · simp only [binFrom, hu, if_true]
    · obtain ⟨h1, h2⟩ := hi hu
      obtain ⟨e1, e2, e3⟩ := hn i h1
      simp only [binFrom, hu, if_false]
      rw [e1, e2, e3, ih]
      intro hne
      obtain ⟨q1, q2, -, -⟩ := hb.next i h1 h2 hne
      exact ⟨q1, q2⟩

/-- The two bitmaps are determined by which bins are empty. -/
theorem bitmaps_eq {s f : OffsetAllocator} (hs : s.Shape) (hb : s.BinsOK) (hs' : f.Shape)
    (hb' : f.BinsOK) (hbin : ∀ c, f.binAt c = s.binAt c) :
    (∀ u, f.usedBinsAt u = s.usedBinsAt u) ∧ f.m_UsedBinsTop = s.m_UsedBinsTop := by
  have hleaf : ∀ u, f.usedBinsAt u = s.usedBinsAt u := by
    intro u
    by_cases hu : u < 32
    · apply Nat.eq_of_testBit_eq
      intro i
      by_cases hi : i < 8
      · have e1 : (8 * u + i) >>> 3 = u := by rw [shr_3]; omega
        have e2 : (8 * u + i) &&& 7 = i := by rw [and_7]; omega
        have a := hb.leafBit (8 * u + i) (by omega)
        have b := hb'.leafBit (8 * u + i) (by omega)
        rw [e1, e2] at a b
        rw [hbin] at b
        rw [Bool.eq_iff_iff, a, b]
      · have a := hs.leaf_lt u
        have b := hs'.leaf_lt u
        rw [testBit_false_of_lt (n := 8) (by simpa using b) (by omega),
          testBit_false_of_lt (n := 8) (by simpa using a) (by omega)]
    · unfold usedBinsAt
      rw [List.getD_eq_default _ _ (by have := hs'.usedBins_len; omega),
        List.getD_eq_default _ _ (by have := hs.usedBins_len; omega)]
  refine ⟨hleaf, ?_⟩
  apply Nat.eq_of_testBit_eq
  intro i
  by_cases hi : i < 32
  · have a := hb.topBit i hi
    have b := hb'.topBit i hi
    rw [hleaf] at b
    rw [Bool.eq_iff_iff, a, b]
  · have a := hs.top_lt
    have b := hs'.top_lt
    rw [testBit_false_of_lt (n := 32) (by simpa using b) (by omega),
      testBit_false_of_lt (n := 32) (by simpa using a) (by omega)]

/-- C6. Round trip: in every reachable state, when `Alloc(n)` returns a valid handle,
calling `Free` on that handle immediately afterwards restores `GetFreeSize()`, restores
`m_UsedBinsTop` and every `m_UsedBins[t]`, and leaves in every bin the same sequence of
`(offset, size)` free segments in the same list order (read from the bin head along
`BinListNext`, to any length) as before the `Alloc`. -/
theorem alloc_free_roundtrip {S M : Nat} (hS0 : 0 < S) (hS : S < 4294967296)
    (hM : M + 1 < 4294967296) {s : OffsetAllocator} {L : List OffsetHandle}
    (hr : Reachable S M s L) {n : Nat} (hn : n < 4294967296)
    (hv : (s.Alloc n).2.IsValid = true) :
    ((s.Alloc n).1.Free (s.Alloc n).2).1.GetFreeSize = s.GetFreeSize ∧
    ((s.Alloc n).1.Free (s.Alloc n).2).1.m_UsedBinsTop = s.m_UsedBinsTop ∧
    (∀ t, ((s.Alloc n).1.Free (s.Alloc n).2).1.usedBinsAt t = s.usedBinsAt t) ∧
    (∀ b, b < 256 → ∀ fuel,
      ((s.Alloc n).1.Free (s.Alloc n).2).1.binFrom fuel
          (((s.Alloc n).1.Free (s.Alloc n).2).1.binAt b) =
        s.binFrom fuel (s.binAt b)) := by
  obtain ⟨hinv, -⟩ := hr.inv hS0 hS hM
  obtain ⟨g1, g2, -, t, l, ht, hl, hne, hfru, he⟩ := Alloc_valid hinv.shape hinv.bins hn hv
  obtain ⟨r1, r2, r3, r4, r5, r6⟩ :=
    roundtrip_core hinv.shape hinv.bins hinv.chain ht hl hne hn g2 hfru g1
  rw [he]
  obtain ⟨k1, k2⟩ := bitmaps_eq hinv.shape hinv.bins r1 r2 r3
  refine ⟨?_, k2, k1, ?_⟩
  · unfold GetFreeSize
    rw [r5, r6]
  · intro b hb fuel
    rw [r3]
    apply binFrom_eq hinv.bins r4
    intro hu
    obtain ⟨q1, q2, -, -⟩ := hinv.bins.head b hb hu
    exact ⟨q1, q2⟩

end OffsetAllocator

namespace OffsetAllocator

/-! ## Concrete runs -/

theorem demoInit_reachable : Reachable 1024 8 demoInit [] := Reachable.init empty

set_option maxRecDepth 100000 in
theorem demoAlloc_valid : demoAlloc.2.IsValid = true := by decide

theorem demoAlloc_reachable : Reachable 1024 8 demoAlloc.1 [demoAlloc.2] := by
  have h : Reachable 1024 8 demoAlloc.1
      (if demoAlloc.2.IsValid = true then demoAlloc.2 :: [] else []) :=
    Reachable.alloc 100 demoInit_reachable (by decide)
  rw [if_pos demoAlloc_valid] at h
  exact h

set_option maxRecDepth 100000 in
/-- C4, as the spec states it, fails: the fourth `Alloc(25)` does not return a valid
handle, and the fifth call `Alloc(1)` does. -/
theorem exhaustion_as_claimed_fails :
    ¬ (∃ a b c d e, exhaustionScenario = [a, b, c, d, e] ∧
        a.IsValid = true ∧ b.IsValid = true ∧ c.IsValid = true ∧ d.IsValid = true ∧
        e.IsValid = false) := by
  rintro ⟨a, b, c, d, e, h, -, -, -, hd, -⟩
  have h4 : exhaustionScenario.map OffsetHandle.IsValid = [true, true, true, false, true] := by
    decide
  rw [h] at h4
  simp at h4
  simp [h4] at hd

set_option maxRecDepth 100000 in
/-- C4, amended. Exhaustion scenario: after `Init(100, 4)` the first three `Alloc(25)`
calls return the valid handles `(0, 25, 0)`, `(25, 25, 1)`, `(50, 25, 2)`; the fourth
`Alloc(25)` returns the invalid handle, because the 25 bytes that are left sit in bin
`FloatRoundDown(25) = 20` while the search starts at bin `FloatRoundUp(25) = 21`; the
fifth call `Alloc(1)` returns the valid handle `(75, 1, 3)`. -/
theorem exhaustion_scenario :
    exhaustionScenario =
      [⟨0, 25, 0⟩, ⟨25, 25, 1⟩, ⟨50, 25, 2⟩, OffsetHandle.invalid, ⟨75, 1, 3⟩] ∧
    exhaustionScenario.map OffsetHandle.IsValid = [true, true, true, false, true] ∧
    FloatRoundDown 25 = 20 ∧ FloatRoundUp 25 = 21 := by
  decide

set_option maxRecDepth 100000 in
/-- C5. Concrete scenario: after `Init(1024, 8)`, `a = Alloc(100)` is valid with offset 0;
`b = Alloc(200)` is valid with offset 100; after `Free(a)`, `c = Alloc(50)` is valid with
offset 0; after `Free(b)` and `Free(c)`, `GetFreeSize() == 1024` and the allocator holds
exactly one node (slot 0), free, spanning `[0, 1024)`, at the head of its bin. -/
theorem concrete_scenario :
    concreteScenario.2.1.IsValid = true ∧ concreteScenario.2.1.GetOffset = 0 ∧
    concreteScenario.2.2.1.IsValid = true ∧ concreteScenario.2.2.1.GetOffset = 100 ∧
    concreteScenario.2.2.2.IsValid = true ∧ concreteScenario.2.2.2.GetOffset = 0 ∧
    concreteScenario.1.GetFreeSize = 1024 ∧
    concreteScenario.1.liveNodes = [0] ∧
    concreteScenario.1.nodeAt 0 = { DataOffset := 0, DataSize := 1024 } ∧
    concreteScenario.1.binAt (FloatRoundDown 1024) = 0 := by
  decide

end OffsetAllocator

namespace OffsetAllocator

/-! ## The general theorems at the concrete runs -/

theorem coverage_invariant_witness :
    Reachable 1024 8 demoAlloc.1 [demoAlloc.2] ∧
    ∃ c : List Nat,
      (demoAlloc.1.nodeAt (c.headD 0)).NeighborPrev = Node.UNUSED ∧
      demoAlloc.1.chainFrom (c.length + 1) (c.headD 0) = c ∧ c ≠ [] ∧
      (∀ i, i ∈ c ↔ demoAlloc.1.isLive i) ∧
      c.Pairwise (fun i j =>
        (demoAlloc.1.nodeAt i).DataOffset + (demoAlloc.1.nodeAt i).DataSize ≤
          (demoAlloc.1.nodeAt j).DataOffset) ∧
      (∀ x, x < 1024 ↔ ∃ i ∈ c, (demoAlloc.1.nodeAt i).DataOffset ≤ x ∧
        x < (demoAlloc.1.nodeAt i).DataOffset + (demoAlloc.1.nodeAt i).DataSize) ∧
      (∀ h ∈ [demoAlloc.2], h.IsValid = true ∧ h.m_MetaData ∈ c ∧
        (demoAlloc.1.nodeAt h.m_MetaData).Used = true ∧
        (demoAlloc.1.nodeAt h.m_MetaData).DataOffset = h.m_Offset ∧
        (demoAlloc.1.nodeAt h.m_MetaData).DataSize = h.m_Size ∧ h.m_Offset + h.m_Size ≤ 1024) ∧
      [demoAlloc.2].Pairwise (fun a b =>
        a.m_Offset + a.m_Size ≤ b.m_Offset ∨ b.m_Offset + b.m_Size ≤ a.m_Offset) :=
  ⟨demoAlloc_reachable,
    coverage_invariant (by decide) (by decide) (by decide) demoAlloc_reachable⟩

theorem alloc_postcondition_witness :
    Reachable 1024 8 demoInit [] ∧ (demoInit.Alloc 100).2.IsValid = true ∧
    (demoInit.Alloc 100).2.GetSize = 100 ∧
    (demoInit.Alloc 100).1.isLive (demoInit.Alloc 100).2.m_MetaData ∧
    ((demoInit.Alloc 100).1.nodeAt (demoInit.Alloc 100).2.m_MetaData).Used = true ∧
    ((demoInit.Alloc 100).1.nodeAt (demoInit.Alloc 100).2.m_MetaData).DataSize = 100 ∧
    ((demoInit.Alloc 100).1.nodeAt (demoInit.Alloc 100).2.m_MetaData).DataOffset =
      (demoInit.Alloc 100).2.GetOffset ∧
    demoInit.isLive (demoInit.Alloc 100).2.m_MetaData ∧
    (demoInit.nodeAt (demoInit.Alloc 100).2.m_MetaData).Used = false ∧
    (demoInit.nodeAt (demoInit.Alloc 100).2.m_MetaData).DataOffset =
      (demoInit.Alloc 100).2.GetOffset ∧
    100 ≤ (demoInit.nodeAt (demoInit.Alloc 100).2.m_MetaData).DataSize ∧
    (100 < (demoInit.nodeAt (demoInit.Alloc 100).2.m_MetaData).DataSize →
      ¬ demoInit.isLive
        ((demoInit.Alloc 100).1.nodeAt (demoInit.Alloc 100).2.m_MetaData).NeighborNext ∧
      (∀ j, (demoInit.Alloc 100).1.isLive j ↔ demoInit.isLive j ∨
        j = ((demoInit.Alloc 100).1.nodeAt (demoInit.Alloc 100).2.m_MetaData).NeighborNext) ∧
      ((demoInit.Alloc 100).1.nodeAt
        ((demoInit.Alloc 100).1.nodeAt
          (demoInit.Alloc 100).2.m_MetaData).NeighborNext).Used = false ∧
      ((demoInit.Alloc 100).1.nodeAt
        ((demoInit.Alloc 100).1.nodeAt
          (demoInit.Alloc 100).2.m_MetaData).NeighborNext).DataOffset =
            (demoInit.Alloc 100).2.GetOffset + 100 ∧
      ((demoInit.Alloc 100).1.nodeAt
        ((demoInit.Alloc 100).1.nodeAt
          (demoInit.Alloc 100).2.m_MetaData).NeighborNext).DataSize =
            (demoInit.nodeAt (demoInit.Alloc 100).2.m_MetaData).DataSize - 100) ∧
    ((demoInit.nodeAt (demoInit.Alloc 100).2.m_MetaData).DataSize = 100 →
      ∀ j, (demoInit.Alloc 100).1.isLive j ↔ demoInit.isLive j) :=
  ⟨demoInit_reachable, demoAlloc_valid,
    alloc_postcondition (by decide) (by decide) (by decide) demoInit_reachable (by decide)
      demoAlloc_valid⟩

theorem alloc_failure_iff_witness :
    Reachable 1024 8 demoInit [] ∧
    (((demoInit.Alloc 100).2 =
        { m_Offset := 4294967295, m_Size := 0, m_MetaData := 4294967295 } ↔
      ((100 : Nat) = 0 ∨ demoInit.m_FreeOffset < 0 ∨ 100 > demoInit.GetFreeSize ∨
        ∀ b, b < 256 → FloatRoundUp 100 ≤ b → demoInit.binAt b = Node.UNUSED)) ∧
    ((demoInit.Alloc 100).2 ≠
        { m_Offset := 4294967295, m_Size := 0, m_MetaData := 4294967295 } →
      (demoInit.Alloc 100).2.IsValid = true)) :=
  ⟨demoInit_reachable,
    alloc_failure_iff (by decide) (by decide) (by decide) demoInit_reachable (by decide)⟩

theorem alloc_free_roundtrip_witness :
    Reachable 1024 8 demoInit [] ∧ (demoInit.Alloc 100).2.IsValid = true ∧
    ((demoInit.Alloc 100).1.Free (demoInit.Alloc 100).2).1.GetFreeSize =
      demoInit.GetFreeSize ∧
    ((demoInit.Alloc 100).1.Free (demoInit.Alloc 100).2).1.m_UsedBinsTop =
      demoInit.m_UsedBinsTop ∧
    (∀ t, ((demoInit.Alloc 100).1.Free (demoInit.Alloc 100).2).1.usedBinsAt t =
      demoInit.usedBinsAt t) ∧
    (∀ b, b < 256 → ∀ fuel,
      ((demoInit.Alloc 100).1.Free (demoInit.Alloc 100).2).1.binFrom fuel
          (((demoInit.Alloc 100).1.Free (demoInit.Alloc 100).2).1.binAt b) =
        demoInit.binFrom fuel (demoInit.binAt b)) :=
  ⟨demoInit_reachable, demoAlloc_valid,
    alloc_free_roundtrip (by decide) (by decide) (by decide) demoInit_reachable (by decide)
      demoAlloc_valid⟩

theorem no_adjacent_free_witness :
    Reachable 1024 8 demoAlloc.1 [demoAlloc.2] ∧
    (∀ i, demoAlloc.1.isLive i → (demoAlloc.1.nodeAt i).Used = false →
      ((demoAlloc.1.nodeAt i).NeighborNext ≠ Node.UNUSED →
        demoAlloc.1.isLive (demoAlloc.1.nodeAt i).NeighborNext ∧
        (demoAlloc.1.nodeAt (demoAlloc.1.nodeAt i).NeighborNext).Used = true) ∧
      ((demoAlloc.1.nodeAt i).NeighborPrev ≠ Node.UNUSED →
        demoAlloc.1.isLive (demoAlloc.1.nodeAt i).NeighborPrev ∧
        (demoAlloc.1.nodeAt (demoAlloc.1.nodeAt i).NeighborPrev).Used = true)) ∧
    (∀ h ∈ [demoAlloc.2],
      (demoAlloc.1.Free h).1.isLive h.m_MetaData ∧
      ((demoAlloc.1.Free h).1.nodeAt h.m_MetaData).Used = false ∧
      ((demoAlloc.1.Free h).1.nodeAt h.m_MetaData).DataOffset ≤ h.m_Offset ∧
      h.m_Offset + h.m_Size ≤ ((demoAlloc.1.Free h).1.nodeAt h.m_MetaData).DataOffset +
        ((demoAlloc.1.Free h).1.nodeAt h.m_MetaData).DataSize ∧
      (((demoAlloc.1.Free h).1.nodeAt h.m_MetaData).NeighborNext ≠ Node.UNUSED →
        ((demoAlloc.1.Free h).1.nodeAt
          ((demoAlloc.1.Free h).1.nodeAt h.m_MetaData).NeighborNext).Used = true) ∧
      (((demoAlloc.1.Free h).1.nodeAt h.m_MetaData).NeighborPrev ≠ Node.UNUSED →
        ((demoAlloc.1.Free h).1.nodeAt
          ((demoAlloc.1.Free h).1.nodeAt h.m_MetaData).NeighborPrev).Used = true)) :=
  ⟨demoAlloc_reachable,
    no_adjacent_free (by decide) (by decide) (by decide) demoAlloc_reachable⟩

theorem free_keeps_handle_witness :
    Reachable 1024 8 demoAlloc.1 [demoAlloc.2] ∧ demoAlloc.2 ∈ [demoAlloc.2] ∧
    (demoAlloc.1.Free demoAlloc.2).2 = demoAlloc.2 ∧
    (demoAlloc.1.Free demoAlloc.2).2.IsValid = true :=
  ⟨demoAlloc_reachable, List.mem_singleton.mpr rfl,
    free_keeps_handle (by decide) (by decide) (by decide) demoAlloc_reachable
      (List.mem_singleton.mpr rfl)⟩

theorem double_free_idempotent_witness :
    Reachable 1024 8 demoAlloc.1 [demoAlloc.2] ∧ demoAlloc.2 ∈ [demoAlloc.2] ∧
    ((demoAlloc.1.Free demoAlloc.2).1.Free (demoAlloc.1.Free demoAlloc.2).2).1 =
      (demoAlloc.1.Free demoAlloc.2).1 :=
  ⟨demoAlloc_reachable, List.mem_singleton.mpr rfl,
    double_free_idempotent (by decide) (by decide) (by decide) demoAlloc_reachable
      (List.mem_singleton.mpr rfl)⟩

theorem free_guard_witness :
    (demoInit.Term.m_Nodes = none) ∧
    (demoInit.Term.Free ⟨0, 100, 0⟩).1 = demoInit.Term :=
  ⟨rfl, free_guard _ _ (Or.inr (Or.inl rfl))⟩

set_option maxRecDepth 100000 in
/-- C8, on a concrete run: after `Init(1024, 8)` and `a = Alloc(100)`, the call `Free(a)`
leaves `a` holding `(0, 100, 0)`, for which `IsValid()` is true. -/
theorem free_leaves_handle_valid :
    demoAlloc.2 = ⟨0, 100, 0⟩ ∧ (demoAlloc.1.Free demoAlloc.2).2 = ⟨0, 100, 0⟩ ∧
    (demoAlloc.1.Free demoAlloc.2).2.IsValid = true := by
  decide

end OffsetAllocator

/-! ## Size classes and alignment -/

/-- Clearing the low `k` bits of a 32-bit word rounds it down to a multiple of `2 ^ k`. -/
theorem and_not32_low_bits {x k : Nat} (hx : x < 4294967296) (hk : k < 32) :
    x &&& not32 (sub32 (2 ^ k) 1) = x / 2 ^ k * 2 ^ k := by
  have hp : 2 ^ k < 4294967296 := by
    calc 2 ^ k < 2 ^ 32 := Nat.pow_lt_pow_right (by norm_num) hk
      _ = 4294967296 := by norm_num
  have hp0 : 0 < 2 ^ k := Nat.pos_pow_of_pos _ (by norm_num)
  have hsub : sub32 (2 ^ k) 1 = 2 ^ k - 1 := by unfold sub32; omega
  rw [hsub]
  apply Nat.eq_of_testBit_eq
  intro j
  rw [Nat.testBit_and, testBit_not32 (by omega), Nat.testBit_two_pow_sub_one,
    ← Nat.shiftRight_eq_div_pow, ← Nat.shiftLeft_eq, Nat.testBit_shiftLeft,
    Nat.testBit_shiftRight]
  by_cases hj : j < k
  · have : ¬ j ≥ k := by omega
    simp [hj, this]
  · have h1 : j ≥ k := by omega
    have h2 : k + (j - k) = j := by omega
    by_cases h32 : j < 32
    · simp [hj, h1, h2, h32]
    · have : x.testBit j = false := testBit_false_of_lt (n := 32) (by simpa using hx) (by omega)
      simp [hj, h1, h2, h32, this]

/-- The quotient form of the smallest multiple of `a` that is at least `n`. -/
theorem ceil_multiple {n a : Nat} (ha : 0 < a) :
    a ∣ (n + a - 1) / a * a ∧ n ≤ (n + a - 1) / a * a ∧
    ∀ m, a ∣ m → n ≤ m → (n + a - 1) / a * a ≤ m := by
  refine ⟨Dvd.intro_left _ rfl, ?_, ?_⟩
  · have h1 := Nat.div_add_mod (n + a - 1) a
    have h2 := Nat.mod_lt (n + a - 1) ha
    have h3 : a * ((n + a - 1) / a) = (n + a - 1) / a * a := Nat.mul_comm _ _
    omega
  · rintro m ⟨q, rfl⟩ hm
    rw [Nat.mul_comm a q]
    apply Nat.mul_le_mul_right
    rw [Nat.div_le_iff_le_mul_add_pred ha]
    omega

/-- The size-class index of a larger size (rounded down) is not below the one of a
smaller size, once the larger is at least one granule above. -/
theorem FloatRoundUp_le_FloatRoundDown_of_eighth {s n : Nat} (hs1 : 1 ≤ s)
    (hn : n < 4294967296) (h : s + s / 8 ≤ n) : FloatRoundUp s ≤ FloatRoundDown n := by
  have hs : s < 4294967296 := by omega
  by_cases hs8 : s < 8
  · rw [FloatRoundUp_small hs8]
    by_cases hn8 : n < 8
    · rw [FloatRoundDown_small hn8]; omega
    · obtain ⟨e, -, n1, n2, n3, -⟩ := float_decompose (by omega) hn
      have hp : 0 < 2 ^ e := Nat.pos_pow_of_pos _ (by norm_num)
      have : 8 ≤ n / 2 ^ e := by
        rw [Nat.le_div_iff_mul_le hp]
        calc 8 * 2 ^ e = 2 ^ (e + 3) := by rw [pow_add]; ring
          _ ≤ n := n1
      omega
  · obtain ⟨es, hes, s1, s2, -, s3⟩ := float_decompose (by omega) hs
    obtain ⟨en, hen, n1, n2, n3, -⟩ := float_decompose (show 8 ≤ n by omega) hn
    have hps : 0 < 2 ^ es := Nat.pos_pow_of_pos _ (by norm_num)
    have hpn : 0 < 2 ^ en := Nat.pos_pow_of_pos _ (by norm_num)
    have e8 : 2 ^ (es + 3) = 8 * 2 ^ es := by rw [pow_add]; ring
    have e16 : 2 ^ (es + 4) = 16 * 2 ^ es := by rw [pow_add]; ring
    have hs16 : s / 2 ^ es < 16 := by
      rw [Nat.div_lt_iff_lt_mul hps]; omega
    have hn8 : 8 ≤ n / 2 ^ en := by
      rw [Nat.le_div_iff_mul_le hpn]
      calc 8 * 2 ^ en = 2 ^ (en + 3) := by rw [pow_add]; ring
        _ ≤ n := n1
    have hgran : 2 ^ es ≤ s / 8 := by
      rw [Nat.le_div_iff_mul_le (by norm_num)]; omega
    have hle : es ≤ en := by
      by_contra hc
      have : en + 4 ≤ es + 3 := by omega
      have := Nat.pow_le_pow_right (show 0 < 2 by norm_num) this
      omega
    rw [s3, n3]
    have hup : (if s % 2 ^ es = 0 then 0 else 1) ≤ 1 := by split_ifs <;> omega
    rcases Nat.eq_or_lt_of_le hle with heq | hlt
    · rw [← heq]
      have : s / 2 ^ es + 1 ≤ n / 2 ^ es := by
        have h1 : (s + 2 ^ es) / 2 ^ es = s / 2 ^ es + 1 := Nat.add_div_right s hps
        rw [← h1]
        exact Nat.div_le_div_right (by omega)
      omega
    · omega

namespace OffsetAllocator

/-- The state `Init` builds, member by member. -/
theorem Init_facts (s0 : OffsetAllocator) {S M : Nat} (hS0 : 0 < S) (hS : S < 4294967296)
    (hM : M + 1 < 4294967296) :
    (s0.Init S M).m_FreeStorage = S ∧ (s0.Init S M).m_FreeOffset = (M : Int) - 1 ∧
    (s0.Init S M).m_MaxAllocatableCount = M ∧
    (∀ c, c < 256 → (s0.Init S M).binAt c = if c = FloatRoundDown S then 0 else Node.UNUSED) ∧
    (s0.Init S M).nodeAt 0 = { DataOffset := 0, DataSize := S } := by
  obtain ⟨t, ht, h0, h1, h2, h3, h4, h5, h6, h7, h8⟩ :
      ∃ t : OffsetAllocator, s0.Init S M = (t.InsertNode S 0).1 ∧ t.m_Size = S ∧
        t.m_MaxAllocatableCount = M ∧ t.m_FreeStorage = 0 ∧ t.m_UsedBinsTop = 0 ∧
        t.m_FreeOffset = (M : Int) ∧ t.m_UsedBins = List.replicate TOP_BINS_COUNT 0 ∧
        t.m_BinIndices = List.replicate LEAF_BINS_COUNT Node.UNUSED ∧
        t.m_Nodes = some (List.replicate (add32 M 1) default) ∧
        t.m_FreeNodes = some ((List.range (add32 M 1)).map (fun i => M - i)) :=
    ⟨_, rfl, rfl, rfl, rfl, rfl, rfl, rfl, rfl, rfl, rfl⟩
  obtain ⟨a1, a2, a3, a4⟩ := fresh_state hM (by rw [h0]; exact hS) h1 h2 h3 h4 h5 h6 h7 h8
  have hoff : 0 ≤ t.m_FreeOffset := by rw [h4]; omega
  have hbin : ∀ c, c < 256 → t.binAt c = Node.UNUSED := by
    intro c hu
    unfold binAt
    rw [h6, List.getD_eq_getElem _ _ (by rw [List.length_replicate]; exact hu)]
    simp
  have hfrd := FloatRoundDown_lt hS
  rw [ht]
  refine ⟨?_, ?_, ?_, ?_, ?_⟩
  · rw [InsertNode_m_FreeStorage, h2]
    unfold add32; omega
  · rw [InsertNode_m_FreeOffset, h4]
  · rw [InsertNode_m_MaxAllocatableCount, h1]
  · intro c hc
    rw [InsertNode_binAt_inv a1 hS, a4, hbin c hc]
  · rw [InsertNode_nodeAt_inv a1 a2 hoff hS, a4, if_pos rfl, hbin _ (by omega)]
    rfl

@[simp] theorem m_MaxAllocatableCount_AllocSplit (s : OffsetAllocator) (size i total : Nat) :
    (s.AllocSplit size i total).m_MaxAllocatableCount = s.m_MaxAllocatableCount := by
  simp only [AllocSplit]
  split_ifs <;> simp

@[simp] theorem m_MaxAllocatableCount_Alloc (s : OffsetAllocator) (size : Nat) :
    (s.Alloc size).1.m_MaxAllocatableCount = s.m_MaxAllocatableCount := by
  simp only [Alloc, AllocFromBin]
  split_ifs <;> simp

@[simp] theorem m_MaxAllocatableCount_Free (s : OffsetAllocator) (h : OffsetHandle) :
    (s.Free h).1.m_MaxAllocatableCount = s.m_MaxAllocatableCount := by
  simp only [Free, FreeMergePrev, FreeMergeNext, FreeInsert]
  split_ifs <;> simp

/-- A failed `Alloc` leaves the state as it was. -/
theorem Alloc_invalid_state {s : OffsetAllocator} (hs : s.Shape) (hb : s.BinsOK)
    (hc : s.ChainOK) {size : Nat} (hsz : size < 4294967296)
    (hv : (s.Alloc size).2.IsValid = false) : (s.Alloc size).1 = s := by
  by_cases hg : s.m_FreeOffset < 0 ∨ size = 0 ∨ size > s.GetFreeSize
  · simp [Alloc, hg]
  · rcases Alloc_search hs hb hsz hg with ⟨h1, -⟩ | ⟨t, l, ht, hl, hne, hfru, -, hA⟩
    · rw [h1]
    · have h0 : 0 < size := by
        rcases Nat.eq_zero_or_pos size with h | h
        · exact absurd (Or.inr (Or.inl h)) hg
        · exact h
      have hoff : 0 ≤ s.m_FreeOffset := by
        by_contra hc'
        exact hg (Or.inl (by omega))
      obtain ⟨v1, -⟩ := AllocFromBin_valid hs hb hc ht hl hne hsz h0 hfru hoff
      rw [hA, v1] at hv
      cases hv

end OffsetAllocator

namespace OffsetAllocator

/-- The effect of a successful `Alloc` on the free-storage counter, the free-index stack
and the set of used nodes. -/
theorem Alloc_step {s : OffsetAllocator} {L : List OffsetHandle} (hinv : s.Inv L)
    {size : Nat} (hsz : size < 4294967296) (hv : (s.Alloc size).2.IsValid = true) :
    (s.Alloc size).2.m_Size = size ∧
    (s.Alloc size).1.m_FreeStorage + size = s.m_FreeStorage ∧
    ((s.Alloc size).1.m_FreeOffset < 0 →
      ∃ i, (s.Alloc size).1.isLive i ∧ ((s.Alloc size).1.nodeAt i).Used = false) ∧
    (∀ j, (s.Alloc size).1.isLive j → ((s.Alloc size).1.nodeAt j).Used = true →
      j = (s.Alloc size).2.m_MetaData ∨ (s.isLive j ∧ (s.nodeAt j).Used = true)) := by
  obtain ⟨hs, hb, hc, -⟩ := hinv
  obtain ⟨g1, g2, g3, t, l, ht, hl, hne, hfru, he⟩ := Alloc_valid hs hb hsz hv
  have hgf : s.GetFreeSize = s.m_FreeStorage := by
    unfold GetFreeSize; rw [if_pos (by omega)]
  rw [hgf] at g3
  have hfslt := hs.free_lt
  obtain ⟨h1, h2, -, -⟩ := hb.head _ (by omega) hne
  have hTlt := hb.size_lt _ h1
  have hle := served_size_le hb ht hl hne hsz hfru
  obtain ⟨-, -, -, A4, A5, A6, A7, A8, A9⟩ :=
    AllocFromBin_inv hs hb hc ht hl hne hsz g2 hfru g1
  obtain ⟨-, B1, B2⟩ := AllocFromBin_bins hs hb hc ht hl hne hsz g2 hfru g1
  obtain ⟨C1, C2⟩ := AllocFromBin_rem hs hb hc ht hl hne hsz g2 hfru g1
  rw [he, A4]
  refine ⟨rfl, ?_⟩
  simp only
  by_cases hT : (s.nodeAt (s.binAt (8 * t + l))).DataSize = size
  · obtain ⟨-, -, b3, b4, -⟩ := B1 hT
    refine ⟨?_, ?_, ?_⟩
    · rw [b3]; unfold sub32; omega
    · intro h; rw [b4] at h; omega
    · intro j hj hu
      by_cases hjX : j = s.binAt (8 * t + l)
      · exact Or.inl hjX
      · have hjs := (C1 hT j).mp hj
        exact Or.inr ⟨hjs, by rw [← (A9 j hjs hjX).2.1]; exact hu⟩
  · have hlt : size < (s.nodeAt (s.binAt (8 * t + l))).DataSize := by omega
    obtain ⟨-, -, -, -, d5, -⟩ := B2 hlt
    obtain ⟨c1, c2, -, c4, -, -⟩ := C2 hlt
    refine ⟨?_, ?_, ?_⟩
    · rw [d5]; unfold add32 sub32; omega
    · intro _
      exact ⟨_, (c2 _).mpr (Or.inr rfl), c4⟩
    · intro j hj hu
      by_cases hjX : j = s.binAt (8 * t + l)
      · exact Or.inl hjX
      · rcases (c2 j).mp hj with hjs | hjr
        · exact Or.inr ⟨hjs, by rw [← (A9 j hjs hjX).2.1]; exact hu⟩
        · rw [hjr, c4] at hu
          cases hu

/-- The effect of `Free` of a held handle on the free-storage counter and the set of
used nodes. -/
theorem Free_step {s : OffsetAllocator} {L : List OffsetHandle} (hinv : s.Inv L)
    {h : OffsetHandle} (hh : h ∈ L) :
    (s.Free h).1.m_FreeStorage = add32 s.m_FreeStorage h.m_Size ∧
    (∀ j, (s.Free h).1.isLive j → ((s.Free h).1.nodeAt j).Used = true →
      j ≠ h.m_MetaData ∧ s.isLive j ∧ (s.nodeAt j).Used = true) := by
  obtain ⟨hv, hl, hu, ho, hz⟩ := hinv.handles.node h hh
  rw [Free_eq hv hl hu]
  obtain ⟨-, -, -, f4, f5, f6, -, -, -, -, -, -, -, -, -, -, f17⟩ :=
    Free_main hinv.shape hinv.bins hinv.chain hl hu rfl rfl rfl rfl
  refine ⟨by rw [← hz]; exact f17, ?_⟩
  intro j hj hju
  have hjX : j ≠ h.m_MetaData := by
    intro e
    rw [e, f5] at hju
    cases hju
  exact ⟨hjX, ((f4 j).mp hj).1, by rw [← (f6 j hjX).2.2]; exact hju⟩

theorem handleBytes_erase {L : List OffsetHandle} {h : OffsetHandle} (hh : h ∈ L) :
    h.m_Size + handleBytes (L.erase h) = handleBytes L := by
  unfold handleBytes
  exact List.sum_map_erase OffsetHandle.GetSize hh

/-- The reachable states keep three more facts: when the free-index stack is empty some
node is free; the free-storage counter and the sizes of the held handles add up to the
size of the range; every used node is held by a handle. -/
theorem Reachable.inv2 {S M : Nat} (hS0 : 0 < S) (hS : S < 4294967296)
    (hM : M + 1 < 4294967296) {s : OffsetAllocator} {L : List OffsetHandle}
    (hr : Reachable S M s L) :
    (s.m_FreeOffset < 0 → ∃ i, s.isLive i ∧ (s.nodeAt i).Used = false) ∧
    s.m_FreeStorage + handleBytes L = S ∧
    (∀ i, s.isLive i → (s.nodeAt i).Used = true → ∃ h ∈ L, h.m_MetaData = i) ∧
    s.m_MaxAllocatableCount = M := by
  induction hr with
  | init s0 =>
    obtain ⟨-, a2, a3, -⟩ := Inv_Init s0 hS0 hS hM
    obtain ⟨b1, -, b3, -, -⟩ := Init_facts s0 hS0 hS hM
    refine ⟨fun _ => ⟨0, (a2 0).mpr rfl, a3.2.2.1⟩, by rw [b1]; rfl, ?_, b3⟩
    intro i hi hu
    rw [(a2 i).mp hi, a3.2.2.1] at hu
    cases hu
  | @alloc s L size hr hsz ih =>
    obtain ⟨hinv, -⟩ := hr.inv hS0 hS hM
    obtain ⟨i0, i1, i2, i3⟩ := ih
    by_cases hv : (s.Alloc size).2.IsValid = true
    · obtain ⟨a1, a2, a3, a4⟩ := Alloc_step hinv hsz hv
      rw [if_pos hv]
      refine ⟨a3, ?_, ?_, by rw [m_MaxAllocatableCount_Alloc]; exact i3⟩
      · unfold handleBytes at i1 ⊢
        rw [List.map_cons, List.sum_cons]
        show _ + ((s.Alloc size).2.m_Size + _) = S
        rw [a1]; omega
      · intro j hj hu
        rcases a4 j hj hu with e | ⟨e1, e2⟩
        · exact ⟨_, List.mem_cons_self _ _, e.symm⟩
        · obtain ⟨h, h1, h2⟩ := i2 j e1 e2
          exact ⟨h, List.mem_cons_of_mem _ h1, h2⟩
    · have hv' : (s.Alloc size).2.IsValid = false := by simpa using hv
      rw [if_neg hv, Alloc_invalid_state hinv.shape hinv.bins hinv.chain hsz hv']
      exact ⟨i0, i1, i2, i3⟩
  | @free s L h hr hh ih =>
    obtain ⟨hinv, -⟩ := hr.inv hS0 hS hM
    obtain ⟨i0, i1, i2, i3⟩ := ih
    obtain ⟨a1, a2⟩ := Free_step hinv hh
    obtain ⟨-, -, f3, f4, -⟩ := Inv_Free hinv hh
    have he := handleBytes_erase hh
    refine ⟨fun _ => ⟨_, f3, f4⟩, ?_, ?_, by rw [m_MaxAllocatableCount_Free]; exact i3⟩
    · rw [a1]
      unfold add32
      omega
    · intro j hj hu
      obtain ⟨b1, b2, b3⟩ := a2 j hj hu
      obtain ⟨h', h1, h2⟩ := i2 j b2 b3
      refine ⟨h', ?_, h2⟩
      rw [List.mem_erase_of_ne]
      · exact h1
      · intro e
        rw [e] at h2
        exact b1 h2.symm
  | @freeInvalid s L h hr hv ih =>
    rw [Free_invalid _ hv]
    exact ih

end OffsetAllocator

namespace OffsetAllocator

theorem mem_liveNodes {s : OffsetAllocator} {i : Nat} : i ∈ s.liveNodes ↔ s.isLive i := by
  unfold liveNodes
  rw [List.mem_filter, List.mem_range, decide_eq_true_eq]
  exact ⟨fun h => h.2, fun h => ⟨h.1, h⟩⟩

theorem liveNodes_nodup (s : OffsetAllocator) : s.liveNodes.Nodup :=
  (List.nodup_range _).filter _

theorem mem_usedNodes {s : OffsetAllocator} {i : Nat} :
    i ∈ s.usedNodes ↔ s.isLive i ∧ (s.nodeAt i).Used = true := by
  unfold usedNodes
  rw [List.mem_filter, mem_liveNodes]

theorem mem_unusedNodes {s : OffsetAllocator} {i : Nat} :
    i ∈ s.unusedNodes ↔ s.isLive i ∧ (s.nodeAt i).Used = false := by
  unfold unusedNodes
  rw [List.mem_filter, mem_liveNodes]
  simp

theorem usedNodes_nodup (s : OffsetAllocator) : s.usedNodes.Nodup :=
  (liveNodes_nodup s).filter _

/-- The slots that hold a node and the slots on the free-index stack make up the arena. -/
theorem live_count {s : OffsetAllocator} (hs : s.Shape) :
    s.liveNodes.length + s.stack.length = s.arenaLen := by
  have hsplit := List.length_eq_length_filter_add (l := List.range s.arenaLen)
    (fun i => decide (s.isLive i))
  rw [List.length_range] at hsplit
  have hperm : ((List.range s.arenaLen).filter (fun i => !decide (s.isLive i))).Perm s.stack := by
    rw [List.perm_ext_iff_of_nodup ((List.nodup_range _).filter _) hs.stack_nodup]
    intro a
    rw [List.mem_filter, List.mem_range]
    constructor
    · rintro ⟨h1, h2⟩
      by_contra h3
      have : s.isLive a := ⟨h1, h3⟩
      simp [this] at h2
    · intro h
      refine ⟨hs.stack_lt a h, ?_⟩
      have : ¬ s.isLive a := fun hl => hl.2 h
      simp [this]
  have := hperm.length_eq
  unfold liveNodes
  omega

/-- Splitting a sum over a list by a test. -/
theorem sum_map_filter_split (l : List Nat) (p : Nat → Bool) (f : Nat → Nat) :
    (l.map f).sum = ((l.filter p).map f).sum + ((l.filter (fun i => !p i)).map f).sum := by
  induction l with
  | nil => rfl
  | cons a t ih =>
    by_cases h : p a = true
    · simp [List.filter_cons, h, ih]; omega
    · have h' : p a = false := by simpa using h
      simp [List.filter_cons, h', ih]; omega

/-- The sizes of all nodes add up to the size of the range. -/
theorem live_sum {s : OffsetAllocator} (hs : s.Shape) (hc : s.ChainOK) (hS : 0 < s.m_Size) :
    (s.liveNodes.map (fun j => (s.nodeAt j).DataSize)).sum = s.m_Size := by
  obtain ⟨c, -, -, -, c4, -, -, c7, c8⟩ := chain_exists hs hc hS
  have hperm : c.Perm s.liveNodes := by
    rw [List.perm_ext_iff_of_nodup c8 (liveNodes_nodup s)]
    intro a
    rw [c4, mem_liveNodes]
  rw [← (hperm.map _).sum_eq]
  exact c7

/-- The held handles and the used nodes correspond one to one. -/
theorem handles_perm_used {s : OffsetAllocator} {L : List OffsetHandle} (hh : s.HandlesOK L)
    (hheld : ∀ i, s.isLive i → (s.nodeAt i).Used = true → ∃ h ∈ L, h.m_MetaData = i) :
    (L.map (fun h => h.m_MetaData)).Perm s.usedNodes := by
  have hnd : (L.map (fun h => h.m_MetaData)).Nodup := by
    rw [List.Nodup, List.pairwise_map]
    exact hh.distinct
  rw [List.perm_ext_iff_of_nodup hnd (usedNodes_nodup s)]
  intro a
  rw [List.mem_map, mem_usedNodes]
  constructor
  · rintro ⟨h, h1, rfl⟩
    obtain ⟨-, a2, a3, -⟩ := hh.node h h1
    exact ⟨a2, a3⟩
  · rintro ⟨h1, h2⟩
    obtain ⟨h, h3, h4⟩ := hheld a h1 h2
    exact ⟨h, h3, h4⟩

theorem handleBytes_eq_used {s : OffsetAllocator} {L : List OffsetHandle}
    (hh : s.HandlesOK L)
    (hheld : ∀ i, s.isLive i → (s.nodeAt i).Used = true → ∃ h ∈ L, h.m_MetaData = i) :
    handleBytes L = (s.usedNodes.map (fun j => (s.nodeAt j).DataSize)).sum := by
  rw [← ((handles_perm_used hh hheld).map _).sum_eq, List.map_map]
  unfold handleBytes
  congr 1
  apply List.map_congr_left
  intro h h1
  obtain ⟨-, -, -, -, a5⟩ := hh.node h h1
  simp only [Function.comp, OffsetHandle.GetSize]
  exact a5.symm

/-- In a reachable state the free bytes and the bytes of the held handles add up to the
size of the range, and the free-storage counter is the number of free bytes. -/
theorem Reachable.bytes {S M : Nat} (hS0 : 0 < S) (hS : S < 4294967296)
    (hM : M + 1 < 4294967296) {s : OffsetAllocator} {L : List OffsetHandle}
    (hr : Reachable S M s L) :
    s.freeBytes + handleBytes L = S ∧ s.m_FreeStorage = s.freeBytes := by
  obtain ⟨hinv, hsz⟩ := hr.inv hS0 hS hM
  obtain ⟨-, i1, i2, -⟩ := hr.inv2 hS0 hS hM
  have h1 := live_sum hinv.shape hinv.chain (by rw [hsz]; exact hS0)
  have h2 := sum_map_filter_split s.liveNodes (fun i => (s.nodeAt i).Used)
    (fun j => (s.nodeAt j).DataSize)
  have h3 := handleBytes_eq_used hinv.handles i2
  have hfb : s.freeBytes =
      ((s.liveNodes.filter (fun i => !(s.nodeAt i).Used)).map
        (fun j => (s.nodeAt j).DataSize)).sum := rfl
  have hub : (s.usedNodes.map (fun j => (s.nodeAt j).DataSize)).sum =
      ((s.liveNodes.filter (fun i => (s.nodeAt i).Used)).map
        (fun j => (s.nodeAt j).DataSize)).sum := rfl
  rw [hsz] at h1
  constructor <;> omega

/-- At most `M` nodes are marked used. -/
theorem Reachable.used_le {S M : Nat} (hS0 : 0 < S) (hS : S < 4294967296)
    (hM : M + 1 < 4294967296) {s : OffsetAllocator} {L : List OffsetHandle}
    (hr : Reachable S M s L) :
    s.usedNodes.length ≤ M ∧ L.length = s.usedNodes.length := by
  obtain ⟨hinv, hsz⟩ := hr.inv hS0 hS hM
  obtain ⟨i0, -, i2, i3⟩ := hr.inv2 hS0 hS hM
  have hcount := live_count hinv.shape
  have hstack := stack_length hinv.shape
  have harena := hinv.shape.arena
  rw [i3] at harena
  have hle : s.usedNodes.length ≤ s.liveNodes.length := List.length_filter_le _ _
  have hperm := (handles_perm_used hinv.handles i2).length_eq
  rw [List.length_map] at hperm
  refine ⟨?_, hperm⟩
  by_cases hoff : s.m_FreeOffset < 0
  · obtain ⟨i, l1, l2⟩ := i0 hoff
    have hlt : s.usedNodes.length < s.liveNodes.length := by
      unfold usedNodes
      rw [List.length_filter_lt_length_iff_exists]
      exact ⟨i, mem_liveNodes.mpr l1, by simp [l2]⟩
    omega
  · have : 1 ≤ s.stack.length := by
      rw [hstack]; omega
    omega

end OffsetAllocator

namespace OffsetAllocator

/-! ## Concrete runs: the slot scenario -/

set_option maxRecDepth 100000 in
theorem slot_valid :
    slotA.2.IsValid = true ∧ slotB.2.IsValid = true ∧ slotC.2.IsValid = true ∧
    slotD.2.IsValid = true := by
  decide

theorem slot_reachable : Reachable 1000000 4 slotState slotHandles := by
  have h0 : Reachable 1000000 4 (empty.Init 1000000 4) [] := Reachable.init empty
  have h1 : Reachable 1000000 4 slotA.1
      (if slotA.2.IsValid = true then slotA.2 :: [] else []) :=
    Reachable.alloc 1 h0 (by decide)
  rw [if_pos slot_valid.1] at h1
  have h2 : Reachable 1000000 4 slotB.1
      (if slotB.2.IsValid = true then slotB.2 :: [slotA.2] else [slotA.2]) :=
    Reachable.alloc 1 h1 (by decide)
  rw [if_pos slot_valid.2.1] at h2
  have h3 : Reachable 1000000 4 slotC.1
      (if slotC.2.IsValid = true then slotC.2 :: [slotB.2, slotA.2] else [slotB.2, slotA.2]) :=
    Reachable.alloc 1 h2 (by decide)
  rw [if_pos slot_valid.2.2.1] at h3
  have h4 : Reachable 1000000 4 slotD.1
      (if slotD.2.IsValid = true then slotD.2 :: [slotC.2, slotB.2, slotA.2]
        else [slotC.2, slotB.2, slotA.2]) :=
    Reachable.alloc 1 h3 (by decide)
  rw [if_pos slot_valid.2.2.2] at h4
  exact h4

/-- C11. Live-range limit: in every state reachable from `Init(S, M)` by `Alloc` and
`Free` calls, the number of nodes marked used is at most `M`, and it is the number of
held handles; once `M` nodes are used, `Alloc` returns an invalid handle for every size,
whatever number of bytes is still free. -/
theorem live_range_limit {S M : Nat} (hS0 : 0 < S) (hS : S < 4294967296)
    (hM : M + 1 < 4294967296) {s : OffsetAllocator} {L : List OffsetHandle}
    (hr : Reachable S M s L) :
    s.usedNodes.length ≤ M ∧ L.length = s.usedNodes.length ∧
    (s.usedNodes.length = M → ∀ size, size < 4294967296 →
      (s.Alloc size).2.IsValid = false) := by
  obtain ⟨u1, u2⟩ := hr.used_le hS0 hS hM
  refine ⟨u1, u2, ?_⟩
  intro hfull size hsz
  obtain ⟨hinv, -⟩ := hr.inv hS0 hS hM
  obtain ⟨-, -, -, i3⟩ := hr.inv2 hS0 hS hM
  by_cases hg : s.m_FreeOffset < 0 ∨ size = 0 ∨ size > s.GetFreeSize
  · have : s.Alloc size = (s, { m_Offset := NO_SPACE, m_Size := 0, m_MetaData := NO_SPACE }) := by
      simp [Alloc, hg]
    rw [this]
    exact invalid_not_valid
  · rcases Alloc_search hinv.shape hinv.bins hsz hg with ⟨h1, -⟩ | ⟨t, l, ht, hl, hne, -, -, -⟩
    · rw [h1]
      exact invalid_not_valid
    · exfalso
      obtain ⟨q1, q2, -, -⟩ := hinv.bins.head _ (by omega) hne
      have hcount := live_count hinv.shape
      have hstack := stack_length hinv.shape
      have harena := hinv.shape.arena
      rw [i3] at harena
      have hlt : s.usedNodes.length < s.liveNodes.length := by
        unfold usedNodes
        rw [List.length_filter_lt_length_iff_exists]
        exact ⟨_, mem_liveNodes.mpr q1, by simp [q2]⟩
      have : 1 ≤ s.stack.length := by
        rw [hstack]
        have : ¬ s.m_FreeOffset < 0 := fun h => hg (Or.inl h)
        omega
      omega

set_option maxRecDepth 100000 in
/-- C11, the example: after `Init(1000000, 4)` and four successful `Alloc(1)` calls four
nodes are used, a fifth `Alloc(1)` returns an invalid handle, and one free node of
999996 bytes remains (`m_FreeStorage == 999996`). -/
theorem live_range_limit_witness :
    Reachable 1000000 4 slotState slotHandles ∧
    (slotState.usedNodes.length ≤ 4 ∧ slotHandles.length = slotState.usedNodes.length ∧
      (slotState.usedNodes.length = 4 → ∀ size, size < 4294967296 →
        (slotState.Alloc size).2.IsValid = false)) ∧
    slotState.usedNodes = [0, 1, 2, 3] ∧ (slotState.Alloc 1).2.IsValid = false ∧
    slotState.m_FreeStorage = 999996 ∧ slotState.freeBytes = 999996 :=
  ⟨slot_reachable,
    live_range_limit (by decide) (by decide) (by decide) slot_reachable,
    by decide, by decide, by decide, by decide⟩

end OffsetAllocator

namespace OffsetAllocator

/-- The free bytes of a reachable state never exceed the range. -/
theorem GetUsedSize_eq {S M : Nat} (hS0 : 0 < S) (hS : S < 4294967296)
    (hM : M + 1 < 4294967296) {s : OffsetAllocator} {L : List OffsetHandle}
    (hr : Reachable S M s L) :
    s.GetUsedSize = S - s.GetFreeSize ∧ s.m_Size = S := by
  obtain ⟨-, hsz⟩ := hr.inv hS0 hS hM
  obtain ⟨b1, b2⟩ := hr.bytes hS0 hS hM
  refine ⟨?_, hsz⟩
  unfold GetUsedSize GetFreeSize
  rw [hsz]
  split_ifs <;> unfold sub32 <;> omega

/-- C12, as the spec states it, fails: after `Init(1000000, 4)` and four `Alloc(1)` the
free-index stack is empty, so `GetFreeSize()` returns 0 although one free node of 999996
bytes exists, and `GetUsedSize()` returns 1000000 although the four handles hold 4
bytes. -/
theorem accessors_as_claimed_fail :
    Reachable 1000000 4 slotState slotHandles ∧
    slotState.GetFreeSize = 0 ∧ slotState.freeBytes = 999996 ∧
    slotState.GetUsedSize = 1000000 ∧ handleBytes slotHandles = 4 ∧
    ¬ (slotState.GetFreeSize = slotState.freeBytes) ∧
    ¬ (slotState.GetUsedSize = handleBytes slotHandles) := by
  have h1 : slotState.GetFreeSize = 0 := by
    set_option maxRecDepth 100000 in decide
  have h2 : slotState.freeBytes = 999996 := by
    set_option maxRecDepth 100000 in decide
  have h3 : slotState.GetUsedSize = 1000000 := by
    set_option maxRecDepth 100000 in decide
  have h4 : handleBytes slotHandles = 4 := by
    set_option maxRecDepth 100000 in decide
  refine ⟨slot_reachable, h1, h2, h3, h4, ?_, ?_⟩
  · rw [h1, h2]; decide
  · rw [h3, h4]; decide

/-- C12, amended. Accessors: in every state reachable from `Init(S, M)` by `Alloc` and
`Free` calls, while a slot is left on the free-index stack (`m_FreeOffset >= 0`)
`GetFreeSize()` is the sum of `DataSize` over all free nodes and `GetUsedSize()` is the
sum of the sizes of the held handles; when no slot is left (`m_FreeOffset < 0`)
`GetFreeSize()` is 0 and `GetUsedSize()` is `S`, whatever is free. So `GetFreeSize()`
returns 0 exactly when no byte is free or no slot is left, and it returns 0 after
`Term`. -/
theorem accessors_accounting {S M : Nat} (hS0 : 0 < S) (hS : S < 4294967296)
    (hM : M + 1 < 4294967296) {s : OffsetAllocator} {L : List OffsetHandle}
    (hr : Reachable S M s L) :
    (0 ≤ s.m_FreeOffset → s.GetFreeSize = s.freeBytes ∧ s.GetUsedSize = handleBytes L) ∧
    (s.m_FreeOffset < 0 → s.GetFreeSize = 0 ∧ s.GetUsedSize = S) ∧
    (s.GetFreeSize = 0 ↔ s.freeBytes = 0 ∨ s.m_FreeOffset < 0) ∧
    s.Term.GetFreeSize = 0 := by
  obtain ⟨b1, b2⟩ := hr.bytes hS0 hS hM
  obtain ⟨u1, -⟩ := GetUsedSize_eq hS0 hS hM hr
  have hpos : 0 ≤ s.m_FreeOffset → s.GetFreeSize = s.freeBytes := by
    intro h
    unfold GetFreeSize
    rw [if_pos (by omega), b2]
  have hneg : s.m_FreeOffset < 0 → s.GetFreeSize = 0 := by
    intro h
    unfold GetFreeSize
    rw [if_neg (by omega)]
  refine ⟨fun h => ⟨hpos h, ?_⟩, fun h => ⟨hneg h, ?_⟩, ?_, rfl⟩
  · rw [u1, hpos h]; omega
  · rw [u1, hneg h]; omega
  · constructor
    · intro h0
      by_cases h : s.m_FreeOffset < 0
      · exact Or.inr h
      · left; rw [← hpos (by omega)]; exact h0
    · rintro (h | h)
      · by_cases h' : s.m_FreeOffset < 0
        · exact hneg h'
        · rw [hpos (by omega)]; exact h
      · exact hneg h

theorem accessors_accounting_witness :
    Reachable 1024 8 demoAlloc.1 [demoAlloc.2] ∧
    (0 ≤ demoAlloc.1.m_FreeOffset →
      demoAlloc.1.GetFreeSize = demoAlloc.1.freeBytes ∧
      demoAlloc.1.GetUsedSize = handleBytes [demoAlloc.2]) ∧
    (demoAlloc.1.m_FreeOffset < 0 →
      demoAlloc.1.GetFreeSize = 0 ∧ demoAlloc.1.GetUsedSize = 1024) ∧
    (demoAlloc.1.GetFreeSize = 0 ↔
      demoAlloc.1.freeBytes = 0 ∨ demoAlloc.1.m_FreeOffset < 0) ∧
    demoAlloc.1.Term.GetFreeSize = 0 :=
  ⟨demoAlloc_reachable,
    accessors_accounting (by decide) (by decide) (by decide) demoAlloc_reachable⟩

/-- C13. Free-storage counter invariant: in every state reachable from `Init(S, M)` by
`Alloc` and `Free` calls, `m_FreeStorage` equals the sum of `DataSize` over all free
nodes, which together with the sizes of the held handles makes `S`; a successful
`Alloc(size)` lowers the counter by exactly `size`, and `Free` of a held handle raises it
by exactly the size of the handle. -/
theorem free_storage_invariant {S M : Nat} (hS0 : 0 < S) (hS : S < 4294967296)
    (hM : M + 1 < 4294967296) {s : OffsetAllocator} {L : List OffsetHandle}
    (hr : Reachable S M s L) :
    s.m_FreeStorage = s.freeBytes ∧ s.freeBytes + handleBytes L = S ∧
    (∀ size, size < 4294967296 → (s.Alloc size).2.IsValid = true →
      (s.Alloc size).1.m_FreeStorage + size = s.m_FreeStorage) ∧
    (∀ h ∈ L, (s.Free h).1.m_FreeStorage = s.m_FreeStorage + h.GetSize) := by
  obtain ⟨hinv, -⟩ := hr.inv hS0 hS hM
  obtain ⟨b1, b2⟩ := hr.bytes hS0 hS hM
  refine ⟨b2, b1, fun size hsz hv => (Alloc_step hinv hsz hv).2.1, ?_⟩
  intro h hh
  have he := handleBytes_erase hh
  rw [(Free_step hinv hh).1]
  unfold add32 OffsetHandle.GetSize
  omega

theorem free_storage_invariant_witness :
    Reachable 1024 8 demoAlloc.1 [demoAlloc.2] ∧
    demoAlloc.1.m_FreeStorage = demoAlloc.1.freeBytes ∧
    demoAlloc.1.freeBytes + handleBytes [demoAlloc.2] = 1024 ∧
    (∀ size, size < 4294967296 → (demoAlloc.1.Alloc size).2.IsValid = true →
      (demoAlloc.1.Alloc size).1.m_FreeStorage + size = demoAlloc.1.m_FreeStorage) ∧
    (∀ h ∈ [demoAlloc.2],
      (demoAlloc.1.Free h).1.m_FreeStorage = demoAlloc.1.m_FreeStorage + h.GetSize) :=
  ⟨demoAlloc_reachable,
    free_storage_invariant (by decide) (by decide) (by decide) demoAlloc_reachable⟩

end OffsetAllocator

namespace OffsetAllocator

/-- `Reset` depends on the size and the slot count only, and so builds the state `Init`
builds. -/
theorem Reset_eq_Init (s s0 : OffsetAllocator) {S M : Nat} (h1 : s.m_Size = S)
    (h2 : s.m_MaxAllocatableCount = M) : s.Reset = s0.Init S M := by
  cases s
  cases s0
  simp only at h1 h2
  subst h1 h2
  rfl

/-- `Reset` adds no reachable state. -/
theorem ReachableWithReset.reachable {S M : Nat} (hS0 : 0 < S) (hS : S < 4294967296)
    (hM : M + 1 < 4294967296) {s : OffsetAllocator} {L : List OffsetHandle}
    (hr : ReachableWithReset S M s L) : Reachable S M s L := by
  induction hr with
  | init s0 => exact Reachable.init s0
  | alloc size _ hsz ih => exact Reachable.alloc size ih hsz
  | free h _ hh ih => exact Reachable.free h ih hh
  | freeInvalid h _ hv ih => exact Reachable.freeInvalid h ih hv
  | @reset s L _ ih =>
    obtain ⟨-, hsz⟩ := ih.inv hS0 hS hM
    obtain ⟨-, -, -, i3⟩ := ih.inv2 hS0 hS hM
    rw [Reset_eq_Init s empty hsz i3]
    exact Reachable.init empty

/-- C14. Bitmap consistency invariant: in every state reachable from `Init` by `Alloc`,
`Free` and `Reset`, for every top index `t` in 0..31 bit `t` of `m_UsedBinsTop` is set iff
`m_UsedBins[t] != 0`, and for every leaf `l` in 0..7 bit `l` of `m_UsedBins[t]` is set iff
the bin head `m_BinIndices[t * 8 + l]` is not the `UNUSED` sentinel. -/
theorem bitmap_consistency {S M : Nat} (hS0 : 0 < S) (hS : S < 4294967296)
    (hM : M + 1 < 4294967296) {s : OffsetAllocator} {L : List OffsetHandle}
    (hr : ReachableWithReset S M s L) :
    ∀ t, t < 32 →
      (s.m_UsedBinsTop.testBit t = true ↔ s.usedBinsAt t ≠ 0) ∧
      ∀ l, l < 8 →
        ((s.usedBinsAt t).testBit l = true ↔ s.binAt (t * 8 + l) ≠ Node.UNUSED) := by
  obtain ⟨hinv, -⟩ := (hr.reachable hS0 hS hM).inv hS0 hS hM
  intro t ht
  refine ⟨hinv.bins.topBit t ht, ?_⟩
  intro l hl
  have e1 : (t * 8 + l) >>> 3 = t := by rw [shr_3]; omega
  have e2 : (t * 8 + l) &&& 7 = l := by rw [and_7]; omega
  have := hinv.bins.leafBit (t * 8 + l) (by omega)
  rw [e1, e2] at this
  exact this

theorem bitmap_consistency_witness :
    ReachableWithReset 1024 8 ((empty.Init 1024 8).Alloc 100).1.Reset [] ∧
    ∀ t, t < 32 →
      ((((empty.Init 1024 8).Alloc 100).1.Reset).m_UsedBinsTop.testBit t = true ↔
        (((empty.Init 1024 8).Alloc 100).1.Reset).usedBinsAt t ≠ 0) ∧
      ∀ l, l < 8 →
        (((((empty.Init 1024 8).Alloc 100).1.Reset).usedBinsAt t).testBit l = true ↔
          (((empty.Init 1024 8).Alloc 100).1.Reset).binAt (t * 8 + l) ≠ Node.UNUSED) :=
  ⟨ReachableWithReset.reset
      (ReachableWithReset.alloc 100 (ReachableWithReset.init empty) (by decide)),
    bitmap_consistency (by decide) (by decide) (by decide)
      (ReachableWithReset.reset
        (ReachableWithReset.alloc 100 (ReachableWithReset.init empty) (by decide)))⟩

/-- A valid handle is served from the head of the lowest non-empty bin at or above the
size's class. -/
theorem Alloc_valid_min {s : OffsetAllocator} (hs : s.Shape) (hb : s.BinsOK) {size : Nat}
    (hsz : size < 4294967296) (hv : (s.Alloc size).2.IsValid = true) :
    0 ≤ s.m_FreeOffset ∧ 0 < size ∧
    ∃ t l, t < 32 ∧ l < 8 ∧ s.binAt (8 * t + l) ≠ Node.UNUSED ∧
      FloatRoundUp size ≤ 8 * t + l ∧
      (∀ b, b < 8 * t + l → FloatRoundUp size ≤ b → s.binAt b = Node.UNUSED) ∧
      s.Alloc size = s.AllocFromBin size t l := by
  by_cases hg : s.m_FreeOffset < 0 ∨ size = 0 ∨ size > s.GetFreeSize
  · have : s.Alloc size = (s, { m_Offset := NO_SPACE, m_Size := 0, m_MetaData := NO_SPACE }) := by
      simp only [Alloc, hg, if_true]
    rw [this] at hv
    have hv' : OffsetHandle.IsValid { m_Offset := NO_SPACE, m_Size := 0, m_MetaData := NO_SPACE }
        = true := hv
    rw [invalid_not_valid] at hv'
    cases hv'
  · rcases Alloc_search hs hb hsz hg with ⟨h1, -⟩ | ⟨t, l, h1, h2, h3, h4, h5, h6⟩
    · rw [h1] at hv
      have hv' : OffsetHandle.IsValid
          { m_Offset := NO_SPACE, m_Size := 0, m_MetaData := NO_SPACE } = true := hv
      rw [invalid_not_valid] at hv'
      cases hv'
    · exact ⟨by omega, by omega, t, l, h1, h2, h3, h4, h5, h6⟩

/-- C16, as the spec states it, fails: after `Init(1024, 8)` the call `Alloc(100)` is
served from the only free node, which has 1024 bytes, far more than 112. -/
theorem rounding_bound_fails :
    Reachable 1024 8 demoInit [] ∧ (demoInit.Alloc 100).2.IsValid = true ∧
    (demoInit.nodeAt (demoInit.Alloc 100).2.m_MetaData).DataSize = 1024 ∧
    ¬ (8 * (demoInit.nodeAt (demoInit.Alloc 100).2.m_MetaData).DataSize ≤ 9 * 100) := by
  have h : (demoInit.nodeAt (demoInit.Alloc 100).2.m_MetaData).DataSize = 1024 := by
    set_option maxRecDepth 100000 in decide
  refine ⟨demoInit_reachable, demoAlloc_valid, h, ?_⟩
  rw [h]
  decide

/-- C16, amended. Served node: in every reachable state, when `Alloc(size)` succeeds, the
free node popped to serve it has, before trimming, a `DataSize` `d` with `size <= d`; it
is the head of bin `FloatRoundDown(d)`, which is the lowest non-empty bin at or above
`FloatRoundUp(size)`. There is no upper bound on `d` in terms of `size`. -/
theorem served_node_bound {S M : Nat} (hS0 : 0 < S) (hS : S < 4294967296)
    (hM : M + 1 < 4294967296) {s : OffsetAllocator} {L : List OffsetHandle}
    (hr : Reachable S M s L) {size : Nat} (hsz : size < 4294967296)
    (hv : (s.Alloc size).2.IsValid = true) :
    size ≤ (s.nodeAt (s.Alloc size).2.m_MetaData).DataSize ∧
    s.binAt (FloatRoundDown (s.nodeAt (s.Alloc size).2.m_MetaData).DataSize) =
      (s.Alloc size).2.m_MetaData ∧
    FloatRoundUp size ≤ FloatRoundDown (s.nodeAt (s.Alloc size).2.m_MetaData).DataSize ∧
    (∀ b, FloatRoundUp size ≤ b →
      b < FloatRoundDown (s.nodeAt (s.Alloc size).2.m_MetaData).DataSize →
      s.binAt b = Node.UNUSED) := by
  obtain ⟨hinv, -⟩ := hr.inv hS0 hS hM
  obtain ⟨g1, g2, t, l, ht, hl, hne, hfru, hmin, he⟩ :=
    Alloc_valid_min hinv.shape hinv.bins hsz hv
  obtain ⟨-, -, -, A4, -⟩ :=
    AllocFromBin_inv hinv.shape hinv.bins hinv.chain ht hl hne hsz g2 hfru g1
  obtain ⟨-, -, h3, -⟩ := hinv.bins.head _ (by omega) hne
  have hle := served_size_le hinv.bins ht hl hne hsz hfru
  rw [he, A4]
  simp only
  rw [h3]
  exact ⟨hle, rfl, hfru, fun b h1 h2 => hmin b h2 h1⟩

theorem served_node_bound_witness :
    Reachable 1024 8 demoInit [] ∧ (demoInit.Alloc 100).2.IsValid = true ∧
    100 ≤ (demoInit.nodeAt (demoInit.Alloc 100).2.m_MetaData).DataSize ∧
    demoInit.binAt (FloatRoundDown (demoInit.nodeAt (demoInit.Alloc 100).2.m_MetaData).DataSize) =
      (demoInit.Alloc 100).2.m_MetaData ∧
    FloatRoundUp 100 ≤
      FloatRoundDown (demoInit.nodeAt (demoInit.Alloc 100).2.m_MetaData).DataSize ∧
    (∀ b, FloatRoundUp 100 ≤ b →
      b < FloatRoundDown (demoInit.nodeAt (demoInit.Alloc 100).2.m_MetaData).DataSize →
      demoInit.binAt b = Node.UNUSED) :=
  ⟨demoInit_reachable, demoAlloc_valid,
    served_node_bound (by decide) (by decide) (by decide) demoInit_reachable (by decide)
      demoAlloc_valid⟩

end OffsetAllocator

namespace OffsetAllocator

/-- C17, as the spec states it, fails: with alignment 3 the smallest multiple at or above
4 is 6, but `Alloc(4, 3)` computes `(4 + 2) & ~2 = 4` and returns a handle of 4 bytes. -/
theorem aligned_alloc_fails_for_three :
    (3 ∣ 6 ∧ 4 ≤ 6 ∧ ∀ m, 3 ∣ m → 4 ≤ m → 6 ≤ m) ∧
    (demoInit.AllocAligned 4 3).2 = ⟨0, 4, 0⟩ ∧ (demoInit.Alloc 6).2 = ⟨0, 6, 0⟩ ∧
    demoInit.AllocAligned 4 3 ≠ demoInit.Alloc 6 := by
  have h1 : (demoInit.AllocAligned 4 3).2 = ⟨0, 4, 0⟩ := by
    set_option maxRecDepth 100000 in decide
  have h2 : (demoInit.Alloc 6).2 = ⟨0, 6, 0⟩ := by
    set_option maxRecDepth 100000 in decide
  refine ⟨⟨by decide, by decide, ?_⟩, h1, h2, ?_⟩
  · rintro m ⟨q, rfl⟩ h
    omega
  · intro e
    have := congrArg Prod.snd e
    rw [h1, h2] at this
    exact absurd this (by decide)

/-- C17, amended. Aligned allocation: for every state, every power of two `2 ^ k` with
`k < 32` and every size with `size + 2 ^ k - 1 < 2 ^ 32`, `Alloc(size, 2 ^ k)` returns the
same handle and leaves the same state as `Alloc(r)`, where `r` is the smallest multiple
of `2 ^ k` that is at least `size`. -/
theorem aligned_alloc_pow2 (s : OffsetAllocator) (size k : Nat) (hk : k < 32)
    (hsz : size + 2 ^ k - 1 < 4294967296) :
    s.AllocAligned size (2 ^ k) = s.Alloc ((size + 2 ^ k - 1) / 2 ^ k * 2 ^ k) ∧
    2 ^ k ∣ (size + 2 ^ k - 1) / 2 ^ k * 2 ^ k ∧ size ≤ (size + 2 ^ k - 1) / 2 ^ k * 2 ^ k ∧
    ∀ m, 2 ^ k ∣ m → size ≤ m → (size + 2 ^ k - 1) / 2 ^ k * 2 ^ k ≤ m := by
  have hp0 : 0 < 2 ^ k := Nat.pos_pow_of_pos _ (by norm_num)
  have hp : 2 ^ k < 4294967296 := by
    calc 2 ^ k < 2 ^ 32 := Nat.pow_lt_pow_right (by norm_num) hk
      _ = 4294967296 := by norm_num
  refine ⟨?_, ceil_multiple hp0⟩
  have e1 : add32 size (sub32 (2 ^ k) 1) = size + 2 ^ k - 1 := by
    unfold add32 sub32; omega
  simp only [AllocAligned]
  rw [e1, and_not32_low_bits hsz hk]

theorem aligned_alloc_pow2_witness :
    (4 : Nat) < 32 ∧ 100 + 2 ^ 4 - 1 < 4294967296 ∧
    demoInit.AllocAligned 100 (2 ^ 4) = demoInit.Alloc ((100 + 2 ^ 4 - 1) / 2 ^ 4 * 2 ^ 4) ∧
    2 ^ 4 ∣ (100 + 2 ^ 4 - 1) / 2 ^ 4 * 2 ^ 4 ∧ 100 ≤ (100 + 2 ^ 4 - 1) / 2 ^ 4 * 2 ^ 4 ∧
    ∀ m, 2 ^ 4 ∣ m → 100 ≤ m → (100 + 2 ^ 4 - 1) / 2 ^ 4 * 2 ^ 4 ≤ m :=
  ⟨by decide, by decide, aligned_alloc_pow2 demoInit 100 4 (by decide) (by decide)⟩

theorem liveNodes_eq_singleton {s : OffsetAllocator} (h : ∀ j, s.isLive j ↔ j = 0) :
    s.liveNodes = [0] := by
  have hperm : s.liveNodes.Perm [0] := by
    rw [List.perm_ext_iff_of_nodup (liveNodes_nodup s) (List.nodup_singleton 0)]
    intro a
    rw [mem_liveNodes, h, List.mem_singleton]
  exact List.perm_singleton.mp hperm

/-- C18. `Reset` restores the initial state: for `S > 0`, `M > 0` and every state
reachable from `Init(S, M)` by `Alloc` and `Free` calls, `Reset()` yields the state of
`Init(S, M)`: exactly one node (slot 0), free, with range `[0, S)`, no neighbours and no
bin links, at the head of bin `FloatRoundDown(S)`; every other bin empty;
`GetFreeSize() == S` and `GetUsedSize() == 0`; and `M` slots on the free-index stack. -/
theorem reset_restores_initial {S M : Nat} (hS0 : 0 < S) (hS : S < 4294967296)
    (hM0 : 0 < M) (hM : M + 1 < 4294967296) {s : OffsetAllocator} {L : List OffsetHandle}
    (hr : Reachable S M s L) :
    (∀ s0 : OffsetAllocator, s.Reset = s0.Init S M) ∧
    s.Reset.liveNodes = [0] ∧
    s.Reset.nodeAt 0 =
      { DataOffset := 0, DataSize := S, BinListPrev := Node.UNUSED, BinListNext := Node.UNUSED,
        NeighborPrev := Node.UNUSED, NeighborNext := Node.UNUSED, Used := false } ∧
    (∀ b, b < 256 → s.Reset.binAt b = if b = FloatRoundDown S then 0 else Node.UNUSED) ∧
    s.Reset.GetFreeSize = S ∧ s.Reset.GetUsedSize = 0 ∧ s.Reset.stack.length = M := by
  obtain ⟨-, hsz⟩ := hr.inv hS0 hS hM
  obtain ⟨-, -, -, i3⟩ := hr.inv2 hS0 hS hM
  have hE := fun s0 => Reset_eq_Init s s0 hsz i3
  refine ⟨hE, ?_⟩
  rw [hE empty]
  obtain ⟨a1, a2, -, a4⟩ := Inv_Init empty hS0 hS hM
  obtain ⟨b1, b2, -, b4, b5⟩ := Init_facts empty hS0 hS hM
  have hgf : (empty.Init S M).GetFreeSize = S := by
    unfold GetFreeSize
    rw [if_pos (by rw [b2]; omega), b1]
  refine ⟨liveNodes_eq_singleton a2, b5, b4, hgf, ?_, ?_⟩
  · unfold GetUsedSize
    rw [hgf, a4]
    unfold sub32; omega
  · rw [stack_length a1.shape, b2]
    omega

theorem reset_restores_initial_witness :
    Reachable 1024 8 demoAlloc.1 [demoAlloc.2] ∧
    (∀ s0 : OffsetAllocator, demoAlloc.1.Reset = s0.Init 1024 8) ∧
    demoAlloc.1.Reset.liveNodes = [0] ∧
    demoAlloc.1.Reset.nodeAt 0 =
      { DataOffset := 0, DataSize := 1024, BinListPrev := Node.UNUSED,
        BinListNext := Node.UNUSED, NeighborPrev := Node.UNUSED,
        NeighborNext := Node.UNUSED, Used := false } ∧
    (∀ b, b < 256 →
      demoAlloc.1.Reset.binAt b = if b = FloatRoundDown 1024 then 0 else Node.UNUSED) ∧
    demoAlloc.1.Reset.GetFreeSize = 1024 ∧ demoAlloc.1.Reset.GetUsedSize = 0 ∧
    demoAlloc.1.Reset.stack.length = 8 :=
  ⟨demoAlloc_reachable,
    reset_restores_initial (by decide) (by decide) (by decide) (by decide)
      demoAlloc_reachable⟩

/-- C19. Round-up never under-serves: for all 32-bit sizes `s` and `n`, if
`FloatRoundUp(s) <= FloatRoundDown(n)` then `s <= n`; so a free node of `n` bytes, filed
in bin `FloatRoundDown(n)`, that sits in a bin `b` at or above the bin `FloatRoundUp(s)`
where the search for `s` starts, is large enough for the request. -/
theorem round_up_never_under_serves {s n : Nat} (hs : s < 4294967296)
    (hn : n < 4294967296) :
    (FloatRoundUp s ≤ FloatRoundDown n → s ≤ n) ∧
    (∀ b, FloatRoundUp s ≤ b → FloatRoundDown n = b → s ≤ n) := by
  have key := @le_of_FloatRoundUp_le_FloatRoundDown s n hs hn
  refine ⟨key, ?_⟩
  intro b h1 h2
  apply key
  rw [h2]
  exact h1

theorem round_up_never_under_serves_witness :
    (25 : Nat) < 4294967296 ∧ (26 : Nat) < 4294967296 ∧
    FloatRoundUp 25 ≤ FloatRoundDown 26 ∧
    ((FloatRoundUp 25 ≤ FloatRoundDown 26 → 25 ≤ 26) ∧
      (∀ b, FloatRoundUp 25 ≤ b → FloatRoundDown 26 = b → 25 ≤ 26)) :=
  ⟨by decide, by decide, by decide, round_up_never_under_serves (by decide) (by decide)⟩

/-- C20. 12.5% waste bound of the size classes: for all 32-bit `s >= 1` and `n` with
`n >= s + s / 8` (the sum a natural number, so without wrap-around),
`FloatRoundDown(n) >= FloatRoundUp(s)`: a free segment at least one eighth larger than
the request is filed in a bin that the search for the request accepts. -/
theorem eighth_larger_is_accepted {s n : Nat} (hs1 : 1 ≤ s) (hn : n < 4294967296)
    (h : s + s / 8 ≤ n) : FloatRoundDown n ≥ FloatRoundUp s :=
  FloatRoundUp_le_FloatRoundDown_of_eighth hs1 hn h

theorem eighth_larger_is_accepted_witness :
    (1 : Nat) ≤ 33 ∧ (37 : Nat) < 4294967296 ∧ 33 + 33 / 8 ≤ 37 ∧
    FloatRoundDown 37 ≥ FloatRoundUp 33 :=
  ⟨by decide, by decide, by decide,
    eighth_larger_is_accepted (by decide) (by decide) (by decide)⟩

end OffsetAllocator

namespace OffsetAllocator

/-- The end of `Free` keeps every free node in its list and lists the combined node. -/
theorem Listed_Free_main {s : OffsetAllocator} (hs : s.Shape) (hb : s.BinsOK) (hc : s.ChainOK)
    (hL : s.Listed) {X : Nat} (hXl : s.isLive X) (hXu : (s.nodeAt X).Used = true)
    {P N : Nat} (hP : (s.nodeAt X).NeighborPrev = P) (hN : (s.nodeAt X).NeighborNext = N)
    {p : OffsetAllocator × Nat × Nat} {n : OffsetAllocator × Nat}
    (hp : s.FreeMergePrev X (s.nodeAt X).DataOffset (s.nodeAt X).DataSize = p)
    (hn : p.1.FreeMergeNext X p.2.2 = n) :
    (n.1.FreeInsert X p.2.1 n.2).Listed := by
  obtain ⟨-, m2, m3, m4, m5, -, -, -, -, m10, -, -, -, m14⟩ :=
    FreeMerge_spec hs hb hc hXl hXu hP hN hp hn
  obtain ⟨-, -, -, f4, -, f6, -, -, -, -, f11, f12, f13, f14, -, -, -⟩ :=
    Free_main hs hb hc hXl hXu hP hN hp hn
  have hLn := m14 hL
  have h256 : FloatRoundDown n.2 < 256 := by
    have := FloatRoundDown_lt m10
    omega
  have hXU : X ≠ Node.UNUSED := hXl.ne_UNUSED hs
  have hnextI : ∀ j, n.1.isLive j → (n.1.nodeAt j).Used = false →
      ((n.1.FreeInsert X p.2.1 n.2).nodeAt j).BinListNext = (n.1.nodeAt j).BinListNext := by
    intro j _ hjf
    apply f13
    intro e
    rw [e, m5] at hjf
    cases hjf
  obtain ⟨i1, i2⟩ := InBin_insert (u := n.1) (t := n.1.FreeInsert X p.2.1 n.2) m2 h256 hXU
    (fun c _ => f12 c) f14 hnextI
  intro j hjl hjf
  by_cases hj : j = X
  · rw [hj, f11]
    exact i1
  · obtain ⟨-, g2, g3⟩ := f6 j hj
    rw [f4] at hjl
    have hjn : n.1.isLive j := by
      rw [m3]
      exact hjl
    obtain ⟨-, c2, c3, -, -⟩ := m4 j hj
    have h1 := hLn j hjn (by rw [c3, ← g3]; exact hjf)
    rw [c2] at h1
    rw [g2]
    have hlt : FloatRoundDown (s.nodeAt j).DataSize < 256 := by
      have := FloatRoundDown_lt (hb.size_lt j hjl.1)
      omega
    exact i2 _ _ hlt h1

/-- `Free` of a held handle keeps every free node in its list. -/
theorem Listed_Free {s : OffsetAllocator} {L : List OffsetHandle} (hinv : s.Inv L)
    (hL : s.Listed) {h : OffsetHandle} (hh : h ∈ L) : (s.Free h).1.Listed := by
  obtain ⟨hv, hl, hu, -, -⟩ := hinv.handles.node h hh
  rw [Free_eq hv hl hu]
  exact Listed_Free_main hinv.shape hinv.bins hinv.chain hL hl hu rfl rfl rfl rfl

section
variable {s : OffsetAllocator} {t l size : Nat}

/-- Popping the head of bin `8 * t + l` keeps every other member of every list. -/
theorem InBin_AllocPop (hs : s.Shape) (hb : s.BinsOK) (ht : t < 32) (hl : l < 8)
    (hne : s.binAt (8 * t + l) ≠ Node.UNUSED) (size : Nat) {b i : Nat} (h256 : b < 256)
    (h : InBin s b i) (hi : i ≠ s.binAt (8 * t + l)) : InBin (s.AllocPop size t l) b i := by
  obtain ⟨x1, -, x3, x4⟩ := hb.head (8 * t + l) (by omega) hne
  have hbinR : ∀ c, c < 256 → (s.AllocPop size t l).binAt c =
      if s.binAt c = s.binAt (8 * t + l) then (s.nodeAt (s.binAt (8 * t + l))).BinListNext
      else s.binAt c := by
    intro c hc
    rw [AllocPop_binAt hs ht hl]
    by_cases h1 : c = 8 * t + l
    · rw [if_pos h1, if_pos (by rw [h1])]
    · rw [if_neg h1, if_neg]
      intro h2
      obtain ⟨-, -, y3, -⟩ := hb.head c hc (by rw [h2]; exact hne)
      rw [h2, x3] at y3
      exact h1 y3.symm
  have hnextR : ∀ j, s.isLive j → (s.nodeAt j).Used = false → j ≠ s.binAt (8 * t + l) →
      ((s.AllocPop size t l).nodeAt j).BinListNext =
        if (s.nodeAt j).BinListNext = s.binAt (8 * t + l) then
          (s.nodeAt (s.binAt (8 * t + l))).BinListNext
        else (s.nodeAt j).BinListNext := by
    intro j hjl hjf hjx
    rw [AllocPop_nodeAt hs hb ht hl hne]
    have hn : (s.nodeAt j).BinListNext ≠ s.binAt (8 * t + l) := by
      intro e
      obtain ⟨-, -, y3, -⟩ := hb.next j hjl hjf (by rw [e]; exact hne)
      rw [e, x4] at y3
      exact hjl.ne_UNUSED hs y3.symm
    rw [if_neg hjx, if_neg hn]
    split_ifs <;> rfl
  exact (InBin_remove hb hbinR hnextR h256 h).1 hi

/-- The second half of `Alloc` keeps every free node in its list and lists the remainder
node. -/
theorem Listed_AllocFromBin (hs : s.Shape) (hb : s.BinsOK) (hc : s.ChainOK) (hL : s.Listed)
    (ht : t < 32) (hl : l < 8) (hne : s.binAt (8 * t + l) ≠ Node.UNUSED)
    (hsz : size < 4294967296) (h0 : 0 < size) (hfru : FloatRoundUp size ≤ 8 * t + l)
    (hoff : 0 ≤ s.m_FreeOffset) : (s.AllocFromBin size t l).1.Listed := by
  obtain ⟨x1, -, -, -⟩ := hb.head (8 * t + l) (by omega) hne
  have hTlt := hb.size_lt _ x1
  have hle := served_size_le hb ht hl hne hsz hfru
  obtain ⟨-, A2, -, -, -, A6, -, -, A9⟩ :=
    AllocFromBin_inv hs hb hc ht hl hne hsz h0 hfru hoff
  obtain ⟨C1, C2⟩ := AllocFromBin_rem hs hb hc ht hl hne hsz h0 hfru hoff
  have hb1 := BinsOK_AllocPop hs hb ht hl hne hsz
  have hold : ∀ j, s.isLive j → ((s.AllocFromBin size t l).1.nodeAt j).Used = false →
      InBin (s.AllocPop size t l)
        (FloatRoundDown ((s.AllocFromBin size t l).1.nodeAt j).DataSize) j := by
    intro j hjl hjf
    have hjx : j ≠ s.binAt (8 * t + l) := by
      intro e
      rw [e, A6] at hjf
      cases hjf
    obtain ⟨-, a2, -, a4⟩ := A9 j hjl hjx
    rw [a2] at hjf
    rw [a4]
    have hlt : FloatRoundDown (s.nodeAt j).DataSize < 256 := by
      have := FloatRoundDown_lt (hb.size_lt j hjl)
      omega
    exact InBin_AllocPop hs hb ht hl hne size hlt (hL j hjl hjf) hjx
  by_cases hT : (s.nodeAt (s.binAt (8 * t + l))).DataSize = size
  · have hE : (s.AllocFromBin size t l).1 = s.AllocPop size t l := by
      rw [AllocFromBin_eq ht hl]
      exact AllocSplit_exact _ hT hTlt
    intro j hjl hjf
    have h1 := hold j ((C1 hT j).1 hjl) hjf
    rw [hE] at h1 ⊢
    exact h1
  · have hlt : size < (s.nodeAt (s.binAt (8 * t + l))).DataSize :=
      lt_of_le_of_ne hle (Ne.symm hT)
    obtain ⟨c1, c2, -, -, -, c6⟩ := C2 hlt
    obtain ⟨-, -, B2⟩ := AllocFromBin_bins hs hb hc ht hl hne hsz h0 hfru hoff
    obtain ⟨b1, b2, b3, -, -, -⟩ := B2 hlt
    have hrU : s.freeNodeAt s.m_FreeOffset ≠ Node.UNUSED :=
      ne_UNUSED_of_lt hs (top_lt_arenaLen hs hoff)
    have h256 : FloatRoundDown ((s.nodeAt (s.binAt (8 * t + l))).DataSize - size) < 256 := by
      have := @FloatRoundDown_lt ((s.nodeAt (s.binAt (8 * t + l))).DataSize - size) (by omega)
      omega
    have hbinI : ∀ c, c < 256 → (s.AllocFromBin size t l).1.binAt c =
        if c = FloatRoundDown ((s.nodeAt (s.binAt (8 * t + l))).DataSize - size) then
          s.freeNodeAt s.m_FreeOffset
        else (s.AllocPop size t l).binAt c := by
      intro c _
      rw [b1, AllocPop_binAt hs ht hl]
    have hrnI : ((s.AllocFromBin size t l).1.nodeAt (s.freeNodeAt s.m_FreeOffset)).BinListNext =
        (s.AllocPop size t l).binAt
          (FloatRoundDown ((s.nodeAt (s.binAt (8 * t + l))).DataSize - size)) := by
      rw [b3, AllocPop_binAt hs ht hl]
    have hnextI : ∀ j, (s.AllocPop size t l).isLive j →
        ((s.AllocPop size t l).nodeAt j).Used = false →
        ((s.AllocFromBin size t l).1.nodeAt j).BinListNext =
          ((s.AllocPop size t l).nodeAt j).BinListNext := by
      intro j hjl hjf
      rw [isLive_AllocPop] at hjl
      rw [AllocPop_nodeAt hs hb ht hl hne] at hjf ⊢
      have hjx : j ≠ s.binAt (8 * t + l) := by
        intro e
        rw [if_pos e] at hjf
        cases hjf
      have hjr : j ≠ s.freeNodeAt s.m_FreeOffset := by
        intro e
        rw [e] at hjl
        exact c1 hjl
      rw [b2 j hjx hjr, if_neg hjx]
      split_ifs <;> rfl
    obtain ⟨i1, i2⟩ := InBin_insert (u := s.AllocPop size t l)
      (t := (s.AllocFromBin size t l).1) hb1 h256 hrU hbinI hrnI hnextI
    intro j hjl hjf
    have hlt2 : FloatRoundDown ((s.AllocFromBin size t l).1.nodeAt j).DataSize < 256 := by
      have := FloatRoundDown_lt (A2.size_lt j hjl)
      omega
    rw [c2] at hjl
    by_cases hjr : j = s.freeNodeAt s.m_FreeOffset
    · rw [hjr, c6]
      exact i1
    · exact i2 _ _ hlt2 (hold j (hjl.resolve_right hjr) hjf)

end

/-- `Alloc` keeps every free node in its list. -/
theorem Listed_Alloc {s : OffsetAllocator} {L : List OffsetHandle} (hinv : s.Inv L)
    (hL : s.Listed) {size : Nat} (hsz : size < 4294967296) : (s.Alloc size).1.Listed := by
  obtain ⟨hs, hb, hc, -⟩ := hinv
  by_cases hv : (s.Alloc size).2.IsValid = true
  · obtain ⟨g1, g2, -, t, l, ht, hl, hne, hfru, he⟩ := Alloc_valid hs hb hsz hv
    rw [he]
    exact Listed_AllocFromBin hs hb hc hL ht hl hne hsz g2 hfru g1
  · rw [Alloc_invalid_state hs hb hc hsz (by simpa using hv)]
    exact hL

/-- After `Init` the one free node heads the list of its bin. -/
theorem Listed_Init (s0 : OffsetAllocator) {S M : Nat} (hS0 : 0 < S) (hS : S < 4294967296)
    (hM : M + 1 < 4294967296) : (s0.Init S M).Listed := by
  obtain ⟨-, a2, -, -⟩ := Inv_Init s0 hS0 hS hM
  obtain ⟨-, -, -, b4, b5⟩ := Init_facts s0 hS0 hS hM
  intro j hjl _
  rw [a2] at hjl
  rw [hjl, b5]
  simp only
  have hlt : FloatRoundDown S < 256 := by
    have := FloatRoundDown_lt hS
    omega
  have e := b4 (FloatRoundDown S) hlt
  rw [if_pos rfl] at e
  have h1 := InBin.head (s := s0.Init S M) (b := FloatRoundDown S)
    (by rw [e]; unfold Node.UNUSED; omega)
  rw [e] at h1
  exact h1

/-- In every reachable state every free node is a member of the list of its bin. -/
theorem Reachable.listed {S M : Nat} (hS0 : 0 < S) (hS : S < 4294967296)
    (hM : M + 1 < 4294967296) {s : OffsetAllocator} {L : List OffsetHandle}
    (hr : Reachable S M s L) : s.Listed := by
  induction hr with
  | init s0 => exact Listed_Init s0 hS0 hS hM
  | alloc size hr hsz ih => exact Listed_Alloc (hr.inv hS0 hS hM).1 ih hsz
  | free h hr hh ih => exact Listed_Free (hr.inv hS0 hS hM).1 ih hh
  | freeInvalid h hr hv ih =>
    rw [Free_invalid _ hv]
    exact ih

end OffsetAllocator

namespace OffsetAllocator

/-- C15. Node membership invariant: in every state reachable from `Init(S, M)` by `Alloc`
and `Free` calls, every node of the physical-neighbour chain `c` (the nodes read from the
node without a predecessor along `NeighborNext`) is either marked used and a member of
the free list of no bin, or marked free and a member of the free list of exactly one bin,
namely bin `FloatRoundDown(DataSize)`; and every node reachable from a bin head along
`BinListNext` is a free node of the chain. The bins are the 256 entries of
`m_BinIndices`. -/
theorem node_membership {S M : Nat} (hS0 : 0 < S) (hS : S < 4294967296)
    (hM : M + 1 < 4294967296) {s : OffsetAllocator} {L : List OffsetHandle}
    (hr : Reachable S M s L) :
    ∃ c : List Nat,
      (s.nodeAt (c.headD 0)).NeighborPrev = Node.UNUSED ∧
      s.chainFrom (c.length + 1) (c.headD 0) = c ∧ c ≠ [] ∧
      (∀ i ∈ c,
        ((s.nodeAt i).Used = true ∧ ∀ b, b < 256 → ¬ InBin s b i) ∨
        ((s.nodeAt i).Used = false ∧
          ∀ b, b < 256 → (InBin s b i ↔ b = FloatRoundDown (s.nodeAt i).DataSize))) ∧
      (∀ b i, b < 256 → InBin s b i → i ∈ c ∧ (s.nodeAt i).Used = false) := by
  obtain ⟨hinv, hsz⟩ := hr.inv hS0 hS hM
  have hL := hr.listed hS0 hS hM
  obtain ⟨c, c1, c2, c3, c4, -⟩ :=
    chain_exists hinv.shape hinv.chain (by rw [hsz]; exact hS0)
  refine ⟨c, c1, c2, c3, ?_, ?_⟩
  · intro i hi
    have hil := (c4 i).1 hi
    cases hu : (s.nodeAt i).Used
    · right
      refine ⟨rfl, fun b hb => ⟨fun h => ?_, fun h => ?_⟩⟩
      · exact (InBin.facts hinv.bins hb h).2.2.symm
      · rw [h]
        exact hL i hil hu
    · left
      refine ⟨rfl, fun b hb h => ?_⟩
      have := (InBin.facts hinv.bins hb h).2.1
      rw [hu] at this
      cases this
  · intro b i hb h
    obtain ⟨f1, f2, -⟩ := InBin.facts hinv.bins hb h
    exact ⟨(c4 i).2 f1, f2⟩

theorem node_membership_witness :
    Reachable 1024 8 demoAlloc.1 [demoAlloc.2] ∧
    ∃ c : List Nat,
      (demoAlloc.1.nodeAt (c.headD 0)).NeighborPrev = Node.UNUSED ∧
      demoAlloc.1.chainFrom (c.length + 1) (c.headD 0) = c ∧ c ≠ [] ∧
      (∀ i ∈ c,
        ((demoAlloc.1.nodeAt i).Used = true ∧ ∀ b, b < 256 → ¬ InBin demoAlloc.1 b i) ∨
        ((demoAlloc.1.nodeAt i).Used = false ∧
          ∀ b, b < 256 →
            (InBin demoAlloc.1 b i ↔ b = FloatRoundDown (demoAlloc.1.nodeAt i).DataSize))) ∧
      (∀ b i, b < 256 → InBin demoAlloc.1 b i →
        i ∈ c ∧ (demoAlloc.1.nodeAt i).Used = false) :=
  ⟨demoAlloc_reachable,
    node_membership (by decide) (by decide) (by decide) demoAlloc_reachable⟩

end OffsetAllocator

namespace impl

theorem notW_eq {W x : Nat} (hx : x < 2 ^ W) : notW W x = 2 ^ W - (x + 1) := by
  unfold notW
  rw [Nat.mod_eq_of_lt hx]
  omega

theorem predW_eq {W x : Nat} (hx : x < 2 ^ W) (h0 : x ≠ 0) : predW W x = x - 1 := by
  unfold predW
  rw [Nat.mod_eq_of_lt hx]
  have e : x + 2 ^ W - 1 = (x - 1) + 2 ^ W := by omega
  rw [e, Nat.add_mod_right, Nat.mod_eq_of_lt (by omega)]

/-- One smearing step `value |= value >> k`: if bit `i` of `x` tells whether `v` has a set
bit among `i .. i + k - 1`, then afterwards it tells so for `i .. i + 2k - 1`. -/
theorem smear_step {W x v k : Nat} (hlt : x < 2 ^ W)
    (hx : ∀ i, x.testBit i = true ↔ ∃ j, j < k ∧ v.testBit (i + j) = true) :
    (x ||| (x >>> k)) % 2 ^ W < 2 ^ W ∧
    ∀ i, ((x ||| (x >>> k)) % 2 ^ W).testBit i = true ↔
      ∃ j, j < 2 * k ∧ v.testBit (i + j) = true := by
  have hsh : x >>> k < 2 ^ W := by
    rw [Nat.shiftRight_eq_div_pow]
    exact lt_of_le_of_lt (Nat.div_le_self _ _) hlt
  have hor : x ||| (x >>> k) < 2 ^ W := Nat.or_lt_two_pow hlt hsh
  rw [Nat.mod_eq_of_lt hor]
  refine ⟨hor, fun i => ?_⟩
  rw [Nat.testBit_or, Nat.testBit_shiftRight, Bool.or_eq_true, hx, hx]
  constructor
  · rintro (⟨j, hj, hb⟩ | ⟨j, hj, hb⟩)
    · exact ⟨j, by omega, hb⟩
    · exact ⟨k + j, by omega, by rw [← Nat.add_assoc, Nat.add_comm i k]; exact hb⟩
  · rintro ⟨j, hj, hb⟩
    by_cases hjk : j < k
    · exact Or.inl ⟨j, hjk, hb⟩
    · refine Or.inr ⟨j - k, by omega, ?_⟩
      have e : k + i + (j - k) = i + j := by omega
      rw [e]
      exact hb

theorem smear_base {W v : Nat} (hv : v < 2 ^ W) :
    v % 2 ^ W < 2 ^ W ∧
    ∀ i, (v % 2 ^ W).testBit i = true ↔ ∃ j, j < 1 ∧ v.testBit (i + j) = true := by
  rw [Nat.mod_eq_of_lt hv]
  refine ⟨hv, fun i => ⟨fun h => ⟨0, by omega, h⟩, ?_⟩⟩
  rintro ⟨j, hj, hb⟩
  have : j = 0 := by omega
  rw [this] at hb
  exact hb

/-- After smearing over `W` positions the value is `2 ^ (h + 1) - 1`, `h` the highest set
bit of `v`. -/
theorem smear_final {W x v h : Nat}
    (hx : ∀ i, x.testBit i = true ↔ ∃ j, j < W ∧ v.testBit (i + j) = true)
    (hh : v.testBit h = true) (hhi : ∀ i, h < i → v.testBit i = false) (hW : h < W) :
    x = 2 ^ (h + 1) - 1 := by
  apply Nat.eq_of_testBit_eq
  intro i
  rw [Nat.testBit_two_pow_sub_one]
  by_cases hi : i < h + 1
  · rw [decide_eq_true hi, hx]
    exact ⟨h - i, by omega, by rw [show i + (h - i) = h by omega]; exact hh⟩
  · rw [decide_eq_false hi]
    cases hb : x.testBit i
    · rfl
    · obtain ⟨j, -, hj⟩ := (hx i).1 hb
      rw [hhi (i + j) (by omega)] at hj
      cases hj

/-- The highest set bit of a non-zero `v` is bit `log2 v`. -/
theorem highest_bit {v : Nat} (h0 : v ≠ 0) :
    v.testBit (Nat.log2 v) = true ∧ ∀ i, Nat.log2 v < i → v.testBit i = false := by
  constructor
  · cases hb : v.testBit (Nat.log2 v)
    · have := two_pow_le_of_testBit_false (Nat.lt_log2_self) hb
      have := Nat.log2_self_le h0
      omega
    · rfl
  · intro i hi
    apply testBit_false_of_lt (Nat.lt_log2_self) hi

/-- The mask `~v & (v - 1)` has exactly the bits below the lowest set bit of `v`. -/
theorem ctz_mask {W v t : Nat} (hv : v < 2 ^ W) (ht : v.testBit t = true)
    (hlo : ∀ i, i < t → v.testBit i = false) : notW W v &&& predW W v = 2 ^ t - 1 := by
  have h0 : v ≠ 0 := by
    rintro rfl
    rw [Nat.zero_testBit] at ht
    cases ht
  have htW : t < W := by
    by_contra hc
    rw [testBit_false_of_lt hv (by omega)] at ht
    cases ht
  rw [notW_eq hv, predW_eq hv h0]
  have hmod : v % 2 ^ t = 0 := by
    apply Nat.eq_of_testBit_eq
    intro i
    rw [Nat.testBit_mod_two_pow, Nat.zero_testBit]
    by_cases hi : i < t
    · rw [hlo i hi, Bool.and_false]
    · rw [decide_eq_false hi, Bool.false_and]
  have hodd : v / 2 ^ t % 2 = 1 := by
    rw [Nat.testBit_to_div_mod] at ht
    exact of_decide_eq_true ht
  have hp : 0 < 2 ^ t := Nat.pos_pow_of_pos _ (by norm_num)
  have e1 := Nat.div_add_mod v (2 ^ t)
  have e2 := Nat.div_add_mod (v / 2 ^ t) 2
  rw [hmod] at e1
  rw [hodd] at e2
  have hv_eq : v = 2 ^ (t + 1) * (v / 2 ^ t / 2) + 2 ^ t := by
    calc v = 2 ^ t * (v / 2 ^ t) := by omega
      _ = 2 ^ t * (2 * (v / 2 ^ t / 2) + 1) := by rw [e2]
      _ = 2 ^ (t + 1) * (v / 2 ^ t / 2) + 2 ^ t := by ring
  have hv1 : v - 1 = 2 ^ (t + 1) * (v / 2 ^ t / 2) + (2 ^ t - 1) := by omega
  have hlt1 : 2 ^ t < 2 ^ (t + 1) := Nat.pow_lt_pow_right (by norm_num) (by omega)
  apply Nat.eq_of_testBit_eq
  intro i
  rw [Nat.testBit_and, Nat.testBit_two_pow_sub_succ hv, Nat.testBit_two_pow_sub_one]
  have b1 : (v - 1).testBit i =
      if i < t + 1 then (2 ^ t - 1).testBit i else (v / 2 ^ t / 2).testBit (i - (t + 1)) := by
    rw [hv1]
    exact Nat.testBit_mul_pow_two_add _ (by omega) i
  have b2 : v.testBit i =
      if i < t + 1 then (2 ^ t).testBit i else (v / 2 ^ t / 2).testBit (i - (t + 1)) := by
    conv_lhs => rw [hv_eq]
    exact Nat.testBit_mul_pow_two_add _ hlt1 i
  by_cases hi : i < t
  · rw [b1, if_pos (by omega), Nat.testBit_two_pow_sub_one, hlo i hi, decide_eq_true hi,
      decide_eq_true (show i < W by omega)]
    rfl
  · rw [decide_eq_false hi]
    by_cases hit : i = t
    · rw [b1, if_pos (by omega), Nat.testBit_two_pow_sub_one, decide_eq_false hi,
        Bool.and_false]
    · rw [b1, b2, if_neg (by omega), if_neg (by omega)]
      cases (v / 2 ^ t / 2).testBit (i - (t + 1)) <;> simp

/-- A non-zero value has a lowest set bit. -/
theorem lowest_bit {v : Nat} (h0 : v ≠ 0) :
    ∃ t, v.testBit t = true ∧ ∀ i, i < t → v.testBit i = false := by
  have hex : ∃ k, v.testBit k = true := ne_zero_iff_testBit.mp h0
  refine ⟨Nat.find hex, Nat.find_spec hex, fun i hi => ?_⟩
  have := Nat.find_min hex hi
  cases hb : v.testBit i
  · rfl
  · exact absurd hb this

set_option maxRecDepth 100000 in
theorem CountBit8_high : ∀ h, h < 8 → CountBit8 (notW 8 (2 ^ (h + 1) - 1)) = 8 - 1 - h := by
  decide

set_option maxRecDepth 100000 in
theorem CountBit16_high :
    ∀ h, h < 16 → CountBit16 (notW 16 (2 ^ (h + 1) - 1)) = 16 - 1 - h := by
  decide

set_option maxRecDepth 100000 in
theorem CountBit32_high :
    ∀ h, h < 32 → CountBit32 (notW 32 (2 ^ (h + 1) - 1)) = 32 - 1 - h := by
  decide

set_option maxRecDepth 100000 in
theorem CountBit64_high :
    ∀ h, h < 64 → CountBit64 (notW 64 (2 ^ (h + 1) - 1)) = 64 - 1 - h := by
  decide

set_option maxRecDepth 100000 in
theorem CountBit8_low : ∀ t, t < 8 → CountBit8 (2 ^ t - 1) = t := by
  decide

set_option maxRecDepth 100000 in
theorem CountBit16_low : ∀ t, t < 16 → CountBit16 (2 ^ t - 1) = t := by
  decide

set_option maxRecDepth 100000 in
theorem CountBit32_low : ∀ t, t < 32 → CountBit32 (2 ^ t - 1) = t := by
  decide

set_option maxRecDepth 100000 in
theorem CountBit64_low : ∀ t, t < 64 → CountBit64 (2 ^ t - 1) = t := by
  decide

end impl

namespace impl

theorem leadingZeroBits_bits {W v : Nat} (hv : v < 2 ^ W) (h0 : v ≠ 0) :
    leadingZeroBits W v < W ∧ v.testBit (W - 1 - leadingZeroBits W v) = true ∧
    ∀ i, W - 1 - leadingZeroBits W v < i → v.testBit i = false := by
  obtain ⟨hh, hhi⟩ := highest_bit h0
  have hW : Nat.log2 v < W := (Nat.log2_lt h0).2 hv
  unfold leadingZeroBits
  rw [if_neg h0]
  have e : W - 1 - (W - 1 - Nat.log2 v) = Nat.log2 v := by omega
  rw [e]
  exact ⟨by omega, hh, hhi⟩

theorem trailingZeroBits_bits {W v : Nat} (hv : v < 2 ^ W) (h0 : v ≠ 0) :
    trailingZeroBits W v < W ∧ v.testBit (trailingZeroBits W v) = true ∧
    ∀ i, i < trailingZeroBits W v → v.testBit i = false := by
  unfold trailingZeroBits
  rw [if_neg h0]
  rcases tzcntAux_spec v W 0 with ⟨-, h2⟩ | ⟨h1, -, h3, h4⟩
  · exfalso
    obtain ⟨k, hk⟩ := ne_zero_iff_testBit.mp h0
    by_cases hkW : k < W
    · rw [h2 k (by omega) (by omega)] at hk
      cases hk
    · rw [testBit_false_of_lt hv (by omega)] at hk
      cases hk
  · exact ⟨by omega, h1, fun i hi => h4 i (by omega) hi⟩

/-- The lowest set bit is unique. -/
theorem lowest_unique {v a b : Nat} (ha : v.testBit a = true)
    (hal : ∀ i, i < a → v.testBit i = false) (hb : v.testBit b = true)
    (hbl : ∀ i, i < b → v.testBit i = false) : a = b := by
  rcases Nat.lt_trichotomy a b with h | h | h
  · rw [hbl a h] at ha
    cases ha
  · exact h
  · rw [hal b h] at hb
    cases hb

theorem CountZeroL8_eq {v : Nat} (hv : v < 2 ^ 8) : CountZeroL8 v = leadingZeroBits 8 v := by
  by_cases h0 : v = 0
  · rw [h0]
    rfl
  · obtain ⟨hh, hhi⟩ := highest_bit h0
    have hW : Nat.log2 v < 8 := (Nat.log2_lt h0).2 hv
    obtain ⟨l0, p0⟩ := smear_base hv
    obtain ⟨l1, p1⟩ := smear_step l0 p0
    obtain ⟨l2, p2⟩ := smear_step l1 p1
    obtain ⟨l3, p3⟩ := smear_step l2 p2
    have hf := smear_final p3 hh hhi hW
    have e : CountZeroL8 v = CountBit8 (notW 8 (2 ^ (Nat.log2 v + 1) - 1)) :=
      congrArg (fun x => CountBit8 (notW 8 x)) hf
    rw [e, CountBit8_high _ hW]
    unfold leadingZeroBits
    rw [if_neg h0]

theorem CountZeroL16_eq {v : Nat} (hv : v < 2 ^ 16) :
    CountZeroL16 v = leadingZeroBits 16 v := by
  by_cases h0 : v = 0
  · rw [h0]
    rfl
  · obtain ⟨hh, hhi⟩ := highest_bit h0
    have hW : Nat.log2 v < 16 := (Nat.log2_lt h0).2 hv
    obtain ⟨l0, p0⟩ := smear_base hv
    obtain ⟨l1, p1⟩ := smear_step l0 p0
    obtain ⟨l2, p2⟩ := smear_step l1 p1
    obtain ⟨l3, p3⟩ := smear_step l2 p2
    obtain ⟨l4, p4⟩ := smear_step l3 p3
    have hf := smear_final p4 hh hhi hW
    have e : CountZeroL16 v = CountBit16 (notW 16 (2 ^ (Nat.log2 v + 1) - 1)) :=
      congrArg (fun x => CountBit16 (notW 16 x)) hf
    rw [e, CountBit16_high _ hW]
    unfold leadingZeroBits
    rw [if_neg h0]

theorem CountZeroL32_eq {v : Nat} (hv : v < 2 ^ 32) :
    CountZeroL32 v = leadingZeroBits 32 v := by
  by_cases h0 : v = 0
  · rw [h0]
    rfl
  · obtain ⟨hh, hhi⟩ := highest_bit h0
    have hW : Nat.log2 v < 32 := (Nat.log2_lt h0).2 hv
    obtain ⟨l0, p0⟩ := smear_base hv
    obtain ⟨l1, p1⟩ := smear_step l0 p0
    obtain ⟨l2, p2⟩ := smear_step l1 p1
    obtain ⟨l3, p3⟩ := smear_step l2 p2
    obtain ⟨l4, p4⟩ := smear_step l3 p3
    obtain ⟨l5, p5⟩ := smear_step l4 p4
    have hf := smear_final p5 hh hhi hW
    have e : CountZeroL32 v = CountBit32 (notW 32 (2 ^ (Nat.log2 v + 1) - 1)) :=
      congrArg (fun x => CountBit32 (notW 32 x)) hf
    rw [e, CountBit32_high _ hW]
    unfold leadingZeroBits
    rw [if_neg h0]

theorem CountZeroL64_eq {v : Nat} (hv : v < 2 ^ 64) :
    CountZeroL64 v = leadingZeroBits 64 v := by
  by_cases h0 : v = 0
  · rw [h0]
    rfl
  · obtain ⟨hh, hhi⟩ := highest_bit h0
    have hW : Nat.log2 v < 64 := (Nat.log2_lt h0).2 hv
    obtain ⟨l0, p0⟩ := smear_base hv
    obtain ⟨l1, p1⟩ := smear_step l0 p0
    obtain ⟨l2, p2⟩ := smear_step l1 p1
    obtain ⟨l3, p3⟩ := smear_step l2 p2
    obtain ⟨l4, p4⟩ := smear_step l3 p3
    obtain ⟨l5, p5⟩ := smear_step l4 p4
    obtain ⟨l6, p6⟩ := smear_step l5 p5
    have hf := smear_final p6 hh hhi hW
    have e : CountZeroL64 v = CountBit64 (notW 64 (2 ^ (Nat.log2 v + 1) - 1)) :=
      congrArg (fun x => CountBit64 (notW 64 x)) hf
    rw [e, CountBit64_high _ hW]
    unfold leadingZeroBits
    rw [if_neg h0]

/-- The shared part of the four trailing-zero proofs: the mask of a non-zero value is
`2 ^ t - 1` with `t` the count of the specification. -/
theorem ctz_mask_spec {W v : Nat} (hv : v < 2 ^ W) (h0 : v ≠ 0) :
    trailingZeroBits W v < W ∧
    notW W v &&& predW W v = 2 ^ trailingZeroBits W v - 1 := by
  obtain ⟨a1, a2, a3⟩ := trailingZeroBits_bits hv h0
  exact ⟨a1, ctz_mask hv a2 a3⟩

theorem CountZeroR8_eq {v : Nat} (hv : v < 2 ^ 8) : CountZeroR8 v = trailingZeroBits 8 v := by
  by_cases h0 : v = 0
  · rw [h0]
    rfl
  · obtain ⟨a1, a2⟩ := ctz_mask_spec hv h0
    unfold CountZeroR8
    rw [a2, CountBit8_low _ a1]

theorem CountZeroR16_eq {v : Nat} (hv : v < 2 ^ 16) :
    CountZeroR16 v = trailingZeroBits 16 v := by
  by_cases h0 : v = 0
  · rw [h0]
    rfl
  · obtain ⟨a1, a2⟩ := ctz_mask_spec hv h0
    unfold CountZeroR16
    rw [a2, CountBit16_low _ a1]

theorem CountZeroR32_eq {v : Nat} (hv : v < 2 ^ 32) :
    CountZeroR32 v = trailingZeroBits 32 v := by
  by_cases h0 : v = 0
  · rw [h0]
    rfl
  · obtain ⟨a1, a2⟩ := ctz_mask_spec hv h0
    unfold CountZeroR32
    rw [a2, CountBit32_low _ a1]

theorem CountZeroR64_eq {v : Nat} (hv : v < 2 ^ 64) :
    CountZeroR64 v = trailingZeroBits 64 v := by
  by_cases h0 : v = 0
  · rw [h0]
    rfl
  · obtain ⟨a1, a2⟩ := ctz_mask_spec hv h0
    unfold CountZeroR64
    rw [a2, CountBit64_low _ a1]

/-- C25. Portable count-leading-zero: for each width `W` in 8, 16, 32, 64 and every
`W`-bit value `v`, the fallback `impl::CountZeroL(v)` (bit smearing followed by a
population count of the complement, reduced to `W` bits) equals the number of leading
zero bits of `v`: it is `W` for `v == 0`, and for `v != 0` it is `W - 1 - h` where `h`
is the index of the highest set bit of `v` (bit `h` is set and no higher bit is). -/
theorem portable_count_zero_left (W v : Nat) (hv : v < 2 ^ W) :
    (W = 8 → CountZeroL8 v = leadingZeroBits W v) ∧
    (W = 16 → CountZeroL16 v = leadingZeroBits W v) ∧
    (W = 32 → CountZeroL32 v = leadingZeroBits W v) ∧
    (W = 64 → CountZeroL64 v = leadingZeroBits W v) ∧
    (v = 0 → leadingZeroBits W v = W) ∧
    (v ≠ 0 → leadingZeroBits W v < W ∧ v.testBit (W - 1 - leadingZeroBits W v) = true ∧
      ∀ i, W - 1 - leadingZeroBits W v < i → v.testBit i = false) := by
  refine ⟨?_, ?_, ?_, ?_, ?_, leadingZeroBits_bits hv⟩
  · intro h
    rw [h] at hv ⊢
    exact CountZeroL8_eq hv
  · intro h
    rw [h] at hv ⊢
    exact CountZeroL16_eq hv
  · intro h
    rw [h] at hv ⊢
    exact CountZeroL32_eq hv
  · intro h
    rw [h] at hv ⊢
    exact CountZeroL64_eq hv
  · intro h
    unfold leadingZeroBits
    rw [if_pos h]

/-- C26. Portable count-trailing-zero: for each width `W` in 8, 16, 32, 64 and every
`W`-bit value `v`, the fallback `impl::CountZeroR(v)`, the population count of
`~v & (v - 1)` reduced to `W` bits, equals the number of trailing zero bits of `v`: it is
`W` for `v == 0`, and for `v != 0` it is the index of the lowest set bit of `v` (that bit
is set and no lower bit is). -/
theorem portable_count_zero_right (W v : Nat) (hv : v < 2 ^ W) :
    (W = 8 → CountZeroR8 v = trailingZeroBits W v) ∧
    (W = 16 → CountZeroR16 v = trailingZeroBits W v) ∧
    (W = 32 → CountZeroR32 v = trailingZeroBits W v) ∧
    (W = 64 → CountZeroR64 v = trailingZeroBits W v) ∧
    (v = 0 → trailingZeroBits W v = W) ∧
    (v ≠ 0 → trailingZeroBits W v < W ∧ v.testBit (trailingZeroBits W v) = true ∧
      ∀ i, i < trailingZeroBits W v → v.testBit i = false) := by
  refine ⟨?_, ?_, ?_, ?_, ?_, trailingZeroBits_bits hv⟩
  · intro h
    rw [h] at hv ⊢
    exact CountZeroR8_eq hv
  · intro h
    rw [h] at hv ⊢
    exact CountZeroR16_eq hv
  · intro h
    rw [h] at hv ⊢
    exact CountZeroR32_eq hv
  · intro h
    rw [h] at hv ⊢
    exact CountZeroR64_eq hv
  · intro h
    unfold trailingZeroBits
    rw [if_pos h]

end impl

/-- C21. Relation of the two roundings: for every 32-bit size, if `size < 8` then
`FloatRoundUp(size) == FloatRoundDown(size) == size`; if `size >= 8`, with `h` the index
of its highest set bit (`h = log2 size`, `3 <= h <= 31`), then
`FloatRoundUp(size) == FloatRoundDown(size)` when the low `h - 3` bits of `size` are all
zero (`size % 2 ^ (h - 3) == 0`) and `FloatRoundUp(size) == FloatRoundDown(size) + 1`
otherwise, the `+ 1` carrying into the next exponent when the mantissa was 7. -/
theorem rounding_relation {size : Nat} (hsz : size < 4294967296) :
    (size < 8 → FloatRoundUp size = size ∧ FloatRoundDown size = size) ∧
    (8 ≤ size →
      size.testBit (Nat.log2 size) = true ∧
      (∀ i, Nat.log2 size < i → size.testBit i = false) ∧
      3 ≤ Nat.log2 size ∧ Nat.log2 size ≤ 31 ∧
      ((∀ i, i < Nat.log2 size - 3 → size.testBit i = false) ↔
        size % 2 ^ (Nat.log2 size - 3) = 0) ∧
      (size % 2 ^ (Nat.log2 size - 3) = 0 → FloatRoundUp size = FloatRoundDown size) ∧
      (size % 2 ^ (Nat.log2 size - 3) ≠ 0 →
        FloatRoundUp size = FloatRoundDown size + 1) ∧
      (size % 2 ^ (Nat.log2 size - 3) ≠ 0 → FloatRoundDown size % 8 = 7 →
        FloatRoundUp size = 8 * (FloatRoundDown size / 8 + 1))) := by
  refine ⟨fun h => ⟨FloatRoundUp_small h, FloatRoundDown_small h⟩, ?_⟩
  intro h8
  have h0 : size ≠ 0 := by omega
  obtain ⟨hh, hhi⟩ := impl.highest_bit h0
  obtain ⟨e, he, hlo, hhi2, hd, hu⟩ := float_decompose h8 hsz
  have hlog : Nat.log2 size = e + 3 := by
    have a1 : Nat.log2 size < e + 4 := (Nat.log2_lt h0).2 hhi2
    have a2 : ¬ Nat.log2 size < e + 3 := fun h => by
      have := (Nat.log2_lt h0).1 h
      omega
    omega
  have hsub : Nat.log2 size - 3 = e := by omega
  rw [hsub]
  refine ⟨hh, hhi, by omega, by omega, ?_, ?_, ?_, ?_⟩
  · constructor
    · intro hb
      apply Nat.eq_of_testBit_eq
      intro i
      rw [Nat.testBit_mod_two_pow, Nat.zero_testBit]
      by_cases hi : i < e
      · rw [hb i hi, Bool.and_false]
      · rw [decide_eq_false hi, Bool.false_and]
    · intro hm i hi
      have := Nat.testBit_mod_two_pow size e i
      rw [hm, Nat.zero_testBit, decide_eq_true hi, Bool.true_and] at this
      exact this.symm
  · intro hm
    rw [hu, hd, if_pos hm, Nat.add_zero]
  · intro hm
    rw [hu, hd, if_neg hm]
  · intro hm h7
    rw [hu, if_neg hm, ← hd]
    omega

theorem rounding_relation_witness :
    (100 : Nat) < 4294967296 ∧
    ((100 < 8 → FloatRoundUp 100 = 100 ∧ FloatRoundDown 100 = 100) ∧
    (8 ≤ 100 →
      (100 : Nat).testBit (Nat.log2 100) = true ∧
      (∀ i, Nat.log2 100 < i → (100 : Nat).testBit i = false) ∧
      3 ≤ Nat.log2 100 ∧ Nat.log2 100 ≤ 31 ∧
      ((∀ i, i < Nat.log2 100 - 3 → (100 : Nat).testBit i = false) ↔
        100 % 2 ^ (Nat.log2 100 - 3) = 0) ∧
      (100 % 2 ^ (Nat.log2 100 - 3) = 0 → FloatRoundUp 100 = FloatRoundDown 100) ∧
      (100 % 2 ^ (Nat.log2 100 - 3) ≠ 0 →
        FloatRoundUp 100 = FloatRoundDown 100 + 1) ∧
      (100 % 2 ^ (Nat.log2 100 - 3) ≠ 0 → FloatRoundDown 100 % 8 = 7 →
        FloatRoundUp 100 = 8 * (FloatRoundDown 100 / 8 + 1)))) ∧
    FloatRoundDown 100 = 36 ∧ FloatRoundUp 100 = 37 ∧
    FloatRoundDown 127 = 39 ∧ FloatRoundUp 127 = 40 ∧
    FloatRoundDown 96 = 36 ∧ FloatRoundUp 96 = 36 :=
  ⟨by decide, rounding_relation (by decide), by decide, by decide, by decide, by decide,
    by decide, by decide⟩

/-- C24. `FindLowestSetBitAfter`: for every 32-bit `bitMask` and every `startBitIndex` in
0..31, the result is `0xFFFFFFFF` exactly when `bitMask` has no set bit at a position
`>= startBitIndex`, and otherwise it is the smallest position `p >= startBitIndex` such
that bit `p` of `bitMask` is set. -/
theorem find_lowest_set_bit_after {bitMask startBitIndex : Nat}
    (hm : bitMask < 4294967296) (hs : startBitIndex < 32) :
    (FindLowestSetBitAfter bitMask startBitIndex = 4294967295 ↔
      ∀ p, startBitIndex ≤ p → bitMask.testBit p = false) ∧
    (FindLowestSetBitAfter bitMask startBitIndex ≠ 4294967295 →
      startBitIndex ≤ FindLowestSetBitAfter bitMask startBitIndex ∧
      FindLowestSetBitAfter bitMask startBitIndex < 32 ∧
      bitMask.testBit (FindLowestSetBitAfter bitMask startBitIndex) = true ∧
      ∀ p, startBitIndex ≤ p → p < FindLowestSetBitAfter bitMask startBitIndex →
        bitMask.testBit p = false) := by
  have hUM : UINT32_MAX = 4294967295 := rfl
  rcases FindLowestSetBitAfter_spec hm hs with ⟨h1, h2⟩ | ⟨h1, h2, h3, h4⟩
  · rw [hUM] at h1
    refine ⟨⟨fun _ => h2, fun _ => h1⟩, fun hne => absurd h1 hne⟩
  · refine ⟨⟨fun he => ?_, fun hall => ?_⟩, fun _ => ⟨h2, h1, h3, h4⟩⟩
    · omega
    · rw [hall _ h2] at h3
      cases h3

theorem find_lowest_set_bit_after_witness :
    (40 : Nat) < 4294967296 ∧ (4 : Nat) < 32 ∧
    ((FindLowestSetBitAfter 40 4 = 4294967295 ↔
      ∀ p, 4 ≤ p → (40 : Nat).testBit p = false) ∧
    (FindLowestSetBitAfter 40 4 ≠ 4294967295 →
      4 ≤ FindLowestSetBitAfter 40 4 ∧ FindLowestSetBitAfter 40 4 < 32 ∧
      (40 : Nat).testBit (FindLowestSetBitAfter 40 4) = true ∧
      ∀ p, 4 ≤ p → p < FindLowestSetBitAfter 40 4 → (40 : Nat).testBit p = false)) ∧
    FindLowestSetBitAfter 40 4 = 5 ∧ FindLowestSetBitAfter 40 0 = 3 ∧
    FindLowestSetBitAfter 40 6 = 4294967295 :=
  ⟨by decide, by decide, find_lowest_set_bit_after (by decide) (by decide), by decide,
    by decide, by decide⟩

namespace impl

theorem portable_count_zero_left_witness :
    (40 : Nat) < 2 ^ 32 ∧
    ((32 = 8 → CountZeroL8 40 = leadingZeroBits 32 40) ∧
    (32 = 16 → CountZeroL16 40 = leadingZeroBits 32 40) ∧
    (32 = 32 → CountZeroL32 40 = leadingZeroBits 32 40) ∧
    (32 = 64 → CountZeroL64 40 = leadingZeroBits 32 40) ∧
    ((40 : Nat) = 0 → leadingZeroBits 32 40 = 32) ∧
    ((40 : Nat) ≠ 0 → leadingZeroBits 32 40 < 32 ∧
      (40 : Nat).testBit (32 - 1 - leadingZeroBits 32 40) = true ∧
      ∀ i, 32 - 1 - leadingZeroBits 32 40 < i → (40 : Nat).testBit i = false)) ∧
    CountZeroL8 40 = 2 ∧ CountZeroL16 40 = 10 ∧ CountZeroL32 40 = 26 ∧
    CountZeroL64 40 = 58 ∧ CountZeroL32 0 = 32 :=
  ⟨by decide, portable_count_zero_left 32 40 (by decide), by decide, by decide, by decide,
    by decide, by decide⟩

theorem portable_count_zero_right_witness :
    (40 : Nat) < 2 ^ 32 ∧
    ((32 = 8 → CountZeroR8 40 = trailingZeroBits 32 40) ∧
    (32 = 16 → CountZeroR16 40 = trailingZeroBits 32 40) ∧
    (32 = 32 → CountZeroR32 40 = trailingZeroBits 32 40) ∧
    (32 = 64 → CountZeroR64 40 = trailingZeroBits 32 40) ∧
    ((40 : Nat) = 0 → trailingZeroBits 32 40 = 32) ∧
    ((40 : Nat) ≠ 0 → trailingZeroBits 32 40 < 32 ∧
      (40 : Nat).testBit (trailingZeroBits 32 40) = true ∧
      ∀ i, i < trailingZeroBits 32 40 → (40 : Nat).testBit i = false)) ∧
    CountZeroR8 40 = 3 ∧ CountZeroR16 40 = 3 ∧ CountZeroR32 40 = 3 ∧
    CountZeroR64 40 = 3 ∧ CountZeroR32 0 = 32 ∧ CountZeroR8 0 = 8 :=
  ⟨by decide, portable_count_zero_right 32 40 (by decide), by decide, by decide, by decide,
    by decide, by decide, by decide⟩

end impl

namespace OffsetAllocator

/-- The invariant of the allocator includes the bitmap consistency invariant. -/
theorem BitmapsOK_of_inv {s : OffsetAllocator} (hs : s.Shape) (hb : s.BinsOK) :
    s.BitmapsOK := by
  refine ⟨hs.top_lt, hs.leaf_lt, hb.topBit, ?_⟩
  intro t l ht hl
  have e1 : (t * 8 + l) >>> 3 = t := by rw [shr_3]; omega
  have e2 : (t * 8 + l) &&& 7 = l := by rw [and_7]; omega
  have := hb.leafBit (t * 8 + l) (by omega)
  rw [e1, e2] at this
  exact this

theorem AllocFromBin_token {s : OffsetAllocator} {t l : Nat} (ht : t < 32) (hl : l < 8)
    (size : Nat) : (s.AllocFromBin size t l).2.m_MetaData = s.binAt (8 * t + l) := by
  rw [AllocFromBin_eq ht hl]

/-- C22. Bin search picks the smallest adequate bin: in every state satisfying the bitmap
consistency invariant, when `Alloc(size)` passes its initial checks, `Alloc` returns the
invalid handle `(NO_SPACE, 0, NO_SPACE)` exactly when no bin `b` with
`b >= FloatRoundUp(size)` has a head other than `UNUSED`; otherwise the bin index it
selects, `(topBinIndex << 3) | leafBinIndex = 8 * t + l`, is the minimum such `b`, and
the node it serves is the head of that bin. -/
theorem bin_search_smallest {s : OffsetAllocator} (hbm : s.BitmapsOK) {size : Nat}
    (hsz : size < 4294967296)
    (hg : ¬ (s.m_FreeOffset < 0 ∨ size = 0 ∨ size > s.GetFreeSize)) :
    ((s.Alloc size).2 = OffsetHandle.invalid ↔
      ∀ b, b < 256 → FloatRoundUp size ≤ b → s.binAt b = Node.UNUSED) ∧
    ((s.Alloc size).2 = OffsetHandle.invalid → (s.Alloc size).1 = s) ∧
    ((∃ b, b < 256 ∧ FloatRoundUp size ≤ b ∧ s.binAt b ≠ Node.UNUSED) →
      ∃ t l, t < 32 ∧ l < 8 ∧
        ((t <<< TOP_BINS_INDEX_SHIFT) % 4294967296) ||| l = 8 * t + l ∧
        FloatRoundUp size ≤ 8 * t + l ∧ s.binAt (8 * t + l) ≠ Node.UNUSED ∧
        (∀ b, FloatRoundUp size ≤ b → b < 8 * t + l → s.binAt b = Node.UNUSED) ∧
        s.Alloc size = s.AllocFromBin size t l ∧
        (s.Alloc size).2.m_MetaData = s.binAt (8 * t + l)) := by
  have hlb : ∀ b, b < 256 →
      ((s.usedBinsAt (b >>> 3)).testBit (b &&& 7) = true ↔ s.binAt b ≠ Node.UNUSED) := by
    intro b hb
    have := hbm.leafBit (b / 8) (b % 8) (by omega) (by omega)
    rw [shr_3, and_7]
    have e : b / 8 * 8 + b % 8 = b := by omega
    rw [e] at this
    exact this
  have hUN : Node.UNUSED = NO_SPACE := rfl
  rcases Alloc_search_bits hbm.leaf_lt hbm.top_lt hlb hbm.topBit hsz hg with
    ⟨h1, h2⟩ | ⟨t, l, ht, hl, hne, hfru, hmin, he⟩
  · refine ⟨⟨fun _ => h2, fun _ => by rw [h1]; rfl⟩, fun _ => by rw [h1], ?_⟩
    rintro ⟨b, hb, hge, hne⟩
    exact absurd (h2 b hb hge) hne
  · have htok : (s.Alloc size).2.m_MetaData = s.binAt (8 * t + l) := by
      rw [he]
      exact AllocFromBin_token ht hl size
    have hnot : (s.Alloc size).2 ≠ OffsetHandle.invalid := by
      intro e
      rw [e] at htok
      apply hne
      rw [← htok, hUN]
      rfl
    refine ⟨⟨fun e => absurd e hnot, fun hall => ?_⟩, fun e => absurd e hnot, ?_⟩
    · exact absurd (hall _ (by omega) hfru) hne
    · intro _
      exact ⟨t, l, ht, hl, binIndex_eq ht hl, hfru, hne, fun b h1 h2 => hmin b h2 h1, he, htok⟩

set_option maxRecDepth 100000 in
theorem bin_search_smallest_witness :
    demoInit.BitmapsOK ∧ (100 : Nat) < 4294967296 ∧
    ¬ (demoInit.m_FreeOffset < 0 ∨ 100 = 0 ∨ 100 > demoInit.GetFreeSize) ∧
    (((demoInit.Alloc 100).2 = OffsetHandle.invalid ↔
      ∀ b, b < 256 → FloatRoundUp 100 ≤ b → demoInit.binAt b = Node.UNUSED) ∧
    ((demoInit.Alloc 100).2 = OffsetHandle.invalid → (demoInit.Alloc 100).1 = demoInit) ∧
    ((∃ b, b < 256 ∧ FloatRoundUp 100 ≤ b ∧ demoInit.binAt b ≠ Node.UNUSED) →
      ∃ t l, t < 32 ∧ l < 8 ∧
        ((t <<< TOP_BINS_INDEX_SHIFT) % 4294967296) ||| l = 8 * t + l ∧
        FloatRoundUp 100 ≤ 8 * t + l ∧ demoInit.binAt (8 * t + l) ≠ Node.UNUSED ∧
        (∀ b, FloatRoundUp 100 ≤ b → b < 8 * t + l → demoInit.binAt b = Node.UNUSED) ∧
        demoInit.Alloc 100 = demoInit.AllocFromBin 100 t l ∧
        (demoInit.Alloc 100).2.m_MetaData = demoInit.binAt (8 * t + l))) ∧
    FloatRoundUp 100 = 37 ∧ demoInit.binAt (FloatRoundDown 1024) = 0 ∧
    FloatRoundDown 1024 = 64 ∧ demoInit.Alloc 100 = demoInit.AllocFromBin 100 8 0 :=
  ⟨BitmapsOK_of_inv (demoInit_reachable.inv (by decide) (by decide) (by decide)).1.shape
      (demoInit_reachable.inv (by decide) (by decide) (by decide)).1.bins,
    by decide, by decide,
    bin_search_smallest
      (BitmapsOK_of_inv (demoInit_reachable.inv (by decide) (by decide) (by decide)).1.shape
        (demoInit_reachable.inv (by decide) (by decide) (by decide)).1.bins)
      (by decide) (by decide),
    by decide, by decide, by decide, by decide⟩

/-- C23. LIFO within a bin: `InsertNode(size, offset)` makes the inserted node the head of
the free list of bin `FloatRoundDown(size)`, in front of all nodes already there (its
`BinListNext` is the old head and the list read from the new head is the new segment
followed by the old list), and a successful `Alloc` always serves the head of the bin it
selects; so when `Alloc` next selects that bin, the node just inserted is the one
allocated. The state is one in which the arena, the bin lists and the bitmaps are
consistent and a slot is left on the free-index stack. -/
theorem lifo_within_bin {s : OffsetAllocator} (hs : s.Shape) (hb : s.BinsOK)
    (h0 : 0 ≤ s.m_FreeOffset) {size offset : Nat} (hsz : size < 4294967296) :
    (s.InsertNode size offset).1.binAt (FloatRoundDown size) = (s.InsertNode size offset).2 ∧
    ((s.InsertNode size offset).1.nodeAt (s.InsertNode size offset).2).BinListPrev =
      Node.UNUSED ∧
    ((s.InsertNode size offset).1.nodeAt (s.InsertNode size offset).2).BinListNext =
      s.binAt (FloatRoundDown size) ∧
    (∀ fuel, (s.InsertNode size offset).1.binFrom (fuel + 1)
        ((s.InsertNode size offset).1.binAt (FloatRoundDown size)) =
      (offset, size) :: s.binFrom fuel (s.binAt (FloatRoundDown size))) ∧
    (∀ c, c ≠ FloatRoundDown size → (s.InsertNode size offset).1.binAt c = s.binAt c) ∧
    (∀ u : OffsetAllocator, u.Shape → u.BinsOK → ∀ req, req < 4294967296 →
      (u.Alloc req).2.IsValid = true →
      ∃ t l, t < 32 ∧ l < 8 ∧ u.Alloc req = u.AllocFromBin req t l ∧
        u.binAt (8 * t + l) ≠ Node.UNUSED ∧
        (u.Alloc req).2.m_MetaData = u.binAt (8 * t + l)) ∧
    (∀ req, req < 4294967296 →
      ((s.InsertNode size offset).1.Alloc req).2.IsValid = true →
      ∃ t l, t < 32 ∧ l < 8 ∧
        (s.InsertNode size offset).1.Alloc req =
          (s.InsertNode size offset).1.AllocFromBin req t l ∧
        (8 * t + l = FloatRoundDown size →
          ((s.InsertNode size offset).1.Alloc req).2.m_MetaData =
            (s.InsertNode size offset).2)) := by
  have hrl : ¬ s.isLive (s.freeNodeAt s.m_FreeOffset) := top_not_isLive hs h0
  have hrU : s.freeNodeAt s.m_FreeOffset ≠ Node.UNUSED :=
    ne_UNUSED_of_lt hs (top_lt_arenaLen hs h0)
  have hbin := @InsertNode_binAt_inv s size offset hs hsz
  have hnode := @InsertNode_nodeAt_inv s size offset hs hb h0 hsz
  have hhead : (s.InsertNode size offset).1.binAt (FloatRoundDown size) =
      s.freeNodeAt s.m_FreeOffset := by
    rw [hbin, if_pos rfl]
  have hnew : (s.InsertNode size offset).1.nodeAt (s.freeNodeAt s.m_FreeOffset) =
      GenNode offset size (s.binAt (FloatRoundDown size)) := by
    rw [hnode, if_pos rfl]
  have hserve : ∀ u : OffsetAllocator, u.Shape → u.BinsOK → ∀ req, req < 4294967296 →
      (u.Alloc req).2.IsValid = true →
      ∃ t l, t < 32 ∧ l < 8 ∧ u.Alloc req = u.AllocFromBin req t l ∧
        u.binAt (8 * t + l) ≠ Node.UNUSED ∧
        (u.Alloc req).2.m_MetaData = u.binAt (8 * t + l) := by
    intro u hus hub req hreq hv
    obtain ⟨-, -, t, l, ht, hl, hne, -, -, he⟩ := Alloc_valid_min hus hub hreq hv
    refine ⟨t, l, ht, hl, he, hne, ?_⟩
    rw [he]
    exact AllocFromBin_token ht hl req
  rw [InsertNode_snd]
  refine ⟨hhead, ?_, ?_, ?_, ?_, hserve, ?_⟩
  · rw [hnew]
    rfl
  · rw [hnew]
    rfl
  · intro fuel
    rw [hhead]
    have hold : (s.InsertNode size offset).1.binFrom fuel (s.binAt (FloatRoundDown size)) =
        s.binFrom fuel (s.binAt (FloatRoundDown size)) := by
      apply binFrom_eq hb
      · intro j hjl
        have hjr : j ≠ s.freeNodeAt s.m_FreeOffset := by
          intro e
          rw [e] at hjl
          exact hrl hjl
        rw [hnode, if_neg hjr]
        split_ifs
        · exact ⟨rfl, rfl, rfl⟩
        · exact ⟨rfl, rfl, rfl⟩
      · intro hne
        obtain ⟨a1, a2, -, -⟩ := hb.head _
          (by have := FloatRoundDown_lt hsz; omega) hne
        exact ⟨a1, a2⟩
    simp only [binFrom, hrU, if_false]
    rw [hnew]
    show (offset, size) ::
        (s.InsertNode size offset).1.binFrom fuel (s.binAt (FloatRoundDown size)) = _
    rw [hold]
  · intro c hc
    rw [hbin, if_neg hc]
  · intro req hreq hv
    obtain ⟨t, l, ht, hl, he, -, htok⟩ := hserve _ (Shape_InsertNode hs h0 hsz)
      (BinsOK_InsertNode hs hb h0 hsz) req hreq hv
    refine ⟨t, l, ht, hl, he, fun hbn => ?_⟩
    rw [htok, hbn, hhead]

/-- The state at the call of `InsertNode` in `Free` of a held handle, after the two merge
steps and the push of the slot, is consistent and has a slot on the free-index stack. -/
theorem Free_insert_site {s : OffsetAllocator} {L : List OffsetHandle} (hinv : s.Inv L)
    {h : OffsetHandle} (hh : h ∈ L) {p : OffsetAllocator × Nat × Nat}
    {n : OffsetAllocator × Nat}
    (hp : s.FreeMergePrev h.m_MetaData (s.nodeAt h.m_MetaData).DataOffset
      (s.nodeAt h.m_MetaData).DataSize = p)
    (hn : p.1.FreeMergeNext h.m_MetaData p.2.2 = n) :
    ((n.1.setFreeOffset (n.1.m_FreeOffset + 1)).setFreeNodeAt (n.1.m_FreeOffset + 1)
      h.m_MetaData).Shape ∧
    ((n.1.setFreeOffset (n.1.m_FreeOffset + 1)).setFreeNodeAt (n.1.m_FreeOffset + 1)
      h.m_MetaData).BinsOK ∧
    0 ≤ ((n.1.setFreeOffset (n.1.m_FreeOffset + 1)).setFreeNodeAt (n.1.m_FreeOffset + 1)
      h.m_MetaData).m_FreeOffset := by
  obtain ⟨hs, hb, hc, hhd⟩ := hinv
  obtain ⟨-, hl, hu, -, -⟩ := hhd.node h hh
  obtain ⟨m1, m2, m3, -, m5, -⟩ := FreeMerge_spec hs hb hc hl hu rfl rfl hp hn
  have hnot : ∀ Q, ¬ ((Q ≠ Node.UNUSED ∧ (s.nodeAt Q).Used = false) ∧ h.m_MetaData = Q) := by
    intro Q hq
    have := hq.1.2
    rw [← hq.2, hu] at this
    cases this
  have hXn := (m3 h.m_MetaData).2 ⟨hl, hnot _, hnot _⟩
  obtain ⟨q1, q2, -, -⟩ := push_used m1 m2 hXn m5
  refine ⟨q1, q2, ?_⟩
  simp only [m_FreeOffset_setFreeNodeAt, m_FreeOffset_setFreeOffset]
  have := m1.off_lo
  omega

set_option maxRecDepth 100000 in
theorem lifo_valid :
    lifoA.2.IsValid = true ∧ lifoB.2.IsValid = true ∧ lifoC.2.IsValid = true ∧
    lifoD.2.IsValid = true := by
  decide

set_option maxRecDepth 100000 in
theorem lifo_reachable : Reachable 1024 8 lifoState lifoHandles := by
  have h1 : Reachable 1024 8 lifoA.1
      (if lifoA.2.IsValid = true then lifoA.2 :: [] else []) :=
    Reachable.alloc 100 demoInit_reachable (by decide)
  rw [if_pos lifo_valid.1] at h1
  have h2 : Reachable 1024 8 lifoB.1
      (if lifoB.2.IsValid = true then lifoB.2 :: [lifoA.2] else [lifoA.2]) :=
    Reachable.alloc 10 h1 (by decide)
  rw [if_pos lifo_valid.2.1] at h2
  have h3 : Reachable 1024 8 lifoC.1
      (if lifoC.2.IsValid = true then lifoC.2 :: [lifoB.2, lifoA.2]
        else [lifoB.2, lifoA.2]) :=
    Reachable.alloc 100 h2 (by decide)
  rw [if_pos lifo_valid.2.2.1] at h3
  have h4 : Reachable 1024 8 lifoD.1
      (if lifoD.2.IsValid = true then lifoD.2 :: [lifoC.2, lifoB.2, lifoA.2]
        else [lifoC.2, lifoB.2, lifoA.2]) :=
    Reachable.alloc 10 h3 (by decide)
  rw [if_pos lifo_valid.2.2.2] at h4
  have h5 := Reachable.free lifoA.2 h4 (by decide)
  have e : [lifoD.2, lifoC.2, lifoB.2, lifoA.2].erase lifoA.2 = lifoHandles := by decide
  rw [e] at h5
  exact h5

theorem lifoSite_ok : lifoSite.Shape ∧ lifoSite.BinsOK ∧ 0 ≤ lifoSite.m_FreeOffset :=
  Free_insert_site (h := lifoC.2)
    (lifo_reachable.inv (by decide) (by decide) (by decide)).1
    (by decide) rfl rfl

set_option maxRecDepth 100000 in
theorem lifo_site_call :
    (lifoState.Free lifoC.2).1 =
      (lifoSite.InsertNode 100 110).1.FreeLink (lifoSite.InsertNode 100 110).2
        (lifoSite.nodeAt 2).NeighborNext (lifoSite.nodeAt 2).NeighborPrev := by
  decide!

set_option maxRecDepth 100000 in
theorem lifo_site_before :
    lifoSite.binAt 36 = 0 ∧ lifoSite.binAt 36 ≠ Node.UNUSED ∧
    lifoSite.binFrom 3 (lifoSite.binAt 36) = [(0, 100)] := by
  decide!

set_option maxRecDepth 100000 in
theorem lifo_site_after :
    (lifoSite.InsertNode 100 110).2 = 2 ∧
    (lifoSite.InsertNode 100 110).1.binAt 36 = 2 ∧
    ((lifoSite.InsertNode 100 110).1.nodeAt 2).BinListNext = 0 ∧
    (lifoSite.InsertNode 100 110).1.binFrom 3 ((lifoSite.InsertNode 100 110).1.binAt 36) =
      [(110, 100), (0, 100)] := by
  decide!

set_option maxRecDepth 100000 in
theorem lifo_site_alloc :
    ((lifoSite.InsertNode 100 110).1.Alloc 90).2 = ⟨110, 90, 2⟩ ∧
    ((lifoSite.InsertNode 100 110).1.Alloc 90).2.IsValid = true ∧
    (lifoSite.InsertNode 100 110).1.Alloc 90 =
      (lifoSite.InsertNode 100 110).1.AllocFromBin 90 4 4 ∧
    ((lifoState.Free lifoC.2).1.Alloc 90).2 = ⟨110, 90, 2⟩ := by
  decide!

set_option maxRecDepth 100000 in
/-- The LIFO scenario: `Init(1024, 8)`, `a = Alloc(100)`, `b = Alloc(10)`,
`c = Alloc(100)`, `d = Alloc(10)`, `Free(a)`, and then `Free(c)` up to its call of
`InsertNode(100, 110)`. Bin 36 holds the node of `a` before the call; afterwards the node
of `c` is the head, the node of `a` follows it, and `Alloc(90)`, which selects bin 36,
returns the node of `c`, the one freed last. -/
theorem lifo_within_bin_witness :
    (lifoSite.Shape ∧ lifoSite.BinsOK ∧ 0 ≤ lifoSite.m_FreeOffset ∧
      (100 : Nat) < 4294967296) ∧
    ((lifoSite.InsertNode 100 110).1.binAt (FloatRoundDown 100) =
      (lifoSite.InsertNode 100 110).2 ∧
    ((lifoSite.InsertNode 100 110).1.nodeAt (lifoSite.InsertNode 100 110).2).BinListPrev =
      Node.UNUSED ∧
    ((lifoSite.InsertNode 100 110).1.nodeAt (lifoSite.InsertNode 100 110).2).BinListNext =
      lifoSite.binAt (FloatRoundDown 100) ∧
    (∀ fuel, (lifoSite.InsertNode 100 110).1.binFrom (fuel + 1)
        ((lifoSite.InsertNode 100 110).1.binAt (FloatRoundDown 100)) =
      (110, 100) :: lifoSite.binFrom fuel (lifoSite.binAt (FloatRoundDown 100))) ∧
    (∀ c, c ≠ FloatRoundDown 100 →
      (lifoSite.InsertNode 100 110).1.binAt c = lifoSite.binAt c) ∧
    (∀ u : OffsetAllocator, u.Shape → u.BinsOK → ∀ req, req < 4294967296 →
      (u.Alloc req).2.IsValid = true →
      ∃ t l, t < 32 ∧ l < 8 ∧ u.Alloc req = u.AllocFromBin req t l ∧
        u.binAt (8 * t + l) ≠ Node.UNUSED ∧
        (u.Alloc req).2.m_MetaData = u.binAt (8 * t + l)) ∧
    (∀ req, req < 4294967296 →
      ((lifoSite.InsertNode 100 110).1.Alloc req).2.IsValid = true →
      ∃ t l, t < 32 ∧ l < 8 ∧
        (lifoSite.InsertNode 100 110).1.Alloc req =
          (lifoSite.InsertNode 100 110).1.AllocFromBin req t l ∧
        (8 * t + l = FloatRoundDown 100 →
          ((lifoSite.InsertNode 100 110).1.Alloc req).2.m_MetaData =
            (lifoSite.InsertNode 100 110).2))) ∧
    (Reachable 1024 8 lifoState lifoHandles ∧ lifoC.2 ∈ lifoHandles ∧
      lifoA.2 = ⟨0, 100, 0⟩ ∧ lifoC.2 = ⟨110, 100, 2⟩ ∧
      (lifoState.Free lifoC.2).1 =
        (lifoSite.InsertNode 100 110).1.FreeLink (lifoSite.InsertNode 100 110).2
          (lifoSite.nodeAt 2).NeighborNext (lifoSite.nodeAt 2).NeighborPrev) ∧
    (FloatRoundDown 100 = 36 ∧ FloatRoundUp 90 = 36 ∧
      lifoSite.binAt 36 = 0 ∧ lifoSite.binAt 36 ≠ Node.UNUSED ∧
      lifoSite.binFrom 3 (lifoSite.binAt 36) = [(0, 100)] ∧
      (lifoSite.InsertNode 100 110).2 = 2 ∧
      (lifoSite.InsertNode 100 110).1.binAt 36 = 2 ∧
      ((lifoSite.InsertNode 100 110).1.nodeAt 2).BinListNext = 0 ∧
      (lifoSite.InsertNode 100 110).1.binFrom 3 ((lifoSite.InsertNode 100 110).1.binAt 36) =
        [(110, 100), (0, 100)] ∧
      ((lifoSite.InsertNode 100 110).1.Alloc 90).2 = ⟨110, 90, 2⟩ ∧
      ((lifoSite.InsertNode 100 110).1.Alloc 90).2.IsValid = true ∧
      (lifoSite.InsertNode 100 110).1.Alloc 90 =
        (lifoSite.InsertNode 100 110).1.AllocFromBin 90 4 4 ∧
      ((lifoState.Free lifoC.2).1.Alloc 90).2 = ⟨110, 90, 2⟩) :=
  ⟨⟨lifoSite_ok.1, lifoSite_ok.2.1, lifoSite_ok.2.2, by decide⟩,
    lifo_within_bin lifoSite_ok.1 lifoSite_ok.2.1 lifoSite_ok.2.2 (by decide),
    ⟨lifo_reachable, by decide, by decide, by decide, lifo_site_call⟩,
    ⟨by decide, by decide, lifo_site_before.1, lifo_site_before.2.1, lifo_site_before.2.2,
      lifo_site_after.1, lifo_site_after.2.1, lifo_site_after.2.2.1, lifo_site_after.2.2.2,
      lifo_site_alloc.1, lifo_site_alloc.2.1, lifo_site_alloc.2.2.1,
      lifo_site_alloc.2.2.2⟩⟩

end OffsetAllocator

namespace OffsetAllocator

/-- C27. Served node is never smaller than the request: in every state reachable from
`Init` by `Alloc` and `Free` calls, whenever `Alloc(size)` passes the bin search (it
returns a valid handle), the node at the head of the selected bin has
`DataSize >= size`, so the unsigned subtraction `nodeTotalSize - size` does not wrap
around; when it is not zero the remainder node is a new free node of size
`nodeTotalSize - size` that follows the allocated node, and when it is zero no node is
added. -/
theorem served_node_not_smaller {S M : Nat} (hS0 : 0 < S) (hS : S < 4294967296)
    (hM : M + 1 < 4294967296) {s : OffsetAllocator} {L : List OffsetHandle}
    (hr : Reachable S M s L) {size : Nat} (hsz : size < 4294967296)
    (hv : (s.Alloc size).2.IsValid = true) :
    ∃ t l, t < 32 ∧ l < 8 ∧ s.binAt (8 * t + l) ≠ Node.UNUSED ∧
      s.Alloc size = s.AllocFromBin size t l ∧
      (s.Alloc size).2.m_MetaData = s.binAt (8 * t + l) ∧
      size ≤ (s.nodeAt (s.binAt (8 * t + l))).DataSize ∧
      sub32 (s.nodeAt (s.binAt (8 * t + l))).DataSize size =
        (s.nodeAt (s.binAt (8 * t + l))).DataSize - size ∧
      ((s.nodeAt (s.binAt (8 * t + l))).DataSize = size →
        ∀ j, (s.Alloc size).1.isLive j ↔ s.isLive j) ∧
      (size < (s.nodeAt (s.binAt (8 * t + l))).DataSize →
        ¬ s.isLive (s.freeNodeAt s.m_FreeOffset) ∧
        (s.Alloc size).1.isLive (s.freeNodeAt s.m_FreeOffset) ∧
        ((s.Alloc size).1.nodeAt (s.binAt (8 * t + l))).NeighborNext =
          s.freeNodeAt s.m_FreeOffset ∧
        ((s.Alloc size).1.nodeAt (s.freeNodeAt s.m_FreeOffset)).Used = false ∧
        ((s.Alloc size).1.nodeAt (s.freeNodeAt s.m_FreeOffset)).DataOffset =
          (s.nodeAt (s.binAt (8 * t + l))).DataOffset + size ∧
        ((s.Alloc size).1.nodeAt (s.freeNodeAt s.m_FreeOffset)).DataSize =
          (s.nodeAt (s.binAt (8 * t + l))).DataSize - size) := by
  obtain ⟨hinv, -⟩ := hr.inv hS0 hS hM
  obtain ⟨g1, g2, t, l, ht, hl, hne, hfru, -, he⟩ :=
    Alloc_valid_min hinv.shape hinv.bins hsz hv
  obtain ⟨x1, -, -, -⟩ := hinv.bins.head _ (by omega) hne
  have hTlt := hinv.bins.size_lt _ x1
  have hle := served_size_le hinv.bins ht hl hne hsz hfru
  obtain ⟨C1, C2⟩ :=
    AllocFromBin_rem hinv.shape hinv.bins hinv.chain ht hl hne hsz g2 hfru g1
  refine ⟨t, l, ht, hl, hne, he, ?_, hle, ?_, ?_, ?_⟩
  · rw [he]
    exact AllocFromBin_token ht hl size
  · unfold sub32
    omega
  · rw [he]
    exact C1
  · rw [he]
    intro hlt
    obtain ⟨c1, c2, c3, c4, c5, c6⟩ := C2 hlt
    exact ⟨c1, (c2 _).2 (Or.inr rfl), c3, c4, c5, c6⟩

theorem served_node_not_smaller_witness :
    Reachable 1024 8 demoInit [] ∧ (100 : Nat) < 4294967296 ∧
    (demoInit.Alloc 100).2.IsValid = true ∧
    ∃ t l, t < 32 ∧ l < 8 ∧ demoInit.binAt (8 * t + l) ≠ Node.UNUSED ∧
      demoInit.Alloc 100 = demoInit.AllocFromBin 100 t l ∧
      (demoInit.Alloc 100).2.m_MetaData = demoInit.binAt (8 * t + l) ∧
      100 ≤ (demoInit.nodeAt (demoInit.binAt (8 * t + l))).DataSize ∧
      sub32 (demoInit.nodeAt (demoInit.binAt (8 * t + l))).DataSize 100 =
        (demoInit.nodeAt (demoInit.binAt (8 * t + l))).DataSize - 100 ∧
      ((demoInit.nodeAt (demoInit.binAt (8 * t + l))).DataSize = 100 →
        ∀ j, (demoInit.Alloc 100).1.isLive j ↔ demoInit.isLive j) ∧
      (100 < (demoInit.nodeAt (demoInit.binAt (8 * t + l))).DataSize →
        ¬ demoInit.isLive (demoInit.freeNodeAt demoInit.m_FreeOffset) ∧
        (demoInit.Alloc 100).1.isLive (demoInit.freeNodeAt demoInit.m_FreeOffset) ∧
        ((demoInit.Alloc 100).1.nodeAt (demoInit.binAt (8 * t + l))).NeighborNext =
          demoInit.freeNodeAt demoInit.m_FreeOffset ∧
        ((demoInit.Alloc 100).1.nodeAt (demoInit.freeNodeAt demoInit.m_FreeOffset)).Used =
          false ∧
        ((demoInit.Alloc 100).1.nodeAt
            (demoInit.freeNodeAt demoInit.m_FreeOffset)).DataOffset =
          (demoInit.nodeAt (demoInit.binAt (8 * t + l))).DataOffset + 100 ∧
        ((demoInit.Alloc 100).1.nodeAt
            (demoInit.freeNodeAt demoInit.m_FreeOffset)).DataSize =
          (demoInit.nodeAt (demoInit.binAt (8 * t + l))).DataSize - 100) :=
  ⟨demoInit_reachable, by decide, demoAlloc_valid,
    served_node_not_smaller (by decide) (by decide) (by decide) demoInit_reachable
      (by decide) demoAlloc_valid⟩

/-- C28. Bin indices stay in range: for every 32-bit size, `FloatRoundDown(size) <= 239`
and `FloatRoundUp(size) <= 240`, so every index into the 256-entry bin-head array is
`< 256`, every top-bin index into `m_UsedBins` is `<= 30`, and every shift amount and
start position passed to `1 << x` and to `FindLowestSetBitAfter` is at most 31: the leaf
indices are at most 7, the top indices of `InsertNode` and `RemoveNode` (from
`FloatRoundDown`) at most 29, the top index of `Alloc` (from `FloatRoundUp`) at most 30
and the start position `minTopBinIndex + 1` at most 31; and in every reachable state the
bin a successful `Alloc` selects has top index at most 29 and leaf index at most 7. -/
theorem bin_indices_in_range {size : Nat} (hsz : size < 4294967296) :
    FloatRoundDown size ≤ 239 ∧ FloatRoundUp size ≤ 240 ∧
    FloatRoundDown size < 256 ∧ FloatRoundUp size < 256 ∧
    FloatRoundDown size >>> TOP_BINS_INDEX_SHIFT ≤ 29 ∧
    FloatRoundUp size >>> TOP_BINS_INDEX_SHIFT ≤ 30 ∧
    FloatRoundDown size &&& LEAF_BINS_INDEX_MASK ≤ 7 ∧
    FloatRoundUp size &&& LEAF_BINS_INDEX_MASK ≤ 7 ∧
    add32 (FloatRoundUp size >>> TOP_BINS_INDEX_SHIFT) 1 ≤ 31 ∧
    (∀ (S M : Nat) (s : OffsetAllocator) (L : List OffsetHandle), 0 < S → S < 4294967296 →
      M + 1 < 4294967296 → Reachable S M s L →
      (∀ i, s.isLive i → (s.nodeAt i).DataSize < 4294967296) ∧
      ((s.Alloc size).2.IsValid = true →
        ∃ t l, t ≤ 29 ∧ l ≤ 7 ∧ s.Alloc size = s.AllocFromBin size t l ∧
          ((t <<< TOP_BINS_INDEX_SHIFT) % 4294967296) ||| l = 8 * t + l ∧
          8 * t + l ≤ 239)) := by
  have h1 := FloatRoundDown_lt hsz
  have h2 := FloatRoundUp_le hsz
  have e1 : TOP_BINS_INDEX_SHIFT = 3 := rfl
  have e2 : LEAF_BINS_INDEX_MASK = 7 := rfl
  rw [e1, e2, shr_3, shr_3, and_7, and_7]
  refine ⟨by omega, h2, by omega, by omega, by omega, by omega, by omega, by omega, ?_, ?_⟩
  · unfold add32
    omega
  · intro S M s L hS0 hS hM hr
    obtain ⟨hinv, -⟩ := hr.inv hS0 hS hM
    refine ⟨hinv.bins.size_lt, fun hv => ?_⟩
    obtain ⟨-, -, t, l, ht, hl, hne, -, -, he⟩ :=
      Alloc_valid_min hinv.shape hinv.bins hsz hv
    obtain ⟨x1, -, x3, -⟩ := hinv.bins.head _ (by omega) hne
    have := FloatRoundDown_lt (hinv.bins.size_lt _ x1)
    rw [x3] at this
    exact ⟨t, l, by omega, by omega, he, binIndex_eq ht hl, by omega⟩

theorem bin_indices_in_range_witness :
    (4294967295 : Nat) < 4294967296 ∧
    FloatRoundDown 4294967295 ≤ 239 ∧ FloatRoundUp 4294967295 ≤ 240 ∧
    FloatRoundDown 4294967295 = 239 ∧ FloatRoundUp 4294967295 = 240 :=
  ⟨by decide, (bin_indices_in_range (by decide)).1, (bin_indices_in_range (by decide)).2.1,
    by decide, by decide⟩

/-- C29. Free-index stack invariant: in every state reachable from `Init(S, M)` by
`Alloc` and `Free` calls (each valid handle freed at most once),
`-1 <= m_FreeOffset <= M - 1`, the entries `m_FreeNodes[0 .. m_FreeOffset]` (the stack,
`m_FreeOffset + 1` of them) are pairwise distinct arena indices in `0 .. M`, none of them
is the index of a node of the physical-neighbour chain `c`, and the chain holds exactly
`M - m_FreeOffset` nodes. Consequently `InsertNode` never pops from an empty stack and
never hands out a slot that is still in use: at the call of `InsertNode` in `Alloc` (made
when the served node is larger than the request) and at the one in `Free`,
`m_FreeOffset >= 0` and the slot `m_FreeNodes[m_FreeOffset]` holds no node. -/
theorem free_stack_invariant {S M : Nat} (hS0 : 0 < S) (hS : S < 4294967296)
    (hM : M + 1 < 4294967296) {s : OffsetAllocator} {L : List OffsetHandle}
    (hr : Reachable S M s L) :
    -1 ≤ s.m_FreeOffset ∧ s.m_FreeOffset ≤ (M : Int) - 1 ∧
    s.stack.length = (s.m_FreeOffset + 1).toNat ∧ s.stack.Nodup ∧
    (∀ i ∈ s.stack, i ≤ M) ∧
    (∃ c : List Nat,
      (s.nodeAt (c.headD 0)).NeighborPrev = Node.UNUSED ∧
      s.chainFrom (c.length + 1) (c.headD 0) = c ∧ c ≠ [] ∧
      (∀ i ∈ s.stack, i ∉ c) ∧ (∀ i, i ≤ M → i ∉ s.stack → i ∈ c) ∧
      (c.length : Int) = (M : Int) - s.m_FreeOffset) ∧
    (∀ size, size < 4294967296 → (s.Alloc size).2.IsValid = true →
      ∃ t l, t < 32 ∧ l < 8 ∧ s.Alloc size = s.AllocFromBin size t l ∧
        ((s.nodeAt (s.binAt (8 * t + l))).DataSize = size →
          (s.Alloc size).1 = s.AllocPop size t l) ∧
        (size < (s.nodeAt (s.binAt (8 * t + l))).DataSize →
          (s.Alloc size).1 =
            ((s.AllocPop size t l).InsertNode
              ((s.nodeAt (s.binAt (8 * t + l))).DataSize - size)
              (add32 ((s.AllocPop size t l).nodeAt (s.binAt (8 * t + l))).DataOffset
                size)).1.AllocLink (s.binAt (8 * t + l))
              ((s.AllocPop size t l).freeNodeAt (s.AllocPop size t l).m_FreeOffset) ∧
          0 ≤ (s.AllocPop size t l).m_FreeOffset ∧
          ¬ (s.AllocPop size t l).isLive
            ((s.AllocPop size t l).freeNodeAt (s.AllocPop size t l).m_FreeOffset))) ∧
    (∀ h ∈ L, ∃ (p : OffsetAllocator × Nat × Nat) (n : OffsetAllocator × Nat)
        (u : OffsetAllocator),
      p = s.FreeMergePrev h.m_MetaData (s.nodeAt h.m_MetaData).DataOffset
        (s.nodeAt h.m_MetaData).DataSize ∧
      n = p.1.FreeMergeNext h.m_MetaData p.2.2 ∧
      u = (n.1.setFreeOffset (n.1.m_FreeOffset + 1)).setFreeNodeAt (n.1.m_FreeOffset + 1)
        h.m_MetaData ∧
      (s.Free h).1 = (u.InsertNode n.2 p.2.1).1.FreeLink (u.InsertNode n.2 p.2.1).2
        (n.1.nodeAt h.m_MetaData).NeighborNext (n.1.nodeAt h.m_MetaData).NeighborPrev ∧
      0 ≤ u.m_FreeOffset ∧ u.freeNodeAt u.m_FreeOffset = h.m_MetaData ∧
      ¬ u.isLive (u.freeNodeAt u.m_FreeOffset)) := by
  obtain ⟨hinv, hsz⟩ := hr.inv hS0 hS hM
  obtain ⟨-, -, -, i3⟩ := hr.inv2 hS0 hS hM
  obtain ⟨hs, hb, hc, hh⟩ := hinv
  obtain ⟨c, c1, c2, c3, c4, -, -, -, c8⟩ := chain_exists hs hc (by rw [hsz]; exact hS0)
  have harena : s.arenaLen = M + 1 := by rw [hs.arena, i3]
  have hcount := live_count hs
  have hstack := stack_length hs
  have hperm : c.Perm s.liveNodes := by
    rw [List.perm_ext_iff_of_nodup c8 (liveNodes_nodup s)]
    intro a
    rw [c4, mem_liveNodes]
  have hlen := hperm.length_eq
  have hcpos : 0 < c.length := List.length_pos.mpr c3
  have hlo := hs.off_lo
  refine ⟨hlo, by omega, hstack, hs.stack_nodup, ?_, ⟨c, c1, c2, c3, ?_, ?_, by omega⟩,
    ?_, ?_⟩
  · intro i hi
    have := hs.stack_lt i hi
    omega
  · intro i hi hic
    exact ((c4 i).1 hic).2 hi
  · intro i hi hns
    exact (c4 i).2 ⟨by omega, hns⟩
  · intro size hsize hv
    obtain ⟨g1, g2, t, l, ht, hl, hne, hfru, -, he⟩ := Alloc_valid_min hs hb hsize hv
    obtain ⟨x1, -, -, -⟩ := hb.head _ (by omega) hne
    have hTlt := hb.size_lt _ x1
    refine ⟨t, l, ht, hl, he, ?_, ?_⟩
    · intro hT
      rw [he, AllocFromBin_eq ht hl]
      exact AllocSplit_exact _ hT hTlt
    · intro hlt
      refine ⟨?_, ?_, ?_⟩
      · rw [he, AllocFromBin_eq ht hl]
        exact AllocSplit_rem _ hlt hTlt
      · rw [m_FreeOffset_AllocPop]
        exact g1
      · rw [isLive_AllocPop, freeNodeAt_AllocPop, m_FreeOffset_AllocPop]
        exact top_not_isLive hs g1
  · intro h hhL
    obtain ⟨hv, hl, hu, -, -⟩ := hh.node h hhL
    obtain ⟨m1, m2, m3, -, m5, -⟩ :=
      @FreeMerge_spec s hs hb hc h.m_MetaData hl hu _ _ rfl rfl _ _ rfl rfl
    have hnot : ∀ Q, ¬ ((Q ≠ Node.UNUSED ∧ (s.nodeAt Q).Used = false) ∧ h.m_MetaData = Q) := by
      intro Q hq
      have := hq.1.2
      rw [← hq.2, hu] at this
      cases this
    have hXn := (m3 h.m_MetaData).2 ⟨hl, hnot _, hnot _⟩
    obtain ⟨-, -, q3, q4⟩ := push_used m1 m2 hXn m5
    refine ⟨_, _, _, rfl, rfl, rfl, ?_, ?_, ?_, ?_⟩
    · rw [Free_eq hv hl hu]
      rfl
    · simp only [m_FreeOffset_setFreeNodeAt, m_FreeOffset_setFreeOffset]
      have := m1.off_lo
      omega
    · simp only [m_FreeOffset_setFreeNodeAt, m_FreeOffset_setFreeOffset]
      exact q4
    · simp only [m_FreeOffset_setFreeNodeAt, m_FreeOffset_setFreeOffset]
      rw [q4, q3]
      exact fun h' => h'.2 rfl

theorem free_stack_invariant_witness :
    Reachable 1024 8 demoAlloc.1 [demoAlloc.2] ∧
    -1 ≤ demoAlloc.1.m_FreeOffset ∧ demoAlloc.1.m_FreeOffset ≤ ((8 : Nat) : Int) - 1 ∧
    demoAlloc.1.stack.length = (demoAlloc.1.m_FreeOffset + 1).toNat ∧
    demoAlloc.1.stack.Nodup ∧ (∀ i ∈ demoAlloc.1.stack, i ≤ 8) ∧
    demoAlloc.1.m_FreeOffset = 6 ∧ demoAlloc.1.stack = [8, 7, 6, 5, 4, 3, 2] :=
  ⟨demoAlloc_reachable,
    (free_stack_invariant (by decide) (by decide) (by decide) demoAlloc_reachable).1,
    (free_stack_invariant (by decide) (by decide) (by decide) demoAlloc_reachable).2.1,
    (free_stack_invariant (by decide) (by decide) (by decide) demoAlloc_reachable).2.2.1,
    (free_stack_invariant (by decide) (by decide) (by decide) demoAlloc_reachable).2.2.2.1,
    (free_stack_invariant (by decide) (by decide) (by decide) demoAlloc_reachable).2.2.2.2.1,
    by decide, by decide⟩

end OffsetAllocator

namespace DescriptorHeap

/-- The allocator of a reachable heap is a reachable allocator state of
`Init(4 * N mod 2^32, N)`. -/
theorem Reachable.allocator {N : Nat} {d : DescriptorHeap} {L : List OffsetHandle}
    (hr : Reachable N d L) :
    OffsetAllocator.Reachable ((4 * N) % 4294967296) N d.m_Allocator L := by
  induction hr with
  | init d0 heap increment => exact OffsetAllocator.Reachable.init d0.m_Allocator
  | alloc count _ hc ih => exact OffsetAllocator.Reachable.alloc count ih hc
  | free h _ hh ih => exact OffsetAllocator.Reachable.free h ih hh

/-- C30, what the code guarantees: for a heap initialised with `NumDescriptors = N > 0`
(`4 * N < 2 ^ 32`) and every sequence of `Alloc` and `Free` calls on it, each valid
handle returned by `DescriptorHeap::Alloc(count)` has size `count` and satisfies
`GetOffset() + count <= 4 * N`: the allocator manages `sizeof(uint32_t) * N` units, not
`N`. -/
theorem descriptor_run_bound {N : Nat} (hN0 : 0 < N) (hN : 4 * N < 4294967296)
    {d : DescriptorHeap} {L : List OffsetHandle} (hr : Reachable N d L) {count : Nat}
    (hc : count < 4294967296) (hv : (d.Alloc count).2.IsValid = true) :
    (d.Alloc count).2.GetSize = count ∧
    (d.Alloc count).2.GetOffset + count ≤ 4 * N := by
  have hra := hr.allocator
  rw [Nat.mod_eq_of_lt hN] at hra
  obtain ⟨hinv, hsz⟩ := hra.inv (by omega) hN (by omega)
  have hv' : (d.m_Allocator.Alloc count).2.IsValid = true := hv
  have hinv' := OffsetAllocator.Inv_Alloc hinv hc
  rw [if_pos hv'] at hinv'
  obtain ⟨-, a2, -, a4, a5⟩ := hinv'.handles.node _ (List.mem_cons_self _ _)
  have hb := hinv'.chain.bound _ a2
  rw [a4, a5, OffsetAllocator.m_Size_Alloc, hsz] at hb
  have hsize := (OffsetAllocator.Alloc_step hinv hc hv').1
  show (d.m_Allocator.Alloc count).2.m_Size = count ∧
    (d.m_Allocator.Alloc count).2.m_Offset + count ≤ 4 * N
  rw [hsize] at hb
  exact ⟨hsize, hb⟩

theorem demoRunA_reachable : Reachable 2 demoRunA.1 [demoRunA.2] := by
  have h0 : Reachable 2 demoHeap [] := Reachable.init {} 4096 32
  have h1 : Reachable 2 demoRunA.1
      (if demoRunA.2.IsValid = true then demoRunA.2 :: [] else []) :=
    Reachable.alloc 2 h0 (by decide)
  rw [if_pos (by set_option maxRecDepth 100000 in decide)] at h1
  exact h1

set_option maxRecDepth 100000 in
theorem descriptor_run_bound_witness :
    0 < 2 ∧ 4 * 2 < 4294967296 ∧ Reachable 2 demoRunA.1 [demoRunA.2] ∧
    (2 : Nat) < 4294967296 ∧ (demoRunA.1.Alloc 2).2.IsValid = true ∧
    (demoRunA.1.Alloc 2).2.GetSize = 2 ∧ (demoRunA.1.Alloc 2).2.GetOffset + 2 ≤ 4 * 2 :=
  ⟨by decide, by decide, demoRunA_reachable, by decide, by decide,
    descriptor_run_bound (by decide) (by decide) demoRunA_reachable (by decide) (by decide)⟩

set_option maxRecDepth 100000 in
/-- C30, the claim fails: on a heap of `N = 2` descriptors (32 bytes each, at address
4096) the first `Alloc(2)` returns offset 0 and the second `Alloc(2)` returns a valid
handle with offset 2, so `GetOffset() + count = 4 > N`, and `GetHandleCPU` gives
`4096 + 32 * 2 = 4160`, the first address past the two descriptors of the heap. -/
theorem descriptor_run_leaves_heap :
    Reachable 2 demoRunA.1 [demoRunA.2] ∧
    demoRunA.2 = ⟨0, 2, 0⟩ ∧ demoRunB.2 = ⟨2, 2, 1⟩ ∧ demoRunB.2.IsValid = true ∧
    ¬ (demoRunB.2.GetOffset + 2 ≤ 2) ∧
    demoRunB.1.GetHandleCPU demoRunB.2 = 4160 ∧ demoRunB.1.GetHandleGPU demoRunB.2 = 4160 ∧
    ¬ (demoRunB.1.GetHandleCPU demoRunB.2 < 4096 + 32 * 2) :=
  ⟨demoRunA_reachable, by decide, by decide, by decide, by decide, by decide, by decide,
    by decide⟩

end DescriptorHeap
